import Mathlib

/-!
# Substrait plan translator (`utils/local-engine/Parser/SerializedPlanParser.cpp`)

A shallow embedding of the plan/expression translator and of the properties
its specification states.  Protobuf messages become inductive types and
structures, C++ exceptions become `Except Exception`, and state that the C++
code mutates through references (the expression DAG, the query plan, the
process-wide name counter) is passed explicitly.

Conventions used throughout:

* a protobuf `int32` field is an `Int`, a `uint32` field a `Nat`; a C++
  conversion to `UInt32` is written `toUInt32`;
* reading a sub-message that is not set yields the default message, as the
  generated protobuf accessors do;
* an access the C++ code does not check (a repeated-field or vector index past
  the end, a null node pointer) is modelled as the failure
  `ErrorCode.UNCHECKED_ACCESS`, and `std::map::at` / `std::vector::at` on a
  missing entry as `ErrorCode.STD_OUT_OF_RANGE`; `std::stoi` fails with
  `ErrorCode.STD_INVALID_ARGUMENT` or `ErrorCode.STD_OUT_OF_RANGE`;
* an `assert` is not executed (release build);
* exception messages are the format patterns of the source, without the
  formatted arguments.
-/

set_option autoImplicit false

namespace local_engine

/-! ## Errors -/

/-- Error codes of `DB::ErrorCodes` used by the translator, together with the
failure kinds that are not `DB::Exception`s: the exceptions of the standard
library and unchecked accesses. -/
inductive ErrorCode where
  | LOGICAL_ERROR
  | UNKNOWN_TYPE
  | BAD_ARGUMENTS
  | NO_SUCH_DATA_PART
  | UNKNOWN_FUNCTION
  | CANNOT_PARSE_PROTOBUF_SCHEMA
  | UNKNOWN_IDENTIFIER
  | STD_OUT_OF_RANGE
  | UNCHECKED_ACCESS
  | LIBRARY
  | STD_INVALID_ARGUMENT
  deriving DecidableEq, Repr

/-- A thrown exception: its code and the format pattern of its message. -/
structure Exception where
  code : ErrorCode
  message : String
  deriving DecidableEq, Repr

/-- Result of a translation step that may throw. -/
abbrev Result (α : Type) := Except Exception α

/-- Whether a result is a failure. -/
def Result.failed {α : Type} : Result α → Bool
  | .error _ => true
  | .ok _ => false

/-! ## Strings and integers -/

/-- The C++ `s.substr(0, s.find(c))`: the text before the first `c`, the whole
string when `c` does not occur (`find` gives `npos`). -/
def substrBefore (s : String) (c : Char) : String :=
  String.mk (s.toList.takeWhile (fun x => x != c))

/-- The C++ `s.starts_with(p)`. -/
def starts_with (s p : String) : Bool :=
  p.toList.isPrefixOf s.toList

/-- Conversion of an `int32` value to `UInt32`. -/
def toUInt32 (x : Int) : Nat :=
  (x % 4294967296).toNat

/-- Whether an integer is an `int32_t` value. -/
def isInt32 (x : Int) : Prop :=
  -2147483648 ≤ x ∧ x ≤ 2147483647

instance (x : Int) : Decidable (isInt32 x) := by
  unfold isInt32
  infer_instance

/-- The `int32_t` value congruent to `x` (two-complement wrap-around). -/
def wrapInt32 (x : Int) : Int :=
  (x + 2147483648) % 4294967296 - 2147483648

/-! ## External type descriptors (`substrait::Type`) -/

/-- Nullability flag `substrait::Type_Nullability`. -/
inductive Type_Nullability where
  | NULLABILITY_UNSPECIFIED
  | NULLABILITY_NULLABLE
  | NULLABILITY_REQUIRED
  deriving DecidableEq, Repr

/-- The message `substrait::Type`, a `oneof` over the type kinds.  `other`
stands for the kinds the translator never inspects (time, interval, uuid,
varchar, ...), `not_set` for a message whose `oneof` is empty. -/
inductive SType where
  | bool_ (nullability : Type_Nullability)
  | i8 (nullability : Type_Nullability)
  | i16 (nullability : Type_Nullability)
  | i32 (nullability : Type_Nullability)
  | i64 (nullability : Type_Nullability)
  | fp32 (nullability : Type_Nullability)
  | fp64 (nullability : Type_Nullability)
  | string (nullability : Type_Nullability)
  | binary (nullability : Type_Nullability)
  | timestamp (nullability : Type_Nullability)
  | date (nullability : Type_Nullability)
  | decimal (scale : Int) (precision : Int) (nullability : Type_Nullability)
  | struct_ (types : List SType) (nullability : Type_Nullability)
  | list (type : SType) (nullability : Type_Nullability)
  | map (key : SType) (value : SType) (nullability : Type_Nullability)
  | other
  | not_set

/-- The message `substrait::Type_Decimal`. -/
structure Type_Decimal where
  scale : Int
  precision : Int
  nullability : Type_Nullability
  deriving DecidableEq, Repr

/-- The accessor `type.decimal()`: the decimal sub-message, the default
message when the type is not a decimal. -/
def SType.get_decimal : SType → Type_Decimal
  | .decimal s p n => ⟨s, p, n⟩
  | _ => ⟨0, 0, .NULLABILITY_UNSPECIFIED⟩

/-! ## Internal types (`DB::IDataType`) -/

/-- Internal type descriptors of the execution engine, as far as the
translator builds or inspects them. -/
inductive DataType where
  | UInt8
  | UInt32
  | Int8
  | Int16
  | Int32
  | Int64
  | Float32
  | Float64
  | String
  | Date
  | Date32
  | DateTime64 (scale : Nat)
  | Decimal32 (precision : Nat) (scale : Nat)
  | Decimal64 (precision : Nat) (scale : Nat)
  | Decimal128 (precision : Nat) (scale : Nat)
  | Nullable (nested : DataType)
  | Tuple (elems : List DataType) (names : Option (List String))
  | Array (nested : DataType)
  | Map (key : DataType) (value : DataType)
  | Set
  | AggregateFunction (function : String) (argument_types : List DataType)

mutual
/-- The virtual `IDataType::equals`: structural equality of type descriptors. -/
def DataType.equals : DataType → DataType → Bool
  | .UInt8, .UInt8 => true
  | .UInt32, .UInt32 => true
  | .Int8, .Int8 => true
  | .Int16, .Int16 => true
  | .Int32, .Int32 => true
  | .Int64, .Int64 => true
  | .Float32, .Float32 => true
  | .Float64, .Float64 => true
  | .String, .String => true
  | .Date, .Date => true
  | .Date32, .Date32 => true
  | .DateTime64 s, .DateTime64 t => s == t
  | .Decimal32 p s, .Decimal32 q t => p == q && s == t
  | .Decimal64 p s, .Decimal64 q t => p == q && s == t
  | .Decimal128 p s, .Decimal128 q t => p == q && s == t
  | .Nullable a, .Nullable b => DataType.equals a b
  | .Tuple as m, .Tuple bs n => DataType.equalsList as bs && m == n
  | .Array a, .Array b => DataType.equals a b
  | .Map k v, .Map l w => DataType.equals k l && DataType.equals v w
  | .Set, .Set => true
  | .AggregateFunction f as, .AggregateFunction g bs => f == g && DataType.equalsList as bs
  | _, _ => false
/-- Pointwise `equals` on two lists of type descriptors. -/
def DataType.equalsList : List DataType → List DataType → Bool
  | [], [] => true
  | a :: as, b :: bs => DataType.equals a b && DataType.equalsList as bs
  | _, _ => false
end

/-- The virtual `IDataType::isNullable`. -/
def DataType.isNullable : DataType → Bool
  | .Nullable _ => true
  | _ => false

/-- Modelled from the spec: `DataTypeDecimal32::maxPrecision()`, declared in
`DataTypes/DataTypesDecimal.h` which is not part of the excerpt; the largest
precision a 32-bit decimal holds. -/
def DataTypeDecimal32.maxPrecision : Nat := 9

/-- Modelled from the spec: `DataTypeDecimal64::maxPrecision()`, the largest
precision a 64-bit decimal holds (declaration not part of the excerpt). -/
def DataTypeDecimal64.maxPrecision : Nat := 18

/-- Modelled from the spec: `DataTypeDecimal128::maxPrecision()`, the largest
supported decimal precision (declaration not part of the excerpt). -/
def DataTypeDecimal128.maxPrecision : Nat := 38

/-- Modelled from the spec: `createDecimal<DataTypeDecimal>(precision, scale)`
of `DataTypes/DataTypesDecimal.h`, which is not part of the excerpt.  The
decimal mapping "selects the narrowest internal decimal width that can hold
the given precision; precision exceeding the maximum supported width fails
with an unsupported type error"; the ladder is the one the translator spelled
out before it called the helper (the commented-out lines of `parseType`). -/
def createDecimal (precision scale : Nat) : Result DataType :=
  if precision ≤ DataTypeDecimal32.maxPrecision then
    .ok (.Decimal32 precision scale)
  else if precision ≤ DataTypeDecimal64.maxPrecision then
    .ok (.Decimal64 precision scale)
  else if precision ≤ DataTypeDecimal128.maxPrecision then
    .ok (.Decimal128 precision scale)
  else
    .error ⟨.UNKNOWN_TYPE, "Spark doesn't support decimal type with precision \x7b\x7d"⟩

/-! ## Conversion-function selection -/

/-- Embedding of `getDecimalFunction(decimal, null_on_overflow)`. -/
def getDecimalFunction (decimal : Type_Decimal) (null_on_overflow : Bool) : Result String :=
  let precision := toUInt32 decimal.precision
  let base : Result String :=
    if precision ≤ DataTypeDecimal32.maxPrecision then
      .ok "toDecimal32"
    else if precision ≤ DataTypeDecimal64.maxPrecision then
      .ok "toDecimal64"
    else if precision ≤ DataTypeDecimal128.maxPrecision then
      .ok "toDecimal128"
    else
      .error ⟨.UNKNOWN_TYPE, "Spark doesn't support decimal type with precision \x7b\x7d"⟩
  match base with
  | .error e => .error e
  | .ok ch_function_name =>
    if null_on_overflow then .ok (ch_function_name ++ "OrNull") else .ok ch_function_name

/-- Embedding of `getCastFunction(type)`; the order of the tests is immaterial
because the kinds of a `oneof` exclude each other. -/
def getCastFunction : SType → Result String
  | .fp64 _ => .ok "toFloat64"
  | .fp32 _ => .ok "toFloat32"
  | .string _ => .ok "toString"
  | .binary _ => .ok "toString"
  | .i64 _ => .ok "toInt64"
  | .i32 _ => .ok "toInt32"
  | .i16 _ => .ok "toInt16"
  | .i8 _ => .ok "toInt8"
  | .date _ => .ok "toDate32"
  | .timestamp _ => .ok "toDateTime64"
  | .bool_ _ => .ok "toUInt8"
  | .decimal s p n => getDecimalFunction ⟨s, p, n⟩ false
  | _ => .error ⟨.UNKNOWN_TYPE, "doesn't support cast type \x7b\x7d"⟩

/-! ## The type mapper -/

/-- Embedding of `wrapNullableType(bool nullable, DataTypePtr nested_type)`. -/
def wrapNullableTypeBool (nullable : Bool) (nested_type : DataType) : DataType :=
  if nullable then .Nullable nested_type else nested_type

/-- Embedding of `wrapNullableType(substrait::Type_Nullability, DataTypePtr)`. -/
def wrapNullableType (nullable : Type_Nullability) (nested_type : DataType) : DataType :=
  wrapNullableTypeBool (nullable == .NULLABILITY_NULLABLE) nested_type

/-- The first statement of `parseType`: when a name stream is given, its front
name is read and popped (`front()` of an empty list is unchecked). -/
def popName : Option (List String) → Result (Option (List String))
  | none => .ok none
  | some [] => .error ⟨.UNCHECKED_ACCESS, "front() of an empty name list"⟩
  | some (_ :: rest) => .ok (some rest)

/-- The read `names->front()` of the struct branch of `parseType`. -/
def frontName : List String → Result String
  | [] => .error ⟨.UNCHECKED_ACCESS, "front() of an empty name list"⟩
  | n :: _ => .ok n

mutual
/-- Embedding of `SerializedPlanParser::parseType(substrait_type, names)`.  The
name stream `names` is an optional pointer in the source; the remaining stream
is returned with the type. -/
def parseType : SType → Option (List String) → Result (DataType × Option (List String))
  | .bool_ n, names => do
    let names ← popName names
    pure (wrapNullableType n .UInt8, names)
  | .i8 n, names => do
    let names ← popName names
    pure (wrapNullableType n .Int8, names)
  | .i16 n, names => do
    let names ← popName names
    pure (wrapNullableType n .Int16, names)
  | .i32 n, names => do
    let names ← popName names
    pure (wrapNullableType n .Int32, names)
  | .i64 n, names => do
    let names ← popName names
    pure (wrapNullableType n .Int64, names)
  | .string n, names => do
    let names ← popName names
    pure (wrapNullableType n .String, names)
  | .binary n, names => do
    let names ← popName names
    pure (wrapNullableType n .String, names)
  | .fp32 n, names => do
    let names ← popName names
    pure (wrapNullableType n .Float32, names)
  | .fp64 n, names => do
    let names ← popName names
    pure (wrapNullableType n .Float64, names)
  | .timestamp n, names => do
    let names ← popName names
    pure (wrapNullableType n (.DateTime64 6), names)
  | .date n, names => do
    let names ← popName names
    pure (wrapNullableType n .Date32, names)
  | .decimal s p n, names => do
    let names ← popName names
    let precision := toUInt32 p
    let scale := toUInt32 s
    if precision > DataTypeDecimal128.maxPrecision then
      throw ⟨.UNKNOWN_TYPE, "Spark doesn't support decimal type with precision \x7b\x7d"⟩
    let ch_type ← createDecimal precision scale
    pure (wrapNullableType n ch_type, names)
  | .struct_ types n, names => do
    let names ← popName names
    let (ch_field_types, field_names, names) ← parseStructFields types names
    let ch_type :=
      if field_names.length != 0 then DataType.Tuple ch_field_types (some field_names)
      else DataType.Tuple ch_field_types none
    pure (wrapNullableType n ch_type, names)
  | .list t n, names => do
    let names ← popName names
    let (ch_nested_type, _) ← parseType t none
    pure (wrapNullableType n (.Array ch_nested_type), names)
  | .map k v n, names => do
    let names ← popName names
    let (ch_key_type, _) ← parseType k none
    let (ch_val_type, _) ← parseType v none
    pure (wrapNullableType n (.Map ch_key_type ch_val_type), names)
  | .other, names => do
    let _ ← popName names
    throw ⟨.UNKNOWN_TYPE, "Spark doesn't support type \x7b\x7d"⟩
  | .not_set, names => do
    let _ ← popName names
    throw ⟨.UNKNOWN_TYPE, "Spark doesn't support type \x7b\x7d"⟩
/-- The field loop of the struct branch of `parseType`: returns the field
types, the collected field names and the remaining name stream. -/
def parseStructFields : List SType → Option (List String) →
    Result (List DataType × List String × Option (List String))
  | [], names => .ok ([], [], names)
  | t :: ts, names => do
    let field_name ← match names with
      | none => pure []
      | some l => do
        let f ← frontName l
        pure [f]
    let (ch, names) ← parseType t names
    let (chs, field_names, names) ← parseStructFields ts names
    pure (ch :: chs, field_name ++ field_names, names)
end

/-- The call `parseType(substrait_type)` with the default `names = nullptr`. -/
def parseType0 (substrait_type : SType) : Result DataType :=
  (parseType substrait_type none).map Prod.fst

/-- Embedding of `isTypeMatched(substrait_type, ch_type)`. -/
def isTypeMatched (substrait_type : SType) (ch_type : DataType) : Result Bool := do
  let parsed_ch_type ← parseType0 substrait_type
  pure (parsed_ch_type.equals ch_type)

/-! ## Expressions (`substrait::Expression`) -/

/-- The message `substrait::Expression_Literal`.  Floating-point payloads are
kept as their IEEE-754 bit patterns (binary32 for `fp32`, binary64 for
`fp64`); a decimal carries its value bytes.  `other` stands for the literal
kinds the translator does not handle. -/
inductive Literal where
  | boolean (v : Bool)
  | i8 (v : Int)
  | i16 (v : Int)
  | i32 (v : Int)
  | i64 (v : Int)
  | fp32 (bits : Nat)
  | fp64 (bits : Nat)
  | string (v : String)
  | binary (v : String)
  | timestamp (v : Int)
  | date (v : Int)
  | decimal (value : List Nat) (precision : Int) (scale : Int)
  | list (values : List Literal)
  | empty_list
  | null (type : SType)
  | other
  | not_set

/-- The accessor `literal.string()`: the default empty string for any other
literal kind. -/
def Literal.get_string : Literal → String
  | .string v => v
  | _ => ""

/-- The accessor `literal.boolean()`: the default `false` for any other
literal kind. -/
def Literal.get_boolean : Literal → Bool
  | .boolean v => v
  | _ => false

/-- The message `substrait::Expression_ReferenceSegment`, of which the
translator reads only the struct-field case; `other` covers map keys, list
elements and an unset segment. -/
inductive ReferenceSegment where
  | struct_field (field : Int)
  | other
  deriving DecidableEq, Repr

/-- The message `substrait::Expression`, a `oneof` over the expression kinds.
A function argument (`FunctionArgument`) is represented by the expression its
accessor `value()` returns, which is `not_set` for an argument that is not a
value.  `selection` carries the direct reference when there is one.  `other`
stands for the kinds the translator rejects (window function, switch, nested
or-list, subquery, enum). -/
inductive Expression where
  | literal (l : Literal)
  | selection (direct_reference : Option ReferenceSegment)
  | scalar_function (function_reference : Nat) (arguments : List Expression)
      (output_type : SType)
  | if_then (ifs : List (Expression × Expression)) (else_ : Expression)
  | singular_or_list (value : Expression) (options : List Expression)
  | cast (type : Option SType) (input : Option Expression)
  | other
  | not_set

/-- The message `substrait::Expression_ScalarFunction`. -/
structure ScalarFunction where
  function_reference : Nat
  arguments : List Expression
  output_type : SType

/-- The accessor `expr.scalar_function()`: the default message when the
expression is not a scalar function. -/
def Expression.get_scalar_function : Expression → ScalarFunction
  | .scalar_function r a t => ⟨r, a, t⟩
  | _ => ⟨0, [], .not_set⟩

/-- The accessor `expr.literal()`. -/
def Expression.get_literal : Expression → Literal
  | .literal l => l
  | _ => .not_set

/-- The predicate `expr.has_literal()`. -/
def Expression.has_literal : Expression → Bool
  | .literal _ => true
  | _ => false

/-- The predicate `expr.has_selection()`. -/
def Expression.has_selection : Expression → Bool
  | .selection _ => true
  | _ => false

/-- The predicate `expr.has_scalar_function()`. -/
def Expression.has_scalar_function : Expression → Bool
  | .scalar_function _ _ _ => true
  | _ => false

/-- The predicate `expr.has_if_then()`. -/
def Expression.has_if_then : Expression → Bool
  | .if_then _ _ => true
  | _ => false

/-- The predicate `expr.selection().has_direct_reference()`. -/
def Expression.has_direct_reference : Expression → Bool
  | .selection (some _) => true
  | _ => false

/-- The chain `expr.selection().direct_reference().struct_field().field()`,
which reads 0 through default messages when a link is missing. -/
def Expression.selection_field : Expression → Int
  | .selection (some (.struct_field f)) => f
  | _ => 0

/-- A direct reference to column `i`. -/
def col (i : Int) : Expression :=
  .selection (some (.struct_field i))

/-- The unchecked repeated-field read `arguments(i)`. -/
def argument (arguments : List Expression) (i : Nat) : Result Expression :=
  match arguments.get? i with
  | some a => .ok a
  | none => .error ⟨.UNCHECKED_ACCESS, "repeated field index out of range"⟩

/-! ## The function resolver -/

/-- A string-keyed map (`std::map` / `std::unordered_map`) as an association
list in which the first entry of a key is the one that counts. -/
abbrev StringMap := List (String × String)

/-- The lookup `m.find(key)`. -/
def StringMap.find (m : StringMap) (key : String) : Option String :=
  (List.find? (fun kv => kv.1 == key) m).map Prod.snd

/-- The test `m.contains(key)`. -/
def StringMap.contains (m : StringMap) (key : String) : Bool :=
  (StringMap.find m key).isSome

/-- The checked read `m.at(key)`, which throws `std::out_of_range`. -/
def StringMap.at (m : StringMap) (key : String) : Result String :=
  match StringMap.find m key with
  | some v => .ok v
  | none => .error ⟨.STD_OUT_OF_RANGE, "map::at"⟩

/-- The insertion `m.emplace(key, value)`, which keeps an existing entry. -/
def StringMap.emplace (m : StringMap) (key value : String) : StringMap :=
  if StringMap.contains m key then m else m ++ [(key, value)]

/-- The date-part ladder of the `extract` branch of `getFunctionName`. -/
def extractFunctionName (field_value : String) : Result String :=
  if field_value == "YEAR" then .ok "toYear"
  else if field_value == "YEAR_OF_WEEK" then .ok "toISOYear"
  else if field_value == "QUARTER" then .ok "toQuarter"
  else if field_value == "MONTH" then .ok "toMonth"
  else if field_value == "WEEK_OF_YEAR" then .ok "toISOWeek"
  else if field_value == "DAY" then .ok "toDayOfMonth"
  else if field_value == "DAY_OF_YEAR" then .ok "toDayOfYear"
  else if field_value == "HOUR" then .ok "toHour"
  else if field_value == "MINUTE" then .ok "toMinute"
  else if field_value == "SECOND" then .ok "toSecond"
  else .error ⟨.BAD_ARGUMENTS, "The first arg of extract function is wrong."⟩

/-- Embedding of `SerializedPlanParser::getFunctionName(function_signature,
function)`.  The table `SCALAR_FUNCTIONS` is declared in the header, which is
not part of the excerpt, and is a parameter. -/
def getFunctionName (SCALAR_FUNCTIONS : StringMap) (function_signature : String)
    (function : ScalarFunction) : Result String :=
  let output_type := function.output_type
  let args := function.arguments
  let function_name := substrBefore function_signature ':'
  if !StringMap.contains SCALAR_FUNCTIONS function_name then
    .error ⟨.UNKNOWN_FUNCTION, "Unsupported function \x7b\x7d"⟩
  else if function_name == "cast" then
    getCastFunction output_type
  else if function_name == "extract" then
    if args.length != 2 then
      .error ⟨.BAD_ARGUMENTS, "extract function requires two args, function:\x7b\x7d"⟩
    else
      match args.get? 0 with
      | some extract_field =>
        if extract_field.has_literal then
          extractFunctionName extract_field.get_literal.get_string
        else
          .error ⟨.BAD_ARGUMENTS, "The first arg of extract function is wrong."⟩
      | none => .error ⟨.STD_OUT_OF_RANGE, "RepeatedPtrField::at"⟩
  else if function_name == "check_overflow" then
    if args.length != 2 then
      .error ⟨.BAD_ARGUMENTS, "check_overflow function requires two args."⟩
    else
      match args.get? 1 with
      | some a => getDecimalFunction output_type.get_decimal a.get_literal.get_boolean
      | none => .error ⟨.STD_OUT_OF_RANGE, "RepeatedPtrField::at"⟩
  else
    StringMap.at SCALAR_FUNCTIONS function_name

/-- The resolution both `collectJoinKeys` and `parseFunctionWithDAG` start
with: the signature registered for the anchor of the scalar function, then
`getFunctionName` on it. -/
def resolveFunctionName (SCALAR_FUNCTIONS function_mapping : StringMap)
    (function : ScalarFunction) : Result String := do
  let function_signature ←
    StringMap.at function_mapping (toString function.function_reference)
  getFunctionName SCALAR_FUNCTIONS function_signature function

/-- The message `substrait::extensions::SimpleExtensionDeclaration`: the
`mapping_type` one-of. -/
inductive SimpleExtensionDeclaration where
  | extension_type (type_anchor : Nat) (name : String)
  | extension_type_variation (type_variation_anchor : Nat) (name : String)
  | extension_function (function_anchor : Nat) (name : String)
  | not_set
  deriving Repr

/-- The test `extension.has_extension_function()`. -/
def SimpleExtensionDeclaration.has_extension_function : SimpleExtensionDeclaration → Bool
  | .extension_function _ _ => true
  | _ => false

/-- Embedding of `SerializedPlanParser::parseExtensions(extensions)`, with the
member `function_mapping` passed through. -/
def parseExtensions (function_mapping : StringMap) :
    List SimpleExtensionDeclaration → StringMap
  | [] => function_mapping
  | .extension_function function_anchor name :: extensions =>
    parseExtensions (StringMap.emplace function_mapping (toString function_anchor) name)
      extensions
  | _ :: extensions => parseExtensions function_mapping extensions

/-! ## The name-based type mapper -/

/-- The static table `type2type` of `parseType(const std::string &)`. -/
def type2type : StringMap :=
  [("BooleanType", "UInt8"), ("ByteType", "Int8"), ("ShortType", "Int16"),
   ("IntegerType", "Int32"), ("LongType", "Int64"), ("FloatType", "Float32"),
   ("DoubleType", "Float64"), ("StringType", "String"), ("DateType", "Date")]

/-- Modelled from the spec: `DataTypeFactory::instance().get(name)` of
`DataTypes/DataTypeFactory.h`, which is not part of the excerpt.  The keyword
table resolves "directly to internal primitive types": the factory returns the
primitive type that carries the given name, and rejects a name it does not
know. -/
def DataTypeFactory.get (name : String) : Result DataType :=
  if name == "UInt8" then .ok .UInt8
  else if name == "UInt32" then .ok .UInt32
  else if name == "Int8" then .ok .Int8
  else if name == "Int16" then .ok .Int16
  else if name == "Int32" then .ok .Int32
  else if name == "Int64" then .ok .Int64
  else if name == "Float32" then .ok .Float32
  else if name == "Float64" then .ok .Float64
  else if name == "String" then .ok .String
  else if name == "Date" then .ok .Date
  else if name == "Date32" then .ok .Date32
  else .error ⟨.UNKNOWN_TYPE, "Unknown data type family: \x7b\x7d"⟩

/-- Embedding of `SerializedPlanParser::parseType(const std::string & type)`,
the name-based mapper. -/
def parseTypeByName (type : String) : Result DataType :=
  match StringMap.find type2type type with
  | none => .error ⟨.UNKNOWN_TYPE, "Unknow spark type: \x7b\x7d"⟩
  | some second => DataTypeFactory.get second

/-! ## Join keys -/

/-- Embedding of `SerializedPlanParser::collectJoinKeys(condition, join_keys,
right_key_start)`; the vector `join_keys` the source appends to is passed in
and returned.  Field positions and the offset are `int32_t`. -/
def collectJoinKeys (SCALAR_FUNCTIONS function_mapping : StringMap)
    (condition : Expression) (join_keys : List (Int × Int)) (right_key_start : Int) :
    Result (List (Int × Int)) := do
  let condition_name ←
    resolveFunctionName SCALAR_FUNCTIONS function_mapping condition.get_scalar_function
  if condition_name == "and" then
    match condition with
    | .scalar_function _ (a0 :: rest) _ => do
      let join_keys ←
        collectJoinKeys SCALAR_FUNCTIONS function_mapping a0 join_keys right_key_start
      match rest with
      | a1 :: _ =>
        collectJoinKeys SCALAR_FUNCTIONS function_mapping a1 join_keys right_key_start
      | [] => throw ⟨.UNCHECKED_ACCESS, "repeated field index out of range"⟩
    | _ => throw ⟨.UNCHECKED_ACCESS, "repeated field index out of range"⟩
  else if condition_name == "equals" then do
    let function := condition.get_scalar_function
    let a0 ← argument function.arguments 0
    let left_key_idx := a0.selection_field
    let a1 ← argument function.arguments 1
    let right_key_idx := wrapInt32 (a1.selection_field - right_key_start)
    pure (join_keys ++ [(left_key_idx, right_key_idx)])
  else
    throw ⟨.BAD_ARGUMENTS, "doesn't support condition \x7b\x7d"⟩

/-! ## The expression DAG (`DB::ActionsDAG`)

The class lives in `Interpreters/ActionsDAG.h`, which is not part of the
excerpt.  It is modelled from the data-model section of the specification: a
node set that only grows, nodes referenced by stable handles (their position
in the node list), and a distinguished output index. -/

/-- Constant values (`DB::Field`), as far as the translator builds them. -/
inductive Field where
  | Null
  | UInt64 (v : Nat)
  | Int64 (v : Int)
  | Float64 (bits : Nat)
  | String (v : String)
  | Decimal (value : Int) (scale : Nat)
  | Array (values : List Field)
  | Set (values : List Field)

/-- Node kinds of the expression DAG: input reference, constant, alias,
function application, array explode. -/
inductive ActionType where
  | INPUT
  | COLUMN
  | ALIAS
  | FUNCTION
  | ARRAY_JOIN
  deriving DecidableEq, Repr

/-- A node of the expression DAG.  `children` are handles of earlier nodes,
`function_name` is the resolved function of a `FUNCTION` node and `column`
the value of a constant. -/
structure Node where
  type : ActionType
  result_name : String
  result_type : DataType
  children : List Nat
  function_name : String
  column : Option Field

/-- A node pointer `const ActionsDAG::Node *`: a handle, or `nullptr`. -/
abbrev NodePtr := Option Nat

/-- Modelled from the spec: the expression DAG of `Interpreters/ActionsDAG.h`
(absent): "a node set plus a distinguished output index, an ordered list of
nodes currently considered the row's columns", append-only, with the input
nodes listed apart. -/
structure ActionsDAG where
  nodes : List Node
  inputs : List Nat
  index : List Nat

/-- An ordered schema: `(name, internal type)` pairs (`DB::Block` header,
`NamesAndTypesList`). -/
abbrev Block := List (String × DataType)

/-- The names of a header, `Block::getNames`. -/
def Block.getNames (b : Block) : List String :=
  b.map Prod.fst

/-- The lookup `Block::findByName`: the first column of that name. -/
def Block.findByName (b : Block) (name : String) : Option (String × DataType) :=
  b.find? (fun c => c.1 == name)

/-- Embedding of `SerializedPlanParser::blockToNameAndTypeList(header)`: for
every name of the header, the first column of that name. -/
def blockToNameAndTypeList (header : Block) : Block :=
  header.getNames.filterMap (fun name => header.findByName name)

/-- Modelled from the spec: the constructor `ActionsDAG(NamesAndTypesList)`,
one input node per column, all of them in the output index. -/
def ActionsDAG.ofInputs (columns : Block) : ActionsDAG :=
  { nodes := columns.map (fun c => ⟨.INPUT, c.1, c.2, [], "", none⟩)
    inputs := List.range columns.length
    index := List.range columns.length }

/-- Modelled from the spec: `ActionsDAG::addNode`, which appends a node and
returns its stable handle. -/
def ActionsDAG.addNode (dag : ActionsDAG) (node : Node) : Nat × ActionsDAG :=
  (dag.nodes.length, { dag with nodes := dag.nodes ++ [node] })

/-- Dereference of a node pointer; a null or dangling pointer is an unchecked
access. -/
def ActionsDAG.deref (dag : ActionsDAG) (p : NodePtr) : Result Node :=
  match p with
  | none => .error ⟨.UNCHECKED_ACCESS, "null node pointer"⟩
  | some h =>
    match dag.nodes.get? h with
    | some n => .ok n
    | none => .error ⟨.UNCHECKED_ACCESS, "dangling node pointer"⟩

/-- Modelled from the spec: `ActionsDAG::addColumn`, a constant node that is
not put into the output index. -/
def ActionsDAG.addColumn (dag : ActionsDAG) (value : Field) (type : DataType)
    (name : String) : Nat × ActionsDAG :=
  dag.addNode ⟨.COLUMN, name, type, [], "", some value⟩

/-- Modelled from the spec: `ActionsDAG::tryFindInIndex`, the first node of the
output index with the given name, `nullptr` when there is none. -/
def ActionsDAG.tryFindInIndex (dag : ActionsDAG) (name : String) : NodePtr :=
  dag.index.find? (fun h =>
    match dag.nodes.get? h with
    | some n => n.result_name == name
    | none => false)

/-- Modelled from the spec: `ActionsDAG::findInIndex`, which throws when the
name is not in the output index. -/
def ActionsDAG.findInIndex (dag : ActionsDAG) (name : String) : Result Nat :=
  match dag.tryFindInIndex name with
  | some h => .ok h
  | none => .error ⟨.UNKNOWN_IDENTIFIER, "Unknown identifier"⟩

/-- Replacement of the first index entry whose node has the given name. -/
def replaceInIndex (nodes : List Node) (name : String) (h : Nat) : List Nat → Option (List Nat)
  | [] => none
  | i :: rest =>
    if (match nodes.get? i with
        | some n => n.result_name == name
        | none => false) then
      some (h :: rest)
    else
      (replaceInIndex nodes name h rest).map (fun r => i :: r)

/-- Modelled from the spec: `ActionsDAG::addOrReplaceInIndex(node)`: the node
takes the place of the index entry of the same name, or is appended to the
index when there is none. -/
def ActionsDAG.addOrReplaceInIndex (dag : ActionsDAG) (p : NodePtr) : Result ActionsDAG := do
  let node ← dag.deref p
  match p with
  | none => throw ⟨.UNCHECKED_ACCESS, "null node pointer"⟩
  | some h =>
    match replaceInIndex dag.nodes node.result_name h dag.index with
    | some index => pure { dag with index := index }
    | none => pure { dag with index := dag.index ++ [h] }

/-- The header a DAG produces: names and types of its output index. -/
def ActionsDAG.header (dag : ActionsDAG) : Block :=
  dag.index.filterMap (fun h => (dag.nodes.get? h).map (fun n => (n.result_name, n.result_type)))

/-- Embedding of the free function `join(v, c, s)`: the result names of the
nodes, separated by `c`. -/
def joinNames (dag : ActionsDAG) (v : List NodePtr) (c : String) : Result String := do
  let names ← v.mapM (fun p => (dag.deref p).map (fun n => n.result_name))
  pure (c.intercalate names)

/-- The C++ `s.find(p, 0) != npos`: `p` occurs in `s`. -/
def containsSubstr (s p : String) : Bool :=
  s.toList.tails.any (fun t => p.toList.isPrefixOf t)

/-! ## The environment of a translation

Everything the translator consults outside the excerpt: the two tables of its
header and the process-wide registries of the engine. -/

/-- The aggregate function a factory lookup returns: its name, argument types,
intermediate-state type and result type. -/
structure IAggregateFunction where
  name : String
  argument_types : List DataType
  state_type : DataType
  return_type : DataType

/-- The collaborators of the translator that are outside the excerpt. -/
structure Env where
  /-- The table `SCALAR_FUNCTIONS` of the header. -/
  SCALAR_FUNCTIONS : StringMap
  /-- The set `FUNCTION_NEED_KEEP_ARGUMENTS` of the header. -/
  FUNCTION_NEED_KEEP_ARGUMENTS : List String
  /-- The text `toString(field)` of a constant. -/
  fieldToString : Field → String
  /-- Whether `FunctionFactory::instance().get(name, context)` finds the name. -/
  functionExists : String → Bool
  /-- The declared result type `ActionsDAG::addFunction` computes for a function
  over argument types, or the exception the function builder raises. -/
  functionReturnType : String → List DataType → Result DataType
  /-- The factory lookup `AggregateFunctionFactory::get(name, arg_types, ...)`. -/
  aggregateFunction : String → List DataType → Result IAggregateFunction
  /-- The helper `BackingDataLengthCalculator::getDecimal128FromBytes`. -/
  getDecimal128FromBytes : List Nat → Int
  /-- The helper `parseJoinOptimizationInfo` of `Common/JoinHelper.h` on the
  optimization side-channel of a join: broadcast flag and side-table key. -/
  parseJoinOptimizationInfo : String → Bool × String
  /-- The registry lookup `BroadCastJoinBuilder::getJoin(key)`, reduced to the
  right sample block of the storage join it finds; `none` is a null pointer. -/
  getJoin : String → Option (List (String × DataType))
  /-- The registration `TableJoin::setColumnsFromJoinedTable` followed by
  `TableJoin::deduplicateAndQualifyColumnNames(left_columns, qualifier)`: from
  the names of the left columns, the qualifier and the right columns to the
  registered columns `columnsFromJoinedTable()`. -/
  deduplicateAndQualifyColumnNames :
    List String → String → List (String × DataType) → List (String × DataType)
  /-- The pair `TableJoin::createConvertingActions(left columns, right columns)`
  of optional conversion DAGs. -/
  createConvertingActions :
    List (String × DataType) → List (String × DataType) →
      Option ActionsDAG × Option ActionsDAG
  /-- The header of the stream a join step produces from the left header and
  the registered right columns. -/
  joinHeader : List (String × DataType) → List (String × DataType) → List (String × DataType)

/-- The mutable state of one translation of an expression: the DAG under
construction and the process-wide counter `name_no` behind `getUniqueName`. -/
structure PState where
  dag : ActionsDAG
  name_no : Nat

/-- Modelled from the spec: `getUniqueName(name)` of the header (absent), the
"process-wide monotonically increasing suffix generator (appending a
counter)"; returns the suffixed name and the advanced counter. -/
def getUniqueName (name_no : Nat) (name : String) : String × Nat :=
  (name ++ "_" ++ toString name_no, name_no + 1)

/-- The statement `addColumn(ColumnWithTypeAndName(type->createColumnConst(1,
field), type, getUniqueName(text)))`: a constant node whose name is the given
text with the counter suffix. -/
def addConstant (st : PState) (type : DataType) (field : Field) (text : String) :
    Nat × PState :=
  let (name, name_no) := getUniqueName st.name_no text
  let (h, dag) := st.dag.addColumn field type name
  (h, { dag := dag, name_no := name_no })

/-- The lambda `add_column` of `parseArgument`: a constant node named by
`getUniqueName(toString(field))`. -/
def add_column (env : Env) (st : PState) (type : DataType) (field : Field) : Nat × PState :=
  addConstant st type field (env.fieldToString field)

/-- Modelled from the spec: `FunctionFactory::get` followed by
`ActionsDAG::addFunction(function, children, result_name)`: a function
application node over the given children with the type the registry declares;
it is not put into the output index. -/
def ActionsDAG.addFunction (env : Env) (dag : ActionsDAG) (function : String)
    (children : List NodePtr) (result_name : String) : Result (Nat × ActionsDAG) := do
  let nodes ← children.mapM (fun p => dag.deref p)
  let result_type ← env.functionReturnType function (nodes.map (fun n => n.result_type))
  pure (dag.addNode ⟨.FUNCTION, result_name, result_type, children.filterMap id, function, none⟩)

/-- The lookup `FunctionFactory::instance().get(name, context)`. -/
def getFunctionBuilder (env : Env) (name : String) : Result Unit :=
  if env.functionExists name then .ok () else
    .error ⟨.UNKNOWN_FUNCTION, "Unknown function \x7b\x7d"⟩

/-- Modelled from the spec: `ActionsDAG::addAlias(child, alias)`, a node that
renames its child without recomputation. -/
def ActionsDAG.addAlias (dag : ActionsDAG) (child : Nat) (alias_name : String) :
    Result (Nat × ActionsDAG) := do
  let node ← dag.deref (some child)
  pure (dag.addNode ⟨.ALIAS, alias_name, node.result_type, [child], "", node.column⟩)

/-- Modelled from the spec: `ActionsDAG::addArrayJoin(child, result_name)`, the
array explode node; the child must be of array type. -/
def ActionsDAG.addArrayJoin (dag : ActionsDAG) (child : NodePtr) (result_name : String) :
    Result (Nat × ActionsDAG) := do
  let node ← dag.deref child
  match node.result_type with
  | .Array nested =>
    pure (dag.addNode ⟨.ARRAY_JOIN, result_name, nested, child.toList, "", none⟩)
  | _ => throw ⟨.LIBRARY, "ARRAY JOIN requires array argument"⟩

/-- Embedding of `SerializedPlanParser::toFunctionNode(action_dag, function,
args)`. -/
def toFunctionNode (env : Env) (dag : ActionsDAG) (function : String) (args : List NodePtr) :
    Result (Nat × ActionsDAG) := do
  getFunctionBuilder env function
  let args_name ← joinNames dag args ","
  let result_name := function ++ "(" ++ args_name ++ ")"
  dag.addFunction env function args result_name

/-! ## Literals -/

/-- The position of the highest set bit of `m`, found in at most `fuel`
halvings; 0 for `m < 2`. -/
def highestBit : Nat → Nat → Nat
  | 0, _ => 0
  | fuel + 1, m => if m < 2 then 0 else highestBit fuel (m / 2) + 1

/-- The conversion of a `float` to the `double` a `Field` holds, which
`field = literal.fp32()` performs, on IEEE-754 bit patterns: the sign is kept,
a normal number keeps its exponent (rebiased from 127 to 1023) and its
fraction (23 bits, extended to 52), a subnormal number becomes the normal
`double` of the same value, zeros and infinities are kept, and a NaN keeps its
payload and is quiet. -/
def floatToDouble (bits : Nat) : Nat :=
  let b := bits % 4294967296
  let sign := b / 2147483648
  let exponent := b / 8388608 % 256
  let fraction := b % 8388608
  if exponent = 255 then
    if fraction = 0 then sign * 9223372036854775808 + 2047 * 4503599627370496
    else
      sign * 9223372036854775808 + 2047 * 4503599627370496 + fraction * 536870912 +
        (if fraction < 4194304 then 2251799813685248 else 0)
  else if exponent = 0 then
    if fraction = 0 then sign * 9223372036854775808
    else
      let k := highestBit 23 fraction
      sign * 9223372036854775808 + (k + 874) * 4503599627370496 +
        (fraction - 2 ^ k) * 2 ^ (52 - k)
  else
    sign * 9223372036854775808 + (exponent + 896) * 4503599627370496 + fraction * 536870912

/-- The read `*reinterpret_cast<const IntN *>(bytes.data())` of the first `n`
bytes as a little-endian two-complement integer; unchecked when the buffer is
shorter. -/
def readIntLE (bytes : List Nat) (n : Nat) : Result Int :=
  if bytes.length < n then
    .error ⟨.UNCHECKED_ACCESS, "read past the end of the value bytes"⟩
  else
    let u : Nat := (bytes.take n).foldr (fun b acc => b % 256 + 256 * acc) 0
    if 2 * u < 256 ^ n then .ok (u : Int) else .ok ((u : Int) - ((256 ^ n : Nat) : Int))

mutual
/-- Embedding of `SerializedPlanParser::parseLiteral(literal)`. -/
def parseLiteral (env : Env) : Literal → Result (DataType × Field)
  | .fp64 bits => .ok (.Float64, .Float64 bits)
  | .fp32 bits => .ok (.Float32, .Float64 (floatToDouble bits))
  | .string v => .ok (.String, .String v)
  | .binary v => .ok (.String, .String v)
  | .i64 v => .ok (.Int64, .Int64 v)
  | .i32 v => .ok (.Int32, .Int64 v)
  | .boolean v => .ok (.UInt8, .UInt64 (if v then 1 else 0))
  | .i16 v => .ok (.Int16, .Int64 v)
  | .i8 v => .ok (.Int8, .Int64 v)
  | .date v => .ok (.Date32, .Int64 v)
  | .timestamp v => .ok (.DateTime64 6, .Decimal v 6)
  | .decimal bytes p s =>
    let precision := toUInt32 p
    let scale := toUInt32 s
    if precision ≤ DataTypeDecimal32.maxPrecision then do
      let value ← readIntLE bytes 4
      pure (.Decimal32 precision scale, .Decimal value scale)
    else if precision ≤ DataTypeDecimal64.maxPrecision then do
      let value ← readIntLE bytes 8
      pure (.Decimal64 precision scale, .Decimal value scale)
    else if precision ≤ DataTypeDecimal128.maxPrecision then
      .ok (.Decimal128 precision scale, .Decimal (env.getDecimal128FromBytes bytes) scale)
    else
      .error ⟨.UNKNOWN_TYPE, "Spark doesn't support decimal type with precision \x7b\x7d"⟩
  | .list values =>
    -- `literal.has_empty_list()` is false for a literal whose kind is `list`
    match values with
    | [] => .error ⟨.UNCHECKED_ACCESS, "repeated field index out of range"⟩
    | v0 :: rest => do
      let (first_type, _) ← parseLiteral env v0
      let array ← parseLiteralElements env first_type (v0 :: rest)
      pure (.Array first_type, .Array array)
  | .null type => do
    let t ← parseType0 type
    pure (t, .Null)
  | .empty_list => .error ⟨.UNKNOWN_TYPE, "Unsupported spark literal type \x7b\x7d"⟩
  | .other => .error ⟨.UNKNOWN_TYPE, "Unsupported spark literal type \x7b\x7d"⟩
  | .not_set => .error ⟨.UNKNOWN_TYPE, "Unsupported spark literal type \x7b\x7d"⟩
/-- The element loop of the list case of `parseLiteral`. -/
def parseLiteralElements (env : Env) (first_type : DataType) : List Literal → Result (List Field)
  | [] => .ok []
  | v :: vs => do
    let type_and_field ← parseLiteral env v
    if !first_type.equals type_and_field.1 then
      throw ⟨.LOGICAL_ERROR, "Literal list type mismatch:\x7b\x7d and \x7b\x7d"⟩
    let rest ← parseLiteralElements env first_type vs
    pure (type_and_field.2 :: rest)
end

/-- The option loop of the set-membership case of `parseArgument`. -/
def parseOptions (env : Env) (elem_type : DataType) : List Expression → Result (List Field)
  | [] => .ok []
  | o :: os => do
    if !o.has_literal then
      throw ⟨.BAD_ARGUMENTS, "in expression values must be the literal!"⟩
    let type_and_field ← parseLiteral env o.get_literal
    if !elem_type.equals type_and_field.1 then
      throw ⟨.LOGICAL_ERROR, "SingularOrList options type mismatch:\x7b\x7d and \x7b\x7d"⟩
    let rest ← parseOptions env elem_type os
    pure (type_and_field.2 :: rest)

/-! ## The expression compiler -/

/-- The unchecked vector read `args[i]`. -/
def argAt (args : List NodePtr) (i : Nat) : Result NodePtr :=
  match args.get? i with
  | some a => .ok a
  | none => .error ⟨.UNCHECKED_ACCESS, "vector index out of range"⟩

/-- The pointer `&actions_dag->getNodes().back()`. -/
def ActionsDAG.back (dag : ActionsDAG) : Result NodePtr :=
  if dag.nodes.length = 0 then .error ⟨.UNCHECKED_ACCESS, "back() of an empty list"⟩
  else .ok (some (dag.nodes.length - 1))

/-- What a call of `parseFunctionWithDAG` leaves behind: the returned node, the
out-parameter `result_name`, the extended `required_columns` and the state. -/
structure FunctionResult where
  node : NodePtr
  result_name : String
  required_columns : List String
  state : PState

/-- The part of `parseFunctionWithDAG` that follows the argument loop: the
`alias` and `arrayJoin` special cases, the argument rewrites, the function
node and the implicit cast. -/
def buildFunction (env : Env) (scalar_function : ScalarFunction)
    (function_signature function_name : String) (args : List NodePtr)
    (required_columns : List String) (keep_result : Bool) (st : PState) :
    Result FunctionResult :=
  if function_name == "alias" then do
    let a0 ← argAt args 0
    let n0 ← st.dag.deref a0
    let result_name := n0.result_name
    let dag ← st.dag.addOrReplaceInIndex a0
    let found ← dag.findInIndex result_name
    let (h, dag) ← dag.addAlias found result_name
    pure ⟨some h, result_name, required_columns, { st with dag := dag }⟩
  else if function_name == "arrayJoin" then do
    let args_name ← joinNames st.dag args ","
    let result_name := function_name ++ "(" ++ args_name ++ ")"
    let a0 ← argAt args 0
    let (h, dag) ← st.dag.addArrayJoin a0 result_name
    let dag ← if keep_result then dag.addOrReplaceInIndex (some h) else pure dag
    pure ⟨some h, result_name, required_columns, { st with dag := dag }⟩
  else do
    let (args, required_columns) ←
      (if function_name == "isNotNull" then do
        let a0 ← argAt args 0
        let n0 ← st.dag.deref a0
        pure (args, required_columns ++ [n0.result_name])
      else if function_name == "splitByRegexp" then
        match args with
        | a :: b :: rest => pure (b :: a :: rest, required_columns)
        | _ => pure (args, required_columns)
      else pure (args, required_columns) : Result (List NodePtr × List String))
    let args ←
      (if containsSubstr function_signature "extract:" then
        match args with
        | [] => throw ⟨.UNCHECKED_ACCESS, "erase(begin()) of an empty vector"⟩
        | _ :: rest => pure rest
      else pure args : Result (List NodePtr))
    let (args, st) ←
      (if containsSubstr function_signature "check_overflow:" then do
        if scalar_function.arguments.length != 2 then
          throw ⟨.BAD_ARGUMENTS, "check_overflow function requires two args."⟩
        let a1 ← argument scalar_function.arguments 1
        let (args, st) ←
          (if a1.get_literal.get_boolean then do
            let a0 ← argAt args 0
            getFunctionBuilder env "toString"
            let to_string_cast_args_name ← joinNames st.dag [a0] ","
            let result_name := "toString" ++ "(" ++ to_string_cast_args_name ++ ")"
            let (h, dag) ← st.dag.addFunction env "toString" [a0] result_name
            pure (args.set 0 (some h), { st with dag := dag })
          else pure (args, st) : Result (List NodePtr × PState))
        if args.length = 0 then
          throw ⟨.UNCHECKED_ACCESS, "pop_back() of an empty vector"⟩
        let args := args.dropLast
        let scale := toUInt32 scalar_function.output_type.get_decimal.scale
        let (h, st) := addConstant st .UInt32 (.UInt64 scale) (toString scale)
        pure (args ++ [some h], st)
      else pure (args, st) : Result (List NodePtr × PState))
    getFunctionBuilder env function_name
    let args_name ← joinNames st.dag args ","
    let result_name := function_name ++ "(" ++ args_name ++ ")"
    let (function_node, dag) ← st.dag.addFunction env function_name args result_name
    let st := { st with dag := dag }
    let fnode ← st.dag.deref (some function_node)
    let matched ← isTypeMatched scalar_function.output_type fnode.result_type
    let (result_node, result_name, st) ←
      (if !matched then do
        let cast_function ← getCastFunction scalar_function.output_type
        let (cast_args, st) :=
          if starts_with cast_function "toDecimal" then
            let scale := toUInt32 scalar_function.output_type.get_decimal.scale
            let (h, st) := addConstant st .UInt32 (.UInt64 scale) (toString scale)
            ([some function_node, some h], st)
          else ([some function_node], st)
        getFunctionBuilder env cast_function
        let cast_args_name ← joinNames st.dag cast_args ","
        let result_name := cast_function ++ "(" ++ cast_args_name ++ ")"
        let (cast_node, dag) ← st.dag.addFunction env cast_function cast_args result_name
        pure (cast_node, result_name, { st with dag := dag })
      else pure (function_node, result_name, st) : Result (Nat × String × PState))
    let dag ← if keep_result then st.dag.addOrReplaceInIndex (some result_node) else pure st.dag
    pure ⟨some result_node, result_name, required_columns, { st with dag := dag }⟩

mutual
/-- Embedding of `SerializedPlanParser::parseArgument(action_dag, rel)`; the
DAG and the name counter are threaded through the state. -/
def parseArgument (env : Env) (function_mapping : StringMap) :
    Expression → PState → Result (NodePtr × PState)
  | .literal l, st => do
    let (type, field) ← parseLiteral env l
    let (h, st) := add_column env st type field
    pure (some h, st)
  | .selection direct_reference, st =>
    match direct_reference with
    | some (.struct_field f) =>
      -- `action_dag->getInputs()[field]` is an unchecked vector read
      if f < 0 then .error ⟨.UNCHECKED_ACCESS, "vector index out of range"⟩
      else
        match st.dag.inputs.get? f.toNat with
        | none => .error ⟨.UNCHECKED_ACCESS, "vector index out of range"⟩
        | some h => do
          let field ← st.dag.deref (some h)
          pure (st.dag.tryFindInIndex field.result_name, st)
    | _ => .error ⟨.BAD_ARGUMENTS, "Can only have direct struct references in selections"⟩
  | .cast type input, st =>
    match type, input with
    | some t, some cast_input => do
      let ch_function_name ← getCastFunction t
      let (arg, st) ←
        (if cast_input.has_selection || cast_input.has_literal then
          parseArgument env function_mapping cast_input st
        else if cast_input.has_if_then then
          parseArgument env function_mapping cast_input st
        else if cast_input.has_scalar_function then do
          let r ← parseFunctionWithDAG env function_mapping cast_input [] false st
          pure (r.node, r.state)
        else
          throw ⟨.BAD_ARGUMENTS, "unsupported cast input \x7b\x7d"⟩ : Result (NodePtr × PState))
      let (args, st) :=
        if starts_with ch_function_name "toDecimal" then
          let scale := toUInt32 t.get_decimal.scale
          let (h, st) := add_column env st .UInt32 (.UInt64 scale)
          ([arg, some h], st)
        else if starts_with ch_function_name "toDateTime64" then
          let (h, st) := add_column env st .UInt32 (.Int64 6)
          ([arg, some h], st)
        else ([arg], st)
      let (function_node, dag) ← toFunctionNode env st.dag ch_function_name args
      let dag ← dag.addOrReplaceInIndex (some function_node)
      pure (some function_node, { st with dag := dag })
    | _, _ => .error ⟨.BAD_ARGUMENTS, "Doesn't have type or input in cast node."⟩
  | .if_then ifs else_, st => do
    getFunctionBuilder env "multiIf"
    let (args, st) ← parseIfs env function_mapping ifs st
    let (else_node, st) ← parseArgument env function_mapping else_ st
    let args := args ++ [else_node]
    let args_name ← joinNames st.dag args ","
    let result_name := "multiIf(" ++ args_name ++ ")"
    let (function_node, dag) ← st.dag.addFunction env "multiIf" args result_name
    let dag ← dag.addOrReplaceInIndex (some function_node)
    pure (some function_node, { st with dag := dag })
  | .scalar_function r arguments t, st => do
    -- `parseFunctionWithDAG(rel, result, useless, action_dag, false)`
    let function_signature ← StringMap.at function_mapping (toString r)
    let function_name ← getFunctionName env.SCALAR_FUNCTIONS function_signature ⟨r, arguments, t⟩
    let (args, required_columns, st) ←
      parseFunctionArguments env function_mapping function_name arguments [] st
    let res ← buildFunction env ⟨r, arguments, t⟩ function_signature function_name args
      required_columns false st
    pure (res.node, res.state)
  | .singular_or_list value options, st =>
    match options with
    | [] =>
      let (h, st) := add_column env st .UInt8 (.Int64 0)
      .ok (some h, st)
    | o0 :: rest => do
      if !o0.has_literal then
        throw ⟨.LOGICAL_ERROR, "Options of SingularOrList must have literal type"⟩
      let (v, st) ← parseArgument env function_mapping value st
      let (elem_type, _) ← parseLiteral env o0.get_literal
      let elems ← parseOptions env elem_type (o0 :: rest)
      let (name, name_no) := getUniqueName st.name_no "__set"
      let (set_node, dag) := st.dag.addColumn (.Set elems) .Set name
      let (function_node, dag) ← toFunctionNode env dag "in" [v, some set_node]
      let dag ← dag.addOrReplaceInIndex (some function_node)
      pure (some function_node, { dag := dag, name_no := name_no })
  | .other, _ => .error ⟨.UNKNOWN_TYPE, "Unsupported spark expression type \x7b\x7d : \x7b\x7d"⟩
  | .not_set, _ => .error ⟨.UNKNOWN_TYPE, "Unsupported spark expression type \x7b\x7d : \x7b\x7d"⟩
/-- Embedding of `SerializedPlanParser::parseFunctionWithDAG(rel, result_name,
required_columns, actions_dag, keep_result)`. -/
def parseFunctionWithDAG (env : Env) (function_mapping : StringMap) :
    Expression → List String → Bool → PState → Result FunctionResult
  | .scalar_function r arguments t, required_columns, keep_result, st => do
    let function_signature ← StringMap.at function_mapping (toString r)
    let function_name ← getFunctionName env.SCALAR_FUNCTIONS function_signature ⟨r, arguments, t⟩
    let (args, required_columns, st) ←
      parseFunctionArguments env function_mapping function_name arguments required_columns st
    buildFunction env ⟨r, arguments, t⟩ function_signature function_name args
      required_columns keep_result st
  | _, _, _, _ =>
    .error ⟨.BAD_ARGUMENTS, "the root of expression should be a scalar function:\n \x7b\x7d"⟩
/-- The argument loop of `parseFunctionWithDAG`. -/
def parseFunctionArguments (env : Env) (function_mapping : StringMap) (function_name : String) :
    List Expression → List String → PState → Result (List NodePtr × List String × PState)
  | [], required_columns, st => .ok ([], required_columns, st)
  | arg :: rest, required_columns, st => do
    let (node, required_columns, st) ←
      (if arg.has_scalar_function then do
        let keep_arg := env.FUNCTION_NEED_KEEP_ARGUMENTS.contains function_name
        let r ← parseFunctionWithDAG env function_mapping arg required_columns keep_arg st
        let back ← r.state.dag.back
        pure (back, r.required_columns, r.state)
      else do
        let (node, st) ← parseArgument env function_mapping arg st
        pure (node, required_columns, st) : Result (NodePtr × List String × PState))
    let (nodes, required_columns, st) ←
      parseFunctionArguments env function_mapping function_name rest required_columns st
    pure (node :: nodes, required_columns, st)
/-- The branch loop of the conditional case of `parseArgument`. -/
def parseIfs (env : Env) (function_mapping : StringMap) :
    List (Expression × Expression) → PState → Result (List NodePtr × PState)
  | [], st => .ok ([], st)
  | (if_, then_) :: rest, st => do
    let (if_node, st) ← parseArgument env function_mapping if_ st
    let (then_node, st) ← parseArgument env function_mapping then_ st
    let (nodes, st) ← parseIfs env function_mapping rest st
    pure (if_node :: then_node :: nodes, st)
end

/-- Embedding of `SerializedPlanParser::parseFunction(input, rel, result_name,
required_columns, actions_dag, keep_result)`; `actions_dag` is `none` for the
null pointer, in which case the DAG is created over the header `input`. -/
def parseFunction (env : Env) (function_mapping : StringMap) (input : Block) (rel : Expression)
    (required_columns : List String) (actions_dag : Option ActionsDAG) (keep_result : Bool)
    (name_no : Nat) : Result FunctionResult :=
  let dag := match actions_dag with
    | some dag => dag
    | none => ActionsDAG.ofInputs (blockToNameAndTypeList input)
  parseFunctionWithDAG env function_mapping rel required_columns keep_result
    { dag := dag, name_no := name_no }

/-! ## Query plans

`DB::QueryPlan` and its steps are outside the excerpt.  A plan is modelled by
the list of steps added so far and by the header of its current data stream,
the "running current schema" of the specification. -/

/-- An aggregate to compute (`DB::AggregateDescription`). -/
structure AggregateDescription where
  function : IAggregateFunction
  arguments : List Nat
  column_name : String

/-- A data part of a table-backed store, as far as the translator reads it:
its name and the block range `info.min_block`, `info.max_block` (`Int64`). -/
structure DataPart where
  name : String
  min_block : Int
  max_block : Int
  deriving DecidableEq, Repr

/-- The early pushdown predicate of a table-backed read (`DB::PrewhereInfo`):
the actions and the name of the filter column. -/
structure PrewhereInfo where
  prewhere_actions : ActionsDAG
  prewhere_column_name : String

/-- The steps the translator appends to a plan. -/
inductive QueryPlanStep where
  | ExpressionStep (description : String) (actions_dag : ActionsDAG)
  | FilterStep (description : String) (actions_dag : ActionsDAG)
      (filter_column_name : String) (remove_filter_column : Bool)
  | AggregatingStep (keys : List Nat) (aggregates : List AggregateDescription)
  | MergingAggregatedStep (keys : List Nat) (aggregates : List AggregateDescription)
  | FilledJoinStep (storage_join_key : String)
  | JoinStep (right : List QueryPlanStep)
  | Source (description : String)
  | LimitStep (limit offset : Int)
  | ReadFromJavaIter (description : String) (iter_index : Nat)
  | ReadFromLocalFiles (description : String) (local_files : List String)
  | ReadFromParts (selected_parts : List DataPart) (column_names : List String)
      (prewhere_info : Option PrewhereInfo)

/-- Modelled from the spec: a query plan (`Processors/QueryPlan/QueryPlan.h`,
absent) as the steps appended so far and the header of the current data
stream, "an ordered list of named, typed columns" that "accompanies the plan
at every step". -/
structure QueryPlan where
  steps : List QueryPlanStep
  header : Block

/-- Modelled from the spec: appending an `ExpressionStep`; the plan's schema
becomes the columns of the DAG's output index. -/
def QueryPlan.addExpressionStep (plan : QueryPlan) (description : String)
    (actions_dag : ActionsDAG) : QueryPlan :=
  { steps := plan.steps ++ [.ExpressionStep description actions_dag]
    header := actions_dag.header }

/-- The unchecked read `Block::getByPosition(position)` with a position that
comes from an `int32` field. -/
def Block.getByPosition (b : Block) (position : Int) : Result (String × DataType) :=
  if position < 0 then .error ⟨.UNCHECKED_ACCESS, "column position out of range"⟩
  else
    match b.get? position.toNat with
    | some c => .ok c
    | none => .error ⟨.UNCHECKED_ACCESS, "column position out of range"⟩

/-- The lookup `Block::getPositionByName(name)`, which throws when the header
has no such column. -/
def Block.getPositionByName (b : Block) (name : String) : Result Nat :=
  match b.findIdx? (fun c => c.1 == name) with
  | some i => .ok i
  | none => .error ⟨.LIBRARY, "Not found column in block"⟩

/-- The lookup `Block::getByName(name)`, which throws when the header has no
such column. -/
def Block.getByName (b : Block) (name : String) : Result (String × DataType) :=
  match b.findByName name with
  | some c => .ok c
  | none => .error ⟨.LIBRARY, "Not found column in block"⟩

/-! ## Aggregate relations (`substrait::AggregateRel`) -/

/-- The enumeration `substrait::AggregationPhase`. -/
inductive AggregationPhase where
  | AGGREGATION_PHASE_UNSPECIFIED
  | AGGREGATION_PHASE_INITIAL_TO_INTERMEDIATE
  | AGGREGATION_PHASE_INTERMEDIATE_TO_INTERMEDIATE
  | AGGREGATION_PHASE_INITIAL_TO_RESULT
  | AGGREGATION_PHASE_INTERMEDIATE_TO_RESULT
  deriving DecidableEq, Repr, Fintype

/-- The message `substrait::AggregateFunction` of a measure. -/
structure AggregateFunction where
  function_reference : Nat
  arguments : List Expression
  phase : AggregationPhase
  output_type : SType

/-- The message `substrait::AggregateRel_Measure`. -/
structure Measure where
  measure : AggregateFunction

/-- The message `substrait::AggregateRel_Grouping`. -/
structure Grouping where
  grouping_expressions : List Expression

/-- The message `substrait::AggregateRel`, without its input relation, which
`parseOp` translates before it calls `parseAggregate`. -/
structure AggregateRel where
  groupings : List Grouping
  measures : List Measure

/-! ## The aggregation planner -/

/-- The set `phase_set` that `parseAggregate` collects (a `std::set`). -/
def phase_set (rel : AggregateRel) : Finset AggregationPhase :=
  (rel.measures.map (fun m => m.measure.phase)).toFinset

/-- The phase check at the head of `parseAggregate`: returns `has_final_stage`
or throws. -/
def phaseCheck (rel : AggregateRel) : Result Bool :=
  let has_first_stage : Bool :=
    decide (AggregationPhase.AGGREGATION_PHASE_INITIAL_TO_INTERMEDIATE ∈ phase_set rel)
  let has_inter_stage : Bool :=
    decide (AggregationPhase.AGGREGATION_PHASE_INTERMEDIATE_TO_INTERMEDIATE ∈ phase_set rel)
  let has_final_stage : Bool :=
    decide (AggregationPhase.AGGREGATION_PHASE_INTERMEDIATE_TO_RESULT ∈ phase_set rel)
  if (phase_set rel).card > 1 then
    if (phase_set rel).card == 2 && has_first_stage && has_inter_stage then
      .ok has_final_stage
    else
      .error ⟨.LOGICAL_ERROR, "too many aggregate phase!"⟩
  else
    .ok has_final_stage

/-- The assignment `m[key] = value` of a `std::map`. -/
def StringMap.assign (m : StringMap) (key value : String) : StringMap :=
  if StringMap.contains m key then
    m.map (fun kv => if kv.1 == key then (kv.1, value) else kv)
  else
    m ++ [(key, value)]

/-- Embedding of `SerializedPlanParser::wrapNullable(columns, actionsDag,
nullable_measure_names)`. -/
def wrapNullable (env : Env) :
    List String → ActionsDAG → StringMap → Result (ActionsDAG × StringMap)
  | [], dag, nullable_measure_names => .ok (dag, nullable_measure_names)
  | item :: rest, dag, nullable_measure_names => do
    let found ← dag.findInIndex item
    let (node, dag) ← toFunctionNode env dag "toNullable" [some found]
    let dag ← dag.addOrReplaceInIndex (some node)
    let n ← dag.deref (some node)
    wrapNullable env rest dag (StringMap.assign nullable_measure_names item n.result_name)

/-- The local state of the measure loop of `addPreProjectStepIfNeeded`. -/
structure PreProjectState where
  expression : PState
  measure_names : List String
  to_wrap_nullable : List String
  need_pre_project : Bool

/-- The argument of a measure in `addPreProjectStepIfNeeded`: a column
reference names the input column at its position, a literal is materialised as
a node of the pre-projection and names that node (and asks for the
pre-projection); anything else is rejected.  Returns `measure_name`, the
expression state and `need_pre_project`. -/
def measureArgument (env : Env) (function_mapping : StringMap) (input : Block)
    (expression : PState) (need_pre_project : Bool) (arg : Expression) :
    Result (String × PState × Bool) :=
  if arg.has_selection then do
    let c ← input.getByPosition arg.selection_field
    pure (c.1, expression, need_pre_project)
  else if arg.has_literal then do
    let (node, st) ← parseArgument env function_mapping arg expression
    let dag ← st.dag.addOrReplaceInIndex node
    let n ← dag.deref node
    pure (n.result_name, { st with dag := dag }, true)
  else
    throw ⟨.UNKNOWN_TYPE, "unsupported aggregate argument type \x7b\x7d."⟩

/-- One iteration of the measure loop of `addPreProjectStepIfNeeded`. -/
def preProjectMeasure (env : Env) (function_mapping : StringMap) (input : Block)
    (s : PreProjectState) (measure : Measure) : Result PreProjectState := do
  let measure_type ← parseType0 measure.measure.output_type
  if measure.measure.arguments.length != 1 then
    throw ⟨.BAD_ARGUMENTS, "only support one argument aggregate function"⟩
  let arg ← argument measure.measure.arguments 0
  let (measure_name, expression, need_pre_project) ←
    measureArgument env function_mapping input s.expression s.need_pre_project arg
  let measure_names := s.measure_names ++ [measure_name]
  if measure_type.isNullable &&
      measure.measure.phase == .AGGREGATION_PHASE_INITIAL_TO_INTERMEDIATE then do
    let found ← expression.dag.findInIndex measure_name
    let n ← expression.dag.deref (some found)
    if !n.result_type.isNullable then
      pure ⟨expression, measure_names, s.to_wrap_nullable ++ [measure_name], true⟩
    else
      pure ⟨expression, measure_names, s.to_wrap_nullable, need_pre_project⟩
  else
    pure ⟨expression, measure_names, s.to_wrap_nullable, need_pre_project⟩

/-- The measure loop of `addPreProjectStepIfNeeded`. -/
def preProjectMeasures (env : Env) (function_mapping : StringMap) (input : Block) :
    List Measure → PreProjectState → Result PreProjectState
  | [], s => .ok s
  | measure :: rest, s => do
    let s ← preProjectMeasure env function_mapping input s measure
    preProjectMeasures env function_mapping input rest s

/-- What `addPreProjectStepIfNeeded` leaves behind: the plan, the two
out-parameters and the name counter. -/
structure PreProjectResult where
  plan : QueryPlan
  measure_names : List String
  nullable_measure_names : StringMap
  name_no : Nat

/-- Embedding of `SerializedPlanParser::addPreProjectStepIfNeeded(plan, rel,
measure_names, nullable_measure_names)`; both out-parameters are empty at the
call. -/
def addPreProjectStepIfNeeded (env : Env) (function_mapping : StringMap) (plan : QueryPlan)
    (name_no : Nat) (rel : AggregateRel) : Result PreProjectResult := do
  let input := plan.header
  let expression := ActionsDAG.ofInputs (blockToNameAndTypeList input)
  let s ← preProjectMeasures env function_mapping input rel.measures
    ⟨{ dag := expression, name_no := name_no }, [], [], false⟩
  let (dag, nullable_measure_names) ← wrapNullable env s.to_wrap_nullable s.expression.dag []
  let plan :=
    if s.need_pre_project then plan.addExpressionStep "Before Aggregate" dag else plan
  pure ⟨plan, s.measure_names, nullable_measure_names, s.expression.name_no⟩

/-- The grouping-key loop of `parseAggregate`; a key is a column number
(`size_t`). -/
def groupingKeys : List Expression → Result (List Nat)
  | [] => .ok []
  | group :: rest =>
    if group.has_selection && group.has_direct_reference then do
      let keys ← groupingKeys rest
      pure ((group.selection_field % 18446744073709551616).toNat :: keys)
    else
      .error ⟨.BAD_ARGUMENTS, "unsupported group expression: \x7b\x7d"⟩

/-- The checked read `v.at(i)` of a vector of strings. -/
def vectorAt (v : List String) (i : Nat) : Result String :=
  match v.get? i with
  | some x => .ok x
  | none => .error ⟨.STD_OUT_OF_RANGE, "vector::at"⟩

/-- The test `checkAndGetDataType<DataTypeAggregateFunction>(type)`. -/
def DataType.isAggregateFunction : DataType → Bool
  | .AggregateFunction _ _ => true
  | _ => false

/-- The body of the measure loop of `parseAggregate` for measure number `i`. -/
def aggregateDescription (env : Env) (function_mapping : StringMap) (header : Block)
    (measure_names : List String) (nullable_measure_names : StringMap) (i : Nat)
    (measure : Measure) : Result AggregateDescription := do
  let function_signature ←
    StringMap.at function_mapping (toString measure.measure.function_reference)
  let function_name := substrBefore function_signature ':'
  let column_name ←
    (if measure.measure.phase != .AGGREGATION_PHASE_INITIAL_TO_INTERMEDIATE then
      vectorAt measure_names i
    else do
      let n ← vectorAt measure_names i
      pure (function_name ++ "(" ++ n ++ ")") : Result String)
  let input_column ← vectorAt measure_names i
  let input_column :=
    match StringMap.find nullable_measure_names input_column with
    | some second => second
    | none => input_column
  let position ← header.getPositionByName input_column
  let c ← header.getByName input_column
  let arg_type := c.2
  let function ←
    (if arg_type.isAggregateFunction then
      env.aggregateFunction (function_name ++ "PartialMerge") [arg_type]
    else if measure.measure.phase != .AGGREGATION_PHASE_INITIAL_TO_INTERMEDIATE then do
      let first ← env.aggregateFunction function_name [arg_type]
      env.aggregateFunction (function_name ++ "PartialMerge") [first.state_type]
    else
      env.aggregateFunction function_name [arg_type] : Result IAggregateFunction)
  pure ⟨function, [position], column_name⟩

/-- The measure loop of `parseAggregate`, from measure number `i` on. -/
def aggregateDescriptions (env : Env) (function_mapping : StringMap) (header : Block)
    (measure_names : List String) (nullable_measure_names : StringMap) :
    Nat → List Measure → Result (List AggregateDescription)
  | _, [] => .ok []
  | i, measure :: rest => do
    let agg ← aggregateDescription env function_mapping header measure_names
      nullable_measure_names i measure
    let aggs ← aggregateDescriptions env function_mapping header measure_names
      nullable_measure_names (i + 1) rest
    pure (agg :: aggs)

/-- What a successful `parseAggregate` returns and leaves behind: the step, the
plan (with the pre-projection when one was needed) and the name counter. -/
structure AggregateOutput where
  step : QueryPlanStep
  plan : QueryPlan
  name_no : Nat

/-- The outcome of a call of `parseAggregate`: the out-parameter `is_final`
(`none` while it has not been assigned) and the returned step or the thrown
exception. -/
structure AggregateOutcome where
  is_final : Option Bool
  result : Result AggregateOutput

/-- The part of `parseAggregate` after the assignment of `is_final`. -/
def parseAggregateBody (env : Env) (function_mapping : StringMap) (name_no : Nat)
    (plan : QueryPlan) (rel : AggregateRel) (has_final_stage : Bool) :
    Result AggregateOutput := do
  let pre ← addPreProjectStepIfNeeded env function_mapping plan name_no rel
  let plan := pre.plan
  let keys ←
    (if rel.groupings.length == 1 then
      match rel.groupings with
      | g :: _ => groupingKeys g.grouping_expressions
      | [] => pure []
    else if rel.groupings.length != 0 then
      throw ⟨.LOGICAL_ERROR, "too many groupings"⟩
    else pure [] : Result (List Nat))
  let aggregates ← aggregateDescriptions env function_mapping plan.header pre.measure_names
    pre.nullable_measure_names 0 rel.measures
  if has_final_stage then
    pure ⟨.MergingAggregatedStep keys aggregates, plan, pre.name_no⟩
  else
    pure ⟨.AggregatingStep keys aggregates, plan, pre.name_no⟩

/-- Embedding of `SerializedPlanParser::parseAggregate(plan, rel, is_final)`. -/
def parseAggregate (env : Env) (function_mapping : StringMap) (name_no : Nat)
    (plan : QueryPlan) (rel : AggregateRel) : AggregateOutcome :=
  match phaseCheck rel with
  | .error e => ⟨none, .error e⟩
  | .ok has_final_stage =>
    ⟨some has_final_stage,
      parseAggregateBody env function_mapping name_no plan rel has_final_stage⟩

/-! ## The join planner -/

/-- The enumeration `substrait::JoinRel_JoinType`. -/
inductive JoinType where
  | JOIN_TYPE_UNSPECIFIED
  | JOIN_TYPE_INNER
  | JOIN_TYPE_OUTER
  | JOIN_TYPE_LEFT
  | JOIN_TYPE_RIGHT
  | JOIN_TYPE_LEFT_SEMI
  | JOIN_TYPE_RIGHT_SEMI
  | JOIN_TYPE_ANTI
  | JOIN_TYPE_SINGLE
  deriving DecidableEq, Repr

/-- The message `substrait::JoinRel`, without its two input relations, which
`parseOp` translates before it calls `parseJoin`.  `optimization` is the value
of the optimization side-channel of the advanced extension. -/
structure JoinRel where
  type : JoinType
  expression : Expression
  post_join_filter : Option Expression
  optimization : String

/-- The join kind and strictness `parseJoin` sets on the table join. -/
def joinKindAndStrictness : JoinType → Result (String × String)
  | .JOIN_TYPE_INNER => .ok ("Inner", "All")
  | .JOIN_TYPE_LEFT_SEMI => .ok ("Left", "Semi")
  | .JOIN_TYPE_ANTI => .ok ("Left", "Anti")
  | .JOIN_TYPE_LEFT => .ok ("Left", "All")
  | _ => .error ⟨.UNKNOWN_TYPE, "unsupported join type \x7b\x7d."⟩

/-- Modelled from the spec: `ActionsDAG::makeConvertingActions(source, result,
MatchColumnsMode::Position)` (absent), the "position-wise conversion step"
that aligns a header to an expected shape: the column at each position is
converted to the name and type expected there; the column counts must agree. -/
def makeConvertingActions (source result : Block) : Result ActionsDAG :=
  if source.length != result.length then
    .error ⟨.LIBRARY, "Number of columns doesn't match"⟩
  else
    .ok
      { nodes := source.map (fun c => ⟨.INPUT, c.1, c.2, [], "", none⟩) ++
          (List.range result.length).filterMap (fun i =>
            (result.get? i).map (fun c => ⟨.ALIAS, c.1, c.2, [i], "", none⟩))
        inputs := List.range source.length
        index := (List.range result.length).map (fun i => source.length + i) }

/-- Modelled from the spec: `ActionsDAG::addAliases(aliases)` (absent), the
renaming step: every index entry whose name has an alias is replaced by an
alias node of the new name. -/
def ActionsDAG.addAliases (dag : ActionsDAG) : List (String × String) → ActionsDAG
  | [] => dag
  | (name, alias_name) :: rest =>
    match dag.tryFindInIndex name with
    | none => ActionsDAG.addAliases dag rest
    | some h =>
      match dag.nodes.get? h with
      | none => ActionsDAG.addAliases dag rest
      | some n =>
        ActionsDAG.addAliases
          { nodes := dag.nodes ++ [⟨.ALIAS, alias_name, n.result_type, [h], "", n.column⟩]
            inputs := dag.inputs
            index := dag.index.map (fun i => if i == h then dag.nodes.length else i) }
          rest

/-- Modelled from the spec: `ActionsDAG::project(projection)` (absent) for a
projection that keeps every name (`alias == name`): the output index becomes
the named columns in the order given; a name that is not in the index is an
error. -/
def ActionsDAG.project (dag : ActionsDAG) (names : List String) : Result ActionsDAG := do
  let index ← names.mapM (fun name => dag.findInIndex name)
  pure { dag with index := index }

/-- Modelled from the spec: appending a `FilterStep` with
`remove_filter_column = true`; the plan's schema becomes the columns of the
DAG's output index without the filter column, "the compiled predicate column
as the filter condition (dropped from output)". -/
def QueryPlan.addFilterStep (plan : QueryPlan) (description : String)
    (actions_dag : ActionsDAG) (filter_column_name : String) : QueryPlan :=
  { steps := plan.steps ++ [.FilterStep description actions_dag filter_column_name true]
    header := actions_dag.header.eraseP (fun c => c.1 == filter_column_name) }

/-- Embedding of `SerializedPlanParser::reorderJoinOutput(plan, cols)`. -/
def reorderJoinOutput (plan : QueryPlan) (cols : List String) : Result QueryPlan := do
  let project ← (ActionsDAG.ofInputs plan.header).project cols
  pure (plan.addExpressionStep "Reorder Join Output" project)

/-- The right side of a join after its columns have been registered: the right
plan, the registered columns `columnsFromJoinedTable()` and the name
counter. -/
structure RegisteredRight where
  right : QueryPlan
  columns_from_joined_table : Block
  name_no : Nat

/-- The part of `parseJoin` that registers the right columns: under the
broadcast flag the right plan is first aligned, position by position, to the
right sample block of the broadcast table; then the right columns are
registered in the table join and deduplicated against the left names with the
qualifier `getUniqueName("right") + "."`. -/
def registerRightColumns (env : Env) (is_broadcast : Bool) (storage_join_key : String)
    (name_no : Nat) (left right : QueryPlan) : Result RegisteredRight := do
  let right ←
    (if is_broadcast then
      match env.getJoin storage_join_key with
      | none => throw ⟨.UNCHECKED_ACCESS, "null storage join"⟩
      | some right_sample_block => do
        let project ← makeConvertingActions right.header right_sample_block
        pure (right.addExpressionStep "Rename Broadcast Table Name" project)
    else pure right : Result QueryPlan)
  let (unique_name, name_no) := getUniqueName name_no "right"
  let columns := env.deduplicateAndQualifyColumnNames left.header.getNames
    (unique_name ++ ".") right.header
  pure ⟨right, columns, name_no⟩

/-- The loop of `parseJoin` that collects `right_table_alias`, from position
`idx` on: a pair for every registered column whose name differs from the name
at the same position of the right header. -/
def rightTableAlias (header : Block) (names : List String) :
    Nat → Nat → Result (List (String × String))
  | 0, _ => .ok []
  | count + 1, idx => do
    let origin ← header.getByPosition idx
    let dedup_name ← vectorAt names idx
    let rest ← rightTableAlias header names count (idx + 1)
    if origin.1 != dedup_name then pure ((origin.1, dedup_name) :: rest) else pure rest

/-- The loop of `parseJoin` over the collected key pairs: the names of the key
columns, read without a range check. -/
def joinOnKeys (left right : Block) : List (Int × Int) → Result (List (String × String))
  | [] => .ok []
  | key :: rest => do
    let left_key ← left.getByPosition key.1
    let right_key ← right.getByPosition key.2
    let keys ← joinOnKeys left right rest
    pure ((left_key.1, right_key.1) :: keys)

/-- What a successful `parseJoin` returns and leaves behind: the plan and the
name counter. -/
structure JoinOutput where
  plan : QueryPlan
  name_no : Nat

/-- The tail of `parseJoin`: the optional post-join filter over the reordered
output. -/
def postJoinFilter (env : Env) (function_mapping : StringMap) (name_no : Nat)
    (query_plan : QueryPlan) : Option Expression → Result JoinOutput
  | none => .ok ⟨query_plan, name_no⟩
  | some post_join_filter => do
    let r ← parseFunction env function_mapping query_plan.header post_join_filter [] none true
      name_no
    pure ⟨query_plan.addFilterStep "Post Join Filter" r.state.dag r.result_name,
      r.state.name_no⟩

/-- Embedding of `SerializedPlanParser::parseJoin(join, left, right)`. -/
def parseJoin (env : Env) (function_mapping : StringMap) (name_no : Nat) (join : JoinRel)
    (left right : QueryPlan) : Result JoinOutput := do
  let join_opt_info := env.parseJoinOptimizationInfo join.optimization
  let _ ← joinKindAndStrictness join.type
  let reg ← registerRightColumns env join_opt_info.1 join_opt_info.2 name_no left right
  let right := reg.right
  let right_table_alias ← rightTableAlias right.header reg.columns_from_joined_table.getNames
    reg.columns_from_joined_table.length 0
  let right :=
    if !right_table_alias.isEmpty then
      right.addExpressionStep "Right Table Rename"
        ((ActionsDAG.ofInputs right.header).addAliases right_table_alias)
    else right
  let join_keys ← collectJoinKeys env.SCALAR_FUNCTIONS function_mapping join.expression []
    (wrapInt32 left.header.length)
  let _ ← joinOnKeys left.header right.header join_keys
  let convert_actions := env.createConvertingActions left.header right.header
  let right :=
    match convert_actions.2 with
    | some right_convert_actions =>
      right.addExpressionStep "Convert joined columns" right_convert_actions
    | none => right
  let left ←
    (match convert_actions.1 with
    | some _ =>
      -- the step on the left plan is built from `right_convert_actions`
      match convert_actions.2 with
      | some right_convert_actions =>
        pure (left.addExpressionStep "Convert joined columns" right_convert_actions)
      | none => throw ⟨.UNCHECKED_ACCESS, "null conversion actions"⟩
    | none => pure left : Result QueryPlan)
  let after_join_names := left.header.getNames ++ reg.columns_from_joined_table.getNames
  let query_plan ←
    (if join_opt_info.1 then
      match env.getJoin join_opt_info.2 with
      | none => throw ⟨.LOGICAL_ERROR, "broad cast table \x7b\x7d not found."⟩
      | some _ =>
        pure
          { steps := left.steps ++ [.FilledJoinStep join_opt_info.2]
            header := env.joinHeader left.header reg.columns_from_joined_table }
    else
      pure
        { steps := left.steps ++ [.JoinStep right.steps]
          header := env.joinHeader left.header reg.columns_from_joined_table } :
      Result QueryPlan)
  let query_plan ← reorderJoinOutput query_plan after_join_names
  postJoinFilter env function_mapping reg.name_no query_plan join.post_join_filter

/-! ## Projections -/

/-- The alias step of `ActionsDAG.projectAliases`: the nodes found for the
projected names are put into the new index one after the other, each under a
new alias node when its alias differs from its name. -/
def addProjected (nodes : List Node) (index : List Nat) :
    List (Nat × Node × String) → List Node × List Nat
  | [] => (nodes, index)
  | (h, n, alias_name) :: rest =>
    if alias_name == n.result_name then
      addProjected nodes (index ++ [h]) rest
    else
      addProjected (nodes ++ [⟨.ALIAS, alias_name, n.result_type, [h], "", n.column⟩])
        (index ++ [nodes.length]) rest

/-- The lookup step of `ActionsDAG.projectAliases`: the node a projected name
stands for in the current index, with the alias it is to bear. -/
def ActionsDAG.resolveProjected (dag : ActionsDAG) (item : String × String) :
    Result (Nat × Node × String) := do
  let h ← dag.findInIndex item.1
  let n ← dag.deref (some h)
  pure (h, n, item.2)

/-- Modelled from the spec: `ActionsDAG::project(projection)` (absent) for a
list of `(name, alias)` pairs: the output index becomes, in the order given,
the node each name stands for in the current index, under an alias node that
"renames a node without recomputation" when the alias differs from the name;
a name that is not in the index is an error. -/
def ActionsDAG.projectAliases (dag : ActionsDAG) (projection : List (String × String)) :
    Result ActionsDAG := do
  let found ← projection.mapM (fun item => dag.resolveProjected item)
  let (nodes, index) := addProjected dag.nodes [] found
  pure { nodes := nodes, inputs := dag.inputs, index := index }

/-- The local state of the loop of `expressionsToActionsDAG`: the DAG, the
process-wide name counter, the list `required_columns` of `(name, alias)`
pairs and the set `distinct_columns` (of which only membership is read). -/
structure ProjectionState where
  actions_dag : ActionsDAG
  name_no : Nat
  required_columns : List (String × String)
  distinct_columns : List String

/-- The naming block each branch of the loop of `expressionsToActionsDAG` ends
with: a name already in `distinct_columns` is emitted under
`getUniqueName(name)`, any other name under itself; what is emitted enters
`distinct_columns`. -/
def requireColumn (name : String) (s : ProjectionState) : ProjectionState :=
  if s.distinct_columns.contains name then
    let (unique_name, name_no) := getUniqueName s.name_no name
    { s with
      name_no := name_no
      required_columns := s.required_columns ++ [(name, unique_name)]
      distinct_columns := s.distinct_columns ++ [unique_name] }
  else
    { s with
      required_columns := s.required_columns ++ [(name, name)]
      distinct_columns := s.distinct_columns ++ [name] }

/-- The predicate `expr.has_cast()`. -/
def Expression.has_cast : Expression → Bool
  | .cast _ _ => true
  | _ => false

/-- The body of the loop of `expressionsToActionsDAG` for one expression. -/
def projectExpression (env : Env) (function_mapping : StringMap) (header read_schema : Block)
    (expr : Expression) (s : ProjectionState) : Result ProjectionState :=
  if expr.has_selection then do
    let position := expr.selection_field
    let c ← read_schema.getByPosition position
    let field ← s.actions_dag.deref (s.actions_dag.tryFindInIndex c.1)
    pure (requireColumn field.result_name s)
  else if expr.has_scalar_function then do
    let r ← parseFunction env function_mapping header expr [] (some s.actions_dag) true
      s.name_no
    let s := { s with actions_dag := r.state.dag, name_no := r.state.name_no }
    if !r.result_name.isEmpty then pure (requireColumn r.result_name s) else pure s
  else if expr.has_cast || expr.has_if_then || expr.has_literal then do
    let (node, st) ← parseArgument env function_mapping expr
      { dag := s.actions_dag, name_no := s.name_no }
    let dag ← st.dag.addOrReplaceInIndex node
    let n ← dag.deref node
    pure (requireColumn n.result_name { s with actions_dag := dag, name_no := st.name_no })
  else
    .error ⟨.BAD_ARGUMENTS, "unsupported projection type \x7b\x7d."⟩

/-- The loop of `expressionsToActionsDAG`. -/
def projectExpressions (env : Env) (function_mapping : StringMap) (header read_schema : Block) :
    List Expression → ProjectionState → Result ProjectionState
  | [], s => .ok s
  | expr :: rest, s => do
    let s ← projectExpression env function_mapping header read_schema expr s
    projectExpressions env function_mapping header read_schema rest s

/-- Embedding of `SerializedPlanParser::expressionsToActionsDAG(expressions,
header, read_schema)`; the name counter is passed in and returned with the
DAG. -/
def expressionsToActionsDAG (env : Env) (function_mapping : StringMap)
    (expressions : List Expression) (header read_schema : Block) (name_no : Nat) :
    Result (ActionsDAG × Nat) := do
  let s ← projectExpressions env function_mapping header read_schema expressions
    { actions_dag := ActionsDAG.ofInputs (blockToNameAndTypeList header)
      name_no := name_no
      required_columns := []
      distinct_columns := [] }
  let actions_dag ← s.actions_dag.projectAliases s.required_columns
  pure (actions_dag, s.name_no)

/-! ## Read relations (`substrait::ReadRel`) -/

/-- The message `substrait::NamedStruct`: the flat name stream and the types of
the top-level struct. -/
structure NamedStruct where
  names : List String
  types : List SType

/-- The one-of `read_type` of a read relation, as far as the translator reads
it: the local files by the `uri_file` of each item, the extension table by the
value of its detail. -/
inductive ReadType where
  | local_files (items : List String)
  | extension_table (detail : String)
  | other

/-- The message `substrait::ReadRel`. -/
structure ReadRel where
  read_type : ReadType
  base_schema : Option NamedStruct
  filter : Option Expression

/-- The predicate `rel.has_local_files()`. -/
def ReadRel.has_local_files (rel : ReadRel) : Bool :=
  match rel.read_type with
  | .local_files _ => true
  | _ => false

/-- The list `rel.local_files().items()` by `uri_file`; empty through the
default message when the relation has no local files. -/
def ReadRel.local_files_items (rel : ReadRel) : List String :=
  match rel.read_type with
  | .local_files items => items
  | _ => []

/-- The value `rel.extension_table().detail().value()`; empty through the
default message when the relation has no extension table. -/
def ReadRel.extension_table_detail (rel : ReadRel) : String :=
  match rel.read_type with
  | .extension_table detail => detail
  | _ => ""

/-- The accessor `rel.base_schema()`, the default message when it is unset. -/
def ReadRel.get_base_schema (rel : ReadRel) : NamedStruct :=
  match rel.base_schema with
  | some s => s
  | none => ⟨[], []⟩

/-- The tokens of `Poco::StringTokenizer(str, sep)` without options: the texts
between separators, a separator at the end being followed by an empty token. -/
def StringTokenizer (separator : Char) : List Char → List Char → Bool → List String
  | [], token, lastToken =>
    if !token.isEmpty then [String.mk token] else if lastToken then [""] else []
  | c :: cs, token, _ =>
    if c == separator then String.mk token :: StringTokenizer separator cs [] true
    else StringTokenizer separator cs (token ++ [c]) false

/-- The type loop of `parseNameStruct` over the name stream `field_names`. -/
def parseNameStructColumns (env : Env) : List SType → List String → Result Block
  | [], _ => .ok []
  | type :: types, field_names => do
    let name ← frontName field_names
    let (data_type, rest) ← parseType type (some field_names)
    let name_parts := StringTokenizer '#' name.toList [] false
    let data_type ←
      (if name_parts.length == 4 then do
        let agg_function_name ← vectorAt name_parts 3
        let tmp ← env.aggregateFunction agg_function_name [data_type]
        pure tmp.state_type
      else pure data_type : Result DataType)
    let cols ← parseNameStructColumns env types (rest.getD [])
    pure ((name, data_type) :: cols)

/-- Embedding of `SerializedPlanParser::parseNameStruct(struct_)`. -/
def parseNameStruct (env : Env) (struct_ : NamedStruct) : Result Block :=
  parseNameStructColumns env struct_.types struct_.names

/-- Embedding of `SerializedPlanParser::isReadRelFromJava(rel)`. -/
def isReadRelFromJava (rel : ReadRel) : Bool :=
  rel.local_files_items.length == 1 &&
    (match rel.local_files_items.get? 0 with
     | some uri_file => starts_with uri_file "iterator"
     | none => false)

/-- The C++ `s.substr(s.find(c) + 1, s.size())`: the text after the first `c`,
the whole string when `c` does not occur (`npos + 1` is 0). -/
def substrAfter (s : String) (c : Char) : String :=
  if s.toList.contains c then String.mk ((s.toList.dropWhile (fun x => x != c)).drop 1)
  else s

/-- The C `isspace` in the default locale. -/
def isspace (c : Char) : Bool :=
  c.toNat == 32 || (9 ≤ c.toNat && c.toNat ≤ 13)

/-- The C `isdigit`. -/
def isdigit (c : Char) : Bool :=
  48 ≤ c.toNat && c.toNat ≤ 57

/-- The value of a run of decimal digits. -/
def digitsValue (digits : List Char) : Nat :=
  digits.foldl (fun acc c => 10 * acc + (c.toNat - 48)) 0

/-- The optional sign `std::stoi` reads after the white space: whether it is a
minus sign, and the text after it. -/
def stoiSign : List Char → Bool × List Char
  | '-' :: r => (true, r)
  | '+' :: r => (false, r)
  | s => (false, s)

/-- The standard `std::stoi(str)` in base 10: leading white space is skipped,
an optional sign is read, then the longest run of digits; it throws
`std::invalid_argument` when there is no digit and `std::out_of_range` when
the value does not fit `int`. -/
def stoi (str : String) : Result Int :=
  let signed := stoiSign (str.toList.dropWhile isspace)
  let digits := signed.2.takeWhile isdigit
  if digits.isEmpty then .error ⟨.STD_INVALID_ARGUMENT, "stoi"⟩
  else
    let value : Int := if signed.1 then -(digitsValue digits : Int) else (digitsValue digits : Int)
    if value < -2147483648 ∨ value > 2147483647 then .error ⟨.STD_OUT_OF_RANGE, "stoi"⟩
    else .ok value

/-- The description of a table-backed read (`MergeTreeTable` of
`Common/MergeTreeTool.h`) that the extension table of a read relation carries:
the store and the requested block range. -/
structure MergeTreeTable where
  database : String
  table : String
  relative_path : String
  min_block : Int
  max_block : Int

/-- The collaborators of the relation translator that are outside the excerpt:
the iterators the host registered, the table-backed store, and the relation
parsers of `Parser/RelParser.h`. -/
structure PlanEnv where
  /-- The member `input_iters`: the host iterators registered before the
  translation, each by a description. -/
  input_iters : List String
  /-- The helper `parseMergeTreeTableString` of `Common/MergeTreeTool.h`. -/
  parseMergeTreeTableString : String → MergeTreeTable
  /-- The helper `MergeTreeUtil::getAllMergeTreeParts(path)`. -/
  getAllMergeTreeParts : String → List String
  /-- The helper `MergeTreeUtil::getSchemaFromMergeTreePart(part)`. -/
  getSchemaFromMergeTreePart : String → Block
  /-- The storage lookup `StorageMergeTreeFactory::getStorage`, which loads the
  data parts of a store it has not seen, reduced to `getDataPartsVector()` of
  the storage it returns, by database, table, relative path and columns. -/
  getDataPartsVector : String → String → String → Block → Result (List DataPart)
  /-- The calls `removeUnusedActions(Names(filter_name), ...)`,
  `projectInput(false)` and `tryRestoreColumn(name)` for each listed name on
  the actions of a pushdown predicate. -/
  restorePrewhereColumns : ActionsDAG → String → List String → ActionsDAG
  /-- The parser `RelParserFactory` gives for a sort relation, on the translated
  input, the content of the relation and the name counter. -/
  sortRelParser : QueryPlan → String → Nat → Result (QueryPlan × Nat)
  /-- The parser `RelParserFactory` gives for a window relation. -/
  windowRelParser : QueryPlan → String → Nat → Result (QueryPlan × Nat)

/-- Embedding of `SerializedPlanParser::parseReadRealWithLocalFile(rel)`. -/
def parseReadRealWithLocalFile (env : Env) (rel : ReadRel) : Result QueryPlan := do
  let header ← parseNameStruct env rel.get_base_schema
  pure ⟨[.ReadFromLocalFiles "read local files" rel.local_files_items], header⟩

/-- Embedding of `SerializedPlanParser::parseReadRealWithJavaIter(rel)`; the
read `input_iters[iter_index]` is unchecked. -/
def parseReadRealWithJavaIter (env : Env) (penv : PlanEnv) (rel : ReadRel) :
    Result QueryPlan := do
  let iter ←
    (match rel.local_files_items.get? 0 with
     | some uri_file => .ok uri_file
     | none => .error ⟨.STD_OUT_OF_RANGE, "RepeatedPtrField::at"⟩ : Result String)
  let iter_index ← stoi (substrAfter iter ':')
  let header ← parseNameStruct env rel.get_base_schema
  if iter_index < 0 ∨ penv.input_iters.length ≤ iter_index.toNat then
    .error ⟨.UNCHECKED_ACCESS, "vector index out of range"⟩
  else
    pure ⟨[.ReadFromJavaIter "Read From Java Iter" iter_index.toNat], header⟩

/-- Modelled from the spec: `ActionsDAG::removeUnusedActions(required_names)`
(absent): the output index becomes the nodes of the required names, in the
order given; a name that is not in the index is an error. -/
def ActionsDAG.removeUnusedActions (dag : ActionsDAG) (required_names : List String) :
    Result ActionsDAG := do
  let index ← required_names.mapM (fun name => dag.findInIndex name)
  pure { dag with index := index }

/-- Embedding of `SerializedPlanParser::removeNullable(require_columns,
actionsDag)`. -/
def removeNullable (env : Env) : List String → ActionsDAG → Result ActionsDAG
  | [], actionsDag => .ok actionsDag
  | item :: rest, actionsDag => do
    getFunctionBuilder env "assumeNotNull"
    let arg ← actionsDag.findInIndex item
    let (node, actionsDag) ← actionsDag.addFunction env "assumeNotNull" [some arg] item
    let actionsDag ← actionsDag.addOrReplaceInIndex (some node)
    removeNullable env rest actionsDag

/-- Embedding of `SerializedPlanParser::addRemoveNullableStep(plan, columns)`. -/
def addRemoveNullableStep (env : Env) (plan : QueryPlan) (columns : List String) :
    Result QueryPlan :=
  if columns.isEmpty then .ok plan
  else do
    let remove_nullable_actions_dag ←
      removeNullable env columns (ActionsDAG.ofInputs (blockToNameAndTypeList plan.header))
    pure (plan.addExpressionStep "Remove nullable properties" remove_nullable_actions_dag)

/-- The predicate `expr.has_singular_or_list()`. -/
def Expression.has_singular_or_list : Expression → Bool
  | .singular_or_list _ _ => true
  | _ => false

/-- The names `parsePreWhereInfo` restores into the actions of the pushdown
predicate: the columns the last projection selects, or every input column
when there is no projection above the read. -/
def prewhereRestoredNames (last_project : Option (List Expression)) (input : Block) :
    Result (List String) :=
  match last_project with
  | some expressions =>
    (expressions.filter (fun expr => expr.has_selection)).mapM (fun expr => do
      let c ← input.getByPosition expr.selection_field
      pure c.1)
  | none => .ok input.getNames

/-- Embedding of `SerializedPlanParser::parsePreWhereInfo(rel, input,
not_nullable_columns)`; returns the pushdown predicate, the extended list of
not-null columns and the name counter. -/
def parsePreWhereInfo (env : Env) (penv : PlanEnv) (function_mapping : StringMap)
    (last_project : Option (List Expression)) (rel : Expression) (input : Block)
    (not_nullable_columns : List String) (name_no : Nat) :
    Result (PrewhereInfo × List String × Nat) := do
  let prewhere_actions := ActionsDAG.ofInputs input
  let (filter_name, not_nullable_columns, st) ←
    (if rel.has_singular_or_list then do
      let (in_node, st) ← parseArgument env function_mapping rel
        { dag := prewhere_actions, name_no := name_no }
      let dag ← st.dag.addOrReplaceInIndex in_node
      let n ← dag.deref in_node
      pure (n.result_name, not_nullable_columns, { st with dag := dag })
    else do
      let r ← parseFunctionWithDAG env function_mapping rel not_nullable_columns true
        { dag := prewhere_actions, name_no := name_no }
      pure (r.result_name, r.required_columns, r.state) :
        Result (String × List String × PState))
  let names ← prewhereRestoredNames last_project input
  pure (⟨penv.restorePrewhereColumns st.dag filter_name names, filter_name⟩,
    not_nullable_columns, st.name_no)

/-- The part selection of `parseMergeTreeTable`: the `copy_if` over the parts
of the store, which keeps their order. -/
def selectParts (min_block max_block : Int) (data_parts : List DataPart) : List DataPart :=
  data_parts.filter (fun part =>
    decide (part.min_block ≥ min_block) && decide (part.max_block < max_block))

/-- The header statement of `parseMergeTreeTable`: the declared schema, or,
when it is empty, the first column of the first part of the store. -/
def mergeTreeHeader (env : Env) (penv : PlanEnv) (rel : ReadRel)
    (merge_tree_table : MergeTreeTable) : Result Block :=
  if rel.base_schema.isSome && rel.get_base_schema.names.length != 0 then
    parseNameStruct env rel.get_base_schema
  else
    match penv.getAllMergeTreeParts merge_tree_table.relative_path with
    | [] => .error ⟨.LOGICAL_ERROR, "Empty mergetree directory: \x7b\x7d"⟩
    | part :: _ =>
      match penv.getSchemaFromMergeTreePart part with
      | [] => .error ⟨.UNCHECKED_ACCESS, "front() of an empty list"⟩
      | c :: _ => .ok [c]

/-- The filter statement of `parseMergeTreeTable`: the pushdown predicate of a
declared filter, its not-null columns and the name counter. -/
def mergeTreePrewhere (env : Env) (penv : PlanEnv) (function_mapping : StringMap)
    (last_project : Option (List Expression)) (rel : ReadRel) (header : Block)
    (name_no : Nat) : Result (Option PrewhereInfo × List String × Nat) :=
  match rel.filter with
  | some filter => do
    let r ← parsePreWhereInfo env penv function_mapping last_project filter header [] name_no
    pure (some r.1, r.2.1, r.2.2)
  | none => pure (none, [], name_no)

/-- The tail of `parseMergeTreeTable`: the read over the selected parts and
the removal of nullability from the not-null columns the header has. -/
def readSelectedParts (env : Env) (selected_parts : List DataPart) (header : Block)
    (prewhere_info : Option PrewhereInfo) (not_null_columns : List String) :
    Result QueryPlan :=
  let query : QueryPlan :=
    ⟨[.ReadFromParts selected_parts header.getNames prewhere_info], header⟩
  if !not_null_columns.isEmpty then
    addRemoveNullableStep env query
      (not_null_columns.filter (fun item => query.header.getNames.contains item))
  else .ok query

/-- Embedding of `SerializedPlanParser::parseMergeTreeTable(rel)`; returns the
plan and the name counter.  `last_project` is the member the enclosing
projection has set.  The plan `readFromParts` returns is a single read step
over the selected parts whose schema is the header. -/
def parseMergeTreeTable (env : Env) (penv : PlanEnv) (function_mapping : StringMap)
    (last_project : Option (List Expression)) (rel : ReadRel) (name_no : Nat) :
    Result (QueryPlan × Nat) := do
  let merge_tree_table := penv.parseMergeTreeTableString rel.extension_table_detail
  let header ← mergeTreeHeader env penv rel merge_tree_table
  let data_parts ← penv.getDataPartsVector merge_tree_table.database merge_tree_table.table
    merge_tree_table.relative_path header
  let (prewhere_info, not_null_columns, name_no) ←
    mergeTreePrewhere env penv function_mapping last_project rel header name_no
  let min_block := merge_tree_table.min_block
  let max_block := merge_tree_table.max_block
  let selected_parts := selectParts min_block max_block data_parts
  if selected_parts.isEmpty then
    .error ⟨.NO_SUCH_DATA_PART, "part \x7b\x7d to \x7b\x7d not found."⟩
  else do
    let query ← readSelectedParts env selected_parts header prewhere_info not_null_columns
    pure (query, name_no)

/-! ## Relations (`substrait::Rel`) and the plan -/

/-- The message `substrait::Rel`, a one-of over the relation kinds.  An input
that is not set reads as the default message `not_set`; `other` stands for the
kinds the translator does not support.  Sort and window relations carry their
content opaquely, for the parsers of `Parser/RelParser.h`. -/
inductive Rel where
  | fetch (input : Rel) (offset count : Int)
  | filter (input : Rel) (condition : Expression)
  | project (input : Rel) (expressions : List Expression)
  | generate (input : Rel) (child_output : List Expression) (generator : Expression)
  | aggregate (input : Rel) (aggregate : AggregateRel)
  | read (read : ReadRel)
  | join (has_left has_right : Bool) (left right : Rel) (join : JoinRel)
  | sort (input : Rel) (detail : String)
  | window (input : Rel) (detail : String)
  | other
  | not_set

/-- The members of the parser that `parseOp` reads and writes: the
process-wide name counter and `last_project`. -/
structure ParserState where
  name_no : Nat
  last_project : Option (List Expression)

/-- Modelled from the spec: appending an aggregation step; the schema becomes
the key columns followed by one column per aggregate under its column name,
of the result type of the function after a merging (final) step and of its
intermediate-state type after an aggregating step. -/
def QueryPlan.addAggregateStep (plan : QueryPlan) (step : QueryPlanStep) : QueryPlan :=
  match step with
  | .MergingAggregatedStep keys aggregates =>
    { steps := plan.steps ++ [step]
      header := keys.filterMap (fun k => plan.header.get? k) ++
        aggregates.map (fun a => (a.column_name, a.function.return_type)) }
  | .AggregatingStep keys aggregates =>
    { steps := plan.steps ++ [step]
      header := keys.filterMap (fun k => plan.header.get? k) ++
        aggregates.map (fun a => (a.column_name, a.function.state_type)) }
  | _ => { plan with steps := plan.steps ++ [step] }

/-- The first loop of the final-aggregate case of `parseOp`: the position and
the declared output type of every measure. -/
def measurePositions : List Measure → Result (List (Int × SType))
  | [] => .ok []
  | m :: rest => do
    let a0 ← argument m.measure.arguments 0
    let tail ← measurePositions rest
    pure ((a0.selection_field, m.measure.output_type) :: tail)

/-- The second loop of the final-aggregate case of `parseOp`: the target
columns and the flag `need_convert`; `source[position]` is an unchecked
read. -/
def convertTargets (source : Block) : List (Int × SType) → Block × Bool → Result (Block × Bool)
  | [], acc => .ok acc
  | (position, type) :: rest, (target, need_convert) => do
    let c ← source.getByPosition position
    let matched ← isTypeMatched type c.2
    if !matched then do
      let target_type ← parseType0 type
      convertTargets source rest
        (target.modify (fun t => (t.1, target_type)) position.toNat, true)
    else convertTargets source rest (target, need_convert)

/-- The conversion of the output of a final aggregate in `parseOp`. -/
def convertAggregateOutput (measures : List Measure) (query_plan : QueryPlan) :
    Result QueryPlan := do
  let positions ← measurePositions measures
  let source := query_plan.header
  let (target, need_convert) ← convertTargets source positions (source, false)
  if need_convert then do
    let convert_action ← makeConvertingActions source target
    pure (query_plan.addExpressionStep "Convert Aggregate Output" convert_action)
  else pure query_plan

/-- The Filter case of `parseOp`, after the input relation has been
translated to `query_plan`. -/
def parseFilter (env : Env) (function_mapping : StringMap) (query_plan : QueryPlan)
    (condition : Expression) (name_no : Nat) : Result (QueryPlan × Nat) := do
  let r ← parseFunction env function_mapping query_plan.header condition [] none true name_no
  let filter_name := r.result_name
  let required_columns := r.required_columns
  let input_with_condition := query_plan.header.getNames ++ [filter_name]
  let actions_dag ← r.state.dag.removeUnusedActions input_with_condition
  let query_plan := query_plan.addFilterStep "" actions_dag filter_name
  let query_plan ← addRemoveNullableStep env query_plan required_columns
  pure (query_plan, r.state.name_no)

/-- The Read case of `parseOp`. -/
def parseRead (env : Env) (penv : PlanEnv) (function_mapping : StringMap) (read : ReadRel)
    (st : ParserState) : Result (QueryPlan × ParserState) := do
  let (query_plan, name_no) ←
    (if read.has_local_files then
      if isReadRelFromJava read then do
        let p ← parseReadRealWithJavaIter env penv read
        pure (p, st.name_no)
      else do
        let p ← parseReadRealWithLocalFile env read
        pure (p, st.name_no)
    else parseMergeTreeTable env penv function_mapping st.last_project read st.name_no :
      Result (QueryPlan × Nat))
  pure (query_plan, { name_no := name_no, last_project := none })

/-- The schema `read_schema` of the Project and Generate case of `parseOp`:
the declared schema of a table-backed read directly below, the translated
schema otherwise. -/
def projectReadSchema (env : Env) (input : Rel) (query_plan : QueryPlan) : Result Block :=
  match input with
  | .read read =>
    if !read.has_local_files then parseNameStruct env read.get_base_schema
    else .ok query_plan.header
  | _ => .ok query_plan.header

/-- Embedding of `SerializedPlanParser::parseOp(rel, rel_stack)`; the stack of
enclosing relations is read by the sort and window parsers only, which are
collaborators. -/
def parseOp (env : Env) (penv : PlanEnv) (function_mapping : StringMap) :
    Rel → ParserState → Result (QueryPlan × ParserState)
  | .fetch input offset count, st => do
    let (query_plan, st) ← parseOp env penv function_mapping input st
    pure ({ query_plan with steps := query_plan.steps ++ [.LimitStep count offset] }, st)
  | .filter input condition, st => do
    let (query_plan, st) ← parseOp env penv function_mapping input st
    let (query_plan, name_no) ← parseFilter env function_mapping query_plan condition st.name_no
    pure (query_plan, { st with name_no := name_no })
  | .project input expressions, st => do
    let (query_plan, st) ← parseOp env penv function_mapping input
      { st with last_project := some expressions }
    let read_schema ← projectReadSchema env input query_plan
    let (actions_dag, name_no) ← expressionsToActionsDAG env function_mapping expressions
      query_plan.header read_schema st.name_no
    pure (query_plan.addExpressionStep "Project" actions_dag, { st with name_no := name_no })
  | .generate input child_output generator, st => do
    let (query_plan, st) ← parseOp env penv function_mapping input st
    let read_schema ← projectReadSchema env input query_plan
    let (actions_dag, name_no) ← expressionsToActionsDAG env function_mapping
      (child_output ++ [generator]) query_plan.header read_schema st.name_no
    pure (query_plan.addExpressionStep "Generate" actions_dag, { st with name_no := name_no })
  | .aggregate input aggregate, st => do
    let (query_plan, st) ← parseOp env penv function_mapping input st
    let outcome := parseAggregate env function_mapping st.name_no query_plan aggregate
    let out ← outcome.result
    let query_plan := out.plan.addAggregateStep out.step
    let query_plan ←
      (if outcome.is_final == some true then
        convertAggregateOutput aggregate.measures query_plan
      else pure query_plan : Result QueryPlan)
    pure (query_plan, { st with name_no := out.name_no })
  | .read read, st => parseRead env penv function_mapping read st
  | .join has_left has_right left right join, st =>
    if !has_left || !has_right then
      .error ⟨.BAD_ARGUMENTS, "left table or right table is missing."⟩
    else do
      let (left_plan, st) ← parseOp env penv function_mapping left
        { st with last_project := none }
      let (right_plan, st) ← parseOp env penv function_mapping right
        { st with last_project := none }
      let out ← parseJoin env function_mapping st.name_no join left_plan right_plan
      pure (out.plan, { st with name_no := out.name_no })
  | .sort input detail, st => do
    let (query_plan, st) ← parseOp env penv function_mapping input st
    let (query_plan, name_no) ← penv.sortRelParser query_plan detail st.name_no
    pure (query_plan, { st with name_no := name_no })
  | .window input detail, st => do
    let (query_plan, st) ← parseOp env penv function_mapping input st
    let (query_plan, name_no) ← penv.windowRelParser query_plan detail st.name_no
    pure (query_plan, { st with name_no := name_no })
  | .other, _ => .error ⟨.UNKNOWN_TYPE, "doesn't support relation type: \x7b\x7d.\n\x7b\x7d"⟩
  | .not_set, _ => .error ⟨.UNKNOWN_TYPE, "doesn't support relation type: \x7b\x7d.\n\x7b\x7d"⟩

/-- The message `substrait::RelRoot`: the input relation and the declared
output names. -/
structure RelRoot where
  input : Rel
  names : List String

/-- The message `substrait::PlanRel`, a one-of over a plain relation and a
root relation. -/
inductive PlanRel where
  | rel (rel : Rel)
  | root (root : RelRoot)
  | not_set

/-- The message `substrait::Plan`: the extension declarations and the
top-level relations. -/
structure Plan where
  extensions : List SimpleExtensionDeclaration
  relations : List PlanRel

/-- The alias loop of `parse`: `cols.getNames()[i]` is an unchecked read. -/
def outputAliases (cols : List String) : Nat → List String → Result (List (String × String))
  | _, [] => .ok []
  | i, name :: names =>
    match cols.get? i with
    | none => .error ⟨.UNCHECKED_ACCESS, "vector index out of range"⟩
    | some c => do
      let rest ← outputAliases cols (i + 1) names
      pure ((c, name) :: rest)

/-- What a successful `parse` returns and leaves behind: the plan, the anchor
table and the members of the parser. -/
structure ParseOutput where
  query_plan : QueryPlan
  function_mapping : StringMap
  state : ParserState

/-- Embedding of `SerializedPlanParser::parse(plan)`; the member
`function_mapping` and the other members are passed in. -/
def parse (env : Env) (penv : PlanEnv) (function_mapping : StringMap) (st : ParserState)
    (plan : Plan) : Result ParseOutput :=
  let function_mapping := parseExtensions function_mapping plan.extensions
  if plan.relations.length == 1 then
    match plan.relations.get? 0 with
    | some (.root root) => do
      let (query_plan, st) ← parseOp env penv function_mapping root.input st
      if root.names.length != 0 then do
        let actions_dag := ActionsDAG.ofInputs (blockToNameAndTypeList query_plan.header)
        let aliases ← outputAliases query_plan.header.getNames 0 root.names
        let actions_dag ← actions_dag.projectAliases aliases
        pure ⟨query_plan.addExpressionStep "Rename Output" actions_dag, function_mapping, st⟩
      else pure ⟨query_plan, function_mapping, st⟩
    | _ => .error ⟨.BAD_ARGUMENTS, "must have root rel!"⟩
  else
    .error ⟨.BAD_ARGUMENTS, "too many relations found"⟩

/-! ## The function `ascii` (`Functions/ascii.cpp`)

A string column (`ColumnString`) is a byte buffer `Chars` (`UInt8` values, read
modulo 256) and the end offsets of its rows (`UInt64`); the result column is a
`PaddedPODArray<Int32>` whose elements are written without a range check. -/

/-- Embedding of `AsciiImpl::doAscii(buf, offset, size)`; `buf[offset]` is an
unchecked read. -/
def AsciiImpl.doAscii (buf : List Nat) (offset size : Nat) : Result Int :=
  if size != 0 then
    match buf.get? offset with
    | some b => .ok ((b % 256 : Nat) : Int)
    | none => .error ⟨.UNCHECKED_ACCESS, "read past the end of the buffer"⟩
  else .ok 0

/-- The unchecked write `res[i] = value`. -/
def AsciiImpl.assign (res : List Int) (i : Nat) (value : Int) : Result (List Int) :=
  if i < res.length then .ok (res.set i value)
  else .error ⟨.UNCHECKED_ACCESS, "write past the end of the result"⟩

/-- The loop of `AsciiImpl::vector` from row `i` on, over the offsets not yet
visited; the size `offsets[i] - prev_offset - 1` is computed in `size_t`. -/
def AsciiImpl.vectorLoop (data : List Nat) :
    List Nat → Nat → Nat → List Int → Result (List Int)
  | [], _, _, res => .ok res
  | offset :: offsets, i, prev_offset, res => do
    let value ← AsciiImpl.doAscii data prev_offset
      ((((offset : Int) - (prev_offset : Int) - 1) % 18446744073709551616).toNat)
    let res ← AsciiImpl.assign res i value
    AsciiImpl.vectorLoop data offsets (i + 1) offset res

/-- Embedding of `AsciiImpl::vector(data, offsets, res)`; returns the result
column after the call. -/
def AsciiImpl.vector (data : List Nat) (offsets : List Nat) (res : List Int) :
    Result (List Int) :=
  AsciiImpl.vectorLoop data offsets 0 0 res

/-- The loop of `AsciiImpl::vectorFixedToVector` from row `i` on, `count` rows
being left; the offset `i * n` is computed in `size_t`. -/
def AsciiImpl.fixedLoop (data : List Nat) (n : Nat) : Nat → Nat → List Int → Result (List Int)
  | 0, _, res => .ok res
  | count + 1, i, res => do
    let value ← AsciiImpl.doAscii data ((i * n) % 18446744073709551616) n
    let res ← AsciiImpl.assign res i value
    AsciiImpl.fixedLoop data n count (i + 1) res

/-- Embedding of `AsciiImpl::vectorFixedToVector(data, n, res)`; the division
`data.size() / n` by a zero width is undefined. -/
def AsciiImpl.vectorFixedToVector (data : List Nat) (n : Nat) (res : List Int) :
    Result (List Int) :=
  if n = 0 then .error ⟨.UNCHECKED_ACCESS, "division by zero"⟩
  else AsciiImpl.fixedLoop data n (data.length / n) 0 res

/-! ## Shapes of relations -/

/-- The keys of an aggregation step. -/
def QueryPlanStep.keys : QueryPlanStep → List Nat
  | .AggregatingStep keys _ => keys
  | .MergingAggregatedStep keys _ => keys
  | _ => []

/-- The grouping-key statement of `parseAggregate`: the keys of the single
grouping set, no key without a grouping set, an error for more than one. -/
def aggregateKeys (rel : AggregateRel) : Result (List Nat) :=
  if rel.groupings.length == 1 then
    match rel.groupings with
    | g :: _ => groupingKeys g.grouping_expressions
    | [] => pure []
  else if rel.groupings.length != 0 then
    throw ⟨.LOGICAL_ERROR, "too many groupings"⟩
  else pure []

/-- Whether the block range of a part and the requested range
`[min_block, max_block)` have a block in common. -/
def DataPart.intersects (part : DataPart) (min_block max_block : Int) : Bool :=
  decide (part.min_block < max_block) && decide (min_block ≤ part.max_block)

/-! ## Shapes of types -/

/-- The nullability flag a type descriptor carries itself; a descriptor without
a kind has none set. -/
def SType.nullability : SType → Type_Nullability
  | .bool_ n => n
  | .i8 n => n
  | .i16 n => n
  | .i32 n => n
  | .i64 n => n
  | .fp32 n => n
  | .fp64 n => n
  | .string n => n
  | .binary n => n
  | .timestamp n => n
  | .date n => n
  | .decimal _ _ n => n
  | .struct_ _ n => n
  | .list _ n => n
  | .map _ _ n => n
  | .other => .NULLABILITY_UNSPECIFIED
  | .not_set => .NULLABILITY_UNSPECIFIED

/-- The descriptor with its own nullability flag replaced; the flags of nested
descriptors are kept. -/
def SType.setNullability (n : Type_Nullability) : SType → SType
  | .bool_ _ => .bool_ n
  | .i8 _ => .i8 n
  | .i16 _ => .i16 n
  | .i32 _ => .i32 n
  | .i64 _ => .i64 n
  | .fp32 _ => .fp32 n
  | .fp64 _ => .fp64 n
  | .string _ => .string n
  | .binary _ => .binary n
  | .timestamp _ => .timestamp n
  | .date _ => .date n
  | .decimal s p _ => .decimal s p n
  | .struct_ types _ => .struct_ types n
  | .list t _ => .list t n
  | .map k v _ => .map k v n
  | .other => .other
  | .not_set => .not_set

/-- The base kinds of the external type system. -/
inductive BaseKind where
  | bool
  | int8
  | int16
  | int32
  | int64
  | fp32
  | fp64
  | string
  | binary
  | date
  | timestamp
  | decimal
  | struct
  | list
  | map
  deriving DecidableEq, Repr

/-- The base kind of a type descriptor; none for a descriptor the translator
does not support. -/
def SType.baseKind : SType → Option BaseKind
  | .bool_ _ => some .bool
  | .i8 _ => some .int8
  | .i16 _ => some .int16
  | .i32 _ => some .int32
  | .i64 _ => some .int64
  | .fp32 _ => some .fp32
  | .fp64 _ => some .fp64
  | .string _ => some .string
  | .binary _ => some .binary
  | .timestamp _ => some .timestamp
  | .date _ => some .date
  | .decimal _ _ _ => some .decimal
  | .struct_ _ _ => some .struct
  | .list _ _ => some .list
  | .map _ _ _ => some .map
  | .other => none
  | .not_set => none

/-- The base kind an internal type that is not nullable maps back to: every
decimal width maps back to `decimal`, character data to `string`. -/
def DataType.baseShape : DataType → Option BaseKind
  | .UInt8 => some .bool
  | .Int8 => some .int8
  | .Int16 => some .int16
  | .Int32 => some .int32
  | .Int64 => some .int64
  | .Float32 => some .fp32
  | .Float64 => some .fp64
  | .String => some .string
  | .Date32 => some .date
  | .DateTime64 _ => some .timestamp
  | .Decimal32 _ _ => some .decimal
  | .Decimal64 _ _ => some .decimal
  | .Decimal128 _ _ => some .decimal
  | .Tuple _ _ => some .struct
  | .Array _ => some .list
  | .Map _ _ => some .map
  | _ => none

/-- The external shape an internal type maps back to: its base kind and
whether it is nullable. -/
def DataType.externalShape : DataType → Option (BaseKind × Bool)
  | .Nullable nested => nested.baseShape.map (fun k => (k, true))
  | t => t.baseShape.map (fun k => (k, false))

/-- The base kind up to the identification the type mapper makes: binary data
is kept as character data. -/
def BaseKind.internal : BaseKind → BaseKind
  | .binary => .string
  | k => k

/-- The nine keywords of the name-based mapper. -/
def typeKeywords : List String :=
  ["BooleanType", "ByteType", "ShortType", "IntegerType", "LongType", "FloatType",
   "DoubleType", "StringType", "DateType"]

/-! ## The date-part vocabulary -/

/-- The ten date parts of `extract` and their internal functions. -/
def extractVocabulary : List (String × String) :=
  [("YEAR", "toYear"), ("YEAR_OF_WEEK", "toISOYear"), ("QUARTER", "toQuarter"),
   ("MONTH", "toMonth"), ("WEEK_OF_YEAR", "toISOWeek"), ("DAY", "toDayOfMonth"),
   ("DAY_OF_YEAR", "toDayOfYear"), ("HOUR", "toHour"), ("MINUTE", "toMinute"),
   ("SECOND", "toSecond")]

/-! ## Shapes of extension lists -/

/-- The name of the first function declaration of the list with the given
anchor. -/
def firstFunctionDeclaration (anchor : Nat) : List SimpleExtensionDeclaration → Option String
  | [] => none
  | .extension_function function_anchor name :: extensions =>
    if function_anchor = anchor then some name else firstFunctionDeclaration anchor extensions
  | _ :: extensions => firstFunctionDeclaration anchor extensions

/-! ## Shapes of conditionals -/

/-- The arguments of the conditional-selection call in the order the
specification gives them: `cond_1, value_1, ..., cond_n, value_n, else`. -/
def flattenedBranches (ifs : List (Expression × Expression)) (else_ : Expression) :
    List Expression :=
  ifs.flatMap (fun p => [p.1, p.2]) ++ [else_]

/-- Compilation of a list of expressions one after the other, each in the
state the previous one left: the reading of "compiled as a single variadic
function over the flattened pairs" the branch loop is compared with. -/
def compileAll (env : Env) (function_mapping : StringMap) :
    List Expression → PState → Result (List NodePtr × PState)
  | [], st => .ok ([], st)
  | e :: es, st => do
    let (node, st) ← parseArgument env function_mapping e st
    let (nodes, st) ← compileAll env function_mapping es st
    pure (node :: nodes, st)

/-- Modelled from the spec: the arity rule of the conditional-selection
function `multiIf` of the function registry (`Functions/multiIf.cpp`, which is
not part of the excerpt): "at least one branch is required", so the registry
rejects a call over the else value alone when it computes the result type. -/
def MultiIfRequiresBranch (env : Env) : Prop :=
  ∀ ty, (env.functionReturnType "multiIf" [ty]).failed = true

/-! ## Names of aggregate columns -/

/-- The aggregates of an aggregation step. -/
def QueryPlanStep.aggregates : QueryPlanStep → List AggregateDescription
  | .AggregatingStep _ aggregates => aggregates
  | .MergingAggregatedStep _ aggregates => aggregates
  | _ => []

/-- The argument name of a measure over the header `input`: the measure has a
single argument, and `name` is the name of the input column that argument
refers to, or the name given to the constant that materialises the literal
argument (the text of its value with a counter suffix). -/
def IsArgumentName (env : Env) (input : Block) (m : Measure) (name : String) : Prop :=
  ∃ arg, m.measure.arguments = [arg] ∧
    ((arg.has_selection = true ∧
        ∃ ty, input.getByPosition arg.selection_field = .ok (name, ty)) ∨
     (∃ l type field n, arg = .literal l ∧ parseLiteral env l = .ok (type, field) ∧
        name = (getUniqueName n (env.fieldToString field)).1))

/-- The aggregate column name the naming convention prescribes for a measure
with argument name `argName`: `functionName(argName)` in the initial phase,
`argName` in every other phase, `functionName` being the text of the
registered signature before its first colon. -/
def conventionalColumnName (function_mapping : StringMap) (m : Measure) (argName : String) :
    Result String := do
  let function_signature ←
    StringMap.at function_mapping (toString m.measure.function_reference)
  if m.measure.phase = .AGGREGATION_PHASE_INITIAL_TO_INTERMEDIATE then
    pure (substrBefore function_signature ':' ++ "(" ++ argName ++ ")")
  else
    pure argName

/-! ## Shapes of compiled nodes -/

/-- The predicate `type.has_decimal()`. -/
def SType.has_decimal : SType → Bool
  | .decimal _ _ _ => true
  | _ => false

/-- The predicate `type.has_timestamp()`. -/
def SType.has_timestamp : SType → Bool
  | .timestamp _ => true
  | _ => false

/-- The constant node `add_column` creates when the name counter stands at
`name_no`. -/
def constantNode (env : Env) (name_no : Nat) (type : DataType) (field : Field) : Node :=
  ⟨.COLUMN, (getUniqueName name_no (env.fieldToString field)).1, type, [], "", some field⟩

/-- A function application node: function `function` over the children
`children`, whose result names are `arg_names`, with declared type
`result_type`; it is named `function(arg_names joined by commas)`. -/
def functionNode (function : String) (arg_names : List String) (result_type : DataType)
    (children : List Nat) : Node :=
  ⟨.FUNCTION, function ++ "(" ++ ",".intercalate arg_names ++ ")", result_type, children,
    function, none⟩

/-! ## Shapes of join conditions -/

/-- The join conditions of the key-extraction scenario: a tree of two-argument
`and` nodes whose leaves are two-argument `equals` nodes comparing two direct
column references.  The list gives, leaf by leaf from left to right, the field
positions the leaf compares. -/
inductive EqualityConjunction (SCALAR_FUNCTIONS function_mapping : StringMap) :
    Expression → List (Int × Int) → Prop where
  | equals (r : Nat) (l_k r_k : Int) (t : SType) :
      resolveFunctionName SCALAR_FUNCTIONS function_mapping ⟨r, [col l_k, col r_k], t⟩
        = .ok "equals" →
      EqualityConjunction SCALAR_FUNCTIONS function_mapping
        (.scalar_function r [col l_k, col r_k] t) [(l_k, r_k)]
  | and (r : Nat) (a b : Expression) (t : SType) (ps qs : List (Int × Int)) :
      resolveFunctionName SCALAR_FUNCTIONS function_mapping ⟨r, [a, b], t⟩ = .ok "and" →
      EqualityConjunction SCALAR_FUNCTIONS function_mapping a ps →
      EqualityConjunction SCALAR_FUNCTIONS function_mapping b qs →
      EqualityConjunction SCALAR_FUNCTIONS function_mapping
        (.scalar_function r [a, b] t) (ps ++ qs)

/-- The nodes of a join condition that `collectJoinKeys` visits when nothing
fails before: the root, and the nodes reached from it through the first two
arguments of nodes that resolve to `and`. -/
inductive ReachedThroughAnd (SCALAR_FUNCTIONS function_mapping : StringMap) :
    Expression → Expression → Prop where
  | root (c : Expression) : ReachedThroughAnd SCALAR_FUNCTIONS function_mapping c c
  | first (r : Nat) (a0 : Expression) (rest : List Expression) (t : SType) (x : Expression) :
      resolveFunctionName SCALAR_FUNCTIONS function_mapping ⟨r, a0 :: rest, t⟩ = .ok "and" →
      ReachedThroughAnd SCALAR_FUNCTIONS function_mapping a0 x →
      ReachedThroughAnd SCALAR_FUNCTIONS function_mapping
        (.scalar_function r (a0 :: rest) t) x
  | second (r : Nat) (a0 a1 : Expression) (rest : List Expression) (t : SType)
      (x : Expression) :
      resolveFunctionName SCALAR_FUNCTIONS function_mapping ⟨r, a0 :: a1 :: rest, t⟩
        = .ok "and" →
      ReachedThroughAnd SCALAR_FUNCTIONS function_mapping a1 x →
      ReachedThroughAnd SCALAR_FUNCTIONS function_mapping
        (.scalar_function r (a0 :: a1 :: rest) t) x

/-! ## Shapes of name streams -/

mutual
/-- The number of names a type descriptor takes from a name stream: one for
the descriptor itself and, for a struct, those of its fields; the element of a
list and the key and value of a map take none. -/
def SType.nameCount : SType → Nat
  | .struct_ types _ => 1 + nameCountList types
  | _ => 1
/-- The number of names the fields of a struct take from a name stream. -/
def nameCountList : List SType → Nat
  | [] => 0
  | t :: ts => t.nameCount + nameCountList ts
end

/-- The names of the fields of a struct over a name stream: for each field
the name at the head of the stream when the field is entered. -/
def structFieldNames : List SType → List String → List String
  | [], _ => []
  | t :: ts, names => names.head?.toList ++ structFieldNames ts (names.drop t.nameCount)

/-- The predicate `type.has_struct_()`. -/
def SType.has_struct : SType → Bool
  | .struct_ _ _ => true
  | _ => false

/-! ## Shapes of joins -/

/-- The right plan of `parseJoin` after its rename step, which is added when
the list `right_table_alias` is not empty. -/
def rightTableRename (right : QueryPlan) (right_table_alias : List (String × String)) :
    QueryPlan :=
  if !right_table_alias.isEmpty then
    right.addExpressionStep "Right Table Rename"
      ((ActionsDAG.ofInputs right.header).addAliases right_table_alias)
  else right

/-! ## Shapes of aggregate outputs -/

/-- Whether the declared output type of a measure, given with the position of
the measure, differs from the type of the column at that position. -/
def typeMismatch (source : Block) (p : Int × SType) : Bool :=
  match source.getByPosition p.1 with
  | .ok c =>
    match isTypeMatched p.2 c.2 with
    | .ok matched => !matched
    | .error _ => false
  | .error _ => false

/-! ## Shapes of pre-projections -/

/-- Whether the single argument of a measure is a literal and not a column
reference, the case in which `addPreProjectStepIfNeeded` materialises it. -/
def Measure.hasLiteralArgument (m : Measure) : Bool :=
  match m.measure.arguments with
  | [arg] => !arg.has_selection && arg.has_literal
  | _ => false

/-- The substitutions `wrapNullable` records for a list of column names, one
after the other: every name is mapped to `toNullable(name)`. -/
def recordWrapped (columns : List String) (nullable_measure_names : StringMap) : StringMap :=
  columns.foldl (fun m item => StringMap.assign m item ("toNullable(" ++ item ++ ")"))
    nullable_measure_names

/-! ## Shapes of calls -/

/-- The exchange of the first two arguments `parseFunctionWithDAG` makes for
`splitByRegexp`; a shorter vector is left as it is. -/
def swapFirstTwo : List NodePtr → List NodePtr
  | a :: b :: rest => b :: a :: rest
  | l => l

/-- The arguments of the call `parseFunctionWithDAG` builds for a function other
than `alias` and `arrayJoin`, before the rewrite of `check_overflow`: the
compiled arguments, the first two exchanged for `splitByRegexp`, without the
first one when the signature contains `extract:`. -/
def callArguments (function_signature function_name : String) (args : List NodePtr) :
    List NodePtr :=
  let swapped := if function_name == "splitByRegexp" then swapFirstTwo args else args
  if containsSubstr function_signature "extract:" then swapped.drop 1 else swapped

/-! ## Shapes of string columns -/

/-- The rows of a string column: the bytes between the end offset of the
previous row (`prev` for the first one) and the trailing terminator byte of
the row. -/
def ColumnString.rows (data : List Nat) : Nat → List Nat → List (List Nat)
  | _, [] => []
  | prev, offset :: offsets =>
    (data.drop prev).take (offset - prev - 1) :: ColumnString.rows data offset offsets

/-- The code of the first byte of a string, 0 for the empty string. -/
def asciiOfString : List Nat → Int
  | [] => 0
  | b :: _ => ((b % 256 : Nat) : Int)

/-- The first byte of every row of a column of fixed-width strings. -/
def fixedFirstBytes (data : List Nat) (n : Nat) : List Int :=
  (List.range (data.length / n)).map (fun i => ((data.getD (i * n) 0 % 256 : Nat) : Int))

/-! ## Sample tables

The header that declares `SCALAR_FUNCTIONS` is not part of the excerpt; the
concrete instances below use this small table. -/

/-- A sample supported-function table. -/
def sampleScalarFunctions : StringMap :=
  [("and", "and"), ("or", "or"), ("equal", "equals"), ("gt", "greater"),
   ("is_not_null", "isNotNull"), ("cast", ""), ("extract", ""), ("check_overflow", ""),
   ("alias", "alias")]

/-- A sample text of constants: integers in decimal, strings as they are. -/
def sampleFieldToString : Field → String
  | .UInt64 v => toString v
  | .Int64 v => toString v
  | .String v => v
  | _ => "?"

/-- A sample function registry: every name is known; comparisons and logical
connectives return `UInt8`, `toDecimal64` a 64-bit decimal, anything else a
64-bit integer. -/
def sampleEnv : Env where
  SCALAR_FUNCTIONS := sampleScalarFunctions
  FUNCTION_NEED_KEEP_ARGUMENTS := []
  fieldToString := sampleFieldToString
  functionExists := fun _ => true
  functionReturnType := fun name _ =>
    if name == "toDecimal64" then .ok (.Decimal64 18 2)
    else if name == "equals" || name == "greater" || name == "and" || name == "or" then
      .ok .UInt8
    else .ok .Int64
  aggregateFunction := fun name args => .ok ⟨name, args, .AggregateFunction name args, .Int64⟩
  getDecimal128FromBytes := fun _ => 0
  parseJoinOptimizationInfo := fun o => (o == "isBHJ=1", "broadcast_table")
  getJoin := fun key => if key == "broadcast_table" then some [("x", .Int64)] else none
  deduplicateAndQualifyColumnNames := fun left_columns qualifier columns =>
    columns.map (fun c => if left_columns.contains c.1 then (qualifier ++ c.1, c.2) else c)
  createConvertingActions := fun _ _ => (none, none)
  joinHeader := fun left_header joined => left_header ++ joined

/-- A sample anchor table, as `parseExtensions` would build it. -/
def sampleFunctionMapping : StringMap :=
  [("0", "and:bool_bool"), ("1", "equal:i32_i32"), ("2", "or:bool_bool"),
   ("3", "gt:i64_i64"), ("4", "sum:i64")]

/-- A sample aggregate relation over a header `k, a`: grouped by column 0, with
the measures `sum(col[1])` and `sum(1)`, both in the initial phase. -/
def sampleAggregateRel : AggregateRel :=
  ⟨[⟨[col 0]⟩],
    [⟨⟨4, [col 1], .AGGREGATION_PHASE_INITIAL_TO_INTERMEDIATE, .i64 .NULLABILITY_REQUIRED⟩⟩,
     ⟨⟨4, [.literal (.i64 1)], .AGGREGATION_PHASE_INITIAL_TO_INTERMEDIATE,
        .i64 .NULLABILITY_REQUIRED⟩⟩]⟩

/-- A sample left plan with the columns `a, b`. -/
def sampleLeftPlan : QueryPlan :=
  ⟨[.Source "left"], [("a", .Int64), ("b", .Int64)]⟩

/-- A sample right plan with the column `c`. -/
def sampleRightPlan : QueryPlan :=
  ⟨[.Source "right"], [("c", .Int64)]⟩

/-- The join condition `equals(col[0], col[2])` over the two sample plans. -/
def sampleEquiCondition : Expression :=
  .scalar_function 1 [col 0, col 2] (.bool_ .NULLABILITY_REQUIRED)

/-- The post-join filter `gt(col[0], col[2])`. -/
def samplePostJoinFilter : Expression :=
  .scalar_function 3 [col 0, col 2] (.bool_ .NULLABILITY_REQUIRED)

/-- The post-join filter `gt(cast(col[0] as i64), col[2])`. -/
def samplePostJoinFilterWithCast : Expression :=
  .scalar_function 3 [.cast (some (.i64 .NULLABILITY_REQUIRED)) (some (col 0)), col 2]
    (.bool_ .NULLABILITY_REQUIRED)

/-- The join condition `and(equals(col[0], col[5]), equals(col[1], col[6]))`. -/
def sampleJoinCondition : Expression :=
  .scalar_function 0
    [.scalar_function 1 [col 0, col 5] (.bool_ .NULLABILITY_REQUIRED),
     .scalar_function 1 [col 1, col 6] (.bool_ .NULLABILITY_REQUIRED)]
    (.bool_ .NULLABILITY_REQUIRED)

/-- A sample declaration list: two function declarations, a type declaration
and a second function declaration for anchor 0. -/
def sampleExtensions : List SimpleExtensionDeclaration :=
  [.extension_function 0 "and:bool_bool", .extension_type 7 "point",
   .extension_function 1 "equal:i32_i32", .extension_function 0 "or:bool_bool"]

/-- A sample anchor table with a date-part extraction. -/
def sampleExtractMapping : StringMap :=
  [("5", "extract:req_str_date")]

/-- A sample registry that applies the arity rule of `multiIf`: fewer than
three arguments are rejected; everything else is as in `sampleEnv`. -/
def sampleStrictEnv : Env :=
  { sampleEnv with
    functionReturnType := fun name types =>
      if name == "multiIf" && decide (types.length < 3) then
        .error ⟨.LIBRARY, "Invalid number of arguments for function multiIf"⟩
      else sampleEnv.functionReturnType name types }

/-- A sample host and store: four registered iterators; a store whose only
part covers the blocks 0 to 10, read with the requested block range 5 to 20;
sort and window parsers that leave the plan as it is. -/
def samplePlanEnv : PlanEnv where
  input_iters := ["it0", "it1", "it2", "it3"]
  parseMergeTreeTableString := fun _ => ⟨"default", "t", "data/t", 5, 20⟩
  getAllMergeTreeParts := fun _ => ["all_0_10_1"]
  getSchemaFromMergeTreePart := fun _ => [("a", .Int64)]
  getDataPartsVector := fun _ _ _ _ => .ok [⟨"all_0_10_1", 0, 10⟩]
  restorePrewhereColumns := fun dag _ _ => dag
  sortRelParser := fun p _ n => .ok (p, n)
  windowRelParser := fun p _ n => .ok (p, n)

/-- A sample plan: a file read whose declared schema has two columns named
`a`, of types `i32` and `string`, under a root that declares the output names
`x` and `y`. -/
def sampleRenamePlan : Plan :=
  ⟨[], [.root ⟨.read ⟨.local_files ["file:///t.parquet"],
      some ⟨["a", "a"], [.i32 .NULLABILITY_REQUIRED, .string .NULLABILITY_REQUIRED]⟩, none⟩,
    ["x", "y"]⟩]⟩

/-- A sample registry for nullable columns: `isNotNull` returns `UInt8`,
`assumeNotNull` the argument type without its nullability; everything else is
as in `sampleEnv`. -/
def sampleNullableEnv : Env :=
  { sampleEnv with
    functionReturnType := fun name types =>
      if name == "isNotNull" then .ok .UInt8
      else if name == "assumeNotNull" then
        match types with
        | [.Nullable nested] => .ok nested
        | [type] => .ok type
        | _ => .error ⟨.LIBRARY, "Number of arguments for function assumeNotNull doesn't match"⟩
      else sampleEnv.functionReturnType name types }

/-- A sample anchor table with a disjunction and a not-null test. -/
def sampleNullableMapping : StringMap :=
  [("0", "or:bool_bool"), ("1", "is_not_null:i64")]

/-- The predicate `or(is_not_null(col[0]), is_not_null(col[1]))`. -/
def sampleEitherNotNull : Expression :=
  .scalar_function 0
    [.scalar_function 1 [col 0] (.bool_ .NULLABILITY_REQUIRED),
     .scalar_function 1 [col 1] (.bool_ .NULLABILITY_REQUIRED)]
    (.bool_ .NULLABILITY_REQUIRED)

/-- A sample registry whose join asks for a conversion of both sides: the left
conversion passes the left columns on, the right conversion the right ones. -/
def sampleConvertingEnv : Env :=
  { sampleEnv with
    createConvertingActions := fun left_columns right_columns =>
      (some (ActionsDAG.ofInputs left_columns), some (ActionsDAG.ofInputs right_columns)) }

/-- A sample final aggregate over an iterator read of the schema `k, s`: grouped
by column 0, with the measure `sum(col[1])` in the final phase, declared to
return `fp64`. -/
def sampleFinalAggregate : Rel :=
  .aggregate
    (.read ⟨.local_files ["iterator:0"],
      some ⟨["k", "s"], [.i64 .NULLABILITY_REQUIRED, .i64 .NULLABILITY_REQUIRED]⟩, none⟩)
    ⟨[⟨[col 0]⟩],
      [⟨⟨4, [col 1], .AGGREGATION_PHASE_INTERMEDIATE_TO_RESULT, .fp64 .NULLABILITY_REQUIRED⟩⟩]⟩

/-- A sample registry in which `toNullable` returns the nullable type of its
argument. -/
def sampleWrappingEnv : Env :=
  { sampleEnv with
    functionReturnType := fun name types =>
      if name == "toNullable" then
        match types with
        | [type] => .ok (.Nullable type)
        | _ => .error ⟨.LIBRARY, "Number of arguments for function toNullable doesn't match"⟩
      else sampleEnv.functionReturnType name types }

/-- A sample anchor table with a sum and a count. -/
def sampleSumCountMapping : StringMap :=
  [("4", "sum:i64"), ("5", "count:i64")]

/-- A sample aggregate relation over a header `a`: the measures `sum(col[0])`,
declared to return a nullable `i64`, and `count(col[0])`, declared to return a
required `i64`, both in the initial phase. -/
def sampleSumCountRel : AggregateRel :=
  ⟨[],
    [⟨⟨4, [col 0], .AGGREGATION_PHASE_INITIAL_TO_INTERMEDIATE, .i64 .NULLABILITY_NULLABLE⟩⟩,
     ⟨⟨5, [col 0], .AGGREGATION_PHASE_INITIAL_TO_INTERMEDIATE, .i64 .NULLABILITY_REQUIRED⟩⟩]⟩

/-- A sample registry that supports a function whose name ends in `extract`. -/
def sampleRegexpEnv : Env :=
  { sampleEnv with SCALAR_FUNCTIONS := [("regexp_extract", "regexpExtract")] }

/-- A sample anchor table in which anchor 5 is registered under the bare name
`extract`, without the colon and the argument types, and anchor 6 under a
signature that also holds the text `check_overflow:`. -/
def sampleBareExtractMapping : StringMap :=
  [("5", "extract"), ("6", "extract:check_overflow:")]

end local_engine

/-!
# Properties
-/

namespace local_engine

/-! ## Auxiliary lemmas -/

theorem wrapInt32_of_isInt32 (x : Int) (h : isInt32 x) : wrapInt32 x = x := by
  unfold isInt32 at h
  unfold wrapInt32
  omega

theorem collectJoinKeys_and (SF fm : StringMap) (r : Nat) (a0 a1 : Expression)
    (rest : List Expression) (t : SType) (acc : List (Int × Int)) (n : Int)
    (h : resolveFunctionName SF fm ⟨r, a0 :: a1 :: rest, t⟩ = .ok "and") :
    collectJoinKeys SF fm (.scalar_function r (a0 :: a1 :: rest) t) acc n =
      (collectJoinKeys SF fm a0 acc n).bind (fun jk => collectJoinKeys SF fm a1 jk n) := by
  rw [collectJoinKeys]
  simp only [Expression.get_scalar_function, h]
  rfl

theorem collectJoinKeys_and_first (SF fm : StringMap) (r : Nat) (a0 : Expression)
    (rest : List Expression) (t : SType) (acc : List (Int × Int)) (n : Int)
    (h : resolveFunctionName SF fm ⟨r, a0 :: rest, t⟩ = .ok "and")
    (hfail : (collectJoinKeys SF fm a0 acc n).failed = true) :
    (collectJoinKeys SF fm (.scalar_function r (a0 :: rest) t) acc n).failed = true := by
  rw [collectJoinKeys]
  simp only [Expression.get_scalar_function, h]
  cases hc : collectJoinKeys SF fm a0 acc n with
  | error e => rfl
  | ok jk => rw [hc] at hfail; cases hfail

theorem collectJoinKeys_equals (SF fm : StringMap) (r : Nat) (a0 a1 : Expression)
    (rest : List Expression) (t : SType) (acc : List (Int × Int)) (n : Int)
    (h : resolveFunctionName SF fm ⟨r, a0 :: a1 :: rest, t⟩ = .ok "equals") :
    collectJoinKeys SF fm (.scalar_function r (a0 :: a1 :: rest) t) acc n =
      .ok (acc ++ [(a0.selection_field, wrapInt32 (a1.selection_field - n))]) := by
  rw [collectJoinKeys]
  simp only [Expression.get_scalar_function, h]
  rfl

theorem collectJoinKeys_other (SF fm : StringMap) (x : Expression) (name : String)
    (acc : List (Int × Int)) (n : Int)
    (h : resolveFunctionName SF fm x.get_scalar_function = .ok name)
    (hand : name ≠ "and") (heq : name ≠ "equals") :
    collectJoinKeys SF fm x acc n =
      .error ⟨.BAD_ARGUMENTS, "doesn't support condition \x7b\x7d"⟩ := by
  have h1 : (name == "and") = false := by simpa using hand
  have h2 : (name == "equals") = false := by simpa using heq
  unfold collectJoinKeys
  simp only [h]
  simp [bind, Except.bind, h1, h2, throw, throwThe, MonadExceptOf.throw]

theorem collectJoinKeys_conjunction (SF fm : StringMap) (c : Expression)
    (leaves : List (Int × Int)) (n : Int)
    (h : EqualityConjunction SF fm c leaves)
    (hr : ∀ p ∈ leaves, isInt32 (p.2 - n)) (acc : List (Int × Int)) :
    collectJoinKeys SF fm c acc n = .ok (acc ++ leaves.map (fun p => (p.1, p.2 - n))) := by
  induction h generalizing acc with
  | equals r l_k r_k t hres =>
    rw [collectJoinKeys_equals SF fm r (col l_k) (col r_k) [] t acc n hres]
    have hw : wrapInt32 (r_k - n) = r_k - n :=
      wrapInt32_of_isInt32 _ (hr (l_k, r_k) (by simp))
    simp [col, Expression.selection_field, hw]
  | and r a b t ps qs hres _ _ iha ihb =>
    rw [collectJoinKeys_and SF fm r a b [] t acc n hres]
    have ha := iha (fun p hp => hr p (by simp [hp])) acc
    rw [ha]
    have hb := ihb (fun p hp => hr p (by simp [hp])) (acc ++ ps.map (fun p => (p.1, p.2 - n)))
    simp only [Except.bind]
    rw [hb]
    simp

theorem collectJoinKeys_reached_fails (SF fm : StringMap) (c x : Expression) (name : String)
    (n : Int) (hreach : ReachedThroughAnd SF fm c x)
    (hres : resolveFunctionName SF fm x.get_scalar_function = .ok name)
    (hand : name ≠ "and") (heq : name ≠ "equals") (acc : List (Int × Int)) :
    (collectJoinKeys SF fm c acc n).failed = true := by
  induction hreach generalizing acc with
  | root c =>
    rw [collectJoinKeys_other SF fm c name acc n hres hand heq]
    rfl
  | first r a0 rest t x h _ ih =>
    exact collectJoinKeys_and_first SF fm r a0 rest t acc n h (ih hres acc)
  | second r a0 a1 rest t x h _ ih =>
    rw [collectJoinKeys_and SF fm r a0 a1 rest t acc n h]
    cases hc : collectJoinKeys SF fm a0 acc n with
    | error e => rfl
    | ok jk => exact ih hres jk

theorem parseArgument_scalar_function (env : Env) (fm : StringMap) (r : Nat)
    (arguments : List Expression) (t : SType) (st : PState) :
    parseArgument env fm (.scalar_function r arguments t) st =
      (parseFunctionWithDAG env fm (.scalar_function r arguments t) [] false st).bind
        (fun res => .ok (res.node, res.state)) := by
  rw [parseArgument, parseFunctionWithDAG]
  simp only [bind, Except.bind, pure, Except.pure]
  cases StringMap.at fm (toString r) with
  | error e => rfl
  | ok sig =>
    simp only []
    cases getFunctionName env.SCALAR_FUNCTIONS sig ⟨r, arguments, t⟩ with
    | error e => rfl
    | ok name =>
      simp only []
      cases parseFunctionArguments env fm name arguments [] st with
      | error e => rfl
      | ok v => rfl

theorem castInput_compile (env : Env) (fm : StringMap) (input : Expression) (st : PState)
    (hkind : (input.has_selection || input.has_literal || input.has_if_then ||
      input.has_scalar_function) = true) :
    (if (input.has_selection || input.has_literal) = true then parseArgument env fm input st
      else if input.has_if_then = true then parseArgument env fm input st
      else if input.has_scalar_function = true then do
        let r ← parseFunctionWithDAG env fm input [] false st
        pure (r.node, r.state)
      else throw ⟨.BAD_ARGUMENTS, "unsupported cast input \x7b\x7d"⟩ : Result (NodePtr × PState))
      = parseArgument env fm input st := by
  cases input <;>
    simp [Expression.has_selection, Expression.has_literal, Expression.has_if_then,
      Expression.has_scalar_function] at hkind ⊢
  rw [parseArgument_scalar_function]
  rfl

theorem deref_some (dag : ActionsDAG) (h : Nat) (n : Node) (hn : dag.nodes.get? h = some n) :
    dag.deref (some h) = .ok n := by
  simp only [ActionsDAG.deref, hn]

theorem addOrReplaceInIndex_last (nodes : List Node) (inputs index : List Nat) (node : Node) :
    ∃ index1, ActionsDAG.addOrReplaceInIndex
      { nodes := nodes ++ [node], inputs := inputs, index := index } (some nodes.length) =
      .ok { nodes := nodes ++ [node], inputs := inputs, index := index1 } := by
  have hlast : (nodes ++ [node]).get? nodes.length = some node := by simp
  unfold ActionsDAG.addOrReplaceInIndex
  rw [deref_some _ _ _ hlast]
  simp only [bind, Except.bind]
  cases replaceInIndex (nodes ++ [node]) node.result_name nodes.length index with
  | none => exact ⟨_, rfl⟩
  | some index1 => exact ⟨_, rfl⟩

theorem toFunctionNode_one (env : Env) (dag : ActionsDAG) (function : String) (a : Nat)
    (anode : Node) (ty : DataType) (hnode : dag.nodes.get? a = some anode)
    (hex : env.functionExists function = true)
    (hty : env.functionReturnType function [anode.result_type] = .ok ty) :
    toFunctionNode env dag function [some a] =
      .ok (dag.nodes.length,
        { nodes := dag.nodes ++ [functionNode function [anode.result_name] ty [a]],
          inputs := dag.inputs, index := dag.index }) := by
  simp only [toFunctionNode, getFunctionBuilder, hex, if_true, joinNames, bind, Except.bind,
    List.mapM_cons, List.mapM_nil, deref_some _ _ _ hnode, Except.map, pure, Except.pure,
    ActionsDAG.addFunction, List.map, hty, ActionsDAG.addNode, List.filterMap_cons_some,
    List.filterMap_nil, id, functionNode]
  rfl

theorem toFunctionNode_two (env : Env) (dag : ActionsDAG) (function : String) (a c : Nat)
    (anode cnode : Node) (ty : DataType) (hnode : dag.nodes.get? a = some anode)
    (hcnode : dag.nodes.get? c = some cnode)
    (hex : env.functionExists function = true)
    (hty : env.functionReturnType function [anode.result_type, cnode.result_type] = .ok ty) :
    toFunctionNode env dag function [some a, some c] =
      .ok (dag.nodes.length,
        { nodes := dag.nodes ++
            [functionNode function [anode.result_name, cnode.result_name] ty [a, c]],
          inputs := dag.inputs, index := dag.index }) := by
  simp only [toFunctionNode, getFunctionBuilder, hex, if_true, joinNames, bind, Except.bind,
    List.mapM_cons, List.mapM_nil, deref_some _ _ _ hnode, deref_some _ _ _ hcnode, Except.map,
    pure, Except.pure, ActionsDAG.addFunction, List.map, hty, ActionsDAG.addNode,
    List.filterMap_cons_some, List.filterMap_nil, id, functionNode]
  rfl

theorem getCastFunction_decimal_name (s p : Int) (n : Type_Nullability) (name : String)
    (h : getCastFunction (.decimal s p n) = .ok name) :
    name = "toDecimal32" ∨ name = "toDecimal64" ∨ name = "toDecimal128" := by
  simp only [getCastFunction, getDecimalFunction] at h
  split at h
  · cases h
  · rename_i x hx
    simp only [Bool.false_eq_true, if_false] at h
    split at hx
    · cases hx; left; exact (Except.ok.inj h).symm
    · split at hx
      · cases hx; right; left; exact (Except.ok.inj h).symm
      · split at hx
        · cases hx; right; right; exact (Except.ok.inj h).symm
        · cases hx

theorem getCastFunction_other_name (T : SType) (name : String)
    (hd : T.has_decimal = false) (ht : T.has_timestamp = false)
    (h : getCastFunction T = .ok name) :
    starts_with name "toDecimal" = false ∧ starts_with name "toDateTime64" = false := by
  cases T <;> simp only [getCastFunction, SType.has_decimal, SType.has_timestamp] at h hd ht <;>
    first
    | (cases h; exact ⟨by decide, by decide⟩)
    | exact absurd ht (by decide)
    | exact absurd hd (by decide)
    | cases h

theorem parseArgument_cast_with_constant (env : Env) (fm : StringMap) (T : SType)
    (input : Expression) (st st1 : PState) (name : String) (a : Nat) (anode : Node)
    (ty : DataType) (field : Field)
    (hkind : (input.has_selection || input.has_literal || input.has_if_then ||
      input.has_scalar_function) = true)
    (harg : parseArgument env fm input st = .ok (some a, st1))
    (hnode : st1.dag.nodes.get? a = some anode)
    (hname : getCastFunction T = .ok name)
    (hfield : (starts_with name "toDecimal" = true ∧ field = .UInt64 (toUInt32 T.get_decimal.scale)) ∨
      (starts_with name "toDecimal" = false ∧ starts_with name "toDateTime64" = true ∧
        field = .Int64 6))
    (hex : env.functionExists name = true)
    (hty : env.functionReturnType name [anode.result_type, .UInt32] = .ok ty) :
    ∃ index, parseArgument env fm (.cast (some T) (some input)) st =
      .ok (some (st1.dag.nodes.length + 1),
        { dag :=
            { nodes := st1.dag.nodes ++
                [constantNode env st1.name_no .UInt32 field,
                 functionNode name
                  [anode.result_name, (constantNode env st1.name_no .UInt32 field).result_name]
                  ty [a, st1.dag.nodes.length]],
              inputs := st1.dag.inputs, index := index },
          name_no := st1.name_no + 1 }) := by
  have h1 : (st1.dag.nodes ++ [constantNode env st1.name_no .UInt32 field]).get? a
      = some anode := by
    have hlt : a < st1.dag.nodes.length := (List.get?_eq_some.mp hnode).1
    rw [List.get?_eq_getElem?, List.getElem?_append_left hlt, ← List.get?_eq_getElem?]
    exact hnode
  have h2 : (st1.dag.nodes ++ [constantNode env st1.name_no .UInt32 field]).get?
      st1.dag.nodes.length = some (constantNode env st1.name_no .UInt32 field) := by simp
  have hfn := toFunctionNode_two env
    { nodes := st1.dag.nodes ++ [constantNode env st1.name_no .UInt32 field],
      inputs := st1.dag.inputs, index := st1.dag.index } name a st1.dag.nodes.length
    anode _ ty h1 h2 hex hty
  obtain ⟨index, hidx⟩ := addOrReplaceInIndex_last
    (st1.dag.nodes ++ [constantNode env st1.name_no .UInt32 field]) st1.dag.inputs st1.dag.index
    (functionNode name
      [anode.result_name, (constantNode env st1.name_no .UInt32 field).result_name]
      ty [a, st1.dag.nodes.length])
  refine ⟨index, ?_⟩
  rw [parseArgument, castInput_compile env fm input st hkind, harg, hname]
  simp only [bind, Except.bind]
  rcases hfield with ⟨hd, rfl⟩ | ⟨hd, ht, rfl⟩
  · simp only [hd, if_true, add_column, addConstant, ActionsDAG.addColumn, ActionsDAG.addNode, getUniqueName]
    simp only [constantNode, getUniqueName] at hfn hidx
    rw [hfn]
    simp only []
    rw [hidx]
    simp [pure, Except.pure, constantNode, getUniqueName]
  · simp only [hd, ht, if_true, Bool.false_eq_true, if_false, add_column, addConstant,
      ActionsDAG.addColumn,
      ActionsDAG.addNode, getUniqueName]
    simp only [constantNode, getUniqueName] at hfn hidx
    rw [hfn]
    simp only []
    rw [hidx]
    simp [pure, Except.pure, constantNode, getUniqueName]

theorem parseArgument_cast_plain (env : Env) (fm : StringMap) (T : SType) (input : Expression)
    (st st1 : PState) (name : String) (a : Nat) (anode : Node) (ty : DataType)
    (hkind : (input.has_selection || input.has_literal || input.has_if_then ||
      input.has_scalar_function) = true)
    (harg : parseArgument env fm input st = .ok (some a, st1))
    (hnode : st1.dag.nodes.get? a = some anode)
    (hname : getCastFunction T = .ok name)
    (hdec : starts_with name "toDecimal" = false)
    (hts : starts_with name "toDateTime64" = false)
    (hex : env.functionExists name = true)
    (hty : env.functionReturnType name [anode.result_type] = .ok ty) :
    ∃ index, parseArgument env fm (.cast (some T) (some input)) st =
      .ok (some st1.dag.nodes.length,
        { dag :=
            { nodes := st1.dag.nodes ++ [functionNode name [anode.result_name] ty [a]],
              inputs := st1.dag.inputs, index := index },
          name_no := st1.name_no }) := by
  have hfn := toFunctionNode_one env st1.dag name a anode ty hnode hex hty
  obtain ⟨index, hidx⟩ := addOrReplaceInIndex_last st1.dag.nodes st1.dag.inputs st1.dag.index
    (functionNode name [anode.result_name] ty [a])
  refine ⟨index, ?_⟩
  rw [parseArgument, castInput_compile env fm input st hkind, harg, hname]
  simp only [bind, Except.bind]
  simp only [hdec, hts, Bool.false_eq_true, if_false]
  rw [hfn]
  simp only []
  rw [hidx]
  rfl

theorem phaseCheck_accepts_iff (rel : AggregateRel) :
    (phaseCheck rel).failed = false ↔
      ((phase_set rel).card ≤ 1 ∨
        phase_set rel = {AggregationPhase.AGGREGATION_PHASE_INITIAL_TO_INTERMEDIATE,
          AggregationPhase.AGGREGATION_PHASE_INTERMEDIATE_TO_INTERMEDIATE}) := by
  unfold phaseCheck
  generalize phase_set rel = s
  revert s
  decide

theorem phaseCheck_error (rel : AggregateRel) (h : (phaseCheck rel).failed = true) :
    phaseCheck rel = .error ⟨.LOGICAL_ERROR, "too many aggregate phase!"⟩ := by
  unfold phaseCheck at h ⊢
  simp only [] at h ⊢
  split_ifs at h ⊢ <;> first | rfl | cases h

theorem phaseCheck_ok (rel : AggregateRel) (h : (phaseCheck rel).failed = false) :
    phaseCheck rel =
      .ok (decide (AggregationPhase.AGGREGATION_PHASE_INTERMEDIATE_TO_RESULT ∈ phase_set rel)) := by
  unfold phaseCheck at h ⊢
  simp only [] at h ⊢
  split_ifs at h ⊢ <;> first | rfl | cases h

theorem mem_phase_set (rel : AggregateRel) (p : AggregationPhase) :
    p ∈ phase_set rel ↔ ∃ m ∈ rel.measures, m.measure.phase = p := by
  simp [phase_set]

theorem measureArgument_name (env : Env) (fm : StringMap) (input : Block) (expression : PState)
    (need : Bool) (arg : Expression) (name : String) (st : PState) (need1 : Bool)
    (h : measureArgument env fm input expression need arg = .ok (name, st, need1)) :
    (arg.has_selection = true ∧ ∃ ty, input.getByPosition arg.selection_field = .ok (name, ty)) ∨
    (∃ l type field n, arg = .literal l ∧ parseLiteral env l = .ok (type, field) ∧
      name = (getUniqueName n (env.fieldToString field)).1) := by
  unfold measureArgument at h
  by_cases hs : arg.has_selection = true
  · left
    refine ⟨hs, ?_⟩
    simp only [hs, if_true, bind, Except.bind] at h
    cases hc : input.getByPosition arg.selection_field with
    | error e => rw [hc] at h; cases h
    | ok c =>
      rw [hc] at h
      simp only [pure, Except.pure] at h
      cases h
      exact ⟨c.2, rfl⟩
  · right
    cases arg with
    | literal l =>
      simp only [Expression.has_selection, Expression.has_literal, Bool.false_eq_true, if_false,
        if_true] at h
      rw [parseArgument] at h
      simp only [bind, Except.bind] at h
      cases hl : parseLiteral env l with
      | error e => rw [hl] at h; cases h
      | ok tf =>
        obtain ⟨type, field⟩ := tf
        rw [hl] at h
        simp only [add_column, addConstant, ActionsDAG.addColumn, ActionsDAG.addNode, pure,
          Except.pure] at h
        obtain ⟨index, hidx⟩ := addOrReplaceInIndex_last expression.dag.nodes
          expression.dag.inputs expression.dag.index
          ⟨.COLUMN, (getUniqueName expression.name_no (env.fieldToString field)).1, type, [], "",
            some field⟩
        rw [hidx] at h
        simp only [] at h
        have hd := deref_some
          { nodes := expression.dag.nodes ++
              [⟨.COLUMN, (getUniqueName expression.name_no (env.fieldToString field)).1, type,
                [], "", some field⟩],
            inputs := expression.dag.inputs, index := index }
          expression.dag.nodes.length
          ⟨.COLUMN, (getUniqueName expression.name_no (env.fieldToString field)).1, type, [], "",
            some field⟩ (by simp)
        rw [hd] at h
        simp only [] at h
        cases h
        exact ⟨l, type, field, expression.name_no, rfl, hl, rfl⟩
    | _ =>
      first
      | exact absurd rfl hs
      | (simp only [Expression.has_selection, Expression.has_literal, Bool.false_eq_true,
          if_false] at h
         cases h)

theorem preProjectMeasure_name (env : Env) (fm : StringMap) (input : Block)
    (s s1 : PreProjectState) (m : Measure)
    (h : preProjectMeasure env fm input s m = .ok s1) :
    ∃ name, s1.measure_names = s.measure_names ++ [name] ∧ IsArgumentName env input m name := by
  unfold preProjectMeasure at h
  simp only [bind, Except.bind] at h
  cases ht : parseType0 m.measure.output_type with
  | error e => rw [ht] at h; cases h
  | ok measure_type =>
    rw [ht] at h
    simp only [] at h
    by_cases hlen : m.measure.arguments.length = 1
    · obtain ⟨arg, harg⟩ := List.length_eq_one.mp hlen
      simp only [harg, List.length_singleton, bne_self_eq_false, Bool.false_eq_true, if_false,
        argument, List.get?_cons_zero, pure, Except.pure] at h
      cases hm : measureArgument env fm input s.expression s.need_pre_project arg with
      | error e => rw [hm] at h; cases h
      | ok r =>
        obtain ⟨name, expression, need⟩ := r
        rw [hm] at h
        simp only [] at h
        have hname := measureArgument_name env fm input s.expression s.need_pre_project arg name
          expression need hm
        refine ⟨name, ?_, arg, harg, hname⟩
        split at h
        · cases hf : expression.dag.findInIndex name with
          | error e => rw [hf] at h; cases h
          | ok found =>
            rw [hf] at h
            simp only [] at h
            cases hd : expression.dag.deref (some found) with
            | error e => rw [hd] at h; cases h
            | ok n =>
              rw [hd] at h
              simp only [] at h
              split at h <;> (cases h; rfl)
        · cases h; rfl
    · have hne : (m.measure.arguments.length != 1) = true := by simpa using hlen
      simp only [hne, if_true, throw, throwThe, MonadExceptOf.throw] at h
      cases h

theorem preProjectMeasures_names (env : Env) (fm : StringMap) (input : Block)
    (measures : List Measure) (s s1 : PreProjectState)
    (h : preProjectMeasures env fm input measures s = .ok s1) :
    ∃ names, s1.measure_names = s.measure_names ++ names ∧
      List.Forall₂ (IsArgumentName env input) measures names := by
  induction measures generalizing s with
  | nil =>
    simp only [preProjectMeasures] at h
    cases h
    exact ⟨[], by simp, List.Forall₂.nil⟩
  | cons m rest ih =>
    simp only [preProjectMeasures, bind, Except.bind] at h
    cases hm : preProjectMeasure env fm input s m with
    | error e => rw [hm] at h; cases h
    | ok s2 =>
      rw [hm] at h
      simp only [] at h
      obtain ⟨name, hn, harg⟩ := preProjectMeasure_name env fm input s s2 m hm
      obtain ⟨names, hns, hall⟩ := ih s2 h
      exact ⟨name :: names, by rw [hns, hn]; simp, List.Forall₂.cons harg hall⟩

theorem aggregateDescription_column_name (env : Env) (fm : StringMap) (header : Block)
    (measure_names : List String) (nullable : StringMap) (i : Nat) (m : Measure)
    (agg : AggregateDescription)
    (h : aggregateDescription env fm header measure_names nullable i m = .ok agg) :
    ∃ argName, measure_names.get? i = some argName ∧
      conventionalColumnName fm m argName = .ok agg.column_name := by
  unfold aggregateDescription at h
  unfold conventionalColumnName
  simp only [bind, Except.bind] at h ⊢
  cases hsig : StringMap.at fm (toString m.measure.function_reference) with
  | error e => rw [hsig] at h; cases h
  | ok sig =>
    rw [hsig] at h
    simp only [] at h ⊢
    cases hn : measure_names.get? i with
    | none =>
      simp only [vectorAt, hn] at h
      split_ifs at h
    | some argName =>
      refine ⟨argName, rfl, ?_⟩
      simp only [vectorAt, hn, pure, Except.pure] at h
      by_cases hp : m.measure.phase = .AGGREGATION_PHASE_INITIAL_TO_INTERMEDIATE
      · simp only [hp, bne_self_eq_false, Bool.false_eq_true, if_false, if_true] at h ⊢
        split at h
        · cases h
        · split at h
          · cases h
          · split at h
            · cases h
            · cases h; rfl
      · have hne : (m.measure.phase != .AGGREGATION_PHASE_INITIAL_TO_INTERMEDIATE) = true := by
          simpa using hp
        simp only [hne, hp, if_true, if_false] at h ⊢
        split at h
        · cases h
        · split at h
          · cases h
          · split at h
            · cases h
            · cases h; rfl

theorem aggregateDescriptions_column_names (env : Env) (fm : StringMap) (header : Block)
    (measure_names : List String) (nullable : StringMap) (measures : List Measure) (i : Nat)
    (aggs : List AggregateDescription)
    (h : aggregateDescriptions env fm header measure_names nullable i measures = .ok aggs) :
    aggs.length = measures.length ∧
    ∀ j m, measures.get? j = some m → ∃ agg argName,
      aggs.get? j = some agg ∧ measure_names.get? (i + j) = some argName ∧
      conventionalColumnName fm m argName = .ok agg.column_name := by
  induction measures generalizing i aggs with
  | nil =>
    simp only [aggregateDescriptions] at h
    cases h
    exact ⟨rfl, by intro j m hj; simp at hj⟩
  | cons m0 rest ih =>
    simp only [aggregateDescriptions, bind, Except.bind] at h
    cases ha : aggregateDescription env fm header measure_names nullable i m0 with
    | error e => rw [ha] at h; cases h
    | ok agg0 =>
      rw [ha] at h
      simp only [] at h
      cases hr : aggregateDescriptions env fm header measure_names nullable (i + 1) rest with
      | error e => rw [hr] at h; cases h
      | ok aggs1 =>
        rw [hr] at h
        simp only [pure, Except.pure] at h
        cases h
        obtain ⟨hlen, hall⟩ := ih (i + 1) aggs1 hr
        refine ⟨by simp [hlen], ?_⟩
        intro j m hj
        cases j with
        | zero =>
          simp only [List.get?_cons_zero, Option.some.injEq] at hj
          subst hj
          obtain ⟨argName, hn, hc⟩ := aggregateDescription_column_name env fm header
            measure_names nullable i m0 agg0 ha
          exact ⟨agg0, argName, rfl, by simpa using hn, hc⟩
        | succ k =>
          simp only [List.get?_cons_succ] at hj
          obtain ⟨agg, argName, h1, h2, h3⟩ := hall k m hj
          refine ⟨agg, argName, by simpa using h1, ?_, h3⟩
          have : i + (k + 1) = i + 1 + k := by omega
          rw [this]
          exact h2

theorem forall₂_get? {α β : Type} {R : α → β → Prop} {l₁ : List α} {l₂ : List β}
    (h : List.Forall₂ R l₁ l₂) :
    ∀ j a, l₁.get? j = some a → ∃ b, l₂.get? j = some b ∧ R a b := by
  induction h with
  | nil => intro j a hj; simp at hj
  | cons hab _ ih =>
    intro j a hj
    cases j with
    | zero =>
      simp only [List.get?_cons_zero, Option.some.injEq] at hj
      subst hj
      exact ⟨_, rfl, hab⟩
    | succ k =>
      simp only [List.get?_cons_succ] at hj
      exact ih k a hj

theorem addPreProjectStepIfNeeded_names (env : Env) (fm : StringMap) (plan : QueryPlan)
    (name_no : Nat) (rel : AggregateRel) (pre : PreProjectResult)
    (h : addPreProjectStepIfNeeded env fm plan name_no rel = .ok pre) :
    List.Forall₂ (IsArgumentName env plan.header) rel.measures pre.measure_names := by
  unfold addPreProjectStepIfNeeded at h
  simp only [bind, Except.bind] at h
  split at h
  · cases h
  · rename_i s hs
    obtain ⟨names, hn, hall⟩ := preProjectMeasures_names env fm plan.header rel.measures _ s hs
    split at h
    · cases h
    · simp only [pure, Except.pure] at h
      cases h
      simp only [List.nil_append] at hn
      rw [hn]
      exact hall

theorem parseAggregateBody_column_names (env : Env) (fm : StringMap) (name_no : Nat)
    (plan : QueryPlan) (rel : AggregateRel) (b : Bool) (out : AggregateOutput)
    (h : parseAggregateBody env fm name_no plan rel b = .ok out) :
    out.step.aggregates.length = rel.measures.length ∧
    ∀ i m, rel.measures.get? i = some m →
      ∃ agg argName, out.step.aggregates.get? i = some agg ∧
        IsArgumentName env plan.header m argName ∧
        conventionalColumnName fm m argName = .ok agg.column_name := by
  unfold parseAggregateBody at h
  simp only [bind, Except.bind] at h
  split at h
  · cases h
  · rename_i pre hpre
    have hnames := addPreProjectStepIfNeeded_names env fm plan name_no rel pre hpre
    split at h
    · cases h
    · rename_i keys hkeys
      split at h
      · cases h
      · rename_i aggregates haggs
        obtain ⟨hlen, hall⟩ := aggregateDescriptions_column_names env fm _ _ _ _ 0 aggregates
          haggs
        have hout : out.step.aggregates = aggregates := by
          split at h <;> (simp only [pure, Except.pure] at h; cases h; rfl)
        rw [hout]
        refine ⟨hlen, ?_⟩
        intro i m hi
        obtain ⟨agg, argName, h1, h2, h3⟩ := hall i m hi
        obtain ⟨name, hn, harg⟩ := forall₂_get? hnames i m hi
        simp only [Nat.zero_add] at h2
        rw [h2] at hn
        cases hn
        exact ⟨agg, argName, h1, harg, h3⟩

theorem conventionalColumnName_ok (fm : StringMap) (m : Measure) (argName c : String)
    (h : conventionalColumnName fm m argName = .ok c) :
    ∃ sig, StringMap.at fm (toString m.measure.function_reference) = .ok sig ∧
      (m.measure.phase = .AGGREGATION_PHASE_INITIAL_TO_INTERMEDIATE →
        c = substrBefore sig ':' ++ "(" ++ argName ++ ")") ∧
      (m.measure.phase ≠ .AGGREGATION_PHASE_INITIAL_TO_INTERMEDIATE → c = argName) := by
  unfold conventionalColumnName at h
  simp only [bind, Except.bind] at h
  split at h
  · cases h
  · rename_i sig hsig
    refine ⟨sig, hsig, ?_, ?_⟩
    · intro hp
      simp only [hp, if_true, pure, Except.pure] at h
      cases h
      rfl
    · intro hp
      simp only [hp, if_false, pure, Except.pure] at h
      cases h
      rfl

theorem findInIndex_name (dag : ActionsDAG) (name : String) (h : Nat)
    (hf : dag.findInIndex name = .ok h) :
    ∃ n, dag.nodes.get? h = some n ∧ n.result_name = name := by
  unfold ActionsDAG.findInIndex at hf
  split at hf
  · rename_i h1 ht
    cases hf
    unfold ActionsDAG.tryFindInIndex at ht
    have hp := List.find?_some ht
    split at hp
    · rename_i n hn
      exact ⟨n, hn, by simpa using hp⟩
    · cases hp
  · cases hf

theorem project_header_names (dag : ActionsDAG) (names : List String) (index : List Nat)
    (h : names.mapM (fun name => dag.findInIndex name) = .ok index) :
    (index.filterMap (fun h =>
      (dag.nodes.get? h).map (fun n => (n.result_name, n.result_type)))).map Prod.fst
      = names := by
  induction names generalizing index with
  | nil =>
    simp only [List.mapM_nil, pure, Except.pure] at h
    cases h
    rfl
  | cons name rest ih =>
    simp only [List.mapM_cons, bind, Except.bind] at h
    split at h
    · cases h
    · rename_i h0 hf
      split at h
      · cases h
      · rename_i index1 hrest
        simp only [pure, Except.pure] at h
        cases h
        obtain ⟨n, hn, hname⟩ := findInIndex_name dag name h0 hf
        simp only [List.filterMap_cons, hn, Option.map_some', List.map_cons, hname]
        rw [ih index1 hrest]

theorem reorderJoinOutput_names (plan out : QueryPlan) (cols : List String)
    (h : reorderJoinOutput plan cols = .ok out) :
    out.header.getNames = cols ∧
    ∃ project, out.steps = plan.steps ++ [.ExpressionStep "Reorder Join Output" project] := by
  unfold reorderJoinOutput at h
  simp only [bind, Except.bind, ActionsDAG.project] at h
  split at h
  · cases h
  · rename_i project hp
    split at hp
    · cases hp
    · rename_i index hidx
      simp only [pure, Except.pure] at hp h
      cases hp
      cases h
      refine ⟨?_, _, rfl⟩
      exact project_header_names (ActionsDAG.ofInputs plan.header) cols index hidx

theorem postJoinFilter_none (env : Env) (fm : StringMap) (name_no : Nat) (plan : QueryPlan)
    (out : JoinOutput) (h : postJoinFilter env fm name_no plan none = .ok out) :
    out.plan = plan := by
  simp only [postJoinFilter] at h
  cases h
  rfl

theorem postJoinFilter_some (env : Env) (fm : StringMap) (name_no : Nat) (plan : QueryPlan)
    (f : Expression) (out : JoinOutput)
    (h : postJoinFilter env fm name_no plan (some f) = .ok out) :
    ∃ r, parseFunction env fm plan.header f [] none true name_no = .ok r ∧
      out.plan.header = r.state.dag.header.eraseP (fun c => c.1 == r.result_name) ∧
      out.plan.steps = plan.steps ++
        [.FilterStep "Post Join Filter" r.state.dag r.result_name true] := by
  simp only [postJoinFilter, bind, Except.bind] at h
  split at h
  · cases h
  · rename_i r hr
    simp only [pure, Except.pure] at h
    cases h
    exact ⟨r, hr, rfl, rfl⟩

theorem eraseP_append_fresh (header : Block) (name : String) (ty : DataType)
    (hfresh : name ∉ header.getNames) :
    (header ++ [(name, ty)]).eraseP (fun c => c.1 == name) = header := by
  induction header with
  | nil => simp [List.eraseP]
  | cons c rest ih =>
    simp only [Block.getNames, List.map_cons, List.mem_cons, not_or] at hfresh
    have hne : (c.1 == name) = false := by
      simpa using fun h => hfresh.1 h.symm
    simp only [List.cons_append, List.eraseP_cons, hne, cond_false, ih hfresh.2]

theorem parseJoin_reorder_left (env : Env) (fm : StringMap) (name_no : Nat) (join : JoinRel)
    (left right : QueryPlan) (out : JoinOutput)
    (h : parseJoin env fm name_no join left right = .ok out) :
    ∃ reg right_table_alias left1 joined reordered,
      registerRightColumns env (env.parseJoinOptimizationInfo join.optimization).1
        (env.parseJoinOptimizationInfo join.optimization).2 name_no left right = .ok reg ∧
      rightTableAlias reg.right.header reg.columns_from_joined_table.getNames
        reg.columns_from_joined_table.length 0 = .ok right_table_alias ∧
      ((env.createConvertingActions left.header
          (rightTableRename reg.right right_table_alias).header).1 = none → left1 = left) ∧
      (∀ l, (env.createConvertingActions left.header
          (rightTableRename reg.right right_table_alias).header).1 = some l →
        ∃ r, (env.createConvertingActions left.header
            (rightTableRename reg.right right_table_alias).header).2 = some r ∧
          left1 = left.addExpressionStep "Convert joined columns" r) ∧
      joined.header = env.joinHeader left1.header reg.columns_from_joined_table ∧
      reorderJoinOutput joined
        (left1.header.getNames ++ reg.columns_from_joined_table.getNames) = .ok reordered ∧
      postJoinFilter env fm reg.name_no reordered join.post_join_filter = .ok out := by
  unfold parseJoin at h
  simp only [bind, Except.bind] at h
  split at h
  · cases h
  · split at h
    · cases h
    · rename_i reg hreg
      split at h
      · cases h
      · rename_i alias_list halias
        split at h
        · cases h
        · split at h
          · cases h
          · refine ⟨reg, alias_list, ?_⟩
            unfold rightTableRename
            generalize (if (!alias_list.isEmpty) = true then
              reg.right.addExpressionStep "Right Table Rename"
                ((ActionsDAG.ofInputs reg.right.header).addAliases alias_list)
              else reg.right) = right1 at h ⊢
            generalize env.createConvertingActions left.header right1.header = conv at h ⊢
            obtain ⟨c1, c2⟩ := conv
            split at h
            · cases h
            · rename_i left1 hleft1
              split at h
              · cases h
              · rename_i joined hjoined
                split at h
                · cases h
                · rename_i reordered hre
                  refine ⟨left1, joined, reordered, hreg, halias, ?_, ?_, ?_, hre, h⟩
                  · intro hnone
                    change c1 = none at hnone
                    subst hnone
                    simp only [pure, Except.pure] at hleft1
                    cases hleft1
                    rfl
                  · intro l hl
                    change c1 = some l at hl
                    subst hl
                    cases c2 with
                    | none =>
                      simp only [throw, throwThe, MonadExceptOf.throw] at hleft1
                      cases hleft1
                    | some r0 =>
                      simp only [pure, Except.pure] at hleft1
                      cases hleft1
                      exact ⟨r0, rfl, rfl⟩
                  · split at hjoined
                    · split at hjoined
                      · cases hjoined
                      · cases hjoined
                        rfl
                    · cases hjoined
                      rfl

theorem parseJoin_fails_of_collectJoinKeys (env : Env) (fm : StringMap) (name_no : Nat)
    (join : JoinRel) (left right : QueryPlan)
    (hfail : ∀ acc n,
      (collectJoinKeys env.SCALAR_FUNCTIONS fm join.expression acc n).failed = true) :
    (parseJoin env fm name_no join left right).failed = true := by
  unfold parseJoin
  simp only [bind, Except.bind]
  split
  · rfl
  · split
    · rfl
    · split
      · rfl
      · split
        · rfl
        · rename_i keys hk
          have := hfail [] (wrapInt32 left.header.length)
          rw [hk] at this
          cases this


theorem parseType_flag (T : SType) (names : Option (List String)) (ty : DataType)
    (rest : Option (List String)) (h : parseType T names = .ok (ty, rest)) :
    ∃ B, ty = wrapNullableType T.nullability B ∧
      ∀ n, parseType (T.setNullability n) names = .ok (wrapNullableType n B, rest) := by
  cases T <;>
    simp only [parseType, SType.setNullability, SType.nullability, bind, Except.bind, pure,
      Except.pure] at h ⊢
  all_goals
    repeat' (first | (split at h) | (cases h; done))
  all_goals
    cases h
    refine ⟨_, rfl, fun n => ?_⟩
    simp only [*]
    try simp

theorem createDecimal_shape (precision scale : Nat) (v : DataType)
    (h : createDecimal precision scale = .ok v) :
    v.baseShape = some .decimal ∧ v.isNullable = false := by
  unfold createDecimal at h
  split_ifs at h <;> cases h <;> exact ⟨rfl, rfl⟩

theorem parseType_base_shape (T : SType) (names : Option (List String)) (ty : DataType)
    (rest : Option (List String)) (h : parseType T names = .ok (ty, rest)) :
    ∃ B k, ty = wrapNullableType T.nullability B ∧ T.baseKind = some k ∧
      B.baseShape = some k.internal ∧ B.isNullable = false := by
  cases T <;>
    simp only [parseType, SType.baseKind, SType.nullability, bind, Except.bind, pure,
      Except.pure] at h ⊢
  all_goals
    repeat' (first | (split at h) | (cases h; done))
  all_goals
    cases h
    first
    | exact ⟨_, _, rfl, rfl, rfl, rfl⟩
    | exact ⟨_, _, rfl, rfl, createDecimal_shape _ _ _ (by assumption)⟩

theorem externalShape_wrap (n : Type_Nullability) (B : DataType) (k : BaseKind)
    (hB : B.baseShape = some k) (hn : B.isNullable = false) :
    (wrapNullableType n B).externalShape = some (k, decide (n = .NULLABILITY_NULLABLE)) := by
  cases B <;>
    first
    | (simp only [DataType.isNullable] at hn
       done)
    | (simp [DataType.baseShape] at hB
       done)
    | (simp only [DataType.baseShape, Option.some.injEq] at hB
       subst hB
       cases n <;> rfl)

theorem parseTypeByName_unknown (name : String) (h : name ∉ typeKeywords) :
    parseTypeByName name = .error ⟨.UNKNOWN_TYPE, "Unknow spark type: \x7b\x7d"⟩ := by
  simp only [typeKeywords, List.mem_cons, List.mem_singleton, List.not_mem_nil, or_false,
    not_or] at h
  obtain ⟨h1, h2, h3, h4, h5, h6, h7, h8, h9⟩ := h
  have e : ∀ k : String, name ≠ k → (k == name) = false := by
    intro k hk
    simpa using fun h => hk h.symm
  simp [parseTypeByName, StringMap.find, type2type, List.find?, e _ h1, e _ h2, e _ h3, e _ h4,
    e _ h5, e _ h6, e _ h7, e _ h8, e _ h9]

theorem digitChar_toNat (k : Nat) (h : k < 10) : (Nat.digitChar k).toNat - 48 = k := by
  interval_cases k <;> decide

theorem foldl_toDigitsCore (fuel : Nat) : ∀ (n : Nat) (ds : List Char), n < fuel →
    (Nat.toDigitsCore 10 fuel n ds).foldl (fun acc c => 10 * acc + (c.toNat - 48)) 0 =
      ds.foldl (fun acc c => 10 * acc + (c.toNat - 48)) n := by
  induction fuel with
  | zero => intro n ds h; omega
  | succ fuel ih =>
    intro n ds h
    simp only [Nat.toDigitsCore]
    by_cases h0 : n / 10 = 0
    · simp only [h0, if_true, List.foldl_cons]
      have hlt : n < 10 := by omega
      rw [Nat.mod_eq_of_lt hlt, digitChar_toNat n hlt]
      simp
    · simp only [h0, if_false]
      rw [ih (n / 10) _ (by omega)]
      simp only [List.foldl_cons]
      rw [digitChar_toNat (n % 10) (Nat.mod_lt _ (by decide))]
      congr 1
      omega

theorem toString_nat_injective (a b : Nat) (h : toString a = toString b) : a = b := by
  have ha := foldl_toDigitsCore (a + 1) a [] (by omega)
  have hb := foldl_toDigitsCore (b + 1) b [] (by omega)
  simp only [List.foldl_nil] at ha hb
  have hl : Nat.toDigits 10 a = Nat.toDigits 10 b := by
    have := congrArg String.data h
    simpa [toString, Nat.repr, List.asString] using this
  simp only [Nat.toDigits] at hl
  rw [← ha, ← hb, hl]

theorem find_emplace (m : StringMap) (key value key' : String) :
    StringMap.find (StringMap.emplace m key value) key' =
      (StringMap.find m key').or (if key = key' then some value else none) := by
  unfold StringMap.emplace
  by_cases hc : StringMap.contains m key = true
  · simp only [hc, if_true]
    cases hf : StringMap.find m key' with
    | some x => rfl
    | none =>
      have : key ≠ key' := by
        rintro rfl
        simp [StringMap.contains, hf] at hc
      simp [this]
  · simp only [hc]
    simp only [StringMap.find, List.find?_append, Bool.false_eq_true, if_false]
    cases hf : List.find? (fun kv => kv.1 == key') m with
    | some x => rfl
    | none =>
      by_cases hk : key = key'
      · simp [hk, List.find?]
      · have hb : (key == key') = false := by simpa using hk
        simp [hk, hb, List.find?]

theorem parseExtensions_find (extensions : List SimpleExtensionDeclaration) :
    ∀ (m : StringMap) (anchor : Nat),
      StringMap.find (parseExtensions m extensions) (toString anchor) =
        (StringMap.find m (toString anchor)).or (firstFunctionDeclaration anchor extensions) := by
  induction extensions with
  | nil => intro m anchor; simp [parseExtensions, firstFunctionDeclaration]
  | cons d ds ih =>
    intro m anchor
    cases d with
    | extension_function a name =>
      simp only [parseExtensions, firstFunctionDeclaration]
      rw [ih, find_emplace]
      by_cases ha : a = anchor
      · subst ha
        cases StringMap.find m (toString a) <;> simp
      · have : toString a ≠ toString anchor := fun h => ha (toString_nat_injective _ _ h)
        simp [this, ha]
    | extension_type a name => simp only [parseExtensions, firstFunctionDeclaration]; exact ih m anchor
    | extension_type_variation a name =>
      simp only [parseExtensions, firstFunctionDeclaration]; exact ih m anchor
    | not_set => simp only [parseExtensions, firstFunctionDeclaration]; exact ih m anchor

theorem parseExtensions_skip (m : StringMap) (d : SimpleExtensionDeclaration)
    (ds : List SimpleExtensionDeclaration) (h : d.has_extension_function = false) :
    parseExtensions m (d :: ds) = parseExtensions m ds := by
  cases d <;> first | rfl | (simp [SimpleExtensionDeclaration.has_extension_function] at h)

theorem parseExtensions_entries (extensions : List SimpleExtensionDeclaration) :
    ∀ (m : StringMap) (kv : String × String), kv ∈ parseExtensions m extensions →
      kv ∈ m ∨ ∃ a, kv.1 = toString a ∧ .extension_function a kv.2 ∈ extensions := by
  induction extensions with
  | nil => intro m kv h; exact Or.inl h
  | cons d ds ih =>
    intro m kv h
    cases d with
    | extension_function a name =>
      simp only [parseExtensions] at h
      rcases ih _ kv h with h1 | ⟨b, hb, hm⟩
      · unfold StringMap.emplace at h1
        split_ifs at h1
        · exact Or.inl h1
        · rcases List.mem_append.1 h1 with h2 | h2
          · exact Or.inl h2
          · simp only [List.mem_singleton] at h2
            subst h2
            exact Or.inr ⟨a, rfl, List.mem_cons_self _ _⟩
      · exact Or.inr ⟨b, hb, List.mem_cons_of_mem _ hm⟩
    | extension_type a name =>
      simp only [parseExtensions] at h
      rcases ih _ kv h with h1 | ⟨b, hb, hm⟩
      · exact Or.inl h1
      · exact Or.inr ⟨b, hb, List.mem_cons_of_mem _ hm⟩
    | extension_type_variation a name =>
      simp only [parseExtensions] at h
      rcases ih _ kv h with h1 | ⟨b, hb, hm⟩
      · exact Or.inl h1
      · exact Or.inr ⟨b, hb, List.mem_cons_of_mem _ hm⟩
    | not_set =>
      simp only [parseExtensions] at h
      rcases ih _ kv h with h1 | ⟨b, hb, hm⟩
      · exact Or.inl h1
      · exact Or.inr ⟨b, hb, List.mem_cons_of_mem _ hm⟩

theorem at_of_find_none (m : StringMap) (key : String) (h : StringMap.find m key = none) :
    StringMap.at m key = .error ⟨.STD_OUT_OF_RANGE, "map::at"⟩ := by
  simp only [StringMap.at, h]

theorem parseArgument_missing_anchor (env : Env) (fm : StringMap) (r : Nat)
    (args : List Expression) (t : SType) (st : PState)
    (h : StringMap.find fm (toString r) = none) :
    parseArgument env fm (.scalar_function r args t) st =
      .error ⟨.STD_OUT_OF_RANGE, "map::at"⟩ := by
  rw [parseArgument]
  simp only [bind, Except.bind, at_of_find_none _ _ h]

theorem parseFunctionWithDAG_missing_anchor (env : Env) (fm : StringMap) (r : Nat)
    (args : List Expression) (t : SType) (rc : List String) (keep : Bool) (st : PState)
    (h : StringMap.find fm (toString r) = none) :
    parseFunctionWithDAG env fm (.scalar_function r args t) rc keep st =
      .error ⟨.STD_OUT_OF_RANGE, "map::at"⟩ := by
  rw [parseFunctionWithDAG]
  simp only [bind, Except.bind, at_of_find_none _ _ h]

theorem collectJoinKeys_missing_anchor (SF fm : StringMap) (r : Nat)
    (args : List Expression) (t : SType) (acc : List (Int × Int)) (n : Int)
    (h : StringMap.find fm (toString r) = none) :
    collectJoinKeys SF fm (.scalar_function r args t) acc n =
      .error ⟨.STD_OUT_OF_RANGE, "map::at"⟩ := by
  unfold collectJoinKeys
  simp only [resolveFunctionName, Expression.get_scalar_function, bind, Except.bind,
    at_of_find_none _ _ h]

theorem aggregateDescriptions_missing_anchor (env : Env) (fm : StringMap) (header : Block)
    (names : List String) (nullable : StringMap) (measures : List Measure) :
    ∀ (i : Nat) (m : Measure), m ∈ measures →
      StringMap.find fm (toString m.measure.function_reference) = none →
      (aggregateDescriptions env fm header names nullable i measures).failed = true := by
  induction measures with
  | nil => intro i m hm; cases hm
  | cons m0 rest ih =>
    intro i m hm h
    simp only [aggregateDescriptions, bind, Except.bind]
    rcases List.mem_cons.1 hm with rfl | hm
    · simp only [aggregateDescription, bind, Except.bind, at_of_find_none _ _ h]
      rfl
    · have := ih (i + 1) m hm h
      split
      · rfl
      · split
        · rfl
        · rename_i heq
          rw [heq] at this
          cases this

theorem parseAggregate_missing_anchor (env : Env) (fm : StringMap) (name_no : Nat)
    (plan : QueryPlan) (rel : AggregateRel) (m : Measure) (hm : m ∈ rel.measures)
    (h : StringMap.find fm (toString m.measure.function_reference) = none) :
    (parseAggregate env fm name_no plan rel).result.failed = true := by
  unfold parseAggregate
  split
  · rfl
  · simp only [parseAggregateBody, bind, Except.bind]
    split
    · rfl
    · split
      · rfl
      · rename_i pre _ _ _ _
        have := aggregateDescriptions_missing_anchor env fm pre.plan.header pre.measure_names
          pre.nullable_measure_names rel.measures 0 m hm h
        split
        · rfl
        · rename_i heq
          rw [heq] at this
          cases this

theorem getFunctionName_unknown (SF : StringMap) (sig : String) (f : ScalarFunction)
    (h : StringMap.contains SF (substrBefore sig ':') = false) :
    getFunctionName SF sig f = .error ⟨.UNKNOWN_FUNCTION, "Unsupported function \x7b\x7d"⟩ := by
  simp [getFunctionName, h]

theorem getFunctionName_table (SF : StringMap) (sig : String) (f : ScalarFunction)
    (v : String) (h : StringMap.find SF (substrBefore sig ':') = some v)
    (h1 : substrBefore sig ':' ≠ "cast") (h2 : substrBefore sig ':' ≠ "extract")
    (h3 : substrBefore sig ':' ≠ "check_overflow") :
    getFunctionName SF sig f = .ok v := by
  have hc : StringMap.contains SF (substrBefore sig ':') = true := by
    simp [StringMap.contains, h]
  have e1 : (substrBefore sig ':' == "cast") = false := by simpa using h1
  have e2 : (substrBefore sig ':' == "extract") = false := by simpa using h2
  have e3 : (substrBefore sig ':' == "check_overflow") = false := by simpa using h3
  simp [getFunctionName, hc, e1, e2, e3, StringMap.at, h]

theorem parseFunctionWithDAG_unknown (env : Env) (fm : StringMap) (r : Nat)
    (arguments : List Expression) (t : SType) (sig : String)
    (hsig : StringMap.at fm (toString r) = .ok sig)
    (h : StringMap.contains env.SCALAR_FUNCTIONS (substrBefore sig ':') = false)
    (rc : List String) (keep : Bool) (st : PState) :
    parseFunctionWithDAG env fm (.scalar_function r arguments t) rc keep st =
      .error ⟨.UNKNOWN_FUNCTION, "Unsupported function \x7b\x7d"⟩ := by
  rw [parseFunctionWithDAG]
  simp only [bind, Except.bind, hsig, getFunctionName_unknown _ _ _ h]

theorem parseArgument_unknown (env : Env) (fm : StringMap) (r : Nat)
    (arguments : List Expression) (t : SType) (sig : String)
    (hsig : StringMap.at fm (toString r) = .ok sig)
    (h : StringMap.contains env.SCALAR_FUNCTIONS (substrBefore sig ':') = false)
    (st : PState) :
    parseArgument env fm (.scalar_function r arguments t) st =
      .error ⟨.UNKNOWN_FUNCTION, "Unsupported function \x7b\x7d"⟩ := by
  rw [parseArgument]
  simp only [bind, Except.bind, hsig, getFunctionName_unknown _ _ _ h]

theorem substrBefore_no_colon (s : String) (h : ':' ∉ s.toList) : substrBefore s ':' = s := by
  unfold substrBefore
  have : s.toList.takeWhile (fun x => x != ':') = s.toList := by
    rw [List.takeWhile_eq_self_iff]
    intro x hx
    simp only [bne_iff_ne, ne_eq]
    intro heq
    apply h
    have : x = ':' := by simpa using heq
    rw [← this]
    exact hx
  rw [this]
  rfl


theorem substrBefore_colon (name types : String) (h : ':' ∉ name.toList) :
    substrBefore (name ++ ":" ++ types) ':' = name := by
  unfold substrBefore
  have e : (name ++ ":" ++ types).toList = name.toList ++ (':' :: types.toList) := by
    simp [String.toList]
  rw [e]
  have : (name.toList ++ (':' :: types.toList)).takeWhile (fun x => x != ':') = name.toList := by
    generalize name.toList = l at h
    induction l with
    | nil => simp
    | cons c cs ih =>
      have hc : c ≠ ':' := fun hc => h (by simp [hc])
      have hcs : ':' ∉ cs := fun hm => h (List.mem_cons_of_mem _ hm)
      have hb : (c != ':') = true := by simpa using hc
      simp only [List.cons_append, List.takeWhile_cons, hb, if_true, ih hcs]
  rw [this]
  rfl

theorem extractFunctionName_other (v : String)
    (h : v ∉ extractVocabulary.map Prod.fst) :
    extractFunctionName v =
      .error ⟨.BAD_ARGUMENTS, "The first arg of extract function is wrong."⟩ := by
  simp only [extractVocabulary, List.map_cons, List.map_nil, List.mem_cons, List.mem_singleton,
    List.not_mem_nil, or_false, not_or] at h
  obtain ⟨h1, h2, h3, h4, h5, h6, h7, h8, h9, h10⟩ := h
  simp [extractFunctionName, h1, h2, h3, h4, h5, h6, h7, h8, h9, h10]

theorem getFunctionName_extract_two (SF : StringMap) (sig : String) (r : Nat)
    (a x : Expression) (t : SType)
    (hname : substrBefore sig ':' = "extract")
    (hkey : StringMap.contains SF "extract" = true) :
    getFunctionName SF sig ⟨r, [a, x], t⟩ =
      if a.has_literal then extractFunctionName a.get_literal.get_string
      else .error ⟨.BAD_ARGUMENTS, "The first arg of extract function is wrong."⟩ := by
  have e1 : ("extract" == "cast") = false := by decide
  simp only [getFunctionName, hname, hkey, e1]
  simp

theorem getFunctionName_extract_count (SF : StringMap) (sig : String) (f : ScalarFunction)
    (hname : substrBefore sig ':' = "extract")
    (hkey : StringMap.contains SF "extract" = true) (hlen : f.arguments.length ≠ 2) :
    getFunctionName SF sig f =
      .error ⟨.BAD_ARGUMENTS, "extract function requires two args, function:\x7b\x7d"⟩ := by
  have e1 : ("extract" == "cast") = false := by decide
  simp only [getFunctionName, hname, hkey, e1]
  simp [hlen]

theorem getFunctionName_check_overflow_two (SF : StringMap) (sig : String) (r : Nat)
    (x b : Expression) (t : SType)
    (hname : substrBefore sig ':' = "check_overflow")
    (hkey : StringMap.contains SF "check_overflow" = true) :
    getFunctionName SF sig ⟨r, [x, b], t⟩ =
      getDecimalFunction t.get_decimal b.get_literal.get_boolean := by
  have e1 : ("check_overflow" == "cast") = false := by decide
  have e2 : ("check_overflow" == "extract") = false := by decide
  simp only [getFunctionName, hname, hkey, e1, e2]
  simp

theorem getFunctionName_check_overflow_count (SF : StringMap) (sig : String)
    (f : ScalarFunction)
    (hname : substrBefore sig ':' = "check_overflow")
    (hkey : StringMap.contains SF "check_overflow" = true) (hlen : f.arguments.length ≠ 2) :
    getFunctionName SF sig f =
      .error ⟨.BAD_ARGUMENTS, "check_overflow function requires two args."⟩ := by
  have e1 : ("check_overflow" == "cast") = false := by decide
  have e2 : ("check_overflow" == "extract") = false := by decide
  simp only [getFunctionName, hname, hkey, e1, e2]
  simp [hlen]

theorem getDecimalFunction_name (decimal : Type_Decimal) (b : Bool) :
    getDecimalFunction decimal b =
      if toUInt32 decimal.precision ≤ 9 then .ok ("toDecimal32" ++ if b then "OrNull" else "")
      else if toUInt32 decimal.precision ≤ 18 then
        .ok ("toDecimal64" ++ if b then "OrNull" else "")
      else if toUInt32 decimal.precision ≤ 38 then
        .ok ("toDecimal128" ++ if b then "OrNull" else "")
      else .error ⟨.UNKNOWN_TYPE, "Spark doesn't support decimal type with precision \x7b\x7d"⟩ := by
  have e32 : ("toDecimal32" ++ "" : String) = "toDecimal32" := by decide
  have e64 : ("toDecimal64" ++ "" : String) = "toDecimal64" := by decide
  have e128 : ("toDecimal128" ++ "" : String) = "toDecimal128" := by decide
  unfold getDecimalFunction
  simp only [DataTypeDecimal32.maxPrecision, DataTypeDecimal64.maxPrecision,
    DataTypeDecimal128.maxPrecision]
  split_ifs <;> cases b <;> simp_all

theorem substrBefore_extract (types : String) :
    substrBefore ("extract:" ++ types) ':' = "extract" := by
  have : ("extract:" ++ types).toList = "extract:".toList ++ types.toList := by
    simp [String.toList]
  unfold substrBefore
  rw [this]
  rfl

theorem containsSubstr_extract (types : String) :
    containsSubstr ("extract:" ++ types) "extract:" = true := by
  have : ("extract:" ++ types).toList = "extract:".toList ++ types.toList := by
    simp [String.toList]
  unfold containsSubstr
  rw [this]
  cases h : "extract:".toList ++ types.toList with
  | nil => simp [String.toList] at h
  | cons c cs =>
    simp only [List.tails, List.any_cons]
    rw [← h]
    have : "extract:".toList.isPrefixOf ("extract:".toList ++ types.toList) = true := by
      simp
    rw [this]
    rfl

theorem extractFunctionName_vocabulary (p : String × String) (hp : p ∈ extractVocabulary) :
    extractFunctionName p.1 = .ok p.2 ∧
      ((p.2 == "alias") = false ∧ (p.2 == "arrayJoin") = false ∧
        (p.2 == "isNotNull") = false ∧ (p.2 == "splitByRegexp") = false) := by
  simp only [extractVocabulary, List.mem_cons, List.mem_singleton, List.not_mem_nil,
    or_false] at hp
  rcases hp with h | h | h | h | h | h | h | h | h | h <;>
    (subst h
     exact ⟨rfl, by decide⟩)

theorem joinNames_one (dag : ActionsDAG) (a : Nat) (anode : Node)
    (hnode : dag.nodes.get? a = some anode) :
    joinNames dag [some a] "," = .ok anode.result_name := by
  simp only [joinNames, bind, Except.bind, List.mapM_cons, List.mapM_nil,
    deref_some _ _ _ hnode, Except.map, pure, Except.pure]
  rfl

theorem addFunction_one (env : Env) (dag : ActionsDAG) (function : String) (a : Nat)
    (anode : Node) (ty : DataType) (name : String) (hnode : dag.nodes.get? a = some anode)
    (hty : env.functionReturnType function [anode.result_type] = .ok ty) :
    dag.addFunction env function [some a] name =
      .ok (dag.nodes.length,
        { nodes := dag.nodes ++ [⟨.FUNCTION, name, ty, [a], function, none⟩],
          inputs := dag.inputs, index := dag.index }) := by
  simp only [ActionsDAG.addFunction, bind, Except.bind, List.mapM_cons, List.mapM_nil,
    deref_some _ _ _ hnode, pure, Except.pure, List.map, hty, ActionsDAG.addNode]
  rfl

theorem deref_last (nodes : List Node) (inputs index : List Nat) (node : Node) :
    ActionsDAG.deref { nodes := nodes ++ [node], inputs := inputs, index := index }
      (some nodes.length) = .ok node :=
  deref_some _ _ _ (by simp)

theorem buildFunction_extract (env : Env) (f : ScalarFunction) (sig fname : String)
    (l : NodePtr) (a : Nat) (anode : Node) (ty : DataType) (rc : List String)
    (keep : Bool) (st : PState)
    (hplain : (fname == "alias") = false ∧ (fname == "arrayJoin") = false ∧
      (fname == "isNotNull") = false ∧ (fname == "splitByRegexp") = false)
    (hext : containsSubstr sig "extract:" = true)
    (hco : containsSubstr sig "check_overflow:" = false)
    (hnode : st.dag.nodes.get? a = some anode)
    (hex : env.functionExists fname = true)
    (hty : env.functionReturnType fname [anode.result_type] = .ok ty)
    (hmatch : isTypeMatched f.output_type ty = .ok true) :
    ∃ index1, buildFunction env f sig fname [l, some a] rc keep st =
      .ok ⟨some st.dag.nodes.length, fname ++ "(" ++ anode.result_name ++ ")", rc,
        { dag :=
            { nodes := st.dag.nodes ++ [functionNode fname [anode.result_name] ty [a]],
              inputs := st.dag.inputs, index := index1 },
          name_no := st.name_no }⟩ := by
  obtain ⟨h1, h2, h3, h4⟩ := hplain
  obtain ⟨index1, hidx⟩ := addOrReplaceInIndex_last st.dag.nodes st.dag.inputs st.dag.index
    ⟨.FUNCTION, fname ++ "(" ++ anode.result_name ++ ")", ty, [a], fname, none⟩
  cases keep with
  | false =>
    refine ⟨st.dag.index, ?_⟩
    simp only [buildFunction, h1, h2, h3, h4, hext, hco, getFunctionBuilder, hex, if_true,
      joinNames_one _ _ _ hnode, addFunction_one env _ _ _ _ _ _ hnode hty, deref_last, hmatch,
      bind, Except.bind, pure, Except.pure, Bool.false_eq_true, if_false, Bool.not_true]
    rfl
  | true =>
    refine ⟨index1, ?_⟩
    simp only [buildFunction, h1, h2, h3, h4, hext, hco, getFunctionBuilder, hex, if_true,
      joinNames_one _ _ _ hnode, addFunction_one env _ _ _ _ _ _ hnode hty, deref_last, hmatch,
      bind, Except.bind, pure, Except.pure, Bool.false_eq_true, if_false, Bool.not_true, hidx]
    rfl


theorem compileAll_branches (env : Env) (fm : StringMap) (else_ : Expression)
    (ifs : List (Expression × Expression)) : ∀ (st : PState),
    compileAll env fm (flattenedBranches ifs else_) st =
      (do
        let (args, st) ← parseIfs env fm ifs st
        let (else_node, st) ← parseArgument env fm else_ st
        pure (args ++ [else_node], st)) := by
  induction ifs with
  | nil =>
    intro st
    simp only [flattenedBranches, List.flatMap_nil, List.nil_append, compileAll, parseIfs, bind,
      Except.bind, pure, Except.pure]
  | cons p rest ih =>
    intro st
    obtain ⟨c, v⟩ := p
    have hflat : flattenedBranches ((c, v) :: rest) else_ =
        c :: v :: flattenedBranches rest else_ := by
      simp [flattenedBranches]
    rw [hflat]
    simp only [compileAll, parseIfs, bind, Except.bind, pure, Except.pure]
    cases h1 : parseArgument env fm c st with
    | error e => rfl
    | ok r1 =>
      simp only []
      cases h2 : parseArgument env fm v r1.2 with
      | error e => rfl
      | ok r2 =>
        simp only []
        have := ih r2.2
        simp only [bind, Except.bind, pure, Except.pure] at this
        rw [this]
        cases parseIfs env fm rest r2.2 with
        | error e => rfl
        | ok r3 =>
          simp only []
          cases parseArgument env fm else_ r3.2 <;> rfl

theorem compileAll_length (env : Env) (fm : StringMap) (es : List Expression) :
    ∀ (st st1 : PState) (args : List NodePtr),
      compileAll env fm es st = .ok (args, st1) → args.length = es.length := by
  induction es with
  | nil =>
    intro st st1 args h
    simp only [compileAll] at h
    cases h
    rfl
  | cons e es ih =>
    intro st st1 args h
    simp only [compileAll, bind, Except.bind, pure, Except.pure] at h
    split at h
    · cases h
    · split at h
      · cases h
      · rename_i heq
        cases h
        simp only [List.length_cons]
        rw [ih _ _ _ heq]

theorem flattenedBranches_length (ifs : List (Expression × Expression)) (else_ : Expression) :
    (flattenedBranches ifs else_).length = 2 * ifs.length + 1 := by
  induction ifs with
  | nil => rfl
  | cons p rest ih =>
    simp only [flattenedBranches, List.flatMap_cons, List.length_append, List.length_cons,
      List.length_nil, List.cons_append, List.nil_append] at ih ⊢
    omega

theorem mapM_deref_names (dag : ActionsDAG) (args : List NodePtr) :
    ∀ (nodes : List Node), args.mapM (fun p => dag.deref p) = .ok nodes →
      args.mapM (fun p => (dag.deref p).map (fun n => n.result_name)) =
        .ok (nodes.map (fun n => n.result_name)) ∧
      (args.filterMap id).map some = args := by
  induction args with
  | nil =>
    intro nodes h
    simp only [List.mapM_nil, pure, Except.pure] at h
    cases h
    exact ⟨rfl, rfl⟩
  | cons p ps ih =>
    intro nodes h
    simp only [List.mapM_cons, bind, Except.bind, pure, Except.pure] at h ⊢
    split at h
    · cases h
    · rename_i n hn
      split at h
      · cases h
      · rename_i ns hns
        cases h
        obtain ⟨h1, h2⟩ := ih ns hns
        cases p with
        | none => simp [ActionsDAG.deref] at hn
        | some a =>
          simp only [Except.map] at h1 ⊢
          simp only [h1, hn]
          refine ⟨rfl, ?_⟩
          rw [List.filterMap_cons_some (by rfl : id (some a) = some a), List.map_cons, h2]

theorem parseArgument_if_then_built (env : Env) (fm : StringMap)
    (ifs : List (Expression × Expression)) (else_ : Expression) (st st1 : PState)
    (args : List NodePtr) (nodes : List Node) (ty : DataType)
    (hex : env.functionExists "multiIf" = true)
    (hargs : compileAll env fm (flattenedBranches ifs else_) st = .ok (args, st1))
    (hnodes : args.mapM (fun p => st1.dag.deref p) = .ok nodes)
    (hty : env.functionReturnType "multiIf" (nodes.map (fun n => n.result_type)) = .ok ty) :
    ∃ index1, parseArgument env fm (.if_then ifs else_) st =
      .ok (some st1.dag.nodes.length,
        { dag :=
            { nodes := st1.dag.nodes ++
                [functionNode "multiIf" (nodes.map (fun n => n.result_name)) ty
                  (args.filterMap id)],
              inputs := st1.dag.inputs, index := index1 },
          name_no := st1.name_no }) := by
  obtain ⟨hnames, -⟩ := mapM_deref_names st1.dag args nodes hnodes
  obtain ⟨index1, hidx⟩ := addOrReplaceInIndex_last st1.dag.nodes st1.dag.inputs st1.dag.index
    (functionNode "multiIf" (nodes.map (fun n => n.result_name)) ty (args.filterMap id))
  refine ⟨index1, ?_⟩
  rw [compileAll_branches] at hargs
  simp only [bind, Except.bind, pure, Except.pure] at hargs
  rw [parseArgument]
  simp only [bind, Except.bind, pure, Except.pure, getFunctionBuilder, hex, if_true]
  split at hargs
  · cases hargs
  · rename_i r1 h1
    split at hargs
    · cases hargs
    · rename_i r2 h2
      cases hargs
      simp only [joinNames, hnames, ActionsDAG.addFunction, hnodes, hty, bind, Except.bind, pure,
        Except.pure, ActionsDAG.addNode]
      exact hidx ▸ rfl

theorem parseArgument_if_then_no_branch (env : Env) (fm : StringMap) (else_ : Expression)
    (st : PState) (hreg : MultiIfRequiresBranch env) :
    (parseArgument env fm (.if_then [] else_) st).failed = true := by
  rw [parseArgument]
  simp only [bind, Except.bind, pure, Except.pure, parseIfs, List.nil_append,
    ActionsDAG.addFunction, List.mapM_cons, List.mapM_nil]
  split
  · rfl
  · split
    · rfl
    · split
      · rfl
      · split
        · rfl
        · rename_i r _ _ _ res hres
          exfalso
          split at hres
          · cases hres
          · rename_i ns hns
            split at hns
            · cases hns
            · rename_i n _
              cases hns
              have := hreg n.result_type
              simp only [List.map] at hres
              split at hres
              · cases hres
              · rename_i heq
                rw [heq] at this
                cases this

theorem parseLiteralElements_all (env : Env) (T : DataType) (vs : List Literal)
    (tfs : List (DataType × Field))
    (hall : List.Forall₂ (fun v tf => parseLiteral env v = .ok tf) vs tfs) :
    ((∀ tf ∈ tfs, T.equals tf.1 = true) →
      parseLiteralElements env T vs = .ok (tfs.map Prod.snd)) ∧
    ((∃ tf ∈ tfs, T.equals tf.1 = false) →
      parseLiteralElements env T vs =
        .error ⟨.LOGICAL_ERROR, "Literal list type mismatch:\x7b\x7d and \x7b\x7d"⟩) := by
  induction hall with
  | nil =>
    constructor
    · intro _
      rw [parseLiteralElements]
      rfl
    · rintro ⟨tf, hmem, _⟩
      cases hmem
  | @cons v tf vs tfs hv _ ih =>
    obtain ⟨ih1, ih2⟩ := ih
    constructor
    · intro hT
      have h1 : T.equals tf.1 = true := hT tf (List.mem_cons_self _ _)
      have h2 := ih1 (fun x hx => hT x (List.mem_cons_of_mem _ hx))
      rw [parseLiteralElements]
      simp only [bind, Except.bind, hv, h1, h2, pure, Except.pure, Bool.not_true,
        Bool.false_eq_true, if_false, List.map_cons]
    · rintro ⟨x, hmem, hx⟩
      rw [parseLiteralElements]
      by_cases h1 : T.equals tf.1 = true
      · have hx' : ∃ y ∈ tfs, T.equals y.1 = false := by
          rcases List.mem_cons.1 hmem with rfl | hm
          · rw [h1] at hx
            cases hx
          · exact ⟨x, hm, hx⟩
        simp only [bind, Except.bind, hv, h1, ih2 hx', pure, Except.pure, Bool.not_true,
          Bool.false_eq_true, if_false]
      · have h1' : T.equals tf.1 = false := by simpa using h1
        simp only [bind, Except.bind, hv, h1', Bool.not_false, if_true]

theorem parseOptions_ok (env : Env) (T : DataType) (os : List Expression) :
    ∀ (fields : List Field), parseOptions env T os = .ok fields →
      ∀ o ∈ os, o.has_literal = true ∧
        ∃ ty f, parseLiteral env o.get_literal = .ok (ty, f) ∧ T.equals ty = true := by
  induction os with
  | nil =>
    intro fields _ o ho
    cases ho
  | cons o1 os ih =>
    intro fields h o ho
    simp only [parseOptions, bind, Except.bind, pure, Except.pure] at h
    by_cases hl : o1.has_literal = true
    · simp only [hl, Bool.not_true, Bool.false_eq_true, if_false] at h
      cases hp : parseLiteral env o1.get_literal with
      | error e =>
        rw [hp] at h
        cases h
      | ok tf =>
        rw [hp] at h
        simp only [] at h
        by_cases he : T.equals tf.1 = true
        · simp only [he, Bool.not_true, Bool.false_eq_true, if_false] at h
          cases hr : parseOptions env T os with
          | error e =>
            rw [hr] at h
            cases h
          | ok fs =>
            rcases List.mem_cons.1 ho with rfl | hm
            · exact ⟨hl, tf.1, tf.2, hp, he⟩
            · exact ih fs hr o hm
        · have he' : T.equals tf.1 = false := by simpa using he
          simp only [he', Bool.not_false, if_true] at h
          cases h
    · have hl' : o1.has_literal = false := by simpa using hl
      simp only [hl', Bool.not_false, if_true] at h
      cases h

theorem parseOptions_mismatch (env : Env) (T : DataType) (os : List Expression)
    (tfs : List (DataType × Field))
    (hall : List.Forall₂
      (fun o tf => o.has_literal = true ∧ parseLiteral env o.get_literal = .ok tf) os tfs)
    (hex : ∃ tf ∈ tfs, T.equals tf.1 = false) :
    parseOptions env T os =
      .error ⟨.LOGICAL_ERROR, "SingularOrList options type mismatch:\x7b\x7d and \x7b\x7d"⟩ := by
  induction hall with
  | nil =>
    obtain ⟨tf, hmem, _⟩ := hex
    cases hmem
  | @cons o tf os tfs ho _ ih =>
    obtain ⟨hl, hp⟩ := ho
    obtain ⟨x, hmem, hx⟩ := hex
    rw [parseOptions]
    by_cases h1 : T.equals tf.1 = true
    · have hx' : ∃ y ∈ tfs, T.equals y.1 = false := by
        rcases List.mem_cons.1 hmem with rfl | hm
        · rw [h1] at hx
          cases hx
        · exact ⟨x, hm, hx⟩
      simp only [bind, Except.bind, hl, hp, h1, ih hx', pure, Except.pure, Bool.not_true,
        Bool.false_eq_true, if_false]
    · have h1' : T.equals tf.1 = false := by simpa using h1
      simp only [bind, Except.bind, hl, hp, h1', pure, Except.pure, Bool.not_true,
        Bool.false_eq_true, if_false, Bool.not_false, if_true]

theorem parseArgument_options_ok (env : Env) (fm : StringMap) (value o0 : Expression)
    (rest : List Expression) (st : PState) (r : NodePtr × PState)
    (h : parseArgument env fm (.singular_or_list value (o0 :: rest)) st = .ok r) :
    ∃ T f0, parseLiteral env o0.get_literal = .ok (T, f0) ∧
      ∀ o ∈ o0 :: rest, o.has_literal = true ∧
        ∃ ty f, parseLiteral env o.get_literal = .ok (ty, f) ∧ T.equals ty = true := by
  rw [parseArgument] at h
  simp only [bind, Except.bind, pure, Except.pure] at h
  split at h
  · cases h
  · split at h
    · cases h
    · split at h
      · cases h
      · rename_i tf htf
        split at h
        · cases h
        · rename_i fields hf
          exact ⟨tf.1, tf.2, htf, parseOptions_ok env tf.1 (o0 :: rest) fields hf⟩

theorem groupingKeys_fails (es : List Expression) (e : Expression) (he : e ∈ es)
    (hne : (e.has_selection && e.has_direct_reference) = false) :
    (groupingKeys es).failed = true := by
  induction es with
  | nil => cases he
  | cons e1 es ih =>
    rw [groupingKeys]
    by_cases h1 : (e1.has_selection && e1.has_direct_reference) = true
    · have hm : e ∈ es := by
        rcases List.mem_cons.1 he with rfl | hm
        · rw [h1] at hne
          cases hne
        · exact hm
      have := ih hm
      simp only [h1, if_true, bind, Except.bind]
      cases hg : groupingKeys es with
      | error err => rfl
      | ok keys =>
        rw [hg] at this
        cases this
    · simp only [h1, Bool.false_eq_true, if_false]
      rfl

theorem groupingKeys_positions (ps : List Nat) (hps : ∀ p ∈ ps, p < 2147483648) :
    groupingKeys (ps.map (fun p => col p)) = .ok ps := by
  induction ps with
  | nil => rfl
  | cons p ps ih =>
    have hp := hps p (List.mem_cons_self _ _)
    have ih' := ih (fun q hq => hps q (List.mem_cons_of_mem _ hq))
    have hm : ((p : Int) % 18446744073709551616).toNat = p := by omega
    show groupingKeys (col p :: ps.map (fun p => col p)) = .ok (p :: ps)
    rw [groupingKeys, ih']
    simp only [col, Expression.has_selection, Expression.has_direct_reference, Bool.and_self,
      if_true, bind, Except.bind, pure, Except.pure, Expression.selection_field, hm]

theorem parseAggregateBody_keys (env : Env) (fm : StringMap) (name_no : Nat)
    (plan : QueryPlan) (rel : AggregateRel) (final : Bool) :
    parseAggregateBody env fm name_no plan rel final =
      (do
        let pre ← addPreProjectStepIfNeeded env fm plan name_no rel
        let keys ← aggregateKeys rel
        let aggregates ← aggregateDescriptions env fm pre.plan.header pre.measure_names
          pre.nullable_measure_names 0 rel.measures
        if final then
          pure ⟨.MergingAggregatedStep keys aggregates, pre.plan, pre.name_no⟩
        else
          pure ⟨.AggregatingStep keys aggregates, pre.plan, pre.name_no⟩) := rfl

theorem parseAggregate_fails_of_keys (env : Env) (fm : StringMap) (name_no : Nat)
    (plan : QueryPlan) (rel : AggregateRel) (h : (aggregateKeys rel).failed = true) :
    (parseAggregate env fm name_no plan rel).result.failed = true := by
  unfold parseAggregate
  split
  · rfl
  · rw [parseAggregateBody_keys]
    simp only [bind, Except.bind]
    split
    · rfl
    · cases hk : aggregateKeys rel with
      | error e => rfl
      | ok keys =>
        rw [hk] at h
        cases h

theorem parseAggregate_keys_of_ok (env : Env) (fm : StringMap) (name_no : Nat)
    (plan : QueryPlan) (rel : AggregateRel) (out : AggregateOutput)
    (h : (parseAggregate env fm name_no plan rel).result = .ok out) :
    aggregateKeys rel = .ok out.step.keys := by
  unfold parseAggregate at h
  split at h
  · cases h
  · rename_i final _
    rw [parseAggregateBody_keys] at h
    simp only [bind, Except.bind, pure, Except.pure] at h
    split at h
    · cases h
    · split at h
      · cases h
      · rename_i keys hk
        split at h
        · cases h
        · cases final
          · simp only [Bool.false_eq_true, if_false] at h
            cases h
            exact hk
          · simp only [if_true] at h
            cases h
            exact hk

theorem aggregateKeys_none (rel : AggregateRel) (h : rel.groupings = []) :
    aggregateKeys rel = .ok [] := by
  simp [aggregateKeys, h]
  rfl

theorem aggregateKeys_one (rel : AggregateRel) (g : Grouping) (h : rel.groupings = [g]) :
    aggregateKeys rel = groupingKeys g.grouping_expressions := by
  simp [aggregateKeys, h]

theorem aggregateKeys_many (rel : AggregateRel) (h : 1 < rel.groupings.length) :
    aggregateKeys rel = .error ⟨.LOGICAL_ERROR, "too many groupings"⟩ := by
  have h1 : (rel.groupings.length == 1) = false := by
    simp only [beq_eq_false_iff_ne, ne_eq]
    omega
  have h2 : (rel.groupings.length != 0) = true := by
    simp only [bne_iff_ne, ne_eq]
    omega
  simp only [aggregateKeys, h1, h2, Bool.false_eq_true, if_false, if_true]
  rfl

theorem header_append_index (nodes : List Node) (inputs index : List Nat) (h : Nat) (n : Node)
    (hn : nodes.get? h = some n) :
    ActionsDAG.header ⟨nodes, inputs, index ++ [h]⟩ =
      ActionsDAG.header ⟨nodes, inputs, index⟩ ++ [(n.result_name, n.result_type)] := by
  simp only [ActionsDAG.header, List.filterMap_append, List.filterMap_cons, hn, Option.map_some',
    List.filterMap_nil]

theorem header_append_node (nodes : List Node) (inputs index : List Nat) (n : Node)
    (hidx : ∀ i ∈ index, i < nodes.length) :
    ActionsDAG.header ⟨nodes ++ [n], inputs, index⟩ = ActionsDAG.header ⟨nodes, inputs, index⟩ := by
  simp only [ActionsDAG.header]
  apply List.filterMap_congr
  intro i hi
  rw [List.get?_eq_getElem?, List.get?_eq_getElem?, List.getElem?_append_left (hidx i hi)]

theorem addProjected_header (inputs : List Nat) (found : List (Nat × Node × String)) :
    ∀ (nodes : List Node) (index : List Nat),
      (∀ i ∈ index, i < nodes.length) →
      (∀ x ∈ found, nodes.get? x.1 = some x.2.1) →
      ActionsDAG.header
          ⟨(addProjected nodes index found).1, inputs, (addProjected nodes index found).2⟩ =
        ActionsDAG.header ⟨nodes, inputs, index⟩ ++
          found.map (fun x => (x.2.2, x.2.1.result_type)) := by
  induction found with
  | nil =>
    intro nodes index _ _
    simp [addProjected]
  | cons x rest ih =>
    intro nodes index hidx hfound
    obtain ⟨h, n, alias_name⟩ := x
    have hn : nodes.get? h = some n := hfound (h, n, alias_name) (List.mem_cons_self _ _)
    have hlt : h < nodes.length := by
      rw [List.get?_eq_getElem?] at hn
      exact (List.getElem?_eq_some_iff.1 hn).1
    rw [addProjected]
    by_cases ha : (alias_name == n.result_name) = true
    · have hae : alias_name = n.result_name := by simpa using ha
      simp only [ha, if_true]
      rw [ih nodes (index ++ [h])]
      · rw [header_append_index nodes inputs index h n hn, hae]
        simp
      · intro i hi
        rcases List.mem_append.1 hi with h1 | h1
        · exact hidx i h1
        · simp only [List.mem_singleton] at h1
          rw [h1]
          exact hlt
      · intro y hy
        exact hfound y (List.mem_cons_of_mem _ hy)
    · simp only [ha, Bool.false_eq_true, if_false]
      have hlast : (nodes ++ [Node.mk .ALIAS alias_name n.result_type [h] "" n.column]).get?
          nodes.length = some (Node.mk .ALIAS alias_name n.result_type [h] "" n.column) := by
        rw [List.get?_eq_getElem?, List.getElem?_append_right (le_refl _)]
        simp
      rw [ih (nodes ++ [Node.mk .ALIAS alias_name n.result_type [h] "" n.column])
        (index ++ [nodes.length])]
      · rw [header_append_index _ inputs index nodes.length _ hlast,
          header_append_node nodes inputs index _ hidx]
        simp
      · intro i hi
        rcases List.mem_append.1 hi with h1 | h1
        · have := hidx i h1
          simp only [List.length_append, List.length_singleton]
          omega
        · simp only [List.mem_singleton] at h1
          simp only [List.length_append, List.length_singleton]
          omega
      · intro y hy
        have := hfound y (List.mem_cons_of_mem _ hy)
        rw [List.get?_eq_getElem?] at this ⊢
        have hl := (List.getElem?_eq_some_iff.1 this).1
        rw [List.getElem?_append_left hl]
        exact this

theorem tryFindInIndex_range' (name : String) (inputs : List Nat) (l : List Node) :
    ∀ (pre : List Node) (a : Node),
      l.find? (fun n => n.result_name == name) = some a →
      ∃ j, ActionsDAG.tryFindInIndex ⟨pre ++ l, inputs, List.range' pre.length l.length⟩ name
          = some j ∧ (pre ++ l).get? j = some a := by
  induction l with
  | nil =>
    intro pre a h
    cases h
  | cons x xs ih =>
    intro pre a h
    have hx : (pre ++ x :: xs).get? pre.length = some x := by
      rw [List.get?_eq_getElem?, List.getElem?_append_right (le_refl _)]
      simp
    by_cases hp : (x.result_name == name) = true
    · simp only [List.find?, hp] at h
      cases h
      refine ⟨pre.length, ?_, hx⟩
      simp only [ActionsDAG.tryFindInIndex, List.length_cons, List.range'_succ, List.find?, hx, hp]
    · have hp' : (x.result_name == name) = false := by simpa using hp
      simp only [List.find?, hp'] at h
      obtain ⟨j, hj, hget⟩ := ih (pre ++ [x]) a h
      have e : pre ++ [x] ++ xs = pre ++ x :: xs := by simp
      rw [e] at hj hget
      refine ⟨j, ?_, hget⟩
      simp only [List.length_append, List.length_singleton] at hj
      simp only [ActionsDAG.tryFindInIndex, List.length_cons, List.range'_succ, List.find?, hx,
        hp']
      exact hj

theorem ofInputs_find (B : Block) (c : String) (column : String × DataType)
    (h : B.findByName c = some column) :
    ∃ j, (ActionsDAG.ofInputs B).findInIndex c = .ok j ∧
      (ActionsDAG.ofInputs B).nodes.get? j =
        some ⟨.INPUT, column.1, column.2, [], "", none⟩ := by
  have hf : (B.map (fun c => Node.mk .INPUT c.1 c.2 [] "" none)).find?
      (fun n => n.result_name == c) = some ⟨.INPUT, column.1, column.2, [], "", none⟩ := by
    rw [List.find?_map]
    have : ((fun n : Node => n.result_name == c) ∘
        (fun c : String × DataType => Node.mk .INPUT c.1 c.2 [] "" none)) =
        (fun x : String × DataType => x.1 == c) := rfl
    rw [this]
    unfold Block.findByName at h
    rw [h]
    rfl
  obtain ⟨j, hj, hget⟩ := tryFindInIndex_range' c (List.range B.length) _ [] _ hf
  refine ⟨j, ?_, ?_⟩
  · simp only [List.nil_append, List.length_nil, List.length_map] at hj
    unfold ActionsDAG.findInIndex
    have e : ActionsDAG.ofInputs B =
        ⟨B.map (fun c => Node.mk .INPUT c.1 c.2 [] "" none), List.range B.length,
          List.range' 0 B.length⟩ := by
      simp only [ActionsDAG.ofInputs, List.range_eq_range']
    rw [e, hj]
  · simpa [ActionsDAG.ofInputs] using hget

theorem projectAliases_ofInputs (B : Block) (aliases : List (String × String))
    (cols : List (String × DataType))
    (h : List.Forall₂ (fun a column => B.findByName a.1 = some column) aliases cols) :
    ∃ dag, (ActionsDAG.ofInputs B).projectAliases aliases = .ok dag ∧
      dag.header = List.zipWith (fun a column => (a.2, column.2)) aliases cols := by
  have key : ∃ found : List (Nat × Node × String),
      aliases.mapM (fun item => (ActionsDAG.ofInputs B).resolveProjected item) = .ok found ∧
      (∀ x ∈ found, (ActionsDAG.ofInputs B).nodes.get? x.1 = some x.2.1) ∧
      found.map (fun x => (x.2.2, x.2.1.result_type)) =
        List.zipWith (fun a column => (a.2, column.2)) aliases cols := by
    induction h with
    | nil => exact ⟨[], rfl, by simp, rfl⟩
    | @cons a column as cs ha _ ih =>
      obtain ⟨found, hfound, hvalid, hmap⟩ := ih
      obtain ⟨j, hj, hget⟩ := ofInputs_find B a.1 column ha
      refine ⟨(j, ⟨.INPUT, column.1, column.2, [], "", none⟩, a.2) :: found, ?_, ?_, ?_⟩
      · have hr : (ActionsDAG.ofInputs B).resolveProjected a =
            .ok (j, ⟨.INPUT, column.1, column.2, [], "", none⟩, a.2) := by
          simp only [ActionsDAG.resolveProjected, bind, Except.bind, hj, deref_some _ _ _ hget,
            pure, Except.pure]
        simp only [List.mapM_cons, bind, Except.bind, hr, hfound, pure, Except.pure]
      · intro x hx
        rcases List.mem_cons.1 hx with rfl | hx
        · exact hget
        · exact hvalid x hx
      · simp only [List.map_cons, List.zipWith_cons_cons, hmap]
  obtain ⟨found, hfound, hvalid, hmap⟩ := key
  refine ⟨⟨(addProjected (ActionsDAG.ofInputs B).nodes [] found).1,
    (ActionsDAG.ofInputs B).inputs,
    (addProjected (ActionsDAG.ofInputs B).nodes [] found).2⟩, ?_, ?_⟩
  · unfold ActionsDAG.projectAliases
    simp only [bind, Except.bind, hfound, pure, Except.pure]
  · have := addProjected_header (ActionsDAG.ofInputs B).inputs found
      (ActionsDAG.ofInputs B).nodes [] (by simp) hvalid
    simp only [ActionsDAG.header, List.filterMap_nil, List.nil_append] at this ⊢
    rw [← hmap]
    exact this

theorem findByName_name (H : Block) (c : String) (column : String × DataType)
    (h : H.findByName c = some column) : column.1 = c := by
  unfold Block.findByName at h
  have := List.find?_some h
  simpa using this

theorem findByName_mem (H : Block) (c : String × DataType) (hc : c ∈ H) :
    ∃ column, H.findByName c.1 = some column := by
  unfold Block.findByName
  cases hf : H.find? (fun x => x.1 == c.1) with
  | some column => exact ⟨column, rfl⟩
  | none =>
    have := List.find?_eq_none.1 hf c hc
    simp at this

theorem blockToNameAndTypeList_map (H : Block) :
    blockToNameAndTypeList H = H.map (fun c => (H.findByName c.1).getD c) := by
  unfold blockToNameAndTypeList Block.getNames
  rw [List.filterMap_map]
  have : ∀ l : Block, (∀ c ∈ l, c ∈ H) →
      l.filterMap ((fun name => H.findByName name) ∘ Prod.fst) =
        l.map (fun c => (H.findByName c.1).getD c) := by
    intro l
    induction l with
    | nil => intro _; rfl
    | cons c l ih =>
      intro hl
      obtain ⟨column, hcol⟩ := findByName_mem H c (hl c (List.mem_cons_self _ _))
      simp only [List.filterMap_cons, Function.comp, hcol, List.map_cons, Option.getD_some]
      rw [← ih (fun x hx => hl x (List.mem_cons_of_mem _ hx))]
  exact this H (fun _ h => h)

theorem blockToNameAndTypeList_findByName (H : Block) (c : String) (column : String × DataType)
    (h : H.findByName c = some column) :
    (blockToNameAndTypeList H).findByName c = some column := by
  rw [blockToNameAndTypeList_map]
  have e : ∀ l : Block, l.findByName c = l.find? (fun x => x.1 == c) := fun _ => rfl
  rw [e, List.find?_map]
  have hfun : ((fun x : String × DataType => x.1 == c) ∘
      (fun x : String × DataType => (H.findByName x.1).getD x)) =
      (fun x : String × DataType => x.1 == c) := by
    funext x
    simp only [Function.comp]
    cases hx : H.findByName x.1 with
    | none => rfl
    | some y =>
      rw [Option.getD_some, findByName_name H x.1 y hx]
  rw [hfun, ← e, h]
  simp only [Option.map_some']
  rw [findByName_name H c column h, h]
  rfl

theorem blockToNameAndTypeList_nodup (H : Block) (h : H.getNames.Nodup) :
    blockToNameAndTypeList H = H := by
  rw [blockToNameAndTypeList_map]
  have : ∀ (pre l : Block), H = pre ++ l →
      l.map (fun c => (H.findByName c.1).getD c) = l := by
    intro pre l
    induction l generalizing pre with
    | nil => intro _; rfl
    | cons c l ih =>
      intro hH
      have hfind : H.findByName c.1 = some c := by
        unfold Block.findByName
        rw [hH, List.find?_append]
        have hpre : pre.find? (fun x => x.1 == c.1) = none := by
          rw [List.find?_eq_none]
          intro x hx hxc
          have hxc' : x.1 = c.1 := by simpa using hxc
          rw [hH] at h
          simp only [Block.getNames, List.map_append, List.map_cons] at h
          have := (List.nodup_append.1 h).2.2
          exact this (List.mem_map_of_mem _ hx) (by rw [hxc']; exact List.mem_cons_self _ _)
        rw [hpre]
        simp [List.find?]
      simp only [List.map_cons, hfind, Option.getD_some]
      rw [ih (pre ++ [c]) (by rw [hH]; simp)]
  exact this [] H rfl

theorem outputAliases_zip (cols : List String) (names : List String) :
    ∀ i, names.length + i ≤ cols.length →
      outputAliases cols i names = .ok ((cols.drop i).zip names) := by
  induction names with
  | nil =>
    intro i _
    simp [outputAliases]
  | cons name names ih =>
    intro i hi
    simp only [List.length_cons] at hi
    have hlt : i < cols.length := by omega
    have hget : cols.get? i = some cols[i] := by
      rw [List.get?_eq_getElem?]
      exact List.getElem?_eq_getElem hlt
    have hdrop : cols.drop i = cols[i] :: cols.drop (i + 1) := by
      rw [List.drop_eq_getElem_cons hlt]
    rw [outputAliases]
    simp only [hget, bind, Except.bind, ih (i + 1) (by omega), pure, Except.pure, hdrop,
      List.zip_cons_cons]

theorem rename_aliases_columns (H B : Block)
    (hB : ∀ c ∈ H, B.findByName c.1 = some ((H.findByName c.1).getD c)) :
    ∀ (l : Block) (names : List String), (∀ c ∈ l, c ∈ H) → names.length = l.length →
      List.Forall₂ (fun a column => B.findByName a.1 = some column)
        ((l.map Prod.fst).zip names) (l.map (fun c => (H.findByName c.1).getD c)) ∧
      List.zipWith (fun (a : String × String) (column : String × DataType) => (a.2, column.2))
          ((l.map Prod.fst).zip names) (l.map (fun c => (H.findByName c.1).getD c)) =
        List.zipWith (fun (name : String) (c : String × DataType) => (name, c.2)) names
          (l.map (fun c => (H.findByName c.1).getD c)) := by
  intro l
  induction l with
  | nil =>
    intro names _ hlen
    cases names with
    | nil => exact ⟨.nil, rfl⟩
    | cons n ns => cases hlen
  | cons c l ih =>
    intro names hl hlen
    cases names with
    | nil => cases hlen
    | cons n ns =>
      obtain ⟨h1, h2⟩ := ih ns (fun x hx => hl x (List.mem_cons_of_mem _ hx))
        (by simpa using hlen)
      constructor
      · exact .cons (hB c (hl c (List.mem_cons_self _ _))) h1
      · simp only [List.map_cons, List.zip_cons_cons, List.zipWith_cons_cons, h2]

theorem rename_output_dag (H : Block) (names : List String) (hlen : names.length = H.length) :
    ∃ dag aliases, outputAliases H.getNames 0 names = .ok aliases ∧
      (ActionsDAG.ofInputs (blockToNameAndTypeList H)).projectAliases aliases = .ok dag ∧
      dag.header =
        List.zipWith (fun name c => (name, c.2)) names (blockToNameAndTypeList H) := by
  have hB : ∀ c ∈ H, (blockToNameAndTypeList H).findByName c.1 =
      some ((H.findByName c.1).getD c) := by
    intro c hc
    obtain ⟨column, hcol⟩ := findByName_mem H c hc
    rw [hcol, Option.getD_some]
    exact blockToNameAndTypeList_findByName H c.1 column hcol
  obtain ⟨h1, h2⟩ := rename_aliases_columns H (blockToNameAndTypeList H) hB H names
    (fun _ h => h) hlen
  rw [← blockToNameAndTypeList_map] at h1 h2
  obtain ⟨dag, hdag, hheader⟩ := projectAliases_ofInputs (blockToNameAndTypeList H) _ _ h1
  refine ⟨dag, (H.map Prod.fst).zip names, ?_, hdag, ?_⟩
  · rw [outputAliases_zip H.getNames names 0 (by simp [Block.getNames, hlen])]
    rfl
  · rw [hheader, h2]

theorem digitChar_isdigit (k : Nat) (h : k < 10) : isdigit (Nat.digitChar k) = true := by
  interval_cases k <;> decide

theorem toDigitsCore_isdigit (fuel : Nat) : ∀ (n : Nat) (ds : List Char),
    (∀ c ∈ ds, isdigit c = true) →
      ∀ c ∈ Nat.toDigitsCore 10 fuel n ds, isdigit c = true := by
  induction fuel with
  | zero =>
    intro n ds hds c hc
    simp only [Nat.toDigitsCore] at hc
    exact hds c hc
  | succ fuel ih =>
    intro n ds hds c hc
    simp only [Nat.toDigitsCore] at hc
    have hd : ∀ c ∈ Nat.digitChar (n % 10) :: ds, isdigit c = true := by
      intro x hx
      rcases List.mem_cons.1 hx with rfl | hx
      · exact digitChar_isdigit _ (Nat.mod_lt _ (by decide))
      · exact hds x hx
    split at hc
    · exact hd c hc
    · exact ih _ _ hd c hc

theorem toDigitsCore_ne_nil (fuel : Nat) : ∀ (n : Nat) (ds : List Char),
    0 < fuel → Nat.toDigitsCore 10 fuel n ds ≠ [] := by
  induction fuel with
  | zero => intro n ds h; omega
  | succ fuel ih =>
    intro n ds _
    simp only [Nat.toDigitsCore]
    split
    · simp
    · cases fuel with
      | zero => simp [Nat.toDigitsCore]
      | succ f => exact ih _ _ (by omega)

theorem toString_nat_data (k : Nat) : (toString k).toList = Nat.toDigits 10 k := by
  simp [toString, Nat.repr, String.toList, List.asString]

theorem stoi_toString (k : Nat) (hk : k < 2147483648) : stoi (toString k) = .ok k := by
  have hall : ∀ c ∈ Nat.toDigits 10 k, isdigit c = true :=
    toDigitsCore_isdigit (k + 1) k [] (by simp)
  have hne : Nat.toDigits 10 k ≠ [] := toDigitsCore_ne_nil (k + 1) k [] (by omega)
  have hval : digitsValue (Nat.toDigits 10 k) = k := by
    have := foldl_toDigitsCore (k + 1) k [] (by omega)
    simpa [digitsValue, Nat.toDigits] using this
  unfold stoi
  rw [toString_nat_data]
  cases hd : Nat.toDigits 10 k with
  | nil => exact absurd hd hne
  | cons c cs =>
    rw [hd] at hall hval
    have hc : isdigit c = true := hall c (List.mem_cons_self _ _)
    have hsp : isspace c = false := by
      simp only [isdigit, Bool.and_eq_true, decide_eq_true_eq] at hc
      simp only [isspace, Bool.or_eq_false_iff, Bool.and_eq_false_iff, beq_eq_false_iff_ne,
        decide_eq_false_iff_not]
      omega
    have hminus : c ≠ '-' := by
      intro h
      rw [h] at hc
      exact absurd hc (by decide)
    have hplus : c ≠ '+' := by
      intro h
      rw [h] at hc
      exact absurd hc (by decide)
    have htake : (c :: cs).takeWhile isdigit = c :: cs := by
      rw [List.takeWhile_eq_self_iff]
      exact hall
    have hsign : stoiSign (c :: cs) = (false, c :: cs) := by
      unfold stoiSign
      split
      · rename_i heq
        cases heq
        exact absurd rfl hminus
      · rename_i heq
        cases heq
        exact absurd rfl hplus
      · rfl
    have h1 : ¬ ((k : Int) < -2147483648 ∨ (k : Int) > 2147483647) := by omega
    simp only [List.dropWhile, hsp, hsign, htake, List.isEmpty_cons, Bool.false_eq_true,
      if_false, hval, h1]

theorem substrAfter_iterator (s : String) : substrAfter ("iterator:" ++ s) ':' = s := by
  have e : ("iterator:" ++ s).toList = "iterator:".toList ++ s.toList := by
    simp [String.toList]
  unfold substrAfter
  rw [e]
  have hc : ("iterator:".toList ++ s.toList).contains ':' = true := by
    simp [String.toList]
  rw [hc]
  simp only [if_true]
  have hd : ("iterator:".toList ++ s.toList).dropWhile (fun x => x != ':') = ':' :: s.toList := by
    rfl
  rw [hd]
  rfl

theorem starts_with_iterator (s : String) : starts_with ("iterator:" ++ s) "iterator" = true := by
  have e : ("iterator:" ++ s).toList = "iterator".toList ++ (':' :: s.toList) := by
    simp [String.toList]
  unfold starts_with
  rw [e]
  simp

theorem isReadRelFromJava_iff (rel : ReadRel) :
    isReadRelFromJava rel = true ↔
      ∃ uri, rel.read_type = .local_files [uri] ∧ starts_with uri "iterator" = true := by
  unfold isReadRelFromJava ReadRel.local_files_items
  constructor
  · intro h
    cases hr : rel.read_type with
    | local_files items =>
      rw [hr] at h
      simp only [Bool.and_eq_true, beq_iff_eq] at h
      obtain ⟨hlen, hs⟩ := h
      match items, hlen with
      | [uri], _ => exact ⟨uri, rfl, by simpa using hs⟩
    | extension_table d =>
      rw [hr] at h
      simp at h
    | other =>
      rw [hr] at h
      simp at h
  · rintro ⟨uri, hr, hs⟩
    rw [hr]
    simp [hs]

theorem mem_selectParts (min_block max_block : Int) (data_parts : List DataPart)
    (part : DataPart) :
    part ∈ selectParts min_block max_block data_parts ↔
      part ∈ data_parts ∧ min_block ≤ part.min_block ∧ part.max_block < max_block := by
  simp [selectParts, List.mem_filter]

theorem parseType0_ok (T : SType) (ty : DataType) (h : parseType0 T = .ok ty) :
    ∃ rest, parseType T none = .ok (ty, rest) := by
  unfold parseType0 at h
  cases hp : parseType T none with
  | error e =>
    rw [hp] at h
    cases h
  | ok v =>
    rw [hp] at h
    obtain ⟨ty1, rest⟩ := v
    simp only [Except.map] at h
    cases h
    exact ⟨rest, rfl⟩

theorem foldr_bytes_lt (l : List Nat) :
    l.foldr (fun b acc => b % 256 + 256 * acc) 0 < 256 ^ l.length := by
  induction l with
  | nil => simp
  | cons b l ih =>
    simp only [List.foldr_cons, List.length_cons, pow_succ]
    have hb : b % 256 < 256 := Nat.mod_lt _ (by decide)
    omega

theorem readIntLE_take (bytes : List Nat) (n : Nat) (h : n ≤ bytes.length) :
    readIntLE (bytes.take n) n = readIntLE bytes n := by
  have hl : (bytes.take n).length = n := by simp [h]
  unfold readIntLE
  rw [hl, List.take_take]
  simp [Nat.not_lt.mpr h]

theorem readIntLE_ok (bytes : List Nat) (n : Nat) (h : n ≤ bytes.length) :
    ∃ value, readIntLE bytes n = .ok value ∧
      -((256 ^ n : Nat) : Int) ≤ 2 * value ∧ 2 * value < ((256 ^ n : Nat) : Int) := by
  have hu := foldr_bytes_lt (bytes.take n)
  have hl : (bytes.take n).length = n := by simp [h]
  rw [hl] at hu
  unfold readIntLE
  simp only [Nat.not_lt.mpr h, if_false]
  split
  · rename_i hlt
    refine ⟨_, rfl, ?_, ?_⟩ <;> omega
  · rename_i hge
    refine ⟨_, rfl, ?_, ?_⟩ <;> omega

theorem set_eq_take_append (res : List Int) (i : Nat) (v : Int) (h : i < res.length) :
    res.set i v = res.take i ++ v :: res.drop (i + 1) := by
  induction res generalizing i with
  | nil => simp at h
  | cons a l ih =>
    cases i with
    | zero => simp
    | succ k =>
      simp only [List.length_cons, Nat.add_lt_add_iff_right] at h
      simp [ih k h]

theorem doAscii_row (data : List Nat) (prev offset : Nat) (h1 : prev < offset)
    (h2 : offset ≤ data.length) (h3 : data.length < 18446744073709551616) :
    AsciiImpl.doAscii data prev
      ((((offset : Int) - (prev : Int) - 1) % 18446744073709551616).toNat) =
      .ok (asciiOfString ((data.drop prev).take (offset - prev - 1))) := by
  have hs : (((offset : Int) - (prev : Int) - 1) % 18446744073709551616).toNat
      = offset - prev - 1 := by omega
  rw [hs]
  generalize offset - prev - 1 = size
  unfold AsciiImpl.doAscii
  cases size with
  | zero => simp [asciiOfString]
  | succ k =>
    have hlt : prev < data.length := by omega
    have hget : data.get? prev = some (data.get ⟨prev, hlt⟩) := List.get?_eq_get hlt
    have hd : data.drop prev = data.get ⟨prev, hlt⟩ :: data.drop (prev + 1) :=
      List.drop_eq_getElem_cons hlt
    rw [hget, hd]
    simp only [List.take_succ_cons, asciiOfString, bne_iff_ne, ne_eq, Nat.add_one_ne_zero,
      not_false_eq_true, if_true]

theorem vectorLoop_rows (data : List Nat) (h3 : data.length < 18446744073709551616) :
    ∀ (offsets : List Nat) (i prev : Nat) (res : List Int),
      List.Chain (fun a b => a < b) prev offsets →
      (∀ o ∈ offsets, o ≤ data.length) →
      i + offsets.length ≤ res.length →
      AsciiImpl.vectorLoop data offsets i prev res =
        .ok (res.take i ++ (ColumnString.rows data prev offsets).map asciiOfString ++
          res.drop (i + offsets.length)) := by
  intro offsets
  induction offsets with
  | nil =>
    intro i prev res _ _ _
    simp [AsciiImpl.vectorLoop, ColumnString.rows]
  | cons offset offsets ih =>
    intro i prev res hc hend hlen
    rw [List.chain_cons] at hc
    simp only [List.length_cons] at hlen
    have hi : i < res.length := by omega
    rw [AsciiImpl.vectorLoop, doAscii_row data prev offset hc.1
      (hend offset (List.mem_cons_self _ _)) h3]
    simp only [bind, Except.bind, AsciiImpl.assign, hi, if_true]
    rw [ih (i + 1) offset _ hc.2 (fun o ho => hend o (List.mem_cons_of_mem _ ho))
      (by simp only [List.length_set]; omega)]
    rw [set_eq_take_append res i _ hi]
    have hti : (res.take i).length = i := by simp [Nat.le_of_lt hi]
    have e1 : (res.take i ++ asciiOfString ((data.drop prev).take (offset - prev - 1)) ::
        res.drop (i + 1)).take (i + 1) =
        res.take i ++ [asciiOfString ((data.drop prev).take (offset - prev - 1))] := by
      rw [List.take_append_eq_append_take, hti]
      simp [List.take_of_length_le, hti]
    have e2 : (res.take i ++ asciiOfString ((data.drop prev).take (offset - prev - 1)) ::
        res.drop (i + 1)).drop (i + 1 + offsets.length) =
        res.drop (i + (offsets.length + 1)) := by
      rw [List.drop_append_eq_append_drop, hti]
      have hz : i + 1 + offsets.length - i = (offsets.length) + 1 := by omega
      rw [hz, List.drop_of_length_le (by rw [hti]; omega)]
      simp only [List.nil_append, List.drop_succ_cons, List.drop_drop]
      congr 1
      omega
    rw [e1, e2]
    simp [ColumnString.rows, List.length_cons]

theorem rows_length (data : List Nat) :
    ∀ (offsets : List Nat) (prev : Nat), (ColumnString.rows data prev offsets).length =
      offsets.length := by
  intro offsets
  induction offsets with
  | nil => intro prev; rfl
  | cons o os ih => intro prev; simp [ColumnString.rows, ih]

theorem fixedLoop_rows (data : List Nat) (n : Nat) (hn : 0 < n)
    (h3 : data.length < 18446744073709551616) :
    ∀ (count i : Nat) (res : List Int),
      (i + count) * n ≤ data.length →
      i + count ≤ res.length →
      AsciiImpl.fixedLoop data n count i res =
        .ok (res.take i ++
          (List.range' i count).map (fun k => ((data.getD (k * n) 0 % 256 : Nat) : Int)) ++
          res.drop (i + count)) := by
  intro count
  induction count with
  | zero =>
    intro i res _ _
    simp [AsciiImpl.fixedLoop]
  | succ count ih =>
    intro i res hdata hlen
    have hi : i < res.length := by omega
    have hmul : i * n + n ≤ data.length := by
      have : (i + 1) * n ≤ (i + (count + 1)) * n := Nat.mul_le_mul_right n (by omega)
      have e : (i + 1) * n = i * n + n := by ring
      omega
    have hlt : i * n < data.length := by omega
    have hmod : (i * n) % 18446744073709551616 = i * n := Nat.mod_eq_of_lt (by omega)
    have hget : data.get? (i * n) = some (data.get ⟨i * n, hlt⟩) := List.get?_eq_get hlt
    have hgetD : data.getD (i * n) 0 = data.get ⟨i * n, hlt⟩ := by
      simp [List.getD_eq_getElem?_getD, List.getElem?_eq_getElem hlt]
    have hdo : AsciiImpl.doAscii data (i * n) n =
        .ok ((data.getD (i * n) 0 % 256 : Nat) : Int) := by
      unfold AsciiImpl.doAscii
      have hne : (n != 0) = true := by simpa using Nat.pos_iff_ne_zero.mp hn
      rw [hgetD]
      simp only [hne, if_true, hget]
    rw [AsciiImpl.fixedLoop, hmod, hdo]
    simp only [bind, Except.bind, AsciiImpl.assign, hi, if_true]
    rw [ih (i + 1) _ (by rw [show i + 1 + count = i + (count + 1) by omega]; exact hdata)
      (by simp only [List.length_set]; omega)]
    rw [set_eq_take_append res i _ hi]
    have hti : (res.take i).length = i := by simp [Nat.le_of_lt hi]
    have e1 : (res.take i ++ ((data.getD (i * n) 0 % 256 : Nat) : Int) ::
        res.drop (i + 1)).take (i + 1) =
        res.take i ++ [((data.getD (i * n) 0 % 256 : Nat) : Int)] := by
      rw [List.take_append_eq_append_take, hti]
      simp [List.take_of_length_le, hti]
    have e2 : (res.take i ++ ((data.getD (i * n) 0 % 256 : Nat) : Int) ::
        res.drop (i + 1)).drop (i + 1 + count) =
        res.drop (i + (count + 1)) := by
      rw [List.drop_append_eq_append_drop, hti]
      have hz : i + 1 + count - i = count + 1 := by omega
      rw [hz, List.drop_of_length_le (by rw [hti]; omega)]
      simp only [List.nil_append, List.drop_succ_cons, List.drop_drop]
      congr 1
      omega
    rw [e1, e2]
    simp [List.range'_succ]

theorem parseType_names_flat (T : SType) (hT : T.has_struct = false)
    (names0 : Option (List String)) (ty0 : DataType) (rest0 : Option (List String))
    (names : List String) (h0 : parseType T names0 = .ok (ty0, rest0))
    (hlen : T.nameCount ≤ names.length) :
    parseType T (some names) = .ok (ty0, some (names.drop T.nameCount)) := by
  cases names with
  | nil =>
    cases T <;> simp [SType.nameCount] at hlen
  | cons x rest =>
    cases T <;>
      simp only [parseType, SType.nameCount, SType.has_struct, popName, bind, Except.bind, pure,
        Except.pure, List.drop_succ_cons, List.drop_zero] at h0 hT ⊢
    all_goals
      try (cases hT; done)
    all_goals
      repeat' (first | (split at h0) | (cases h0; done))
    all_goals
      first
      | (cases h0; done)
      | (cases h0
         simp only [*]
         done)
      | (cases h0
         simp only [*]
         try simp)

theorem parseType_struct_unfold (types : List SType) (n : Type_Nullability)
    (names : Option (List String)) :
    parseType (.struct_ types n) names =
      (match popName names with
       | .error e => .error e
       | .ok names1 =>
         match parseStructFields types names1 with
         | .error e => .error e
         | .ok r =>
           .ok (wrapNullableType n
             (if r.2.1.length != 0 then DataType.Tuple r.1 (some r.2.1)
              else DataType.Tuple r.1 none), r.2.2)) := by
  rw [parseType]
  simp only [bind, Except.bind, pure, Except.pure]
  cases popName names with
  | error e => rfl
  | ok names1 =>
    dsimp only
    cases parseStructFields types names1 with
    | error e => rfl
    | ok r =>
      obtain ⟨a, b, c⟩ := r
      rfl

theorem parseStructFields_cons_unfold (t : SType) (ts : List SType)
    (names : Option (List String)) :
    parseStructFields (t :: ts) names =
      (match (match names with
          | none => (pure [] : Result (List String))
          | some l => (frontName l).map (fun f => [f])) with
       | .error e => .error e
       | .ok field_name =>
         match parseType t names with
         | .error e => .error e
         | .ok r1 =>
           match parseStructFields ts r1.2 with
           | .error e => .error e
           | .ok r2 => .ok (r1.1 :: r2.1, field_name ++ r2.2.1, r2.2.2)) := by
  have hfin : ∀ (field_name : List String),
      (match parseType t names with
        | .error e => (.error e : Result (List DataType × List String × Option (List String)))
        | .ok r1 =>
          match parseStructFields ts r1.2 with
          | .error e => .error e
          | .ok r2 => .ok (r1.1 :: r2.1, field_name ++ r2.2.1, r2.2.2)) =
      (do
        let (ch, names) ← parseType t names
        let (chs, field_names, names) ← parseStructFields ts names
        pure (ch :: chs, field_name ++ field_names, names)) := by
    intro field_name
    simp only [bind, Except.bind, pure, Except.pure]
    cases parseType t names with
    | error e => rfl
    | ok r1 =>
      obtain ⟨a, b⟩ := r1
      simp only []
      cases parseStructFields ts b with
      | error e => rfl
      | ok r2 =>
        obtain ⟨c, d, e⟩ := r2
        rfl
  simp only [parseStructFields]
  cases names with
  | none =>
    simp only [hfin]
    rfl
  | some l =>
    cases l with
    | nil => rfl
    | cons x r =>
      simp only [hfin, frontName, Except.map]
      rfl

theorem nameCount_pos (T : SType) : 1 ≤ T.nameCount := by
  cases T <;> simp [SType.nameCount]

mutual
theorem parseType_names : ∀ (T : SType) (names0 : Option (List String)) (ty0 : DataType)
    (rest0 : Option (List String)) (names : List String),
    parseType T names0 = .ok (ty0, rest0) → T.nameCount ≤ names.length →
    ∃ ty, parseType T (some names) = .ok (ty, some (names.drop T.nameCount))
  | .struct_ types n, names0, ty0, rest0, names, h0, hlen => by
    rw [parseType_struct_unfold] at h0
    rw [parseType_struct_unfold]
    simp only [SType.nameCount] at hlen ⊢
    cases names with
    | nil => simp at hlen
    | cons x rest =>
      simp only [List.length_cons] at hlen
      split at h0
      · cases h0
      · rename_i names1 _
        split at h0
        · cases h0
        · rename_i r hr
          obtain ⟨tys, h⟩ := parseStructFields_names types names1 r rest hr (by omega)
          simp only [popName, h]
          rw [Nat.add_comm 1, List.drop_succ_cons]
          exact ⟨_, rfl⟩
  | .bool_ n, _, ty0, _, names, h0, hlen =>
    ⟨ty0, parseType_names_flat (.bool_ n) rfl _ _ _ names h0 hlen⟩
  | .i8 n, _, ty0, _, names, h0, hlen =>
    ⟨ty0, parseType_names_flat (.i8 n) rfl _ _ _ names h0 hlen⟩
  | .i16 n, _, ty0, _, names, h0, hlen =>
    ⟨ty0, parseType_names_flat (.i16 n) rfl _ _ _ names h0 hlen⟩
  | .i32 n, _, ty0, _, names, h0, hlen =>
    ⟨ty0, parseType_names_flat (.i32 n) rfl _ _ _ names h0 hlen⟩
  | .i64 n, _, ty0, _, names, h0, hlen =>
    ⟨ty0, parseType_names_flat (.i64 n) rfl _ _ _ names h0 hlen⟩
  | .fp32 n, _, ty0, _, names, h0, hlen =>
    ⟨ty0, parseType_names_flat (.fp32 n) rfl _ _ _ names h0 hlen⟩
  | .fp64 n, _, ty0, _, names, h0, hlen =>
    ⟨ty0, parseType_names_flat (.fp64 n) rfl _ _ _ names h0 hlen⟩
  | .string n, _, ty0, _, names, h0, hlen =>
    ⟨ty0, parseType_names_flat (.string n) rfl _ _ _ names h0 hlen⟩
  | .binary n, _, ty0, _, names, h0, hlen =>
    ⟨ty0, parseType_names_flat (.binary n) rfl _ _ _ names h0 hlen⟩
  | .timestamp n, _, ty0, _, names, h0, hlen =>
    ⟨ty0, parseType_names_flat (.timestamp n) rfl _ _ _ names h0 hlen⟩
  | .date n, _, ty0, _, names, h0, hlen =>
    ⟨ty0, parseType_names_flat (.date n) rfl _ _ _ names h0 hlen⟩
  | .decimal s p n, _, ty0, _, names, h0, hlen =>
    ⟨ty0, parseType_names_flat (.decimal s p n) rfl _ _ _ names h0 hlen⟩
  | .list t n, _, ty0, _, names, h0, hlen =>
    ⟨ty0, parseType_names_flat (.list t n) rfl _ _ _ names h0 hlen⟩
  | .map k v n, _, ty0, _, names, h0, hlen =>
    ⟨ty0, parseType_names_flat (.map k v n) rfl _ _ _ names h0 hlen⟩
  | .other, _, ty0, _, names, h0, hlen =>
    ⟨ty0, parseType_names_flat .other rfl _ _ _ names h0 hlen⟩
  | .not_set, _, ty0, _, names, h0, hlen =>
    ⟨ty0, parseType_names_flat .not_set rfl _ _ _ names h0 hlen⟩
theorem parseStructFields_names : ∀ (types : List SType) (names0 : Option (List String))
    (r0 : List DataType × List String × Option (List String)) (names : List String),
    parseStructFields types names0 = .ok r0 → nameCountList types ≤ names.length →
    ∃ tys, parseStructFields types (some names) =
      .ok (tys, structFieldNames types names, some (names.drop (nameCountList types)))
  | [], _, _, names, _, _ => ⟨[], by simp [parseStructFields, structFieldNames, nameCountList]⟩
  | t :: ts, names0, r0, names, h0, hlen => by
    rw [parseStructFields_cons_unfold] at h0
    rw [parseStructFields_cons_unfold]
    simp only [nameCountList] at hlen ⊢
    have hpos := nameCount_pos t
    cases names with
    | nil => simp at hlen; omega
    | cons x rest =>
      split at h0
      · cases h0
      · split at h0
        · cases h0
        · rename_i r1 hr1
          split at h0
          · cases h0
          · rename_i r2 hr2
            obtain ⟨ty, h1⟩ := parseType_names t names0 r1.1 r1.2 (x :: rest) hr1 (by omega)
            have hl2 : nameCountList ts ≤ ((x :: rest).drop t.nameCount).length := by
              simp only [List.length_drop]
              omega
            obtain ⟨tys, h2⟩ := parseStructFields_names ts r1.2 r2 _ hr2 hl2
            refine ⟨ty :: tys, ?_⟩
            simp only [frontName, Except.map, h1, h2, structFieldNames, List.head?_cons,
              Option.toList, List.drop_drop]
end

theorem parseStructFields_length :
    ∀ (types : List SType) (names : Option (List String))
      (r : List DataType × List String × Option (List String)),
      parseStructFields types names = .ok r → r.1.length = types.length := by
  intro types
  induction types with
  | nil =>
    intro names r h
    simp only [parseStructFields] at h
    cases h
    rfl
  | cons t ts ih =>
    intro names r h
    rw [parseStructFields_cons_unfold] at h
    split at h
    · cases h
    · split at h
      · cases h
      · split at h
        · cases h
        · rename_i r2 hr2
          cases h
          simp [ih _ _ hr2]

theorem nameCountList_sum (types : List SType) :
    nameCountList types = (types.map SType.nameCount).sum := by
  induction types with
  | nil => rfl
  | cons t ts ih => simp [nameCountList, ih]

theorem structFieldNames_length :
    ∀ (types : List SType) (names : List String), nameCountList types ≤ names.length →
      (structFieldNames types names).length = types.length := by
  intro types
  induction types with
  | nil => intro names _; rfl
  | cons t ts ih =>
    intro names hlen
    simp only [nameCountList] at hlen
    have hpos := nameCount_pos t
    cases names with
    | nil => simp at hlen; omega
    | cons x rest =>
      have hl2 : nameCountList ts ≤ ((x :: rest).drop t.nameCount).length := by
        simp only [List.length_drop]
        omega
      simp [structFieldNames, ih _ hl2]

theorem parseType_struct_names (types : List SType) (n : Type_Nullability)
    (names0 : Option (List String)) (ty0 : DataType) (rest0 : Option (List String))
    (names : List String)
    (h0 : parseType (.struct_ types n) names0 = .ok (ty0, rest0))
    (hlen : (SType.struct_ types n).nameCount ≤ names.length) :
    ∃ tys, tys.length = types.length ∧
      parseType (.struct_ types n) (some names) =
        .ok (wrapNullableType n
          (if types.length != 0 then
            DataType.Tuple tys (some (structFieldNames types (names.drop 1)))
           else DataType.Tuple tys none),
          some (names.drop (SType.struct_ types n).nameCount)) := by
  rw [parseType_struct_unfold] at h0
  rw [parseType_struct_unfold]
  simp only [SType.nameCount] at hlen ⊢
  cases names with
  | nil => simp at hlen
  | cons x rest =>
    simp only [List.length_cons] at hlen
    split at h0
    · cases h0
    · rename_i names1 _
      split at h0
      · cases h0
      · rename_i r hr
        obtain ⟨tys, h⟩ := parseStructFields_names types names1 r rest hr (by omega)
        have hl := structFieldNames_length types rest (by omega)
        have htys : tys.length = types.length := by
          have := parseStructFields_length types (some rest) _ h
          exact this
        refine ⟨tys, htys, ?_⟩
        simp only [popName, h, hl, List.drop_succ_cons, List.drop_zero]
        rw [Nat.add_comm 1, List.drop_succ_cons]

theorem parseNameStructColumns_names (env : Env) :
    ∀ (types : List SType) (names : List String) (block : Block),
      (∀ t ∈ types, t.has_struct = false) →
      parseNameStructColumns env types names = .ok block →
      block.getNames = names.take types.length := by
  intro types
  induction types with
  | nil =>
    intro names block _ h
    simp only [parseNameStructColumns] at h
    cases h
    rfl
  | cons t ts ih =>
    intro names block hflat h
    have ht : t.has_struct = false := hflat t (List.mem_cons_self _ _)
    cases names with
    | nil =>
      simp [parseNameStructColumns, frontName, bind, Except.bind] at h
    | cons x rest =>
      simp only [parseNameStructColumns, frontName, bind, Except.bind] at h
      split at h
      · cases h
      · rename_i r hr
        obtain ⟨data_type, rest1⟩ := r
        have hc : t.nameCount = 1 := by
          cases t <;> first | rfl | (simp [SType.has_struct] at ht)
        have hrest := parseType_names_flat t ht _ _ _ (x :: rest) hr (by rw [hc]; simp)
        rw [hr, hc] at hrest
        have e : rest1 = some rest := by
          have := (Prod.mk.inj (Except.ok.inj hrest)).2
          simpa using this
        subst e
        simp only [] at h
        split at h
        · cases h
        · split at h
          · cases h
          · rename_i cols hcols
            simp only [pure, Except.pure] at h
            cases h
            have := ih rest cols (fun t ht => hflat t (List.mem_cons_of_mem _ ht)) hcols
            simp only [Block.getNames] at this ⊢
            simp [this]

theorem parseNameStructColumns_ok (env : Env) :
    ∀ (types : List SType) (names : List String) (tys : List DataType),
      (∀ t ∈ types, t.has_struct = false) →
      List.Forall₂ (fun t ty => parseType0 t = .ok ty) types tys →
      types.length ≤ names.length →
      (∀ name ∈ names.take types.length,
        (StringTokenizer '#' name.toList [] false).length ≠ 4) →
      parseNameStructColumns env types names = .ok ((names.take types.length).zip tys) := by
  intro types
  induction types with
  | nil =>
    intro names tys _ h2 _ _
    cases h2
    simp [parseNameStructColumns]
  | cons t ts ih =>
    intro names tys hflat h2 hlen htok
    have ht : t.has_struct = false := hflat t (List.mem_cons_self _ _)
    cases h2 with
    | cons hty hrest =>
      rename_i ty tys1
      cases names with
      | nil => simp at hlen
      | cons x rest =>
        obtain ⟨rest0, h0⟩ := parseType0_ok t ty hty
        have hc : t.nameCount = 1 := by
          cases t <;> first | rfl | (simp [SType.has_struct] at ht)
        have hp := parseType_names_flat t ht _ _ _ (x :: rest) h0 (by rw [hc]; simp)
        rw [hc] at hp
        have hx : ((StringTokenizer '#' x.toList [] false).length == 4) = false := by
          have := htok x (by simp)
          simpa using this
        have hih := ih rest tys1 (fun t ht => hflat t (List.mem_cons_of_mem _ ht)) hrest
          (by simpa using hlen)
          (fun name hn => htok name (by
            simp only [List.length_cons, List.take_succ_cons, List.mem_cons]
            exact Or.inr hn))
        simp only [parseNameStructColumns, frontName, bind, Except.bind, hp, hx,
          List.drop_succ_cons, List.drop_zero, Option.getD, hih, pure, Except.pure]
        simp

theorem postJoinFilter_steps (env : Env) (fm : StringMap) (name_no : Nat) (plan : QueryPlan)
    (f : Option Expression) (out : JoinOutput)
    (h : postJoinFilter env fm name_no plan f = .ok out) :
    ∃ rest, out.plan.steps = plan.steps ++ rest := by
  cases f with
  | none =>
    simp only [postJoinFilter] at h
    cases h
    exact ⟨[], by simp⟩
  | some e =>
    simp only [postJoinFilter, bind, Except.bind] at h
    split at h
    · cases h
    · simp only [pure, Except.pure] at h
      cases h
      exact ⟨_, rfl⟩

theorem reorderJoinOutput_steps (plan : QueryPlan) (cols : List String) (out : QueryPlan)
    (h : reorderJoinOutput plan cols = .ok out) :
    ∃ rest, out.steps = plan.steps ++ rest := by
  simp only [reorderJoinOutput, bind, Except.bind] at h
  split at h
  · cases h
  · simp only [pure, Except.pure] at h
    cases h
    exact ⟨_, rfl⟩

theorem typeMismatch_eval (source : Block) (p : Int × SType) (h1 : 0 ≤ p.1)
    (h2 : p.1 < source.length) (h3 : (parseType0 p.2).failed = false) :
    ∃ c ty, source.get? p.1.toNat = some c ∧ source.getByPosition p.1 = .ok c ∧
      parseType0 p.2 = .ok ty ∧ isTypeMatched p.2 c.2 = .ok (ty.equals c.2) ∧
      typeMismatch source p = !ty.equals c.2 := by
  have hlt : p.1.toNat < source.length := by omega
  have hget : source.get? p.1.toNat = some (source.get ⟨p.1.toNat, hlt⟩) := List.get?_eq_get hlt
  have hpos : source.getByPosition p.1 = .ok (source.get ⟨p.1.toNat, hlt⟩) := by
    unfold Block.getByPosition
    rw [if_neg (by omega), hget]
  cases hty : parseType0 p.2 with
  | error e =>
    rw [hty] at h3
    cases h3
  | ok ty =>
    have hm : isTypeMatched p.2 (source.get ⟨p.1.toNat, hlt⟩).2 =
        .ok (ty.equals (source.get ⟨p.1.toNat, hlt⟩).2) := by
      simp [isTypeMatched, hty, bind, Except.bind, pure, Except.pure]
    refine ⟨_, ty, hget, hpos, rfl, hm, ?_⟩
    simp only [typeMismatch, hpos, hm]

theorem get?_modify_block (target : Block) (f : String × DataType → String × DataType)
    (k i : Nat) :
    (target.modify f k).get? i = if k = i then (target.get? i).map f else target.get? i := by
  simp only [List.get?_eq_getElem?, List.getElem?_modify]
  split
  · cases target[i]? <;> rfl
  · cases target[i]? <;> rfl

theorem convertTargets_ok (source : Block) :
    ∀ (positions : List (Int × SType)) (target : Block) (need_convert : Bool),
      (∀ p ∈ positions, 0 ≤ p.1 ∧ p.1 < source.length ∧ (parseType0 p.2).failed = false) →
      ∃ target1, convertTargets source positions (target, need_convert) =
          .ok (target1, need_convert || positions.any (typeMismatch source)) ∧
        target1.length = target.length ∧
        (∀ i, (∀ p ∈ positions, p.1.toNat = i → typeMismatch source p = false) →
          target1.get? i = target.get? i) ∧
        (∀ i, (∃ p ∈ positions, p.1.toNat = i ∧ typeMismatch source p = true) →
          ∃ p ∈ positions, p.1.toNat = i ∧ typeMismatch source p = true ∧
            ∃ ty, parseType0 p.2 = .ok ty ∧
              target1.get? i = (target.get? i).map (fun c => (c.1, ty))) := by
  intro positions
  induction positions with
  | nil =>
    intro target need _
    refine ⟨target, by simp [convertTargets], rfl, fun _ _ => rfl, ?_⟩
    intro i h
    obtain ⟨p, hp, _⟩ := h
    cases hp
  | cons p ps ih =>
    intro target need hvalid
    obtain ⟨hp1, hp2, hp3⟩ := hvalid p (List.mem_cons_self _ _)
    have hv : ∀ q ∈ ps, 0 ≤ q.1 ∧ q.1 < source.length ∧ (parseType0 q.2).failed = false :=
      fun q hq => hvalid q (List.mem_cons_of_mem _ hq)
    obtain ⟨c, ty, hget, hpos, hty, hm, hmis⟩ := typeMismatch_eval source p hp1 hp2 hp3
    obtain ⟨pos, type⟩ := p
    simp only at hp1 hp2 hp3 hget hpos hty hm hmis
    by_cases hb : ty.equals c.2 = true
    · -- matched: the target is kept
      have hmf : typeMismatch source (pos, type) = false := by rw [hmis, hb]; rfl
      obtain ⟨t1, h1, h2, h3, h4⟩ := ih target need hv
      refine ⟨t1, ?_, h2, ?_, ?_⟩
      · simp only [convertTargets, hpos, hm, hb, bind, Except.bind, Bool.not_true,
          Bool.false_eq_true, if_false, h1, List.any_cons, hmf, Bool.false_or]
      · intro i hi
        exact h3 i (fun q hq => hi q (List.mem_cons_of_mem _ hq))
      · intro i hi
        obtain ⟨q, hq, hqi, hqm⟩ := hi
        rcases List.mem_cons.mp hq with rfl | hq
        · rw [hmf] at hqm
          cases hqm
        · obtain ⟨q1, hq1, a, b, c1⟩ := h4 i ⟨q, hq, hqi, hqm⟩
          exact ⟨q1, List.mem_cons_of_mem _ hq1, a, b, c1⟩
    · -- mismatched: the target takes the declared type at the position
      have hbf : ty.equals c.2 = false := by simpa using hb
      have hmt : typeMismatch source (pos, type) = true := by rw [hmis, hbf]; rfl
      obtain ⟨t1, h1, h2, h3, h4⟩ :=
        ih (target.modify (fun t => (t.1, ty)) pos.toNat) true hv
      refine ⟨t1, ?_, ?_, ?_, ?_⟩
      · simp only [convertTargets, hpos, hm, hbf, hty, bind, Except.bind, Bool.not_false,
          if_true, h1, List.any_cons, hmt, Bool.true_or, Bool.or_true]
      · rw [h2, List.length_modify]
      · intro i hi
        have hne : pos.toNat ≠ i := by
          intro he
          have := hi (pos, type) (List.mem_cons_self _ _) he
          rw [hmt] at this
          cases this
        rw [h3 i (fun q hq => hi q (List.mem_cons_of_mem _ hq)), get?_modify_block, if_neg hne]
      · intro i hi
        by_cases hlater : ∃ q ∈ ps, q.1.toNat = i ∧ typeMismatch source q = true
        · obtain ⟨q1, hq1, a, b, ty1, c1, d1⟩ := h4 i hlater
          refine ⟨q1, List.mem_cons_of_mem _ hq1, a, b, ty1, c1, ?_⟩
          rw [d1, get?_modify_block]
          split
          · cases target.get? i <;> rfl
          · rfl
        · obtain ⟨q, hq, hqi, hqm⟩ := hi
          have hq0 : q = (pos, type) := by
            rcases List.mem_cons.mp hq with rfl | hq
            · rfl
            · exact absurd ⟨q, hq, hqi, hqm⟩ hlater
          subst hq0
          refine ⟨(pos, type), List.mem_cons_self _ _, hqi, hmt, ty, hty, ?_⟩
          have hnone : ∀ q ∈ ps, q.1.toNat = i → typeMismatch source q = false := by
            intro q1 hq1 hq1i
            by_contra hc
            exact hlater ⟨q1, hq1, hq1i, by simpa using hc⟩
          rw [h3 i hnone, get?_modify_block, if_pos hqi]

theorem filterMap_range'_get {α β : Type} (g : Nat → α → β) :
    ∀ (l pre : List α),
      (List.range' pre.length l.length).filterMap (fun i => ((pre ++ l).get? i).map (g i)) =
        (l.enumFrom pre.length).map (fun p => g p.1 p.2) := by
  intro l
  induction l with
  | nil => intro pre; rfl
  | cons a l ih =>
    intro pre
    have h0 : (pre ++ a :: l).get? pre.length = some a := by
      rw [List.get?_eq_getElem?, List.getElem?_append_right (le_refl _)]
      simp
    have e : pre ++ a :: l = (pre ++ [a]) ++ l := by simp
    have hi := ih (pre ++ [a])
    simp only [List.length_append, List.length_singleton] at hi
    simp only [List.length_cons, List.range'_succ, List.filterMap_cons, h0, Option.map_some',
      List.enumFrom_cons, List.map_cons]
    rw [e, hi]

theorem filterMap_range_get {α β : Type} (g : Nat → α → β) (l : List α) :
    (List.range l.length).filterMap (fun i => (l.get? i).map (g i)) =
      (l.enumFrom 0).map (fun p => g p.1 p.2) := by
  have := filterMap_range'_get g l []
  simpa [List.range_eq_range'] using this

theorem map_enumFrom_snd {α β : Type} (f : α → β) :
    ∀ (l : List α) (k : Nat), (l.enumFrom k).map (fun p => f p.2) = l.map f := by
  intro l
  induction l with
  | nil => intro k; rfl
  | cons a l ih => intro k; simp [List.enumFrom_cons, ih]

theorem makeConvertingActions_header (source result : Block)
    (h : source.length = result.length) :
    ∃ dag, makeConvertingActions source result = .ok dag ∧ dag.header = result := by
  unfold makeConvertingActions
  have hne : (source.length != result.length) = false := by simp [h]
  rw [hne]
  refine ⟨_, rfl, ?_⟩
  simp only [ActionsDAG.header, Bool.false_eq_true, if_false]
  rw [filterMap_range_get (fun i (c : String × DataType) =>
    Node.mk .ALIAS c.1 c.2 [i] "" none) result, List.filterMap_map]
  have hB : ((result.enumFrom 0).map (fun p => Node.mk .ALIAS p.2.1 p.2.2 [p.1] "" none)).length
      = result.length := by simp
  have hcongr : ∀ i ∈ List.range result.length,
      ((fun h => Option.map (fun n : Node => (n.result_name, n.result_type))
        ((source.map (fun c => Node.mk .INPUT c.1 c.2 [] "" none) ++
          (result.enumFrom 0).map (fun p => Node.mk .ALIAS p.2.1 p.2.2 [p.1] "" none)).get? h)) ∘
        (fun i => source.length + i)) i =
      (((result.enumFrom 0).map (fun p => Node.mk .ALIAS p.2.1 p.2.2 [p.1] "" none)).get? i).map
        (fun n : Node => (n.result_name, n.result_type)) := by
    intro i _
    simp only [Function.comp, List.get?_eq_getElem?]
    rw [List.getElem?_append_right (by simp)]
    simp
  rw [List.filterMap_congr hcongr]
  have := filterMap_range_get (fun _ (n : Node) => (n.result_name, n.result_type))
    ((result.enumFrom 0).map (fun p => Node.mk .ALIAS p.2.1 p.2.2 [p.1] "" none))
  rw [hB] at this
  rw [this]
  rw [map_enumFrom_snd (fun n : Node => (n.result_name, n.result_type)), List.map_map]
  have := map_enumFrom_snd (fun c : String × DataType => (c.1, c.2)) result 0
  simp only [Prod.mk.eta, List.map_id'] at this
  exact this

theorem find_map_value (m : StringMap) (key value key' : String) :
    StringMap.find (m.map (fun kv => if kv.1 == key then (kv.1, value) else kv)) key' =
      (StringMap.find m key').map (fun v => if key' = key then value else v) := by
  induction m with
  | nil => rfl
  | cons kv m ih =>
    simp only [StringMap.find] at ih ⊢
    by_cases h1 : (kv.1 == key') = true
    · have e1 : kv.1 = key' := by simpa using h1
      by_cases h2 : (kv.1 == key) = true
      · have e2 : kv.1 = key := by simpa using h2
        have e3 : key' = key := by rw [← e1, e2]
        simp [List.find?, h1, h2, e3]
      · have e2 : ¬ kv.1 = key := by simpa using h2
        have e3 : ¬ key' = key := by rw [← e1]; exact e2
        simp [List.find?, h1, h2, e3]
    · by_cases h2 : (kv.1 == key) = true
      · simp only [List.map_cons, h2, if_true, List.find?, h1]
        exact ih
      · have h2f : (kv.1 == key) = false := by simpa using h2
        simp only [List.map_cons, h2f, Bool.false_eq_true, if_false, List.find?, h1]
        exact ih

theorem find_assign (m : StringMap) (key value key' : String) :
    StringMap.find (StringMap.assign m key value) key' =
      if key' = key then some value else StringMap.find m key' := by
  unfold StringMap.assign
  by_cases hc : StringMap.contains m key = true
  · simp only [hc, if_true, find_map_value]
    by_cases hk : key' = key
    · subst hk
      simp only [StringMap.contains] at hc
      cases hf : StringMap.find m key' with
      | none => rw [hf] at hc; cases hc
      | some v => simp
    · simp only [hk, if_false]
      cases StringMap.find m key' <;> rfl
  · simp only [hc]
    simp only [StringMap.find, List.find?_append, Bool.false_eq_true, if_false]
    have hn : List.find? (fun kv => kv.1 == key) m = none := by
      simp only [StringMap.contains, StringMap.find] at hc
      cases hf : List.find? (fun kv => kv.1 == key) m with
      | none => rfl
      | some x => rw [hf] at hc; simp at hc
    by_cases hk : key' = key
    · subst hk
      simp [hn, List.find?]
    · have hb : (key == key') = false := by simpa using fun h => hk h.symm
      cases hf : List.find? (fun kv => kv.1 == key') m with
      | none => simp [hk, hb, List.find?]
      | some x => simp [hk]

theorem find_recordWrapped (columns : List String) :
    ∀ (m : StringMap) (key : String),
      StringMap.find (recordWrapped columns m) key =
        if key ∈ columns then some ("toNullable(" ++ key ++ ")") else StringMap.find m key := by
  induction columns with
  | nil => intro m key; simp [recordWrapped]
  | cons c cs ih =>
    intro m key
    have e : recordWrapped (c :: cs) m =
        recordWrapped cs (StringMap.assign m c ("toNullable(" ++ c ++ ")")) := rfl
    rw [e, ih, find_assign]
    by_cases h1 : key ∈ cs
    · simp [h1]
    · by_cases h2 : key = c
      · subst h2
        simp [h1]
      · simp [h1, h2]

theorem addOrReplaceInIndex_nodes (dag dag1 : ActionsDAG) (p : NodePtr)
    (h : dag.addOrReplaceInIndex p = .ok dag1) : dag1.nodes = dag.nodes := by
  unfold ActionsDAG.addOrReplaceInIndex at h
  simp only [bind, Except.bind] at h
  split at h
  · cases h
  · split at h
    · cases h
    · split at h
      · simp only [pure, Except.pure] at h
        cases h
        rfl
      · simp only [pure, Except.pure] at h
        cases h
        rfl

theorem toFunctionNode_one_inv (env : Env) (dag dag1 : ActionsDAG) (function : String)
    (a node : Nat) (anode : Node) (hnode : dag.nodes.get? a = some anode)
    (h : toFunctionNode env dag function [some a] = .ok (node, dag1)) :
    ∃ ty, node = dag.nodes.length ∧
      dag1 = { nodes := dag.nodes ++ [functionNode function [anode.result_name] ty [a]],
               inputs := dag.inputs, index := dag.index } := by
  by_cases hex : env.functionExists function = true
  · cases hty : env.functionReturnType function [anode.result_type] with
    | error e =>
      simp only [toFunctionNode, getFunctionBuilder, hex, if_true, joinNames, bind, Except.bind,
        List.mapM_cons, List.mapM_nil, deref_some _ _ _ hnode, Except.map, pure, Except.pure,
        ActionsDAG.addFunction, List.map, hty] at h
      cases h
    | ok ty =>
      rw [toFunctionNode_one env dag function a anode ty hnode hex hty] at h
      have := Except.ok.inj h
      exact ⟨ty, (Prod.mk.inj this).1.symm, (Prod.mk.inj this).2.symm⟩
  · simp [toFunctionNode, getFunctionBuilder, hex, bind, Except.bind] at h

theorem functionNode_one_name (function name : String) (ty : DataType) (children : List Nat) :
    (functionNode function [name] ty children).result_name =
      function ++ "(" ++ name ++ ")" := by
  rfl

theorem wrapNullable_map (env : Env) :
    ∀ (columns : List String) (dag dag1 : ActionsDAG) (m m1 : StringMap),
      wrapNullable env columns dag m = .ok (dag1, m1) → m1 = recordWrapped columns m := by
  intro columns
  induction columns with
  | nil =>
    intro dag dag1 m m1 h
    simp only [wrapNullable] at h
    cases h
    rfl
  | cons item rest ih =>
    intro dag dag1 m m1 h
    simp only [wrapNullable, bind, Except.bind] at h
    split at h
    · cases h
    · rename_i found hfound
      obtain ⟨n0, hn0, hname⟩ := findInIndex_name dag item found hfound
      split at h
      · cases h
      · rename_i r hr
        obtain ⟨node, dag2⟩ := r
        obtain ⟨ty, rfl, rfl⟩ := toFunctionNode_one_inv env dag dag2 "toNullable" found node n0
          hn0 hr
        simp only [] at h
        split at h
        · cases h
        · rename_i dag3 hdag3
          have hnodes := addOrReplaceInIndex_nodes _ _ _ hdag3
          simp only [] at hnodes
          have hderef : dag3.deref (some dag.nodes.length) =
              .ok (functionNode "toNullable" [n0.result_name] ty [found]) := by
            apply deref_some
            rw [hnodes]
            simp
          rw [hderef] at h
          simp only [] at h
          have := ih _ _ _ _ h
          rw [this, functionNode_one_name, hname]
          rfl

theorem measureArgument_need (env : Env) (fm : StringMap) (input : Block) (expression : PState)
    (need : Bool) (arg : Expression) (name : String) (st : PState) (need1 : Bool)
    (h : measureArgument env fm input expression need arg = .ok (name, st, need1)) :
    (arg.has_selection || arg.has_literal) = true ∧
      need1 = (need || (!arg.has_selection && arg.has_literal)) := by
  unfold measureArgument at h
  by_cases hs : arg.has_selection = true
  · simp only [hs, if_true, bind, Except.bind] at h
    split at h
    · cases h
    · simp only [pure, Except.pure] at h
      cases h
      simp [hs]
  · have hsf : arg.has_selection = false := by simpa using hs
    by_cases hl : arg.has_literal = true
    · simp only [hsf, hl, Bool.false_eq_true, if_false, if_true, bind, Except.bind] at h
      split at h
      · cases h
      · split at h
        · cases h
        · split at h
          · cases h
          · simp only [pure, Except.pure] at h
            cases h
            simp [hsf, hl]
    · simp only [hsf, hl, Bool.false_eq_true, if_false, throw, throwThe,
        MonadExceptOf.throw] at h
      cases h

theorem preProjectMeasure_step (env : Env) (fm : StringMap) (input : Block)
    (s : PreProjectState) (m : Measure) (measure_type : DataType) (arg : Expression)
    (name : String) (expression : PState) (need : Bool) (found : Nat) (n : Node)
    (hty : parseType0 m.measure.output_type = .ok measure_type)
    (harg : m.measure.arguments = [arg])
    (hma : measureArgument env fm input s.expression s.need_pre_project arg =
      .ok (name, expression, need))
    (hfound : expression.dag.findInIndex name = .ok found)
    (hn : expression.dag.nodes.get? found = some n) :
    preProjectMeasure env fm input s m =
      .ok ⟨expression, s.measure_names ++ [name],
        s.to_wrap_nullable ++
          (if (measure_type.isNullable &&
              m.measure.phase == .AGGREGATION_PHASE_INITIAL_TO_INTERMEDIATE &&
              !n.result_type.isNullable) = true then [name] else []),
        need || (measure_type.isNullable &&
          m.measure.phase == .AGGREGATION_PHASE_INITIAL_TO_INTERMEDIATE &&
          !n.result_type.isNullable)⟩ := by
  unfold preProjectMeasure
  simp only [bind, Except.bind, hty, harg, List.length_singleton, bne_self_eq_false,
    Bool.false_eq_true, if_false, argument, List.get?_cons_zero, pure, Except.pure, hma]
  by_cases hc : (measure_type.isNullable &&
      m.measure.phase == .AGGREGATION_PHASE_INITIAL_TO_INTERMEDIATE) = true
  · simp only [hc, if_true, hfound, deref_some _ _ _ hn, Bool.true_and]
    by_cases hnn : n.result_type.isNullable = true
    · simp [hnn]
    · have hnf : n.result_type.isNullable = false := by simpa using hnn
      simp [hnf]
  · have hcf : (measure_type.isNullable &&
        m.measure.phase == .AGGREGATION_PHASE_INITIAL_TO_INTERMEDIATE) = false := by
      simpa using hc
    simp [hcf]

theorem preProjectMeasure_shape (env : Env) (fm : StringMap) (input : Block)
    (s s1 : PreProjectState) (m : Measure)
    (h : preProjectMeasure env fm input s m = .ok s1) :
    ∃ arg extra, m.measure.arguments = [arg] ∧
      (arg.has_selection || arg.has_literal) = true ∧
      s1.to_wrap_nullable = s.to_wrap_nullable ++ extra ∧
      s1.need_pre_project = (s.need_pre_project || m.hasLiteralArgument || !extra.isEmpty) := by
  unfold preProjectMeasure at h
  simp only [bind, Except.bind] at h
  cases ht : parseType0 m.measure.output_type with
  | error e => rw [ht] at h; cases h
  | ok measure_type =>
    rw [ht] at h
    simp only [] at h
    by_cases hlen : m.measure.arguments.length = 1
    · obtain ⟨arg, harg⟩ := List.length_eq_one.mp hlen
      simp only [harg, List.length_singleton, bne_self_eq_false, Bool.false_eq_true, if_false,
        argument, List.get?_cons_zero, pure, Except.pure] at h
      cases hm : measureArgument env fm input s.expression s.need_pre_project arg with
      | error e => rw [hm] at h; cases h
      | ok r =>
        obtain ⟨name, expression, need⟩ := r
        rw [hm] at h
        simp only [] at h
        obtain ⟨hkind, hneed⟩ := measureArgument_need env fm input s.expression
          s.need_pre_project arg name expression need hm
        have hlit : m.hasLiteralArgument = (!arg.has_selection && arg.has_literal) := by
          simp only [Measure.hasLiteralArgument, harg]
        split at h
        · cases hf : expression.dag.findInIndex name with
          | error e => rw [hf] at h; cases h
          | ok found =>
            rw [hf] at h
            simp only [] at h
            cases hd : expression.dag.deref (some found) with
            | error e => rw [hd] at h; cases h
            | ok n =>
              rw [hd] at h
              simp only [] at h
              split at h
              · cases h
                exact ⟨arg, [name], harg, hkind, rfl, by simp⟩
              · cases h
                exact ⟨arg, [], harg, hkind, by simp, by simp [hneed, hlit]⟩
        · cases h
          exact ⟨arg, [], harg, hkind, by simp, by simp [hneed, hlit]⟩
    · have hne : (m.measure.arguments.length != 1) = true := by simpa using hlen
      simp only [hne, if_true, throw, throwThe, MonadExceptOf.throw] at h
      cases h

theorem preProjectMeasures_shape (env : Env) (fm : StringMap) (input : Block) :
    ∀ (measures : List Measure) (s s1 : PreProjectState),
      preProjectMeasures env fm input measures s = .ok s1 →
      ∃ extra, s1.to_wrap_nullable = s.to_wrap_nullable ++ extra ∧
        s1.need_pre_project =
          (s.need_pre_project || measures.any Measure.hasLiteralArgument || !extra.isEmpty) ∧
        ∀ m ∈ measures, ∃ arg, m.measure.arguments = [arg] ∧
          (arg.has_selection || arg.has_literal) = true := by
  intro measures
  induction measures with
  | nil =>
    intro s s1 h
    simp only [preProjectMeasures] at h
    cases h
    exact ⟨[], by simp, by simp, fun m hm => by cases hm⟩
  | cons m rest ih =>
    intro s s1 h
    simp only [preProjectMeasures, bind, Except.bind] at h
    split at h
    · cases h
    · rename_i s0 hs0
      obtain ⟨arg, e0, harg, hkind, hw0, hn0⟩ := preProjectMeasure_shape env fm input s s0 m hs0
      obtain ⟨e1, hw1, hn1, hall⟩ := ih s0 s1 h
      refine ⟨e0 ++ e1, by rw [hw1, hw0, List.append_assoc], ?_, ?_⟩
      · rw [hn1, hn0, List.any_cons]
        generalize s.need_pre_project = b1
        generalize m.hasLiteralArgument = b2
        generalize List.any rest Measure.hasLiteralArgument = b3
        cases b1 <;> cases b2 <;> cases b3 <;> cases e0 <;> cases e1 <;> rfl
      · intro m1 hm1
        rcases List.mem_cons.mp hm1 with rfl | hm1
        · exact ⟨arg, harg, hkind⟩
        · exact hall m1 hm1

theorem addFunction_nodes (env : Env) (dag : ActionsDAG) (function : String)
    (args : List NodePtr) (nodes : List Node) (ty : DataType) (name : String)
    (hnodes : args.mapM (fun p => dag.deref p) = .ok nodes)
    (hty : env.functionReturnType function (nodes.map (fun n => n.result_type)) = .ok ty) :
    dag.addFunction env function args name =
      .ok (dag.nodes.length,
        { nodes := dag.nodes ++ [⟨.FUNCTION, name, ty, args.filterMap id, function, none⟩],
          inputs := dag.inputs, index := dag.index }) := by
  simp only [ActionsDAG.addFunction, bind, Except.bind, hnodes, hty, pure, Except.pure,
    ActionsDAG.addNode]

theorem joinNames_nodes (dag : ActionsDAG) (args : List NodePtr) (nodes : List Node)
    (hnodes : args.mapM (fun p => dag.deref p) = .ok nodes) :
    joinNames dag args "," = .ok (",".intercalate (nodes.map (fun n => n.result_name))) := by
  obtain ⟨hnames, -⟩ := mapM_deref_names dag args nodes hnodes
  simp only [joinNames, bind, Except.bind, hnames, pure, Except.pure]

theorem buildFunction_plain (env : Env) (f : ScalarFunction) (sig fname : String)
    (args : List NodePtr) (nodes : List Node) (ty : DataType) (rc : List String)
    (keep : Bool) (st : PState)
    (hplain : (fname == "alias") = false ∧ (fname == "arrayJoin") = false ∧
      (fname == "isNotNull") = false ∧ (fname == "splitByRegexp") = false)
    (hext : containsSubstr sig "extract:" = false)
    (hco : containsSubstr sig "check_overflow:" = false)
    (hnodes : args.mapM (fun p => st.dag.deref p) = .ok nodes)
    (hex : env.functionExists fname = true)
    (hty : env.functionReturnType fname (nodes.map (fun n => n.result_type)) = .ok ty)
    (hmatch : isTypeMatched f.output_type ty = .ok true) :
    ∃ index1, buildFunction env f sig fname args rc keep st =
      .ok ⟨some st.dag.nodes.length,
        fname ++ "(" ++ ",".intercalate (nodes.map (fun n => n.result_name)) ++ ")", rc,
        { dag :=
            { nodes := st.dag.nodes ++
                [functionNode fname (nodes.map (fun n => n.result_name)) ty
                  (args.filterMap id)],
              inputs := st.dag.inputs, index := index1 },
          name_no := st.name_no }⟩ := by
  obtain ⟨h1, h2, h3, h4⟩ := hplain
  obtain ⟨index1, hidx⟩ := addOrReplaceInIndex_last st.dag.nodes st.dag.inputs st.dag.index
    (functionNode fname (nodes.map (fun n => n.result_name)) ty (args.filterMap id))
  simp only [functionNode] at hidx
  cases keep with
  | false =>
    refine ⟨st.dag.index, ?_⟩
    simp only [buildFunction, h1, h2, h3, h4, hext, hco, getFunctionBuilder, hex, if_true,
      joinNames_nodes _ _ _ hnodes, addFunction_nodes env _ _ _ _ _ _ hnodes hty, deref_last,
      hmatch, bind, Except.bind, pure, Except.pure, Bool.false_eq_true, if_false, Bool.not_true]
    rfl
  | true =>
    refine ⟨index1, ?_⟩
    simp only [buildFunction, h1, h2, h3, h4, hext, hco, getFunctionBuilder, hex, if_true,
      joinNames_nodes _ _ _ hnodes, addFunction_nodes env _ _ _ _ _ _ hnodes hty, deref_last,
      hmatch, bind, Except.bind, pure, Except.pure, Bool.false_eq_true, if_false, Bool.not_true,
      hidx]
    rfl

theorem buildFunction_signature (env : Env) (f : ScalarFunction) (sig sig1 fname : String)
    (args : List NodePtr) (rc : List String) (keep : Bool) (st : PState)
    (h1 : containsSubstr sig "extract:" = containsSubstr sig1 "extract:")
    (h2 : containsSubstr sig "check_overflow:" = containsSubstr sig1 "check_overflow:") :
    buildFunction env f sig fname args rc keep st =
      buildFunction env f sig1 fname args rc keep st := by
  unfold buildFunction
  rw [h1, h2]

theorem buildFunction_erases_first (env : Env) (f : ScalarFunction) (sig sig1 fname : String)
    (a : NodePtr) (rest : List NodePtr) (rc : List String) (keep : Bool) (st : PState)
    (hplain : (fname == "alias") = false ∧ (fname == "arrayJoin") = false ∧
      (fname == "isNotNull") = false ∧ (fname == "splitByRegexp") = false)
    (hext : containsSubstr sig "extract:" = true)
    (hext1 : containsSubstr sig1 "extract:" = false)
    (hco : containsSubstr sig "check_overflow:" = containsSubstr sig1 "check_overflow:") :
    buildFunction env f sig fname (a :: rest) rc keep st =
      buildFunction env f sig1 fname rest rc keep st := by
  obtain ⟨h1, h2, h3, h4⟩ := hplain
  unfold buildFunction
  simp only [h1, h2, h3, h4, hext, hext1, hco, bind, Except.bind, pure, Except.pure,
    Bool.false_eq_true, if_false, if_true]

theorem buildFunction_erases_nothing (env : Env) (f : ScalarFunction) (sig fname : String)
    (rc : List String) (keep : Bool) (st : PState)
    (hplain : (fname == "alias") = false ∧ (fname == "arrayJoin") = false ∧
      (fname == "isNotNull") = false ∧ (fname == "splitByRegexp") = false)
    (hext : containsSubstr sig "extract:" = true) :
    buildFunction env f sig fname [] rc keep st =
      .error ⟨.UNCHECKED_ACCESS, "erase(begin()) of an empty vector"⟩ := by
  obtain ⟨h1, h2, h3, h4⟩ := hplain
  unfold buildFunction
  simp only [h1, h2, h3, h4, hext, bind, Except.bind, pure, Except.pure,
    Bool.false_eq_true, if_false, if_true, throw, throwThe, MonadExceptOf.throw]

theorem buildFunction_check_overflow_count (env : Env) (f : ScalarFunction)
    (sig fname : String) (args : List NodePtr) (rc : List String) (keep : Bool) (st : PState)
    (hplain : (fname == "alias") = false ∧ (fname == "arrayJoin") = false ∧
      (fname == "isNotNull") = false ∧ (fname == "splitByRegexp") = false)
    (hext : containsSubstr sig "extract:" = false)
    (hco : containsSubstr sig "check_overflow:" = true)
    (hlen : f.arguments.length ≠ 2) :
    buildFunction env f sig fname args rc keep st =
      .error ⟨.BAD_ARGUMENTS, "check_overflow function requires two args."⟩ := by
  obtain ⟨h1, h2, h3, h4⟩ := hplain
  have hne : (f.arguments.length != 2) = true := by simpa using hlen
  unfold buildFunction
  simp only [h1, h2, h3, h4, hext, hco, hne, bind, Except.bind, pure, Except.pure,
    Bool.false_eq_true, if_false, if_true, throw, throwThe, MonadExceptOf.throw]

theorem buildFunction_implicit_cast_plain (env : Env) (f : ScalarFunction) (sig fname : String)
    (args : List NodePtr) (nodes : List Node) (ty cty : DataType) (cast : String)
    (rc : List String) (keep : Bool) (st : PState)
    (hplain : (fname == "alias") = false ∧ (fname == "arrayJoin") = false ∧
      (fname == "isNotNull") = false ∧ (fname == "splitByRegexp") = false)
    (hext : containsSubstr sig "extract:" = false)
    (hco : containsSubstr sig "check_overflow:" = false)
    (hnodes : args.mapM (fun p => st.dag.deref p) = .ok nodes)
    (hex : env.functionExists fname = true)
    (hty : env.functionReturnType fname (nodes.map (fun n => n.result_type)) = .ok ty)
    (hmatch : isTypeMatched f.output_type ty = .ok false)
    (hname : getCastFunction f.output_type = .ok cast)
    (hdec : starts_with cast "toDecimal" = false)
    (hcex : env.functionExists cast = true)
    (hcty : env.functionReturnType cast [ty] = .ok cty) :
    ∃ index1, buildFunction env f sig fname args rc keep st =
      .ok ⟨some (st.dag.nodes.length + 1),
        cast ++ "(" ++
          (functionNode fname (nodes.map (fun n => n.result_name)) ty
            (args.filterMap id)).result_name ++ ")", rc,
        { dag :=
            { nodes := st.dag.nodes ++
                [functionNode fname (nodes.map (fun n => n.result_name)) ty (args.filterMap id),
                 functionNode cast
                  [(functionNode fname (nodes.map (fun n => n.result_name)) ty
                    (args.filterMap id)).result_name] cty [st.dag.nodes.length]],
              inputs := st.dag.inputs, index := index1 },
          name_no := st.name_no }⟩ := by
  obtain ⟨h1, h2, h3, h4⟩ := hplain
  have hlast : (st.dag.nodes ++
      [functionNode fname (nodes.map (fun n => n.result_name)) ty (args.filterMap id)]).get?
      st.dag.nodes.length =
      some (functionNode fname (nodes.map (fun n => n.result_name)) ty (args.filterMap id)) := by
    simp
  have hjoin := joinNames_one
    { nodes := st.dag.nodes ++
        [functionNode fname (nodes.map (fun n => n.result_name)) ty (args.filterMap id)],
      inputs := st.dag.inputs, index := st.dag.index } st.dag.nodes.length _ hlast
  have hadd := addFunction_one env
    { nodes := st.dag.nodes ++
        [functionNode fname (nodes.map (fun n => n.result_name)) ty (args.filterMap id)],
      inputs := st.dag.inputs, index := st.dag.index } cast st.dag.nodes.length _ cty
    (cast ++ "(" ++
      (functionNode fname (nodes.map (fun n => n.result_name)) ty
        (args.filterMap id)).result_name ++ ")") hlast hcty
  obtain ⟨index1, hidx⟩ := addOrReplaceInIndex_last
    (st.dag.nodes ++
      [functionNode fname (nodes.map (fun n => n.result_name)) ty (args.filterMap id)])
    st.dag.inputs st.dag.index
    (Node.mk .FUNCTION (cast ++ "(" ++
      (functionNode fname (nodes.map (fun n => n.result_name)) ty
        (args.filterMap id)).result_name ++ ")") cty [st.dag.nodes.length] cast none)
  simp only [functionNode, List.length_append, List.length_singleton] at hjoin hadd hidx
  cases keep with
  | false =>
    refine ⟨st.dag.index, ?_⟩
    simp only [buildFunction, h1, h2, h3, h4, hext, hco, getFunctionBuilder, hex, hcex, if_true,
      joinNames_nodes _ _ _ hnodes, addFunction_nodes env _ _ _ _ _ _ hnodes hty, deref_last,
      hmatch, hname, hdec, hjoin, hadd, bind, Except.bind, pure, Except.pure,
      Bool.false_eq_true, if_false, Bool.not_false, functionNode]
    simp only [List.append_assoc, List.singleton_append]
    rfl
  | true =>
    refine ⟨index1, ?_⟩
    simp only [buildFunction, h1, h2, h3, h4, hext, hco, getFunctionBuilder, hex, hcex, if_true,
      joinNames_nodes _ _ _ hnodes, addFunction_nodes env _ _ _ _ _ _ hnodes hty, deref_last,
      hmatch, hname, hdec, hjoin, hadd, bind, Except.bind, pure, Except.pure,
      Bool.false_eq_true, if_false, Bool.not_false, functionNode, hidx]
    simp only [List.append_assoc, List.singleton_append]
    rfl

theorem mapM_deref_two (nodes : List Node) (inputs index : List Nat) (x y : Node) :
    [some nodes.length, some (nodes.length + 1)].mapM
      (fun p => ActionsDAG.deref
        { nodes := nodes ++ [x] ++ [y], inputs := inputs, index := index } p) =
      .ok [x, y] := by
  have e1 : (nodes ++ [x] ++ [y]).get? nodes.length = some x := by
    rw [List.append_assoc, List.get?_eq_getElem?, List.getElem?_append_right (le_refl _)]
    simp
  have e2 : (nodes ++ [x] ++ [y]).get? (nodes.length + 1) = some y := by
    rw [List.get?_eq_getElem?, List.getElem?_append_right (by simp)]
    simp
  have d1 := deref_some { nodes := nodes ++ [x] ++ [y], inputs := inputs, index := index }
    _ _ e1
  have d2 := deref_some { nodes := nodes ++ [x] ++ [y], inputs := inputs, index := index }
    _ _ e2
  simp only [List.mapM_cons, List.mapM_nil, bind, Except.bind, pure, Except.pure, d1, d2]

theorem buildFunction_implicit_cast_decimal (env : Env) (f : ScalarFunction)
    (sig fname : String) (args : List NodePtr) (nodes : List Node) (ty cty : DataType)
    (cast : String) (rc : List String) (keep : Bool) (st : PState)
    (hplain : (fname == "alias") = false ∧ (fname == "arrayJoin") = false ∧
      (fname == "isNotNull") = false ∧ (fname == "splitByRegexp") = false)
    (hext : containsSubstr sig "extract:" = false)
    (hco : containsSubstr sig "check_overflow:" = false)
    (hnodes : args.mapM (fun p => st.dag.deref p) = .ok nodes)
    (hex : env.functionExists fname = true)
    (hty : env.functionReturnType fname (nodes.map (fun n => n.result_type)) = .ok ty)
    (hmatch : isTypeMatched f.output_type ty = .ok false)
    (hname : getCastFunction f.output_type = .ok cast)
    (hdec : starts_with cast "toDecimal" = true)
    (hcex : env.functionExists cast = true)
    (hcty : env.functionReturnType cast [ty, .UInt32] = .ok cty) :
    ∃ index1, buildFunction env f sig fname args rc keep st =
      .ok ⟨some (st.dag.nodes.length + 2),
        cast ++ "(" ++ ",".intercalate
          [(functionNode fname (nodes.map (fun n => n.result_name)) ty
            (args.filterMap id)).result_name,
           (getUniqueName st.name_no
            (toString (toUInt32 f.output_type.get_decimal.scale))).1] ++ ")", rc,
        { dag :=
            { nodes := st.dag.nodes ++
                [functionNode fname (nodes.map (fun n => n.result_name)) ty (args.filterMap id),
                 ⟨.COLUMN,
                  (getUniqueName st.name_no
                    (toString (toUInt32 f.output_type.get_decimal.scale))).1,
                  .UInt32, [], "", some (.UInt64 (toUInt32 f.output_type.get_decimal.scale))⟩,
                 functionNode cast
                  [(functionNode fname (nodes.map (fun n => n.result_name)) ty
                    (args.filterMap id)).result_name,
                   (getUniqueName st.name_no
                    (toString (toUInt32 f.output_type.get_decimal.scale))).1] cty
                  [st.dag.nodes.length, st.dag.nodes.length + 1]],
              inputs := st.dag.inputs, index := index1 },
          name_no := st.name_no + 1 }⟩ := by
  obtain ⟨h1, h2, h3, h4⟩ := hplain
  have hmap := mapM_deref_two st.dag.nodes st.dag.inputs st.dag.index
    (Node.mk .FUNCTION
      (fname ++ "(" ++ ",".intercalate (nodes.map (fun n => n.result_name)) ++ ")") ty
      (args.filterMap id) fname none)
    (Node.mk .COLUMN
      (toString (toUInt32 f.output_type.get_decimal.scale) ++ "_" ++ toString st.name_no)
      .UInt32 [] "" (some (.UInt64 (toUInt32 f.output_type.get_decimal.scale))))
  have hjoin := joinNames_nodes _ _ _ hmap
  have hadd := addFunction_nodes env _ cast _ _ cty
    (cast ++ "(" ++ ",".intercalate
      [fname ++ "(" ++ ",".intercalate (nodes.map (fun n => n.result_name)) ++ ")",
       toString (toUInt32 f.output_type.get_decimal.scale) ++ "_" ++ toString st.name_no] ++
      ")") hmap hcty
  obtain ⟨index1, hidx⟩ := addOrReplaceInIndex_last
    (st.dag.nodes ++
      [Node.mk .FUNCTION
        (fname ++ "(" ++ ",".intercalate (nodes.map (fun n => n.result_name)) ++ ")") ty
        (args.filterMap id) fname none] ++
      [Node.mk .COLUMN
        (toString (toUInt32 f.output_type.get_decimal.scale) ++ "_" ++ toString st.name_no)
        .UInt32 [] "" (some (.UInt64 (toUInt32 f.output_type.get_decimal.scale)))])
    st.dag.inputs st.dag.index
    (Node.mk .FUNCTION
      (cast ++ "(" ++ ",".intercalate
        [fname ++ "(" ++ ",".intercalate (nodes.map (fun n => n.result_name)) ++ ")",
         toString (toUInt32 f.output_type.get_decimal.scale) ++ "_" ++ toString st.name_no] ++
        ")") cty
      (List.filterMap id [some st.dag.nodes.length, some (st.dag.nodes.length + 1)]) cast none)
  simp only [List.length_append, List.length_singleton, List.map_cons, List.map_nil]
    at hjoin hadd hidx
  cases keep with
  | false =>
    refine ⟨st.dag.index, ?_⟩
    simp only [buildFunction, h1, h2, h3, h4, hext, hco, getFunctionBuilder, hex, hcex, if_true,
      joinNames_nodes _ _ _ hnodes, addFunction_nodes env _ _ _ _ _ _ hnodes hty, deref_last,
      hmatch, hname, hdec, bind, Except.bind, pure, Except.pure,
      Bool.false_eq_true, if_false, Bool.not_false, addConstant, ActionsDAG.addColumn,
      ActionsDAG.addNode, List.length_append, List.length_singleton,
      getUniqueName, hjoin, hadd]
    simp only [List.append_assoc, List.singleton_append, functionNode, getUniqueName]
    rfl
  | true =>
    refine ⟨index1, ?_⟩
    simp only [buildFunction, h1, h2, h3, h4, hext, hco, getFunctionBuilder, hex, hcex, if_true,
      joinNames_nodes _ _ _ hnodes, addFunction_nodes env _ _ _ _ _ _ hnodes hty, deref_last,
      hmatch, hname, hdec, bind, Except.bind, pure, Except.pure,
      Bool.false_eq_true, if_false, Bool.not_false, addConstant, ActionsDAG.addColumn,
      ActionsDAG.addNode, List.length_append, List.length_singleton,
      getUniqueName, hjoin, hadd, hidx]
    simp only [List.append_assoc, List.singleton_append, functionNode, getUniqueName]
    rfl

theorem addFunction_inv (env : Env) (dag dag1 : ActionsDAG) (function : String)
    (args : List NodePtr) (name : String) (h : Nat)
    (hadd : dag.addFunction env function args name = .ok (h, dag1)) :
    h = dag.nodes.length ∧ dag1.inputs = dag.inputs ∧ dag1.index = dag.index ∧
      ∃ ty, dag1.nodes =
        dag.nodes ++ [⟨.FUNCTION, name, ty, args.filterMap id, function, none⟩] := by
  simp only [ActionsDAG.addFunction, bind, Except.bind] at hadd
  split at hadd
  · cases hadd
  · split at hadd
    · cases hadd
    · rename_i ty _
      simp only [pure, Except.pure, ActionsDAG.addNode] at hadd
      cases hadd
      exact ⟨rfl, rfl, rfl, ty, rfl⟩

theorem get?_append_of_get? {α : Type} (l m : List α) (i : Nat) (x : α)
    (h : l.get? i = some x) : (l ++ m).get? i = some x := by
  have hi : i < l.length := by
    by_contra hc
    rw [List.get?_eq_none.mpr (Nat.le_of_not_lt hc)] at h
    cases h
  simp only [List.get?_eq_getElem?] at h ⊢
  rw [List.getElem?_append_left hi]
  exact h

theorem get?_concat_length {α : Type} (l : List α) (x : α) :
    (l ++ [x]).get? l.length = some x := by
  simp

theorem addConstant_get? (st : PState) (ty : DataType) (field : Field) (text : String)
    (i : Nat) (x : Node) (h : st.dag.nodes.get? i = some x) :
    (addConstant st ty field text).2.dag.nodes.get? i = some x :=
  get?_append_of_get? _ _ _ _ h

theorem buildFunction_call_arguments (env : Env) (f : ScalarFunction) (sig fname : String)
    (args : List NodePtr) (rc : List String) (keep : Bool) (st : PState) (res : FunctionResult)
    (h1 : (fname == "alias") = false) (h2 : (fname == "arrayJoin") = false)
    (hco : containsSubstr sig "check_overflow:" = false)
    (h : buildFunction env f sig fname args rc keep st = .ok res) :
    ∃ node, res.state.dag.nodes.get? st.dag.nodes.length = some node ∧
      node.function_name = fname ∧
      node.children = (callArguments sig fname args).filterMap id := by
  unfold buildFunction at h
  simp only [h1, h2, hco, Bool.false_eq_true, if_false, bind, Except.bind, pure,
    Except.pure] at h
  -- the rewrite of the arguments
  split at h
  · cases h
  · rename_i r1 hr1
    obtain ⟨args1, rc1⟩ := r1
    have hargs1 : args1 = (if fname == "splitByRegexp" then swapFirstTwo args else args) := by
      by_cases h3 : (fname == "isNotNull") = true
      · have hne : (fname == "splitByRegexp") = false := by
          have e : fname = "isNotNull" := by simpa using h3
          subst e
          decide
        simp only [h3, if_true] at hr1
        split at hr1
        · cases hr1
        · split at hr1
          · cases hr1
          · cases hr1
            simp [hne]
      · simp only [h3, Bool.false_eq_true, if_false] at hr1
        by_cases h4 : (fname == "splitByRegexp") = true
        · simp only [h4, if_true] at hr1 ⊢
          rcases args with _ | ⟨a, _ | ⟨b, rest⟩⟩ <;>
            (simp only [] at hr1; cases hr1; rfl)
        · simp only [h4, Bool.false_eq_true, if_false] at hr1 ⊢
          cases hr1
          rfl
    clear hr1
    simp only [] at h
    split at h
    · cases h
    · rename_i args2 hargs2
      have hcall : args2 = callArguments sig fname args := by
        unfold callArguments
        simp only [← hargs1]
        by_cases he : containsSubstr sig "extract:" = true
        · simp only [he, if_true] at hargs2 ⊢
          cases args1 with
          | nil => cases hargs2
          | cons a rest =>
            simp only [] at hargs2
            cases hargs2
            rfl
        · simp only [he, Bool.false_eq_true, if_false] at hargs2 ⊢
          cases hargs2
          rfl
      clear hargs2 hargs1
      split at h
      · cases h
      · split at h
        · cases h
        · split at h
          · cases h
          · rename_i r3 hr3
            obtain ⟨function_node, dag3⟩ := r3
            obtain ⟨hfn, _, _, ty, hnodes3⟩ := addFunction_inv env _ _ _ _ _ _ hr3
            subst hfn
            have hex : ∃ node : Node,
                (node.function_name = fname ∧ node.children = args2.filterMap id) ∧
                dag3.nodes.get? st.dag.nodes.length = some node := by
              rw [hnodes3]
              refine ⟨_, ?_, get?_concat_length _ _⟩
              exact ⟨rfl, rfl⟩
            obtain ⟨node, hnode, hget3⟩ := hex
            refine ⟨node, ?_, hnode.1, by rw [hnode.2, hcall]⟩
            clear hr3 hnodes3
            simp only [] at h
            split at h
            · cases h
            · split at h
              · cases h
              · rename_i matched _
                split at h
                · cases h
                · rename_i r5 hr5
                  have hget5 : r5.2.2.dag.nodes.get? st.dag.nodes.length = some node := by
                    cases matched with
                    | true =>
                      simp only [Bool.not_true, Bool.false_eq_true, if_false] at hr5
                      cases hr5
                      exact hget3
                    | false =>
                      simp only [Bool.not_false, if_true] at hr5
                      split at hr5
                      · cases hr5
                      · split at hr5
                        · cases hr5
                        · split at hr5
                          · cases hr5
                          · split at hr5
                            · cases hr5
                            · rename_i cast_function _ _ _ _ _ _ _ _ r6 hr6
                              obtain ⟨h6, dag6⟩ := r6
                              obtain ⟨-, -, -, ty6, hnodes6⟩ :=
                                addFunction_inv env _ _ _ _ _ _ hr6
                              cases hr5
                              simp only []
                              rw [hnodes6]
                              apply get?_append_of_get?
                              by_cases hd : starts_with cast_function "toDecimal" = true
                              · simp only [hd, if_true]
                                exact addConstant_get? _ _ _ _ _ _ hget3
                              · simp only [hd, Bool.false_eq_true, if_false]
                                exact hget3
                  clear hr5
                  cases keep with
                  | true =>
                    simp only [if_true] at h
                    split at h
                    · cases h
                    · rename_i dag7 hdag7
                      cases h
                      simp only []
                      rw [addOrReplaceInIndex_nodes _ _ _ hdag7]
                      exact hget5
                  | false =>
                    simp only [Bool.false_eq_true, if_false] at h
                    cases h
                    exact hget5

theorem readIntLE_four (b0 b1 b2 b3 : Nat) (rest : List Nat) :
    readIntLE (b0 :: b1 :: b2 :: b3 :: rest) 4 =
      .ok (if b0 % 256 + 256 * (b1 % 256) + 65536 * (b2 % 256) + 16777216 * (b3 % 256)
            < 2147483648 then
          ((b0 % 256 + 256 * (b1 % 256) + 65536 * (b2 % 256) + 16777216 * (b3 % 256) : Nat) :
            Int)
        else
          ((b0 % 256 + 256 * (b1 % 256) + 65536 * (b2 % 256) + 16777216 * (b3 % 256) : Nat) :
            Int) - 4294967296) := by
  have hu : ([b0, b1, b2, b3].foldr (fun b acc => b % 256 + 256 * acc) 0) =
      b0 % 256 + 256 * (b1 % 256) + 65536 * (b2 % 256) + 16777216 * (b3 % 256) := by
    simp only [List.foldr]
    omega
  unfold readIntLE
  have hlen : ¬ (b0 :: b1 :: b2 :: b3 :: rest).length < 4 := by simp
  simp only [hlen, if_false, List.take_succ_cons, List.take_zero, hu]
  have hp : (256 : Nat) ^ 4 = 4294967296 := by norm_num
  rw [hp]
  split_ifs <;> first | rfl | omega

theorem readIntLE_eight (b0 b1 b2 b3 b4 b5 b6 b7 : Nat) (rest : List Nat) :
    readIntLE (b0 :: b1 :: b2 :: b3 :: b4 :: b5 :: b6 :: b7 :: rest) 8 =
      .ok (if b0 % 256 + 256 * (b1 % 256) + 65536 * (b2 % 256) + 16777216 * (b3 % 256) +
            4294967296 * (b4 % 256) + 1099511627776 * (b5 % 256) +
            281474976710656 * (b6 % 256) + 72057594037927936 * (b7 % 256)
            < 9223372036854775808 then
          ((b0 % 256 + 256 * (b1 % 256) + 65536 * (b2 % 256) + 16777216 * (b3 % 256) +
            4294967296 * (b4 % 256) + 1099511627776 * (b5 % 256) +
            281474976710656 * (b6 % 256) + 72057594037927936 * (b7 % 256) : Nat) : Int)
        else
          ((b0 % 256 + 256 * (b1 % 256) + 65536 * (b2 % 256) + 16777216 * (b3 % 256) +
            4294967296 * (b4 % 256) + 1099511627776 * (b5 % 256) +
            281474976710656 * (b6 % 256) + 72057594037927936 * (b7 % 256) : Nat) : Int) -
            18446744073709551616) := by
  have hu : ([b0, b1, b2, b3, b4, b5, b6, b7].foldr (fun b acc => b % 256 + 256 * acc) 0) =
      b0 % 256 + 256 * (b1 % 256) + 65536 * (b2 % 256) + 16777216 * (b3 % 256) +
        4294967296 * (b4 % 256) + 1099511627776 * (b5 % 256) +
        281474976710656 * (b6 % 256) + 72057594037927936 * (b7 % 256) := by
    simp only [List.foldr]
    omega
  unfold readIntLE
  have hlen : ¬ (b0 :: b1 :: b2 :: b3 :: b4 :: b5 :: b6 :: b7 :: rest).length < 8 := by simp
  simp only [hlen, if_false, List.take_succ_cons, List.take_zero, hu]
  have hp : (256 : Nat) ^ 8 = 18446744073709551616 := by norm_num
  rw [hp]
  split_ifs <;> first | rfl | omega

theorem floatToDouble_samples :
    floatToDouble 1065353216 = 4607182418800017408 ∧
    floatToDouble 3217031168 = 13832806255468478464 ∧
    floatToDouble 0 = 0 ∧
    floatToDouble 1 = 3936146074321813504 ∧
    floatToDouble 2139095040 = 9218868437227405312 := by
  decide

/-! ## Conversion-function selection -/

/-- C8: for every decimal descriptor and flag, with `p` the `UInt32` precision
the function reads, `getDecimalFunction` returns `toDecimal32` when `p <= 9`,
`toDecimal64` when `9 < p <= 18` and `toDecimal128` when `18 < p <= 38`, with
`OrNull` appended iff the flag is set; it fails iff `p > 38`, and then with
the unsupported-type error; precision 10 without the flag gives
`toDecimal64`. -/
theorem getDecimalFunction_by_precision (decimal : Type_Decimal) (b : Bool) :
    (toUInt32 decimal.precision ≤ 9 →
      getDecimalFunction decimal b = .ok ("toDecimal32" ++ if b then "OrNull" else "")) ∧
    (9 < toUInt32 decimal.precision → toUInt32 decimal.precision ≤ 18 →
      getDecimalFunction decimal b = .ok ("toDecimal64" ++ if b then "OrNull" else "")) ∧
    (18 < toUInt32 decimal.precision → toUInt32 decimal.precision ≤ 38 →
      getDecimalFunction decimal b = .ok ("toDecimal128" ++ if b then "OrNull" else "")) ∧
    ((getDecimalFunction decimal b).failed = true ↔ 38 < toUInt32 decimal.precision) ∧
    (38 < toUInt32 decimal.precision →
      getDecimalFunction decimal b =
        .error ⟨.UNKNOWN_TYPE, "Spark doesn't support decimal type with precision \x7b\x7d"⟩) ∧
    (∀ (scale : Int) (nullability : Type_Nullability),
      getDecimalFunction ⟨scale, 10, nullability⟩ false = .ok "toDecimal64") := by
  have e32 : ("toDecimal32" ++ "" : String) = "toDecimal32" := by decide
  have e64 : ("toDecimal64" ++ "" : String) = "toDecimal64" := by decide
  have e128 : ("toDecimal128" ++ "" : String) = "toDecimal128" := by decide
  refine ⟨?_, ?_, ?_, ?_, ?_, ?_⟩
  · intro h
    cases b <;>
      simp [getDecimalFunction, DataTypeDecimal32.maxPrecision, h, e32]
  · intro h1 h2
    have h3 : ¬ toUInt32 decimal.precision ≤ 9 := by omega
    cases b <;>
      simp [getDecimalFunction, DataTypeDecimal32.maxPrecision,
        DataTypeDecimal64.maxPrecision, h2, h3, e64]
  · intro h1 h2
    have h3 : ¬ toUInt32 decimal.precision ≤ 9 := by omega
    have h4 : ¬ toUInt32 decimal.precision ≤ 18 := by omega
    cases b <;>
      simp [getDecimalFunction, DataTypeDecimal32.maxPrecision,
        DataTypeDecimal64.maxPrecision, DataTypeDecimal128.maxPrecision, h2, h3, h4, e128]
  · unfold getDecimalFunction
    simp only [DataTypeDecimal32.maxPrecision, DataTypeDecimal64.maxPrecision,
      DataTypeDecimal128.maxPrecision]
    by_cases h1 : toUInt32 decimal.precision ≤ 9
    · cases b <;> simp [h1, Result.failed] <;> omega
    · by_cases h2 : toUInt32 decimal.precision ≤ 18
      · cases b <;> simp [h1, h2, Result.failed] <;> omega
      · by_cases h3 : toUInt32 decimal.precision ≤ 38
        · cases b <;> simp [h1, h2, h3, Result.failed]
        · cases b <;> simp [h1, h2, h3, Result.failed] <;> omega
  · intro h
    have h3 : ¬ toUInt32 decimal.precision ≤ 9 := by omega
    have h4 : ¬ toUInt32 decimal.precision ≤ 18 := by omega
    have h5 : ¬ toUInt32 decimal.precision ≤ 38 := by omega
    simp [getDecimalFunction, DataTypeDecimal32.maxPrecision,
      DataTypeDecimal64.maxPrecision, DataTypeDecimal128.maxPrecision, h3, h4, h5]
  · intro scale nullability
    rfl

/-- Instance of C8 at precision 10 with the overflow flag set: the second
range applies and the name is `toDecimal64OrNull`. -/
theorem getDecimalFunction_by_precision_witness :
    (9 < toUInt32 10 ∧ toUInt32 10 ≤ 18) ∧
    getDecimalFunction ⟨2, 10, .NULLABILITY_REQUIRED⟩ true = .ok "toDecimal64OrNull" :=
  ⟨by decide,
    (getDecimalFunction_by_precision ⟨2, 10, .NULLABILITY_REQUIRED⟩ true).2.1
      (by decide) (by decide)⟩

/-! ## The type mapper -/

/-- C10: for every decimal type descriptor, with `p` and `s` the `UInt32`
precision and scale `parseType` reads, the mapping fails with the
unsupported-type error when `p` exceeds 38 (also under a nullable flag and
with a name stream), and otherwise returns the decimal of the narrowest width
holding `p` (32-bit up to 9, 64-bit up to 18, 128-bit up to 38) with exactly
the precision `p` and the scale `s`, wrapped by the nullability flag. -/
theorem parseType_decimal (scale precision : Int) (nullability : Type_Nullability) :
    (38 < toUInt32 precision →
      parseType0 (.decimal scale precision nullability) =
        .error ⟨.UNKNOWN_TYPE, "Spark doesn't support decimal type with precision \x7b\x7d"⟩ ∧
      ∀ (name : String) (names : List String),
        parseType (.decimal scale precision nullability) (some (name :: names)) =
          .error ⟨.UNKNOWN_TYPE,
            "Spark doesn't support decimal type with precision \x7b\x7d"⟩) ∧
    (toUInt32 precision ≤ 9 →
      parseType0 (.decimal scale precision nullability) =
        .ok (wrapNullableType nullability
          (.Decimal32 (toUInt32 precision) (toUInt32 scale)))) ∧
    (9 < toUInt32 precision → toUInt32 precision ≤ 18 →
      parseType0 (.decimal scale precision nullability) =
        .ok (wrapNullableType nullability
          (.Decimal64 (toUInt32 precision) (toUInt32 scale)))) ∧
    (18 < toUInt32 precision → toUInt32 precision ≤ 38 →
      parseType0 (.decimal scale precision nullability) =
        .ok (wrapNullableType nullability
          (.Decimal128 (toUInt32 precision) (toUInt32 scale)))) := by
  refine ⟨?_, ?_, ?_, ?_⟩
  · intro h
    constructor
    · simp [parseType0, parseType, popName, DataTypeDecimal128.maxPrecision, h, bind,
        Except.bind, Except.map, throw, throwThe, MonadExceptOf.throw]
    · intro name names
      simp [parseType, popName, DataTypeDecimal128.maxPrecision, h, bind,
        Except.bind, throw, throwThe, MonadExceptOf.throw]
  · intro h
    have h1 : ¬ 38 < toUInt32 precision := by omega
    simp [parseType0, parseType, popName, createDecimal, DataTypeDecimal128.maxPrecision,
      DataTypeDecimal32.maxPrecision, h, h1, bind, Except.bind, Except.map, pure, Except.pure]
  · intro h h2
    have h1 : ¬ 38 < toUInt32 precision := by omega
    have h3 : ¬ toUInt32 precision ≤ 9 := by omega
    simp [parseType0, parseType, popName, createDecimal, DataTypeDecimal128.maxPrecision,
      DataTypeDecimal32.maxPrecision, DataTypeDecimal64.maxPrecision, h1, h2, h3, bind,
      Except.bind, Except.map, pure, Except.pure]
  · intro h h2
    have h1 : ¬ 38 < toUInt32 precision := by omega
    have h3 : ¬ toUInt32 precision ≤ 9 := by omega
    have h4 : ¬ toUInt32 precision ≤ 18 := by omega
    simp [parseType0, parseType, popName, createDecimal, DataTypeDecimal128.maxPrecision,
      DataTypeDecimal32.maxPrecision, DataTypeDecimal64.maxPrecision, h1, h2, h3, h4, bind,
      Except.bind, Except.map, pure, Except.pure]

/-- Instance of C10: the required descriptor decimal(10, 2) maps to the 64-bit
decimal with precision 10 and scale 2. -/
theorem parseType_decimal_witness :
    (9 < toUInt32 10 ∧ toUInt32 10 ≤ 18) ∧
    parseType0 (.decimal 2 10 .NULLABILITY_REQUIRED) = .ok (.Decimal64 10 2) :=
  ⟨by decide, (parseType_decimal 2 10 .NULLABILITY_REQUIRED).2.2.1 (by decide) (by decide)⟩

/-- C11: for every type descriptor `T` that `parseType` maps, there is a base
type `B` such that the result is `Nullable(B)` when the own nullability flag of
`T` is NULLABLE and `B` otherwise, and `B` does not depend on the flag: the
descriptor with the flag set to NULLABLE maps to `Nullable(B)`, with the flag
set to REQUIRED or left unspecified it maps to `B`, with the same consumption
of the name stream.  The statement covers every branch of the mapper
(primitives, decimal, struct, list, map). -/
theorem parseType_nullability_wrapping (T : SType) (names : Option (List String))
    (ty : DataType) (rest : Option (List String))
    (h : parseType T names = .ok (ty, rest)) :
    ∃ B,
      (T.nullability = .NULLABILITY_NULLABLE → ty = .Nullable B) ∧
      (T.nullability ≠ .NULLABILITY_NULLABLE → ty = B) ∧
      parseType (T.setNullability .NULLABILITY_NULLABLE) names = .ok (.Nullable B, rest) ∧
      parseType (T.setNullability .NULLABILITY_REQUIRED) names = .ok (B, rest) ∧
      parseType (T.setNullability .NULLABILITY_UNSPECIFIED) names = .ok (B, rest) := by
  obtain ⟨B, hty, hall⟩ := parseType_flag T names ty rest h
  refine ⟨B, ?_, ?_, hall _, hall _, hall _⟩
  · intro hn
    rw [hty, hn]
    rfl
  · intro hn
    rw [hty]
    cases hf : T.nullability <;> first | rfl | exact absurd hf hn

/-- Instance of C11: a nullable list of required 32-bit integers maps to
`Nullable(Array(Int32))`, and the same list marked REQUIRED to
`Array(Int32)`. -/
theorem parseType_nullability_wrapping_witness :
    ∃ B,
      DataType.Nullable (.Array .Int32) = .Nullable B ∧
      parseType (.list (.i32 .NULLABILITY_REQUIRED) .NULLABILITY_REQUIRED) none =
        .ok (B, none) :=
  let ⟨B, h1, _, _, h4, _⟩ := parseType_nullability_wrapping
    (.list (.i32 .NULLABILITY_REQUIRED) .NULLABILITY_NULLABLE) none
    (.Nullable (.Array .Int32)) none rfl
  ⟨B, h1 rfl, h4⟩

/-- Counterexample to C12 as stated: the string and the binary descriptor both
map to `String`, and the REQUIRED and the unspecified 32-bit integer both map
to `Int32`, so no function of the internal type gives back the base kind of
every supported descriptor. -/
theorem parseType_merges_string_and_binary :
    parseType0 (.string .NULLABILITY_REQUIRED) = .ok .String ∧
    parseType0 (.binary .NULLABILITY_REQUIRED) = .ok .String ∧
    (SType.string .NULLABILITY_REQUIRED).baseKind ≠
      (SType.binary .NULLABILITY_REQUIRED).baseKind ∧
    parseType0 (.i32 .NULLABILITY_REQUIRED) = .ok .Int32 ∧
    parseType0 (.i32 .NULLABILITY_UNSPECIFIED) = .ok .Int32 ∧
    ¬ ∃ back : DataType → Option (BaseKind × Type_Nullability),
        ∀ T ty, parseType0 T = .ok ty → T.baseKind = (back ty).map Prod.fst := by
  refine ⟨rfl, rfl, by decide, rfl, rfl, ?_⟩
  rintro ⟨back, hback⟩
  have h1 := hback (.string .NULLABILITY_REQUIRED) .String rfl
  have h2 := hback (.binary .NULLABILITY_REQUIRED) .String rfl
  rw [← h1] at h2
  exact absurd h2 (by decide)

/-- C12 (amended): for every type descriptor `T` that `parseType` maps, the
external shape of the internal type is the base kind of `T`, binary read as
string, together with whether the nullability flag of `T` is NULLABLE; a
decimal maps back to `decimal` at each of the three internal widths. -/
theorem parseType_shape_recoverable (T : SType) (names : Option (List String))
    (ty : DataType) (rest : Option (List String))
    (h : parseType T names = .ok (ty, rest)) :
    ∃ k, T.baseKind = some k ∧
      ty.externalShape =
        some (k.internal, decide (T.nullability = .NULLABILITY_NULLABLE)) := by
  obtain ⟨B, k, hty, hk, hB, hn⟩ := parseType_base_shape T names ty rest h
  refine ⟨k, hk, ?_⟩
  rw [hty]
  exact externalShape_wrap _ B _ hB hn

/-- Instance of C12 (amended): the nullable decimal(10, 2) maps to
`Nullable(Decimal64(10, 2))`, whose shape is a nullable decimal. -/
theorem parseType_shape_recoverable_witness :
    ∃ k, (SType.decimal 2 10 .NULLABILITY_NULLABLE).baseKind = some k ∧
      (DataType.Nullable (.Decimal64 10 2)).externalShape = some (k.internal, true) :=
  parseType_shape_recoverable (.decimal 2 10 .NULLABILITY_NULLABLE) none
    (.Nullable (.Decimal64 10 2)) none rfl

/-- C13: the name-based mapper succeeds iff the name is one of the nine
keywords; every other name fails with the unknown-type error `Unknow spark
type`; and the nine keywords map to `UInt8`, `Int8`, `Int16`, `Int32`,
`Int64`, `Float32`, `Float64`, `String` and `Date`. -/
theorem parseTypeByName_table (name : String) :
    ((parseTypeByName name).failed = false ↔ name ∈ typeKeywords) ∧
    (name ∉ typeKeywords →
      parseTypeByName name = .error ⟨.UNKNOWN_TYPE, "Unknow spark type: \x7b\x7d"⟩) ∧
    parseTypeByName "BooleanType" = .ok .UInt8 ∧
    parseTypeByName "ByteType" = .ok .Int8 ∧
    parseTypeByName "ShortType" = .ok .Int16 ∧
    parseTypeByName "IntegerType" = .ok .Int32 ∧
    parseTypeByName "LongType" = .ok .Int64 ∧
    parseTypeByName "FloatType" = .ok .Float32 ∧
    parseTypeByName "DoubleType" = .ok .Float64 ∧
    parseTypeByName "StringType" = .ok .String ∧
    parseTypeByName "DateType" = .ok .Date := by
  refine ⟨?_, parseTypeByName_unknown name, rfl, rfl, rfl, rfl, rfl, rfl, rfl, rfl, rfl⟩
  constructor
  · intro h
    by_contra hn
    rw [parseTypeByName_unknown name hn] at h
    cases h
  · intro h
    simp only [typeKeywords, List.mem_cons, List.mem_singleton, List.not_mem_nil, or_false] at h
    rcases h with h | h | h | h | h | h | h | h | h <;> (subst h; rfl)

/-- Instance of C13: `TimestampType` is not a keyword of the name-based mapper
and is rejected with the unknown-type error. -/
theorem parseTypeByName_table_witness :
    parseTypeByName "TimestampType" =
      .error ⟨.UNKNOWN_TYPE, "Unknow spark type: \x7b\x7d"⟩ :=
  (parseTypeByName_table "TimestampType").2.1 (by decide)

/-! ## Join keys -/

/-- C4: for every join condition that is a tree of two-argument `and` nodes
whose leaves are `equals` nodes comparing field `l_k` with field `r_k`,
`collectJoinKeys` with right-side offset `n` appends to the key list exactly
the pairs `(l_k, r_k - n)` in left-to-right leaf order (the subtraction being
the `int32_t` one, for differences that fit); for
`and(equals(col[0], col[5]), equals(col[1], col[6]))` and `n = 5` the result
is `[(0,0),(1,1)]`. -/
theorem collectJoinKeys_pairs_in_leaf_order (SF fm : StringMap) :
    (∀ (c : Expression) (leaves : List (Int × Int)) (n : Int) (acc : List (Int × Int)),
      EqualityConjunction SF fm c leaves →
      (∀ p ∈ leaves, isInt32 (p.2 - n)) →
      collectJoinKeys SF fm c acc n = .ok (acc ++ leaves.map (fun p => (p.1, p.2 - n)))) ∧
    (∀ (r r1 r2 : Nat) (t t1 t2 : SType),
      resolveFunctionName SF fm
        ⟨r, [.scalar_function r1 [col 0, col 5] t1, .scalar_function r2 [col 1, col 6] t2], t⟩
        = .ok "and" →
      resolveFunctionName SF fm ⟨r1, [col 0, col 5], t1⟩ = .ok "equals" →
      resolveFunctionName SF fm ⟨r2, [col 1, col 6], t2⟩ = .ok "equals" →
      collectJoinKeys SF fm
        (.scalar_function r
          [.scalar_function r1 [col 0, col 5] t1, .scalar_function r2 [col 1, col 6] t2] t)
        [] 5 = .ok [(0, 0), (1, 1)]) := by
  constructor
  · intro c leaves n acc h hr
    exact collectJoinKeys_conjunction SF fm c leaves n h hr acc
  · intro r r1 r2 t t1 t2 h h1 h2
    have hc := collectJoinKeys_conjunction SF fm _ _ 5
      (EqualityConjunction.and r _ _ t _ _ h
        (EqualityConjunction.equals r1 0 5 t1 h1) (EqualityConjunction.equals r2 1 6 t2 h2))
      (by
        intro p hp
        simp at hp
        rcases hp with rfl | rfl <;> simp [isInt32]) []
    simpa using hc

/-- Instance of C4 on the sample tables: the scenario condition yields the key
pairs `[(0,0),(1,1)]`. -/
theorem collectJoinKeys_pairs_in_leaf_order_witness :
    collectJoinKeys sampleScalarFunctions sampleFunctionMapping sampleJoinCondition [] 5
      = .ok [(0, 0), (1, 1)] :=
  (collectJoinKeys_pairs_in_leaf_order sampleScalarFunctions sampleFunctionMapping).2
    0 1 1 _ _ _ rfl rfl rfl

/-- C5: `collectJoinKeys` fails for every join condition in which the root, or
a node reached from the root through the first two arguments of `and` nodes,
resolves to a function name other than `and` or `equals`; called on the
offending node itself it throws the bad-arguments error; and `parseJoin` fails
on every join with such a condition, so no join is built from it. -/
theorem collectJoinKeys_rejects_other_names (env : Env) (fm : StringMap) (c x : Expression)
    (name : String)
    (hreach : ReachedThroughAnd env.SCALAR_FUNCTIONS fm c x)
    (hres : resolveFunctionName env.SCALAR_FUNCTIONS fm x.get_scalar_function = .ok name)
    (hand : name ≠ "and") (heq : name ≠ "equals") :
    (∀ (acc : List (Int × Int)) (n : Int),
      (collectJoinKeys env.SCALAR_FUNCTIONS fm c acc n).failed = true ∧
      collectJoinKeys env.SCALAR_FUNCTIONS fm x acc n =
        .error ⟨.BAD_ARGUMENTS, "doesn't support condition \x7b\x7d"⟩) ∧
    (∀ (name_no : Nat) (type : JoinType) (post_join_filter : Option Expression)
        (optimization : String) (left right : QueryPlan),
      (parseJoin env fm name_no ⟨type, c, post_join_filter, optimization⟩ left right).failed
        = true) := by
  have hfail : ∀ (acc : List (Int × Int)) (n : Int),
      (collectJoinKeys env.SCALAR_FUNCTIONS fm c acc n).failed = true := fun acc n =>
    collectJoinKeys_reached_fails env.SCALAR_FUNCTIONS fm c x name n hreach hres hand heq acc
  refine ⟨fun acc n => ⟨hfail acc n, ?_⟩, ?_⟩
  · exact collectJoinKeys_other env.SCALAR_FUNCTIONS fm x name acc n hres hand heq
  · intro name_no type post_join_filter optimization left right
    exact parseJoin_fails_of_collectJoinKeys env fm name_no _ left right hfail

/-- Instance of C5 on the sample tables: in `and(equals(col[0], col[5]),
or(col[1], col[6]))` the second argument resolves to `or`; the condition is
rejected and the inner join over it is not built. -/
theorem collectJoinKeys_rejects_other_names_witness :
    (collectJoinKeys sampleScalarFunctions sampleFunctionMapping
      (.scalar_function 0
        [.scalar_function 1 [col 0, col 5] .not_set,
         .scalar_function 2 [col 1, col 6] .not_set] .not_set) [] 5).failed = true ∧
    (parseJoin sampleEnv sampleFunctionMapping 0
      ⟨.JOIN_TYPE_INNER,
        .scalar_function 0
          [.scalar_function 1 [col 0, col 5] .not_set,
           .scalar_function 2 [col 1, col 6] .not_set] .not_set,
        none, ""⟩ sampleLeftPlan sampleRightPlan).failed = true :=
  have h := collectJoinKeys_rejects_other_names sampleEnv sampleFunctionMapping
    (.scalar_function 0
      [.scalar_function 1 [col 0, col 5] .not_set,
       .scalar_function 2 [col 1, col 6] .not_set] .not_set)
    (.scalar_function 2 [col 1, col 6] .not_set) "or"
    (ReachedThroughAnd.second 0 _ _ [] .not_set _ rfl (ReachedThroughAnd.root _))
    rfl (by decide) (by decide)
  ⟨(h.1 [] 5).1, h.2 0 .JOIN_TYPE_INNER none "" sampleLeftPlan sampleRightPlan⟩

/-- C6, as stated, fails: an `equals` leaf whose first argument is a literal is
accepted (its field reads as 0), a leaf over fields 7 and 2 with five left
columns is accepted with the pair `(7, -3)`, outside every column range, and
`parseJoin` builds the join of the sample plans over the condition
`equals(7, col[2])`, whose first argument is a literal. -/
theorem collectJoinKeys_accepts_unchecked_leaves :
    collectJoinKeys sampleScalarFunctions sampleFunctionMapping
      (.scalar_function 1 [.literal (.i32 7), col 5] .not_set) [] 5 = .ok [(0, 0)] ∧
    collectJoinKeys sampleScalarFunctions sampleFunctionMapping
      (.scalar_function 1 [col 7, col 2] .not_set) [] 5 = .ok [(7, -3)] ∧
    (parseJoin sampleEnv sampleFunctionMapping 0
        ⟨.JOIN_TYPE_INNER, .scalar_function 1 [.literal (.i32 7), col 2] .not_set, none, ""⟩
        sampleLeftPlan sampleRightPlan).map
      (fun o => o.plan.header.getNames) = .ok ["a", "b", "c"] :=
  ⟨rfl, rfl, rfl⟩

/-- C6, amended: `collectJoinKeys` does not inspect the arguments of an
`equals` leaf; it appends the pair of the field positions read from the first
two arguments (0 for an argument that is not a direct column reference), the
second one minus the offset.  For every condition whose leaves compare a left
position `l` with `0 <= l < n` with a right position `n + r`, `0 <= r < m`,
the condition is accepted and every pair satisfies `0 <= l < n` and
`0 <= r < m`. -/
theorem collectJoinKeys_leaf_pairs (SF fm : StringMap) :
    (∀ (r : Nat) (a0 a1 : Expression) (rest : List Expression) (t : SType)
        (acc : List (Int × Int)) (n : Int),
      resolveFunctionName SF fm ⟨r, a0 :: a1 :: rest, t⟩ = .ok "equals" →
      collectJoinKeys SF fm (.scalar_function r (a0 :: a1 :: rest) t) acc n =
        .ok (acc ++ [(a0.selection_field, wrapInt32 (a1.selection_field - n))])) ∧
    (∀ (c : Expression) (leaves : List (Int × Int)) (n m : Int),
      EqualityConjunction SF fm c leaves →
      m ≤ 2147483647 →
      (∀ p ∈ leaves, 0 ≤ p.1 ∧ p.1 < n ∧ n ≤ p.2 ∧ p.2 < n + m) →
      ∃ keys, collectJoinKeys SF fm c [] n = .ok keys ∧
        ∀ k ∈ keys, 0 ≤ k.1 ∧ k.1 < n ∧ 0 ≤ k.2 ∧ k.2 < m) := by
  constructor
  · intro r a0 a1 rest t acc n h
    exact collectJoinKeys_equals SF fm r a0 a1 rest t acc n h
  · intro c leaves n m h hm hb
    refine ⟨leaves.map (fun p => (p.1, p.2 - n)), ?_, ?_⟩
    · have hc := collectJoinKeys_conjunction SF fm c leaves n h
        (by
          intro p hp
          have := hb p hp
          unfold isInt32
          omega) []
      simpa using hc
    · intro k hk
      simp only [List.mem_map] at hk
      obtain ⟨p, hp, rfl⟩ := hk
      have := hb p hp
      simp only
      omega

/-- Instance of the amended C6 on the sample tables, with five left and two
right columns. -/
theorem collectJoinKeys_leaf_pairs_witness :
    ∃ keys, collectJoinKeys sampleScalarFunctions sampleFunctionMapping
        sampleJoinCondition [] 5 = .ok keys ∧
      ∀ k ∈ keys, 0 ≤ k.1 ∧ k.1 < 5 ∧ 0 ≤ k.2 ∧ k.2 < 2 :=
  (collectJoinKeys_leaf_pairs sampleScalarFunctions sampleFunctionMapping).2
    sampleJoinCondition [(0, 5), (1, 6)] 5 2
    (EqualityConjunction.and 0 _ _ _ [(0, 5)] [(1, 6)] rfl
      (EqualityConjunction.equals 1 0 5 _ rfl) (EqualityConjunction.equals 1 1 6 _ rfl))
    (by decide)
    (by
      intro p hp
      simp at hp
      rcases hp with rfl | rfl <;> simp)

/-! ## The expression compiler -/

/-- C9, as stated, fails: over the header `a : Int64` the cast of column 0 to
`i64` compiles to the node `toInt64(a)`, and the set-membership test of column
0 in the one-element set of the literal 1 compiles as well, but the cast to
`string` (a supported destination, `toString`) of either of them is rejected
with `unsupported cast input`: no function node is added. -/
theorem parseArgument_cast_rejects_cast_input :
    getCastFunction (.string .NULLABILITY_REQUIRED) = .ok "toString" ∧
    (parseArgument sampleEnv sampleFunctionMapping
        (.cast (some (.i64 .NULLABILITY_REQUIRED)) (some (col 0)))
        { dag := ActionsDAG.ofInputs [("a", .Int64)], name_no := 0 }).map
      (fun r => (r.1, r.2.dag.nodes.drop 1)) =
      .ok (some 1, [⟨.FUNCTION, "toInt64(a)", .Int64, [0], "toInt64", none⟩]) ∧
    parseArgument sampleEnv sampleFunctionMapping
        (.cast (some (.string .NULLABILITY_REQUIRED))
          (some (.cast (some (.i64 .NULLABILITY_REQUIRED)) (some (col 0)))))
        { dag := ActionsDAG.ofInputs [("a", .Int64)], name_no := 0 } =
      .error ⟨.BAD_ARGUMENTS, "unsupported cast input \x7b\x7d"⟩ ∧
    (parseArgument sampleEnv sampleFunctionMapping
        (.singular_or_list (col 0) [.literal (.i64 1)])
        { dag := ActionsDAG.ofInputs [("a", .Int64)], name_no := 0 }).failed = false ∧
    parseArgument sampleEnv sampleFunctionMapping
        (.cast (some (.string .NULLABILITY_REQUIRED))
          (some (.singular_or_list (col 0) [.literal (.i64 1)])))
        { dag := ActionsDAG.ofInputs [("a", .Int64)], name_no := 0 } =
      .error ⟨.BAD_ARGUMENTS, "unsupported cast input \x7b\x7d"⟩ :=
  ⟨rfl, rfl, rfl, rfl, rfl⟩

/-- C9, amended: for every explicit Cast expression with a supported
destination type `T` whose input is a field reference, a literal, a
conditional or a scalar function call and compiles to a node `a`,
`parseArgument` appends one function node named `getCastFunction(T)`; its
arguments are the compiled input and a constant `UInt32` column holding the
scale of `T` when `T` is a decimal, the compiled input and a constant 6 when
`T` is a timestamp, and the compiled input alone for every other `T`.  A cast
to decimal(10, 2) yields `toDecimal64` with second argument the constant 2.  A
Cast with a supported destination type whose input is any other expression,
such as another Cast or a set-membership test, is rejected with
`unsupported cast input`. -/
theorem parseArgument_cast (env : Env) (fm : StringMap) (input : Expression) (st : PState) :
    ((input.has_selection || input.has_literal || input.has_if_then ||
        input.has_scalar_function) = true →
      ∀ (st1 : PState) (a : Nat) (anode : Node),
        parseArgument env fm input st = .ok (some a, st1) →
        st1.dag.nodes.get? a = some anode →
        (∀ (s p : Int) (n : Type_Nullability) (name : String) (ty : DataType),
          getCastFunction (.decimal s p n) = .ok name →
          env.functionExists name = true →
          env.functionReturnType name [anode.result_type, .UInt32] = .ok ty →
          ∃ index, parseArgument env fm (.cast (some (.decimal s p n)) (some input)) st =
            .ok (some (st1.dag.nodes.length + 1),
              { dag :=
                  { nodes := st1.dag.nodes ++
                      [constantNode env st1.name_no .UInt32 (.UInt64 (toUInt32 s)),
                       functionNode name
                        [anode.result_name,
                         (constantNode env st1.name_no .UInt32 (.UInt64 (toUInt32 s))).result_name]
                        ty [a, st1.dag.nodes.length]],
                    inputs := st1.dag.inputs, index := index },
                name_no := st1.name_no + 1 })) ∧
        (∀ (n : Type_Nullability) (ty : DataType),
          env.functionExists "toDateTime64" = true →
          env.functionReturnType "toDateTime64" [anode.result_type, .UInt32] = .ok ty →
          ∃ index, parseArgument env fm (.cast (some (.timestamp n)) (some input)) st =
            .ok (some (st1.dag.nodes.length + 1),
              { dag :=
                  { nodes := st1.dag.nodes ++
                      [constantNode env st1.name_no .UInt32 (.Int64 6),
                       functionNode "toDateTime64"
                        [anode.result_name,
                         (constantNode env st1.name_no .UInt32 (.Int64 6)).result_name]
                        ty [a, st1.dag.nodes.length]],
                    inputs := st1.dag.inputs, index := index },
                name_no := st1.name_no + 1 })) ∧
        (∀ (T : SType) (name : String) (ty : DataType),
          T.has_decimal = false → T.has_timestamp = false →
          getCastFunction T = .ok name →
          env.functionExists name = true →
          env.functionReturnType name [anode.result_type] = .ok ty →
          ∃ index, parseArgument env fm (.cast (some T) (some input)) st =
            .ok (some st1.dag.nodes.length,
              { dag :=
                  { nodes := st1.dag.nodes ++ [functionNode name [anode.result_name] ty [a]],
                    inputs := st1.dag.inputs, index := index },
                name_no := st1.name_no })) ∧
        (∀ (n : Type_Nullability) (ty : DataType),
          env.functionExists "toDecimal64" = true →
          env.functionReturnType "toDecimal64" [anode.result_type, .UInt32] = .ok ty →
          ∃ index, parseArgument env fm (.cast (some (.decimal 2 10 n)) (some input)) st =
            .ok (some (st1.dag.nodes.length + 1),
              { dag :=
                  { nodes := st1.dag.nodes ++
                      [constantNode env st1.name_no .UInt32 (.UInt64 2),
                       functionNode "toDecimal64"
                        [anode.result_name,
                         (constantNode env st1.name_no .UInt32 (.UInt64 2)).result_name]
                        ty [a, st1.dag.nodes.length]],
                    inputs := st1.dag.inputs, index := index },
                name_no := st1.name_no + 1 }))) ∧
    ((input.has_selection || input.has_literal || input.has_if_then ||
        input.has_scalar_function) = false →
      ∀ (T : SType) (name : String), getCastFunction T = .ok name →
        parseArgument env fm (.cast (some T) (some input)) st =
          .error ⟨.BAD_ARGUMENTS, "unsupported cast input \x7b\x7d"⟩) := by
  refine ⟨?_, ?_⟩
  · intro hkind st1 a anode harg hnode
    refine ⟨?_, ?_, ?_, ?_⟩
    · intro s p n name ty hname hex hty
      have hd : starts_with name "toDecimal" = true := by
        rcases getCastFunction_decimal_name s p n name hname with h | h | h <;>
          (subst h; decide)
      exact parseArgument_cast_with_constant env fm (.decimal s p n) input st st1 name a anode ty
        (.UInt64 (toUInt32 s)) hkind harg hnode hname (Or.inl ⟨hd, rfl⟩) hex hty
    · intro n ty hex hty
      exact parseArgument_cast_with_constant env fm (.timestamp n) input st st1 "toDateTime64" a
        anode ty (.Int64 6) hkind harg hnode rfl
        (Or.inr ⟨by decide, by decide, rfl⟩) hex hty
    · intro T name ty hd ht hname hex hty
      obtain ⟨h1, h2⟩ := getCastFunction_other_name T name hd ht hname
      exact parseArgument_cast_plain env fm T input st st1 name a anode ty hkind harg hnode hname
        h1 h2 hex hty
    · intro n ty hex hty
      exact parseArgument_cast_with_constant env fm (.decimal 2 10 n) input st st1 "toDecimal64" a
        anode ty (.UInt64 2) hkind harg hnode rfl (Or.inl ⟨by decide, rfl⟩) hex hty
  · intro hkind T name hname
    simp only [Bool.or_eq_false_iff] at hkind
    obtain ⟨⟨⟨h1, h2⟩, h3⟩, h4⟩ := hkind
    rw [parseArgument]
    simp only [hname, h1, h2, h3, h4, Bool.or_self, Bool.false_eq_true, if_false, bind,
      Except.bind, throw, throwThe, MonadExceptOf.throw]

/-- Instance of the amended C9: over the one-column header `a : Int64`, the
cast of column 0 to decimal(10, 2) appends the constant `2_0` and the node
`toDecimal64(a,2_0)` over the input and the constant; the cast to `string` of
the cast of column 0 to `i64` is rejected. -/
theorem parseArgument_cast_witness :
    (∃ index, parseArgument sampleEnv sampleFunctionMapping
        (.cast (some (.decimal 2 10 .NULLABILITY_REQUIRED)) (some (col 0)))
        { dag := ActionsDAG.ofInputs [("a", .Int64)], name_no := 0 } =
      .ok (some 2,
        { dag :=
            { nodes :=
                [⟨.INPUT, "a", .Int64, [], "", none⟩,
                 ⟨.COLUMN, "2_0", .UInt32, [], "", some (.UInt64 2)⟩,
                 ⟨.FUNCTION, "toDecimal64(a,2_0)", .Decimal64 18 2, [0, 1], "toDecimal64", none⟩],
              inputs := [0], index := index },
          name_no := 1 })) ∧
    parseArgument sampleEnv sampleFunctionMapping
        (.cast (some (.string .NULLABILITY_REQUIRED))
          (some (.cast (some (.i64 .NULLABILITY_REQUIRED)) (some (col 0)))))
        { dag := ActionsDAG.ofInputs [("a", .Int64)], name_no := 0 } =
      .error ⟨.BAD_ARGUMENTS, "unsupported cast input \x7b\x7d"⟩ :=
  ⟨((parseArgument_cast sampleEnv sampleFunctionMapping (col 0)
      { dag := ActionsDAG.ofInputs [("a", .Int64)], name_no := 0 }).1 rfl
      { dag := ActionsDAG.ofInputs [("a", .Int64)], name_no := 0 } 0
      ⟨.INPUT, "a", .Int64, [], "", none⟩ rfl rfl).2.2.2 .NULLABILITY_REQUIRED
      (.Decimal64 18 2) rfl rfl,
    (parseArgument_cast sampleEnv sampleFunctionMapping
      (.cast (some (.i64 .NULLABILITY_REQUIRED)) (some (col 0)))
      { dag := ActionsDAG.ofInputs [("a", .Int64)], name_no := 0 }).2 rfl
      (.string .NULLABILITY_REQUIRED) "toString" rfl⟩

/-! ## The aggregation planner -/

/-- C1: `parseAggregate` accepts the set of distinct measure phases iff the set
has at most one element or is exactly {INITIAL_TO_INTERMEDIATE,
INTERMEDIATE_TO_INTERMEDIATE}, and then goes on with the rest of the
translation; for every other set, in particular {INITIAL_TO_INTERMEDIATE,
INTERMEDIATE_TO_RESULT}, it throws the logical error `too many aggregate
phase!` whatever the plan and the environment are, before `is_final` is
assigned and before any step is added. -/
theorem parseAggregate_phase_check (rel : AggregateRel) :
    ((phaseCheck rel).failed = false ↔
      ((phase_set rel).card ≤ 1 ∨
        phase_set rel = {AggregationPhase.AGGREGATION_PHASE_INITIAL_TO_INTERMEDIATE,
          AggregationPhase.AGGREGATION_PHASE_INTERMEDIATE_TO_INTERMEDIATE})) ∧
    ((phaseCheck rel).failed = false →
      ∀ (env : Env) (fm : StringMap) (name_no : Nat) (plan : QueryPlan),
        parseAggregate env fm name_no plan rel =
          ⟨some (decide
              (AggregationPhase.AGGREGATION_PHASE_INTERMEDIATE_TO_RESULT ∈ phase_set rel)),
            parseAggregateBody env fm name_no plan rel (decide
              (AggregationPhase.AGGREGATION_PHASE_INTERMEDIATE_TO_RESULT ∈ phase_set rel))⟩) ∧
    ((phaseCheck rel).failed = true →
      ∀ (env : Env) (fm : StringMap) (name_no : Nat) (plan : QueryPlan),
        parseAggregate env fm name_no plan rel =
          ⟨none, .error ⟨.LOGICAL_ERROR, "too many aggregate phase!"⟩⟩) ∧
    (phase_set rel = {AggregationPhase.AGGREGATION_PHASE_INITIAL_TO_INTERMEDIATE,
        AggregationPhase.AGGREGATION_PHASE_INTERMEDIATE_TO_RESULT} →
      ∀ (env : Env) (fm : StringMap) (name_no : Nat) (plan : QueryPlan),
        parseAggregate env fm name_no plan rel =
          ⟨none, .error ⟨.LOGICAL_ERROR, "too many aggregate phase!"⟩⟩) := by
  have hfail : (phaseCheck rel).failed = true →
      ∀ (env : Env) (fm : StringMap) (name_no : Nat) (plan : QueryPlan),
        parseAggregate env fm name_no plan rel =
          ⟨none, .error ⟨.LOGICAL_ERROR, "too many aggregate phase!"⟩⟩ := by
    intro h env fm name_no plan
    unfold parseAggregate
    rw [phaseCheck_error rel h]
  refine ⟨phaseCheck_accepts_iff rel, ?_, hfail, ?_⟩
  · intro h env fm name_no plan
    unfold parseAggregate
    rw [phaseCheck_ok rel h]
  · intro hset
    apply hfail
    have hnot : ¬ (phaseCheck rel).failed = false := by
      rw [phaseCheck_accepts_iff, hset]
      decide
    cases hf : (phaseCheck rel).failed with
    | true => rfl
    | false => exact absurd hf hnot

/-- Instance of C1: two measures, one in the initial and one in the result
phase, are rejected before anything else happens. -/
theorem parseAggregate_phase_check_witness :
    parseAggregate sampleEnv sampleFunctionMapping 0 ⟨[], [("a", .Int64)]⟩
      ⟨[], [⟨⟨4, [col 0], .AGGREGATION_PHASE_INITIAL_TO_INTERMEDIATE, .i64 .NULLABILITY_REQUIRED⟩⟩,
            ⟨⟨4, [col 0], .AGGREGATION_PHASE_INTERMEDIATE_TO_RESULT, .i64 .NULLABILITY_REQUIRED⟩⟩]⟩ =
      ⟨none, .error ⟨.LOGICAL_ERROR, "too many aggregate phase!"⟩⟩ :=
  (parseAggregate_phase_check _).2.2.2 (by decide) sampleEnv sampleFunctionMapping 0 _

/-- C2: for every aggregate relation that passes the phase check,
`parseAggregate` assigns `is_final`, and assigns `true` iff some measure
declares the phase INTERMEDIATE_TO_RESULT; for every relation whose measures
are all in the initial phase (whatever its grouping sets), `is_final` is
assigned `false`. -/
theorem parseAggregate_is_final (env : Env) (fm : StringMap) (name_no : Nat)
    (plan : QueryPlan) (rel : AggregateRel) :
    ((phaseCheck rel).failed = false →
      ∃ b, (parseAggregate env fm name_no plan rel).is_final = some b ∧
        (b = true ↔ ∃ m ∈ rel.measures,
          m.measure.phase = AggregationPhase.AGGREGATION_PHASE_INTERMEDIATE_TO_RESULT)) ∧
    ((∀ m ∈ rel.measures,
        m.measure.phase = AggregationPhase.AGGREGATION_PHASE_INITIAL_TO_INTERMEDIATE) →
      (parseAggregate env fm name_no plan rel).is_final = some false) := by
  constructor
  · intro h
    refine ⟨decide (AggregationPhase.AGGREGATION_PHASE_INTERMEDIATE_TO_RESULT ∈ phase_set rel),
      ?_, ?_⟩
    · unfold parseAggregate
      rw [phaseCheck_ok rel h]
    · rw [decide_eq_true_iff, mem_phase_set]
  · intro hall
    have hsub : phase_set rel ⊆
        {AggregationPhase.AGGREGATION_PHASE_INITIAL_TO_INTERMEDIATE} := by
      intro p hp
      obtain ⟨m, hm, rfl⟩ := (mem_phase_set rel p).mp hp
      simp [hall m hm]
    have hcard : (phase_set rel).card ≤ 1 := by
      have := Finset.card_le_card hsub
      simpa using this
    have hacc : (phaseCheck rel).failed = false :=
      (phaseCheck_accepts_iff rel).mpr (Or.inl hcard)
    have hnot : AggregationPhase.AGGREGATION_PHASE_INTERMEDIATE_TO_RESULT ∉ phase_set rel := by
      intro hmem
      have := hsub hmem
      simp at this
    unfold parseAggregate
    rw [phaseCheck_ok rel hacc]
    simp [hnot]

/-- Instance of C2: a relation with one grouping set and a single measure in
the initial phase is not final. -/
theorem parseAggregate_is_final_witness :
    (parseAggregate sampleEnv sampleFunctionMapping 0 ⟨[], [("a", .Int64)]⟩
      ⟨[⟨[col 0]⟩],
        [⟨⟨4, [col 0], .AGGREGATION_PHASE_INITIAL_TO_INTERMEDIATE,
          .i64 .NULLABILITY_REQUIRED⟩⟩]⟩).is_final = some false :=
  (parseAggregate_is_final sampleEnv sampleFunctionMapping 0 _ _).2
    (by
      intro m hm
      simp at hm
      subst hm
      rfl)

/-- C3: for every measure `i` of an aggregate relation that `parseAggregate`
accepts, the emitted aggregate column name is `functionName(argName)` when the
measure's phase is INITIAL_TO_INTERMEDIATE and exactly `argName` for every
other phase, where `functionName` is the text of the resolved signature before
its first colon and `argName` is the name of the input column, or of the
materialised literal, the measure's single argument refers to. -/
theorem parseAggregate_column_names (env : Env) (fm : StringMap) (name_no : Nat)
    (plan : QueryPlan) (rel : AggregateRel) (out : AggregateOutput)
    (h : (parseAggregate env fm name_no plan rel).result = .ok out) :
    out.step.aggregates.length = rel.measures.length ∧
    ∀ i m, rel.measures.get? i = some m →
      ∃ agg argName sig, out.step.aggregates.get? i = some agg ∧
        IsArgumentName env plan.header m argName ∧
        StringMap.at fm (toString m.measure.function_reference) = .ok sig ∧
        (m.measure.phase = .AGGREGATION_PHASE_INITIAL_TO_INTERMEDIATE →
          agg.column_name = substrBefore sig ':' ++ "(" ++ argName ++ ")") ∧
        (m.measure.phase ≠ .AGGREGATION_PHASE_INITIAL_TO_INTERMEDIATE →
          agg.column_name = argName) := by
  unfold parseAggregate at h
  split at h
  · cases h
  · rename_i b _
    simp only [] at h
    obtain ⟨hlen, hall⟩ := parseAggregateBody_column_names env fm name_no plan rel b out h
    refine ⟨hlen, ?_⟩
    intro i m hi
    obtain ⟨agg, argName, h1, h2, h3⟩ := hall i m hi
    obtain ⟨sig, h4, h5, h6⟩ := conventionalColumnName_ok fm m argName agg.column_name h3
    exact ⟨agg, argName, sig, h1, h2, h4, h5, h6⟩

/-- Instance of C3: the sample relation over the header `k, a` is accepted and
its two aggregate columns are named `sum(a)` and `sum(1_0)`. -/
theorem parseAggregate_column_names_witness :
    ∃ out, (parseAggregate sampleEnv sampleFunctionMapping 0
        ⟨[], [("k", .Int64), ("a", .Int64)]⟩ sampleAggregateRel).result = .ok out ∧
      out.step.aggregates.length = 2 ∧
      out.step.aggregates.map (fun a => a.column_name) = ["sum(a)", "sum(1_0)"] :=
  ⟨_, rfl,
    (parseAggregate_column_names sampleEnv sampleFunctionMapping 0
      ⟨[], [("k", .Int64), ("a", .Int64)]⟩ sampleAggregateRel _ rfl).1, rfl⟩

/-! ## The join planner -/

/-- C7, as stated, fails: for the same inner join the columns after the
reorder step are `a, b, c` without the broadcast flag and `a, b, x` with it
(the right column takes the name of the broadcast table's column), and with
the post-join filter `gt(cast(col[0] as i64), col[2])` the final schema is
`a, b, c, toInt64(a)`: the cast compiled for the filter stays in the output. -/
theorem parseJoin_columns_depend_on_flag_and_filter :
    (parseJoin sampleEnv sampleFunctionMapping 0
        ⟨.JOIN_TYPE_INNER, sampleEquiCondition, none, ""⟩ sampleLeftPlan sampleRightPlan).map
      (fun o => o.plan.header.getNames) = .ok ["a", "b", "c"] ∧
    (parseJoin sampleEnv sampleFunctionMapping 0
        ⟨.JOIN_TYPE_INNER, sampleEquiCondition, none, "isBHJ=1"⟩ sampleLeftPlan
        sampleRightPlan).map
      (fun o => o.plan.header.getNames) = .ok ["a", "b", "x"] ∧
    (parseJoin sampleEnv sampleFunctionMapping 0
        ⟨.JOIN_TYPE_INNER, sampleEquiCondition, some samplePostJoinFilterWithCast, ""⟩
        sampleLeftPlan sampleRightPlan).map
      (fun o => o.plan.header.getNames) = .ok ["a", "b", "c", "toInt64(a)"] :=
  ⟨rfl, rfl, rfl⟩

/-- C7, amended: for every join `parseJoin` builds without a left-side
conversion, the column list given to the reorder step is all left column names
in their original order followed by all right column names in their registered
order, the registration taking place after the alignment to the broadcast
table when the broadcast flag is set; the reordered schema has exactly these
names; without a post-join filter it is the final schema; with a post-join
filter the final schema is the output index of the compiled filter without
the filter column, which is the reordered schema unchanged whenever compiling
the filter adds only the filter column, under a fresh name, to the index.
Whether a join is built without a left-side conversion is read off the join
itself: the left actions `createConvertingActions` returns for the left header
and the header of the right plan after its rename steps are absent.  For a
join built with a left-side conversion the same holds with the left plan after
its conversion step in the place of the left plan. -/
theorem parseJoin_output_columns (env : Env) (fm : StringMap) (name_no : Nat)
    (join : JoinRel) (left right : QueryPlan) (out : JoinOutput)
    (h : parseJoin env fm name_no join left right = .ok out) :
    ∃ reg right_table_alias left1 joined reordered,
      registerRightColumns env (env.parseJoinOptimizationInfo join.optimization).1
        (env.parseJoinOptimizationInfo join.optimization).2 name_no left right = .ok reg ∧
      rightTableAlias reg.right.header reg.columns_from_joined_table.getNames
        reg.columns_from_joined_table.length 0 = .ok right_table_alias ∧
      ((env.createConvertingActions left.header
          (rightTableRename reg.right right_table_alias).header).1 = none →
        left1 = left ∧
        joined.header = env.joinHeader left.header reg.columns_from_joined_table ∧
        reorderJoinOutput joined
          (left.header.getNames ++ reg.columns_from_joined_table.getNames) = .ok reordered ∧
        reordered.header.getNames =
          left.header.getNames ++ reg.columns_from_joined_table.getNames) ∧
      (∀ l, (env.createConvertingActions left.header
          (rightTableRename reg.right right_table_alias).header).1 = some l →
        ∃ r, (env.createConvertingActions left.header
            (rightTableRename reg.right right_table_alias).header).2 = some r ∧
          left1 = left.addExpressionStep "Convert joined columns" r) ∧
      joined.header = env.joinHeader left1.header reg.columns_from_joined_table ∧
      reorderJoinOutput joined
        (left1.header.getNames ++ reg.columns_from_joined_table.getNames) = .ok reordered ∧
      reordered.header.getNames =
        left1.header.getNames ++ reg.columns_from_joined_table.getNames ∧
      (join.post_join_filter = none → out.plan = reordered) ∧
      (∀ f, join.post_join_filter = some f →
        ∃ r, parseFunction env fm reordered.header f [] none true reg.name_no = .ok r ∧
          out.plan.header = r.state.dag.header.eraseP (fun c => c.1 == r.result_name) ∧
          (∀ ty, r.state.dag.header = reordered.header ++ [(r.result_name, ty)] →
            r.result_name ∉ reordered.header.getNames →
            out.plan.header = reordered.header)) := by
  obtain ⟨reg, right_table_alias, left1, joined, reordered, hreg, halias, hnone, hsome, hjoined,
    hre, hpost⟩ := parseJoin_reorder_left env fm name_no join left right out h
  refine ⟨reg, right_table_alias, left1, joined, reordered, hreg, halias, ?_, hsome, hjoined,
    hre, (reorderJoinOutput_names _ _ _ hre).1, ?_, ?_⟩
  · intro hc
    have hl := hnone hc
    subst hl
    exact ⟨rfl, hjoined, hre, (reorderJoinOutput_names _ _ _ hre).1⟩
  · intro hnone
    rw [hnone] at hpost
    exact postJoinFilter_none env fm reg.name_no reordered out hpost
  · intro f hf
    rw [hf] at hpost
    obtain ⟨r, hr, hheader, _⟩ := postJoinFilter_some env fm reg.name_no reordered f out hpost
    refine ⟨r, hr, hheader, ?_⟩
    intro ty hidx hfresh
    rw [hheader, hidx]
    exact eraseP_append_fresh reordered.header r.result_name ty hfresh

/-- Instance of the amended C7: the sample inner join with the post-join
filter `gt(col[0], col[2])` is built without a left-side conversion, and its
final schema is `a, b, c`. -/
theorem parseJoin_output_columns_witness :
    ∃ out, parseJoin sampleEnv sampleFunctionMapping 0
        ⟨.JOIN_TYPE_INNER, sampleEquiCondition, some samplePostJoinFilter, ""⟩
        sampleLeftPlan sampleRightPlan = .ok out ∧
      out.plan.header.getNames = ["a", "b", "c"] ∧
      ∃ reg joined reordered,
        registerRightColumns sampleEnv false "broadcast_table" 0 sampleLeftPlan sampleRightPlan
          = .ok reg ∧
        reorderJoinOutput joined
          (sampleLeftPlan.header.getNames ++ reg.columns_from_joined_table.getNames)
          = .ok reordered ∧
        reordered.header.getNames =
          sampleLeftPlan.header.getNames ++ reg.columns_from_joined_table.getNames :=
  ⟨_, rfl, rfl,
    let ⟨reg, _, _, joined, reordered, h1, _, hnone, _⟩ :=
      parseJoin_output_columns sampleEnv sampleFunctionMapping 0
        ⟨.JOIN_TYPE_INNER, sampleEquiCondition, some samplePostJoinFilter, ""⟩
        sampleLeftPlan sampleRightPlan _ rfl
    ⟨reg, joined, reordered, h1, (hnone rfl).2.2.1, (hnone rfl).2.2.2⟩⟩

/-! ## The function resolver -/

/-- C14: after `parseExtensions` has run on an empty table over a declaration
list, the table maps the text of anchor `a` to signature `s` iff the first
function declaration of the list with anchor `a` has name `s`; every entry of
the table comes from a function declaration of the list, and a declaration
that is not a function declaration leaves the table as it is.  For an anchor
without a function declaration, compiling a scalar function that refers to it
(`parseArgument`, `parseFunctionWithDAG`), extracting join keys from a
condition that refers to it (`collectJoinKeys`, and `parseJoin` with it), and
translating an aggregate one of whose measures refers to it
(`parseAggregate`) all fail. -/
theorem parseExtensions_table (env : Env) (extensions : List SimpleExtensionDeclaration) :
    (∀ (a : Nat) (s : String),
      StringMap.find (parseExtensions [] extensions) (toString a) = some s ↔
        firstFunctionDeclaration a extensions = some s) ∧
    (∀ kv ∈ parseExtensions [] extensions,
      ∃ a, kv.1 = toString a ∧ .extension_function a kv.2 ∈ extensions) ∧
    (∀ (m : StringMap) (d : SimpleExtensionDeclaration)
        (ds : List SimpleExtensionDeclaration),
      d.has_extension_function = false →
        parseExtensions m (d :: ds) = parseExtensions m ds) ∧
    (∀ (r : Nat), firstFunctionDeclaration r extensions = none →
      (∀ (args : List Expression) (t : SType) (st : PState),
        parseArgument env (parseExtensions [] extensions) (.scalar_function r args t) st =
          .error ⟨.STD_OUT_OF_RANGE, "map::at"⟩) ∧
      (∀ (args : List Expression) (t : SType) (rc : List String) (keep : Bool) (st : PState),
        parseFunctionWithDAG env (parseExtensions [] extensions) (.scalar_function r args t)
          rc keep st = .error ⟨.STD_OUT_OF_RANGE, "map::at"⟩) ∧
      (∀ (args : List Expression) (t : SType) (acc : List (Int × Int)) (n : Int),
        collectJoinKeys env.SCALAR_FUNCTIONS (parseExtensions [] extensions)
          (.scalar_function r args t) acc n = .error ⟨.STD_OUT_OF_RANGE, "map::at"⟩) ∧
      (∀ (name_no : Nat) (join : JoinRel) (left right : QueryPlan) (args : List Expression)
          (t : SType),
        join.expression = .scalar_function r args t →
          (parseJoin env (parseExtensions [] extensions) name_no join left right).failed =
            true) ∧
      (∀ (name_no : Nat) (plan : QueryPlan) (rel : AggregateRel) (m : Measure),
        m ∈ rel.measures → m.measure.function_reference = r →
          (parseAggregate env (parseExtensions [] extensions) name_no plan rel).result.failed =
            true)) := by
  have hfind : ∀ a, StringMap.find (parseExtensions [] extensions) (toString a) =
      firstFunctionDeclaration a extensions := by
    intro a
    rw [parseExtensions_find]
    rfl
  refine ⟨fun a s => by rw [hfind], ?_, parseExtensions_skip, ?_⟩
  · intro kv hkv
    rcases parseExtensions_entries extensions [] kv hkv with h | h
    · cases h
    · exact h
  · intro r hr
    have hnone : StringMap.find (parseExtensions [] extensions) (toString r) = none := by
      rw [hfind, hr]
    refine ⟨fun args t st => parseArgument_missing_anchor env _ r args t st hnone,
      fun args t rc keep st => parseFunctionWithDAG_missing_anchor env _ r args t rc keep st hnone,
      fun args t acc n => collectJoinKeys_missing_anchor _ _ r args t acc n hnone, ?_, ?_⟩
    · intro name_no join left right args t hjoin
      apply parseJoin_fails_of_collectJoinKeys
      intro acc n
      rw [hjoin, collectJoinKeys_missing_anchor _ _ r args t acc n hnone]
      rfl
    · intro name_no plan rel m hm href
      exact parseAggregate_missing_anchor env _ name_no plan rel m hm (by rw [href]; exact hnone)

/-- Instance of C14: in the sample list anchor 0 is declared twice and keeps
its first signature `and:bool_bool`; anchor 7 is only a type declaration, so a
scalar function over anchor 7 fails to compile. -/
theorem parseExtensions_table_witness :
    StringMap.find (parseExtensions [] sampleExtensions) (toString 0) = some "and:bool_bool" ∧
    parseArgument sampleEnv (parseExtensions [] sampleExtensions)
        (.scalar_function 7 [] (.bool_ .NULLABILITY_REQUIRED))
        { dag := ActionsDAG.ofInputs [], name_no := 0 } =
      .error ⟨.STD_OUT_OF_RANGE, "map::at"⟩ :=
  ⟨((parseExtensions_table sampleEnv sampleExtensions).1 0 "and:bool_bool").2 rfl,
    ((parseExtensions_table sampleEnv sampleExtensions).2.2.2 7 rfl).1 [] _ _⟩

/-- C15: for every signature whose bare function name (the text before the
first `:`; the whole signature when it has none, and `name` for a signature
`name:types`) is not a key of the supported-function table, `getFunctionName`
fails with the unknown-function error whatever the function call is, and
`parseFunctionWithDAG` and `parseArgument` fail with that error in every state,
before any argument is compiled, so no node is added; for a key other than
`cast`, `extract` and `check_overflow`, `getFunctionName` returns the entry of
the table. -/
theorem getFunctionName_supported_table (env : Env) (sig : String) :
    (StringMap.contains env.SCALAR_FUNCTIONS (substrBefore sig ':') = false →
      (∀ (f : ScalarFunction), getFunctionName env.SCALAR_FUNCTIONS sig f =
        .error ⟨.UNKNOWN_FUNCTION, "Unsupported function \x7b\x7d"⟩) ∧
      (∀ (fm : StringMap) (r : Nat) (args : List Expression) (t : SType) (rc : List String)
          (keep : Bool) (st : PState),
        StringMap.find fm (toString r) = some sig →
          parseFunctionWithDAG env fm (.scalar_function r args t) rc keep st =
            .error ⟨.UNKNOWN_FUNCTION, "Unsupported function \x7b\x7d"⟩ ∧
          parseArgument env fm (.scalar_function r args t) st =
            .error ⟨.UNKNOWN_FUNCTION, "Unsupported function \x7b\x7d"⟩)) ∧
    (∀ (v : String) (f : ScalarFunction),
      StringMap.find env.SCALAR_FUNCTIONS (substrBefore sig ':') = some v →
      substrBefore sig ':' ≠ "cast" → substrBefore sig ':' ≠ "extract" →
      substrBefore sig ':' ≠ "check_overflow" →
        getFunctionName env.SCALAR_FUNCTIONS sig f = .ok v) ∧
    (':' ∉ sig.toList → substrBefore sig ':' = sig) ∧
    (∀ (name types : String), ':' ∉ name.toList → sig = name ++ ":" ++ types →
      substrBefore sig ':' = name) := by
  refine ⟨fun h => ⟨fun f => getFunctionName_unknown _ sig f h, ?_⟩,
    fun v f hv h1 h2 h3 => getFunctionName_table _ sig f v hv h1 h2 h3,
    substrBefore_no_colon sig, ?_⟩
  · intro fm r args t rc keep st hfm
    have hat : StringMap.at fm (toString r) = .ok sig := by simp only [StringMap.at, hfm]
    exact ⟨parseFunctionWithDAG_unknown env fm r args t sig hat h rc keep st,
      parseArgument_unknown env fm r args t sig hat h st⟩
  · intro name types hname hsig
    rw [hsig]
    exact substrBefore_colon name types hname

/-- Instance of C15: over the sample table `foo:i32` is rejected as an
unknown function and `gt:i64_i64` resolves to `greater`. -/
theorem getFunctionName_supported_table_witness :
    getFunctionName sampleEnv.SCALAR_FUNCTIONS "foo:i32"
        ⟨9, [col 0], .i32 .NULLABILITY_REQUIRED⟩ =
      .error ⟨.UNKNOWN_FUNCTION, "Unsupported function \x7b\x7d"⟩ ∧
    getFunctionName sampleEnv.SCALAR_FUNCTIONS "gt:i64_i64"
        ⟨3, [col 0, col 1], .bool_ .NULLABILITY_REQUIRED⟩ = .ok "greater" :=
  ⟨((getFunctionName_supported_table sampleEnv "foo:i32").1 rfl).1 _,
    (getFunctionName_supported_table sampleEnv "gt:i64_i64").2.1 "greater" _ rfl
      (by decide) (by decide) (by decide)⟩

/-- C16: for an `extract` call (bare name `extract`, a key of the
supported-function table) with exactly two arguments whose first argument is
the string literal `v`, `getFunctionName` returns `toYear`, `toISOYear`,
`toQuarter`, `toMonth`, `toISOWeek`, `toDayOfMonth`, `toDayOfYear`, `toHour`,
`toMinute`, `toSecond` for `v` = YEAR, YEAR_OF_WEEK, QUARTER, MONTH,
WEEK_OF_YEAR, DAY, DAY_OF_YEAR, HOUR, MINUTE, SECOND, ten pairwise distinct
names; it fails with the bad-arguments error `The first arg of extract
function is wrong.` for every other `v`, WEEK_DAY and DAY_OF_WEEK among them,
and for a first argument that is not a literal; and it fails with the
bad-arguments error `extract function requires two args` for every argument
count other than two. -/
theorem getFunctionName_extract_vocabulary (SF : StringMap) (sig : String)
    (hname : substrBefore sig ':' = "extract")
    (hkey : StringMap.contains SF "extract" = true) :
    (∀ (p : String × String) (x : Expression) (r : Nat) (t : SType),
      p ∈ extractVocabulary →
      getFunctionName SF sig ⟨r, [.literal (.string p.1), x], t⟩ = .ok p.2) ∧
    (extractVocabulary.map Prod.snd).Nodup ∧
    (∀ (v : String) (x : Expression) (r : Nat) (t : SType),
      v ∉ extractVocabulary.map Prod.fst →
      getFunctionName SF sig ⟨r, [.literal (.string v), x], t⟩ =
        .error ⟨.BAD_ARGUMENTS, "The first arg of extract function is wrong."⟩) ∧
    "WEEK_DAY" ∉ extractVocabulary.map Prod.fst ∧
    "DAY_OF_WEEK" ∉ extractVocabulary.map Prod.fst ∧
    (∀ (a x : Expression) (r : Nat) (t : SType), a.has_literal = false →
      getFunctionName SF sig ⟨r, [a, x], t⟩ =
        .error ⟨.BAD_ARGUMENTS, "The first arg of extract function is wrong."⟩) ∧
    (∀ (arguments : List Expression) (r : Nat) (t : SType), arguments.length ≠ 2 →
      getFunctionName SF sig ⟨r, arguments, t⟩ =
        .error ⟨.BAD_ARGUMENTS, "extract function requires two args, function:\x7b\x7d"⟩) := by
  refine ⟨?_, by decide, ?_, by decide, by decide, ?_, ?_⟩
  · intro p x r t hp
    rw [getFunctionName_extract_two SF sig _ _ _ _ hname hkey]
    simp only [extractVocabulary, List.mem_cons, List.mem_singleton, List.not_mem_nil,
      or_false] at hp
    rcases hp with h | h | h | h | h | h | h | h | h | h <;> (subst h; rfl)
  · intro v x r t hv
    rw [getFunctionName_extract_two SF sig _ _ _ _ hname hkey]
    simp [Expression.has_literal, Expression.get_literal, Literal.get_string,
      extractFunctionName_other v hv]
  · intro a x r t ha
    rw [getFunctionName_extract_two SF sig _ _ _ _ hname hkey]
    simp [ha]
  · intro arguments r t hlen
    exact getFunctionName_extract_count SF sig _ hname hkey hlen

/-- Instance of C16: over the sample table `extract(DAY, col[0])` resolves to
`toDayOfMonth`, and `extract(WEEK_DAY, col[0])` is rejected. -/
theorem getFunctionName_extract_vocabulary_witness :
    getFunctionName sampleScalarFunctions "extract:req_str_date"
        ⟨5, [.literal (.string "DAY"), col 0], .i32 .NULLABILITY_REQUIRED⟩ =
      .ok "toDayOfMonth" ∧
    getFunctionName sampleScalarFunctions "extract:req_str_date"
        ⟨5, [.literal (.string "WEEK_DAY"), col 0], .i32 .NULLABILITY_REQUIRED⟩ =
      .error ⟨.BAD_ARGUMENTS, "The first arg of extract function is wrong."⟩ :=
  ⟨(getFunctionName_extract_vocabulary sampleScalarFunctions "extract:req_str_date" rfl
      rfl).1 ("DAY", "toDayOfMonth") (col 0) 5 _ (by decide),
    (getFunctionName_extract_vocabulary sampleScalarFunctions "extract:req_str_date" rfl
      rfl).2.2.1 "WEEK_DAY" (col 0) 5 _ (by decide)⟩

/-- C18: for a `check_overflow` call (bare name `check_overflow`, a key of the
supported-function table) with exactly two arguments, a decimal output type of
precision `p <= 38` (as the `UInt32` the function reads) and the boolean
literal `b` as second argument, `getFunctionName` returns `toDecimal32`,
`toDecimal64` or `toDecimal128` for `p <= 9`, `p <= 18`, `p <= 38`, with the
suffix `OrNull` exactly when `b` is true; this is the name
`getDecimalFunction` gives for the output type and `b`.  With any other
argument count it fails with the bad-arguments error `check_overflow function
requires two args.` -/
theorem getFunctionName_check_overflow (SF : StringMap) (sig : String)
    (hname : substrBefore sig ':' = "check_overflow")
    (hkey : StringMap.contains SF "check_overflow" = true) :
    (∀ (r : Nat) (x : Expression) (b : Bool) (s p : Int) (n : Type_Nullability),
      toUInt32 p ≤ 38 →
      getFunctionName SF sig ⟨r, [x, .literal (.boolean b)], .decimal s p n⟩ =
        .ok ((if toUInt32 p ≤ 9 then "toDecimal32"
              else if toUInt32 p ≤ 18 then "toDecimal64" else "toDecimal128") ++
             if b then "OrNull" else "") ∧
      getFunctionName SF sig ⟨r, [x, .literal (.boolean b)], .decimal s p n⟩ =
        getDecimalFunction ⟨s, p, n⟩ b) ∧
    (∀ (arguments : List Expression) (r : Nat) (t : SType), arguments.length ≠ 2 →
      getFunctionName SF sig ⟨r, arguments, t⟩ =
        .error ⟨.BAD_ARGUMENTS, "check_overflow function requires two args."⟩) := by
  constructor
  · intro r x b s p n hp
    rw [getFunctionName_check_overflow_two SF sig _ _ _ _ hname hkey]
    refine ⟨?_, rfl⟩
    simp only [SType.get_decimal, Expression.get_literal, Literal.get_boolean]
    rw [getDecimalFunction_name]
    simp only []
    split_ifs <;> rfl
  · intro arguments r t hlen
    exact getFunctionName_check_overflow_count SF sig _ hname hkey hlen

/-- Instance of C18: `check_overflow(col[0], true)` with output type
decimal(10, 2) resolves to `toDecimal64OrNull`. -/
theorem getFunctionName_check_overflow_witness :
    getFunctionName sampleScalarFunctions "check_overflow:dec_bool"
        ⟨6, [col 0, .literal (.boolean true)], .decimal 2 10 .NULLABILITY_REQUIRED⟩ =
      .ok "toDecimal64OrNull" :=
  ((getFunctionName_check_overflow sampleScalarFunctions "check_overflow:dec_bool" rfl
    rfl).1 6 (col 0) true 2 10 .NULLABILITY_REQUIRED (by decide)).1

/-! ## The expression compiler: calls, conditionals and set membership -/

/-- C17, as stated, fails: the first argument is dropped when the registered
signature contains the text `extract:`, not when the call is an `extract`
call.  Under the signature `extract`, whose bare name is `extract`, the call
`extract(MONTH, col[0])` over the header `d : Date32` resolves to `toMonth`
and is built over both arguments, the constant of the literal and the column:
the node is `toMonth(MONTH_0,d)` with the children 1 and 0.  Under the
signature `extract:check_overflow:` the rewrite of `check_overflow` replaces
the one argument that is left by the constant of the scale: the node is
`toMonth(0_1)`. -/
theorem parseFunctionWithDAG_extract_keeps_literal :
    substrBefore "extract" ':' = "extract" ∧
    containsSubstr "extract" "extract:" = false ∧
    (parseFunctionWithDAG sampleEnv sampleBareExtractMapping
        (.scalar_function 5 [.literal (.string "MONTH"), col 0] (.i64 .NULLABILITY_REQUIRED))
        [] false { dag := ActionsDAG.ofInputs [("d", .Date32)], name_no := 0 }).map
      (fun r => (r.node, r.result_name, r.state.dag.nodes)) =
      .ok (some 2, "toMonth(MONTH_0,d)",
        [⟨.INPUT, "d", .Date32, [], "", none⟩,
         ⟨.COLUMN, "MONTH_0", .String, [], "", some (.String "MONTH")⟩,
         ⟨.FUNCTION, "toMonth(MONTH_0,d)", .Int64, [1, 0], "toMonth", none⟩]) ∧
    (parseFunctionWithDAG sampleEnv sampleBareExtractMapping
        (.scalar_function 6 [.literal (.string "MONTH"), col 0] (.i64 .NULLABILITY_REQUIRED))
        [] false { dag := ActionsDAG.ofInputs [("d", .Date32)], name_no := 0 }).map
      (fun r => (r.node, r.result_name, r.state.dag.nodes)) =
      .ok (some 3, "toMonth(0_1)",
        [⟨.INPUT, "d", .Date32, [], "", none⟩,
         ⟨.COLUMN, "MONTH_0", .String, [], "", some (.String "MONTH")⟩,
         ⟨.COLUMN, "0_1", .UInt32, [], "", some (.UInt64 0)⟩,
         ⟨.FUNCTION, "toMonth(0_1)", .Int64, [2], "toMonth", none⟩]) :=
  ⟨by decide, by decide, rfl, rfl⟩

/-- C17, amended: for every `extract` call whose registered signature contains
the text `extract:` (the bare name followed by the colon of the argument-type
encoding) and not the text `check_overflow:`, whose first argument is a
date-part literal of the vocabulary and whose second argument `x` compiles to
the node `a`, `parseFunctionWithDAG` appends, when the registry knows the
date-part function, one node for it: the internal date-part function over the
single child `a`, named `function(<name of x>)`; the constant compiled for the
literal is not an argument of the call.  When the type of that node matches
the declared output type the node is returned and its name is the result
name; when it does not, the implicit cast to the declared type is appended
over that node (with the constant of the scale for a decimal) and returned.
In every call that is built the node appended after the compiled arguments is
the date-part function over the single child `a`.  For the literal `MONTH` the
function is `toMonth`, so the node is `toMonth(<name of x>)`. -/
theorem parseFunctionWithDAG_extract (env : Env) (fm : StringMap) (r : Nat) (sig : String)
    (p : String × String) (x : Expression) (t : SType) (rc rc1 : List String) (keep : Bool)
    (st st1 : PState) (a : Nat) (anode : Node) (ty : DataType)
    (hsig : StringMap.find fm (toString r) = some sig)
    (hname : substrBefore sig ':' = "extract")
    (hext : containsSubstr sig "extract:" = true)
    (hco : containsSubstr sig "check_overflow:" = false)
    (hkey : StringMap.contains env.SCALAR_FUNCTIONS "extract" = true)
    (hp : p ∈ extractVocabulary)
    (hx : parseFunctionArguments env fm p.2 [x] rc
      (add_column env st .String (.String p.1)).2 = .ok ([some a], rc1, st1))
    (hnode : st1.dag.nodes.get? a = some anode)
    (hex : env.functionExists p.2 = true)
    (hty : env.functionReturnType p.2 [anode.result_type] = .ok ty) :
    (isTypeMatched t ty = .ok true →
      ∃ index1,
        parseFunctionWithDAG env fm (.scalar_function r [.literal (.string p.1), x] t) rc keep
            st =
          .ok ⟨some st1.dag.nodes.length, p.2 ++ "(" ++ anode.result_name ++ ")", rc1,
            { dag :=
                { nodes := st1.dag.nodes ++ [functionNode p.2 [anode.result_name] ty [a]],
                  inputs := st1.dag.inputs, index := index1 },
              name_no := st1.name_no }⟩) ∧
    (isTypeMatched t ty = .ok false →
      ∀ (cast : String) (cty : DataType),
        getCastFunction t = .ok cast →
        starts_with cast "toDecimal" = false →
        env.functionExists cast = true →
        env.functionReturnType cast [ty] = .ok cty →
        ∃ index1,
          parseFunctionWithDAG env fm (.scalar_function r [.literal (.string p.1), x] t) rc
              keep st =
            .ok ⟨some (st1.dag.nodes.length + 1),
              cast ++ "(" ++ (functionNode p.2 [anode.result_name] ty [a]).result_name ++ ")",
              rc1,
              { dag :=
                  { nodes := st1.dag.nodes ++
                      [functionNode p.2 [anode.result_name] ty [a],
                       functionNode cast
                        [(functionNode p.2 [anode.result_name] ty [a]).result_name] cty
                        [st1.dag.nodes.length]],
                    inputs := st1.dag.inputs, index := index1 },
                name_no := st1.name_no }⟩) ∧
    (isTypeMatched t ty = .ok false →
      ∀ (cast : String) (cty : DataType),
        getCastFunction t = .ok cast →
        starts_with cast "toDecimal" = true →
        env.functionExists cast = true →
        env.functionReturnType cast [ty, .UInt32] = .ok cty →
        ∃ index1,
          parseFunctionWithDAG env fm (.scalar_function r [.literal (.string p.1), x] t) rc
              keep st =
            .ok ⟨some (st1.dag.nodes.length + 2),
              cast ++ "(" ++ ",".intercalate
                [(functionNode p.2 [anode.result_name] ty [a]).result_name,
                 (getUniqueName st1.name_no (toString (toUInt32 t.get_decimal.scale))).1] ++
                ")",
              rc1,
              { dag :=
                  { nodes := st1.dag.nodes ++
                      [functionNode p.2 [anode.result_name] ty [a],
                       ⟨.COLUMN,
                        (getUniqueName st1.name_no (toString (toUInt32 t.get_decimal.scale))).1,
                        .UInt32, [], "", some (.UInt64 (toUInt32 t.get_decimal.scale))⟩,
                       functionNode cast
                        [(functionNode p.2 [anode.result_name] ty [a]).result_name,
                         (getUniqueName st1.name_no
                          (toString (toUInt32 t.get_decimal.scale))).1] cty
                        [st1.dag.nodes.length, st1.dag.nodes.length + 1]],
                    inputs := st1.dag.inputs, index := index1 },
                name_no := st1.name_no + 1 }⟩) ∧
    (∀ res : FunctionResult,
      parseFunctionWithDAG env fm (.scalar_function r [.literal (.string p.1), x] t) rc keep
          st = .ok res →
      ∃ node, res.state.dag.nodes.get? st1.dag.nodes.length = some node ∧
        node.function_name = p.2 ∧ node.children = [a]) ∧
    (functionNode p.2 [anode.result_name] ty [a]).children = [a] ∧
    (functionNode p.2 [anode.result_name] ty [a]).function_name = p.2 ∧
    (functionNode p.2 [anode.result_name] ty [a]).result_name =
      p.2 ++ "(" ++ anode.result_name ++ ")" ∧
    (p.1 = "MONTH" → p.2 = "toMonth") := by
  obtain ⟨hfname, hplain⟩ := extractFunctionName_vocabulary p hp
  have hat : StringMap.at fm (toString r) = .ok sig := by
    simp only [StringMap.at, hsig]
  have hfn : getFunctionName env.SCALAR_FUNCTIONS sig
      ⟨r, [.literal (.string p.1), x], t⟩ = .ok p.2 := by
    rw [getFunctionName_extract_two _ _ _ _ _ _ hname hkey]
    exact hfname
  have hparse :
      parseFunctionWithDAG env fm (.scalar_function r [.literal (.string p.1), x] t) rc keep
          st =
        buildFunction env ⟨r, [.literal (.string p.1), x], t⟩ sig p.2
          [some (add_column env st .String (.String p.1)).1, some a] rc1 keep st1 := by
    rw [parseFunctionWithDAG]
    simp only [bind, Except.bind, hat, hfn]
    rw [parseFunctionArguments]
    simp only [Expression.has_scalar_function, Bool.false_eq_true, if_false, bind, Except.bind,
      pure, Except.pure]
    rw [parseArgument]
    simp only [parseLiteral, bind, Except.bind, pure, Except.pure, hx]
  have herase :
      buildFunction env ⟨r, [.literal (.string p.1), x], t⟩ sig p.2
          [some (add_column env st .String (.String p.1)).1, some a] rc1 keep st1 =
        buildFunction env ⟨r, [.literal (.string p.1), x], t⟩ "" p.2 [some a] rc1 keep st1 :=
    buildFunction_erases_first env _ sig "" p.2 _ [some a] rc1 keep st1 hplain hext
      (by decide) (by rw [hco]; decide)
  have hnodes : [some a].mapM (fun q => st1.dag.deref q) = .ok [anode] := by
    simp only [List.mapM_cons, List.mapM_nil, deref_some _ _ _ hnode, bind, Except.bind, pure,
      Except.pure]
  refine ⟨?_, ?_, ?_, ?_, rfl, rfl, rfl, ?_⟩
  · intro hmatch
    obtain ⟨index1, hbuild⟩ := buildFunction_plain env ⟨r, [.literal (.string p.1), x], t⟩ ""
      p.2 [some a] [anode] ty rc1 keep st1 hplain (by decide) (by decide) hnodes hex hty hmatch
    exact ⟨index1, by rw [hparse, herase, hbuild]; rfl⟩
  · intro hmatch cast cty hcast hdec hcex hcty
    obtain ⟨index1, hbuild⟩ := buildFunction_implicit_cast_plain env
      ⟨r, [.literal (.string p.1), x], t⟩ "" p.2 [some a] [anode] ty cty cast rc1 keep st1
      hplain (by decide) (by decide) hnodes hex hty hmatch hcast hdec hcex hcty
    exact ⟨index1, by rw [hparse, herase, hbuild]; rfl⟩
  · intro hmatch cast cty hcast hdec hcex hcty
    obtain ⟨index1, hbuild⟩ := buildFunction_implicit_cast_decimal env
      ⟨r, [.literal (.string p.1), x], t⟩ "" p.2 [some a] [anode] ty cty cast rc1 keep st1
      hplain (by decide) (by decide) hnodes hex hty hmatch hcast hdec hcex hcty
    exact ⟨index1, by rw [hparse, herase, hbuild]; rfl⟩
  · intro res hres
    rw [hparse] at hres
    obtain ⟨node, hget, hf, hc⟩ := buildFunction_call_arguments env _ sig p.2 _ rc1 keep st1 res
      hplain.1 hplain.2.1 hco hres
    refine ⟨node, hget, hf, ?_⟩
    rw [hc]
    simp only [callArguments, hplain.2.2.2, hext, Bool.false_eq_true, if_false, if_true,
      List.drop_succ_cons, List.drop_zero, List.filterMap_cons, List.filterMap_nil, id]
  · intro hm
    simp only [extractVocabulary, List.mem_cons, List.mem_singleton, List.not_mem_nil,
      or_false] at hp
    rcases hp with h | h | h | h | h | h | h | h | h | h <;>
      first
      | (subst h
         rfl)
      | (subst h
         exact absurd hm (by decide))

/-- Instance of the amended C17: over the one-column header `d : Date32`,
`extract(MONTH, col[0])` under the signature `extract:req_str_date` compiles
the literal to the constant `MONTH_0` and appends the node `toMonth(d)` over
the input column alone; declared `i32` while `toMonth` gives `Int64`, the call
is built in the same way and the cast `toInt32(toMonth(d))` is put over it. -/
theorem parseFunctionWithDAG_extract_witness :
    (∃ index1,
      parseFunctionWithDAG sampleEnv sampleExtractMapping
          (.scalar_function 5 [.literal (.string "MONTH"), col 0] (.i64 .NULLABILITY_REQUIRED))
          [] false { dag := ActionsDAG.ofInputs [("d", .Date32)], name_no := 0 } =
        .ok ⟨some 2, "toMonth(d)", [],
          { dag :=
              { nodes :=
                  [⟨.INPUT, "d", .Date32, [], "", none⟩,
                   ⟨.COLUMN, "MONTH_0", .String, [], "", some (.String "MONTH")⟩,
                   ⟨.FUNCTION, "toMonth(d)", .Int64, [0], "toMonth", none⟩],
                inputs := [0], index := index1 },
            name_no := 1 }⟩) ∧
    (∃ index1,
      parseFunctionWithDAG sampleEnv sampleExtractMapping
          (.scalar_function 5 [.literal (.string "MONTH"), col 0] (.i32 .NULLABILITY_REQUIRED))
          [] false { dag := ActionsDAG.ofInputs [("d", .Date32)], name_no := 0 } =
        .ok ⟨some 3, "toInt32(toMonth(d))", [],
          { dag :=
              { nodes :=
                  [⟨.INPUT, "d", .Date32, [], "", none⟩,
                   ⟨.COLUMN, "MONTH_0", .String, [], "", some (.String "MONTH")⟩,
                   ⟨.FUNCTION, "toMonth(d)", .Int64, [0], "toMonth", none⟩,
                   ⟨.FUNCTION, "toInt32(toMonth(d))", .Int64, [2], "toInt32", none⟩],
                inputs := [0], index := index1 },
            name_no := 1 }⟩) :=
  ⟨(parseFunctionWithDAG_extract sampleEnv sampleExtractMapping 5 "extract:req_str_date"
      ("MONTH", "toMonth") (col 0) (.i64 .NULLABILITY_REQUIRED) [] [] false
      { dag := ActionsDAG.ofInputs [("d", .Date32)], name_no := 0 }
      { dag :=
          { nodes :=
              [⟨.INPUT, "d", .Date32, [], "", none⟩,
               ⟨.COLUMN, "MONTH_0", .String, [], "", some (.String "MONTH")⟩],
            inputs := [0], index := [0] },
        name_no := 1 }
      0 ⟨.INPUT, "d", .Date32, [], "", none⟩ .Int64 rfl (by decide) (by decide) (by decide)
      rfl (by decide) rfl rfl rfl rfl).1 rfl,
    (parseFunctionWithDAG_extract sampleEnv sampleExtractMapping 5 "extract:req_str_date"
      ("MONTH", "toMonth") (col 0) (.i32 .NULLABILITY_REQUIRED) [] [] false
      { dag := ActionsDAG.ofInputs [("d", .Date32)], name_no := 0 }
      { dag :=
          { nodes :=
              [⟨.INPUT, "d", .Date32, [], "", none⟩,
               ⟨.COLUMN, "MONTH_0", .String, [], "", some (.String "MONTH")⟩],
            inputs := [0], index := [0] },
        name_no := 1 }
      0 ⟨.INPUT, "d", .Date32, [], "", none⟩ .Int64 rfl (by decide) (by decide) (by decide)
      rfl (by decide) rfl rfl rfl rfl).2.1 rfl "toInt32" .Int64 rfl (by decide) rfl rfl⟩

/-- C19: a conditional needs at least one branch: under the arity rule of the
registry function `multiIf`, which the translator relies on (it has no check
of its own), compiling a conditional with zero (condition, value) pairs fails
in every state.  For a conditional with `n >= 1` pairs whose flattened
arguments `cond_1, value_1, ..., cond_n, value_n, else` compile, one after
the other, to the nodes `args`, and for which the registry accepts the call,
`parseArgument` appends exactly one `multiIf` node, whose children are these
`2n + 1` nodes in that order, and returns it. -/
theorem parseArgument_if_then (env : Env) (fm : StringMap) (else_ : Expression) :
    (MultiIfRequiresBranch env →
      ∀ st, (parseArgument env fm (.if_then [] else_) st).failed = true) ∧
    (∀ (ifs : List (Expression × Expression)) (st st1 : PState) (args : List NodePtr)
        (nodes : List Node) (ty : DataType),
      1 ≤ ifs.length →
      env.functionExists "multiIf" = true →
      compileAll env fm (flattenedBranches ifs else_) st = .ok (args, st1) →
      args.mapM (fun p => st1.dag.deref p) = .ok nodes →
      env.functionReturnType "multiIf" (nodes.map (fun n => n.result_type)) = .ok ty →
      (∃ index1, parseArgument env fm (.if_then ifs else_) st =
        .ok (some st1.dag.nodes.length,
          { dag :=
              { nodes := st1.dag.nodes ++
                  [functionNode "multiIf" (nodes.map (fun n => n.result_name)) ty
                    (args.filterMap id)],
                inputs := st1.dag.inputs, index := index1 },
            name_no := st1.name_no })) ∧
      (args.filterMap id).map some = args ∧
      (args.filterMap id).length = 2 * ifs.length + 1) := by
  refine ⟨fun hreg st => parseArgument_if_then_no_branch env fm else_ st hreg, ?_⟩
  intro ifs st st1 args nodes ty _ hex hargs hnodes hty
  have hsome := (mapM_deref_names st1.dag args nodes hnodes).2
  refine ⟨parseArgument_if_then_built env fm ifs else_ st st1 args nodes ty hex hargs hnodes hty,
    hsome, ?_⟩
  have hlen := compileAll_length env fm _ _ _ _ hargs
  rw [flattenedBranches_length] at hlen
  rw [← hlen, ← congrArg List.length hsome, List.length_map]

/-- Instance of C19: under a registry with the arity rule, the conditional
without pairs fails, and `if col[0] then 1 else 0` over the header `c : UInt8`
appends the node `multiIf(c,1_0,0_1)` over the three compiled arguments. -/
theorem parseArgument_if_then_witness :
    (parseArgument sampleStrictEnv sampleFunctionMapping (.if_then [] (.literal (.i64 0)))
        { dag := ActionsDAG.ofInputs [("c", .UInt8)], name_no := 0 }).failed = true ∧
    ∃ index1,
      parseArgument sampleStrictEnv sampleFunctionMapping
          (.if_then [(col 0, .literal (.i64 1))] (.literal (.i64 0)))
          { dag := ActionsDAG.ofInputs [("c", .UInt8)], name_no := 0 } =
        .ok (some 3,
          { dag :=
              { nodes :=
                  [⟨.INPUT, "c", .UInt8, [], "", none⟩,
                   ⟨.COLUMN, "1_0", .Int64, [], "", some (.Int64 1)⟩,
                   ⟨.COLUMN, "0_1", .Int64, [], "", some (.Int64 0)⟩,
                   ⟨.FUNCTION, "multiIf(c,1_0,0_1)", .Int64, [0, 1, 2], "multiIf", none⟩],
                inputs := [0], index := index1 },
            name_no := 2 }) :=
  ⟨(parseArgument_if_then sampleStrictEnv sampleFunctionMapping (.literal (.i64 0))).1
      (fun _ => rfl) _,
    ((parseArgument_if_then sampleStrictEnv sampleFunctionMapping (.literal (.i64 0))).2
      [(col 0, .literal (.i64 1))]
      { dag := ActionsDAG.ofInputs [("c", .UInt8)], name_no := 0 }
      { dag :=
          { nodes :=
              [⟨.INPUT, "c", .UInt8, [], "", none⟩,
               ⟨.COLUMN, "1_0", .Int64, [], "", some (.Int64 1)⟩,
               ⟨.COLUMN, "0_1", .Int64, [], "", some (.Int64 0)⟩],
            inputs := [0], index := [0] },
        name_no := 2 }
      [some 0, some 1, some 2]
      [⟨.INPUT, "c", .UInt8, [], "", none⟩,
       ⟨.COLUMN, "1_0", .Int64, [], "", some (.Int64 1)⟩,
       ⟨.COLUMN, "0_1", .Int64, [], "", some (.Int64 0)⟩]
      .Int64 (by decide) rfl rfl rfl rfl).1⟩

/-- C20: for every set-membership expression with an empty option list,
whatever the tested value expression is, `parseArgument` succeeds and returns
the handle of one new constant node of type `UInt8` with value 0; the DAG is
the given one with this node appended (no set column, no `in` node, no node
of the value expression, the output index unchanged), and the name counter
advances by one. -/
theorem parseArgument_empty_options (env : Env) (fm : StringMap) (value : Expression)
    (st : PState) :
    parseArgument env fm (.singular_or_list value []) st =
      .ok (some st.dag.nodes.length,
        { dag :=
            { nodes := st.dag.nodes ++ [constantNode env st.name_no .UInt8 (.Int64 0)],
              inputs := st.dag.inputs, index := st.dag.index },
          name_no := st.name_no + 1 }) ∧
    (constantNode env st.name_no .UInt8 (.Int64 0)).type = .COLUMN ∧
    (constantNode env st.name_no .UInt8 (.Int64 0)).result_type = .UInt8 ∧
    (constantNode env st.name_no .UInt8 (.Int64 0)).column = some (.Int64 0) := by
  refine ⟨?_, rfl, rfl, rfl⟩
  rw [parseArgument]
  rfl

/-! ## Literals and set membership -/

/-- C22: for every list literal with `n >= 1` elements that are themselves
literals `parseLiteral` maps, with `T` the type of the first element:
`parseLiteral` returns `Array(T)` with the `n` element values in their
original order when the type of every element equals `T`, fails with the
logical error `Literal list type mismatch` when the type of some element
differs from `T`, and hence succeeds iff every element's type equals `T`. -/
theorem parseLiteral_list (env : Env) (v0 : Literal) (rest : List Literal) (T : DataType)
    (f0 : Field) (tfs : List (DataType × Field))
    (h0 : parseLiteral env v0 = .ok (T, f0))
    (hall : List.Forall₂ (fun v tf => parseLiteral env v = .ok tf) (v0 :: rest) tfs) :
    ((∀ tf ∈ tfs, T.equals tf.1 = true) →
      parseLiteral env (.list (v0 :: rest)) = .ok (.Array T, .Array (tfs.map Prod.snd))) ∧
    ((∃ tf ∈ tfs, T.equals tf.1 = false) →
      parseLiteral env (.list (v0 :: rest)) =
        .error ⟨.LOGICAL_ERROR, "Literal list type mismatch:\x7b\x7d and \x7b\x7d"⟩) ∧
    ((parseLiteral env (.list (v0 :: rest))).failed = false ↔
      ∀ tf ∈ tfs, T.equals tf.1 = true) ∧
    tfs.length = rest.length + 1 := by
  obtain ⟨h1, h2⟩ := parseLiteralElements_all env T (v0 :: rest) tfs hall
  have e : parseLiteral env (.list (v0 :: rest)) =
      (parseLiteralElements env T (v0 :: rest)).map (fun array => (.Array T, .Array array)) := by
    rw [parseLiteral]
    simp only [bind, Except.bind, h0, pure, Except.pure]
    cases parseLiteralElements env T (v0 :: rest) <;> rfl
  have g1 : (∀ tf ∈ tfs, T.equals tf.1 = true) →
      parseLiteral env (.list (v0 :: rest)) = .ok (.Array T, .Array (tfs.map Prod.snd)) := by
    intro h
    rw [e, h1 h]
    rfl
  have g2 : (∃ tf ∈ tfs, T.equals tf.1 = false) →
      parseLiteral env (.list (v0 :: rest)) =
        .error ⟨.LOGICAL_ERROR, "Literal list type mismatch:\x7b\x7d and \x7b\x7d"⟩ := by
    intro h
    rw [e, h2 h]
    rfl
  refine ⟨g1, g2, ?_, ?_⟩
  · constructor
    · intro hok
      by_contra hn
      have hex : ∃ tf ∈ tfs, T.equals tf.1 = false := by
        by_contra hne
        apply hn
        intro tf htf
        by_contra hf
        exact hne ⟨tf, htf, by simpa using hf⟩
      rw [g2 hex] at hok
      cases hok
    · intro h
      rw [g1 h]
      rfl
  · have := hall.length_eq
    simpa using this.symm

/-- Instance of C22: the list `[1 : i32, 2 : i32]` maps to `Array(Int32)` with
the values 1 and 2 in order; the list `[1 : i32, 2 : i64]` fails with the
logical error. -/
theorem parseLiteral_list_witness :
    parseLiteral sampleEnv (.list [.i32 1, .i32 2]) =
      .ok (.Array .Int32, .Array [.Int64 1, .Int64 2]) ∧
    parseLiteral sampleEnv (.list [.i32 1, .i64 2]) =
      .error ⟨.LOGICAL_ERROR, "Literal list type mismatch:\x7b\x7d and \x7b\x7d"⟩ :=
  ⟨(parseLiteral_list sampleEnv (.i32 1) [.i32 2] .Int32 (.Int64 1)
      [(.Int32, .Int64 1), (.Int32, .Int64 2)] rfl
      (.cons rfl (.cons rfl .nil))).1 (by decide),
    (parseLiteral_list sampleEnv (.i32 1) [.i64 2] .Int32 (.Int64 1)
      [(.Int32, .Int64 1), (.Int64, .Int64 2)] rfl
      (.cons rfl (.cons rfl .nil))).2.1 ⟨(.Int64, .Int64 2), by simp, rfl⟩⟩

/-- C23, as stated, fails: a literal of kind `list` that carries no value is
not rejected by a check; `parseLiteral` reads `values(0)`, which is an
unchecked access (the test `has_empty_list()` in front of it is never true for
a literal of kind `list`).  A literal of kind `empty_list` does not reach that
branch and is rejected as an unsupported literal type. -/
theorem parseLiteral_list_without_values (env : Env) :
    parseLiteral env (.list []) =
      .error ⟨.UNCHECKED_ACCESS, "repeated field index out of range"⟩ ∧
    parseLiteral env .empty_list =
      .error ⟨.UNKNOWN_TYPE, "Unsupported spark literal type \x7b\x7d"⟩ := by
  constructor
  · rw [parseLiteral]
  · rw [parseLiteral]

/-- C21: for every set-membership expression with a non-empty option list,
compilation succeeds only if every option is a literal whose type equals the
type of the first option's literal; an option that is not a literal makes the
compilation fail, and so does an option whose literal type differs from the
first one's, in every state, so that no `in` node is returned; when the tested
value compiles and all options are literals, a differing type fails with the
logical error `SingularOrList options type mismatch`. -/
theorem parseArgument_options (env : Env) (fm : StringMap) (value o0 : Expression)
    (rest : List Expression) (st : PState) :
    (∀ r, parseArgument env fm (.singular_or_list value (o0 :: rest)) st = .ok r →
      ∃ T f0, parseLiteral env o0.get_literal = .ok (T, f0) ∧
        ∀ o ∈ o0 :: rest, o.has_literal = true ∧
          ∃ ty f, parseLiteral env o.get_literal = .ok (ty, f) ∧ T.equals ty = true) ∧
    ((∃ o ∈ o0 :: rest, o.has_literal = false) →
      (parseArgument env fm (.singular_or_list value (o0 :: rest)) st).failed = true) ∧
    (∀ T f0 o ty f, parseLiteral env o0.get_literal = .ok (T, f0) → o ∈ o0 :: rest →
      parseLiteral env o.get_literal = .ok (ty, f) → T.equals ty = false →
      (parseArgument env fm (.singular_or_list value (o0 :: rest)) st).failed = true) ∧
    (∀ v st1 T f0 tfs, parseArgument env fm value st = .ok (v, st1) →
      parseLiteral env o0.get_literal = .ok (T, f0) →
      List.Forall₂
        (fun o tf => o.has_literal = true ∧ parseLiteral env o.get_literal = .ok tf)
        (o0 :: rest) tfs →
      (∃ tf ∈ tfs, T.equals tf.1 = false) →
      parseArgument env fm (.singular_or_list value (o0 :: rest)) st =
        .error ⟨.LOGICAL_ERROR,
          "SingularOrList options type mismatch:\x7b\x7d and \x7b\x7d"⟩) := by
  refine ⟨fun r h => parseArgument_options_ok env fm value o0 rest st r h, ?_, ?_, ?_⟩
  · rintro ⟨o, ho, hl⟩
    cases hr : parseArgument env fm (.singular_or_list value (o0 :: rest)) st with
    | error e => rfl
    | ok r =>
      obtain ⟨_, _, _, hall⟩ := parseArgument_options_ok env fm value o0 rest st r hr
      rw [(hall o ho).1] at hl
      cases hl
  · intro T f0 o ty f h0 ho hp hne
    cases hr : parseArgument env fm (.singular_or_list value (o0 :: rest)) st with
    | error e => rfl
    | ok r =>
      obtain ⟨T1, f1, h1, hall⟩ := parseArgument_options_ok env fm value o0 rest st r hr
      obtain ⟨_, ty2, f2, hp2, heq⟩ := hall o ho
      rw [h0] at h1
      cases h1
      rw [hp] at hp2
      cases hp2
      rw [hne] at heq
      cases heq
  · intro v st1 T f0 tfs hv h0 hall hex
    have hl : o0.has_literal = true := by
      cases hall with
      | cons h _ => exact h.1
    rw [parseArgument]
    simp only [bind, Except.bind, pure, Except.pure, hl, Bool.not_true, Bool.false_eq_true,
      if_false, hv, h0, parseOptions_mismatch env T (o0 :: rest) tfs hall hex]

/-- Instance of C21: the options `1 : i32, 2 : i64` fail with the logical
error, and the options `1 : i32, col[1]` fail as well. -/
theorem parseArgument_options_witness :
    parseArgument sampleEnv sampleFunctionMapping
        (.singular_or_list (col 0) [.literal (.i32 1), .literal (.i64 2)])
        { dag := ActionsDAG.ofInputs [("a", .Int32)], name_no := 0 } =
      .error ⟨.LOGICAL_ERROR, "SingularOrList options type mismatch:\x7b\x7d and \x7b\x7d"⟩ ∧
    (parseArgument sampleEnv sampleFunctionMapping
        (.singular_or_list (col 0) [.literal (.i32 1), col 1])
        { dag := ActionsDAG.ofInputs [("a", .Int32)], name_no := 0 }).failed = true :=
  ⟨(parseArgument_options sampleEnv sampleFunctionMapping (col 0) (.literal (.i32 1))
      [.literal (.i64 2)] { dag := ActionsDAG.ofInputs [("a", .Int32)], name_no := 0 }).2.2.2
      (some 0) { dag := ActionsDAG.ofInputs [("a", .Int32)], name_no := 0 } .Int32 (.Int64 1)
      [(.Int32, .Int64 1), (.Int64, .Int64 2)] rfl rfl
      (.cons ⟨rfl, rfl⟩ (.cons ⟨rfl, rfl⟩ .nil)) ⟨(.Int64, .Int64 2), by simp, rfl⟩,
    (parseArgument_options sampleEnv sampleFunctionMapping (col 0) (.literal (.i32 1))
      [col 1] { dag := ActionsDAG.ofInputs [("a", .Int32)], name_no := 0 }).2.1
      ⟨col 1, by simp, rfl⟩⟩

/-! ## The aggregation planner: grouping keys -/

/-- C30: `parseAggregate` fails for every aggregate relation with more than
one grouping set, and for every relation whose single grouping set contains an
expression that is not a direct column reference.  Whenever it returns a
step, the key list of the step is empty for a relation without grouping set,
and is the list of field positions, in the order given, for a single grouping
set of direct references to (non-negative `int32`) positions; and it does
return that step when the phase check, the pre-projection and the measures
succeed. -/
theorem parseAggregate_grouping_keys (env : Env) (fm : StringMap) (name_no : Nat)
    (plan : QueryPlan) (rel : AggregateRel) :
    (1 < rel.groupings.length →
      (parseAggregate env fm name_no plan rel).result.failed = true) ∧
    (∀ g e, rel.groupings = [g] → e ∈ g.grouping_expressions →
      (e.has_selection && e.has_direct_reference) = false →
      (parseAggregate env fm name_no plan rel).result.failed = true) ∧
    (∀ out, (parseAggregate env fm name_no plan rel).result = .ok out →
      (rel.groupings = [] → out.step.keys = []) ∧
      (∀ ps : List Nat, (∀ p ∈ ps, p < 2147483648) →
        rel.groupings = [⟨ps.map (fun p => col p)⟩] → out.step.keys = ps)) ∧
    (∀ final pre aggs (keys : List Nat), phaseCheck rel = .ok final →
      addPreProjectStepIfNeeded env fm plan name_no rel = .ok pre →
      aggregateDescriptions env fm pre.plan.header pre.measure_names
        pre.nullable_measure_names 0 rel.measures = .ok aggs →
      (rel.groupings = [] ∧ keys = [] ∨
        (∀ p ∈ keys, p < 2147483648) ∧ rel.groupings = [⟨keys.map (fun p => col p)⟩]) →
      (parseAggregate env fm name_no plan rel).result =
        .ok ⟨if final then .MergingAggregatedStep keys aggs else .AggregatingStep keys aggs,
          pre.plan, pre.name_no⟩) := by
  refine ⟨?_, ?_, ?_, ?_⟩
  · intro h
    apply parseAggregate_fails_of_keys
    rw [aggregateKeys_many rel h]
    rfl
  · intro g e hg he hne
    apply parseAggregate_fails_of_keys
    rw [aggregateKeys_one rel g hg]
    exact groupingKeys_fails _ e he hne
  · intro out hout
    have hk := parseAggregate_keys_of_ok env fm name_no plan rel out hout
    constructor
    · intro h
      rw [aggregateKeys_none rel h] at hk
      exact (Except.ok.inj hk).symm
    · intro ps hps h
      rw [aggregateKeys_one rel _ h, groupingKeys_positions ps hps] at hk
      exact (Except.ok.inj hk).symm
  · intro final pre aggs keys hphase hpre haggs hkeys
    have hk : aggregateKeys rel = .ok keys := by
      rcases hkeys with ⟨h1, h2⟩ | ⟨h1, h2⟩
      · rw [h2]
        exact aggregateKeys_none rel h1
      · rw [aggregateKeys_one rel _ h2]
        exact groupingKeys_positions keys h1
    unfold parseAggregate
    rw [hphase]
    simp only []
    rw [parseAggregateBody_keys]
    simp only [bind, Except.bind, pure, Except.pure, hpre, hk, haggs]
    cases final <;> rfl

/-- Instance of C30: over the sample measures, two grouping sets fail, and so
does a single grouping set whose expression is a literal. -/
theorem parseAggregate_grouping_keys_witness :
    (parseAggregate sampleEnv sampleFunctionMapping 0 ⟨[.Source "t"], [("k", .Int64), ("a", .Int64)]⟩
        ⟨[⟨[col 0]⟩, ⟨[col 1]⟩], sampleAggregateRel.measures⟩).result.failed = true ∧
    (parseAggregate sampleEnv sampleFunctionMapping 0 ⟨[.Source "t"], [("k", .Int64), ("a", .Int64)]⟩
        ⟨[⟨[.literal (.i64 1)]⟩], sampleAggregateRel.measures⟩).result.failed = true :=
  ⟨(parseAggregate_grouping_keys sampleEnv sampleFunctionMapping 0
      ⟨[.Source "t"], [("k", .Int64), ("a", .Int64)]⟩
      ⟨[⟨[col 0]⟩, ⟨[col 1]⟩], sampleAggregateRel.measures⟩).1 (by decide),
    (parseAggregate_grouping_keys sampleEnv sampleFunctionMapping 0
      ⟨[.Source "t"], [("k", .Int64), ("a", .Int64)]⟩
      ⟨[⟨[.literal (.i64 1)]⟩], sampleAggregateRel.measures⟩).2.1 _ _ rfl
      (List.mem_singleton.2 rfl) rfl⟩

/-! ## Relations and the plan -/

/-- C24: a read relation is bound to a host iterator (`isReadRelFromJava`) iff
its local files are exactly one entry whose URI starts with `iterator`;
`parseOp` then returns what `parseReadRealWithJavaIter` returns, and for a
relation with local files that is not bound it returns what
`parseReadRealWithLocalFile` returns.  For the URI `iterator:<k>`, `k` a
non-negative integer in the range of `int` that is the index of a registered
iterator, the plan is the single step `Read From Java Iter` over iterator
`k`, whatever the store of the environment is; and every plan
`parseReadRealWithJavaIter` returns consists of one such step, over the
iterator whose index `std::stoi` reads after the first `:` of the URI. -/
theorem parseOp_read_java_iterator (env : Env) (penv : PlanEnv) (fm : StringMap)
    (rel : ReadRel) (st : ParserState) :
    (isReadRelFromJava rel = true ↔
      ∃ uri, rel.read_type = .local_files [uri] ∧ starts_with uri "iterator" = true) ∧
    (isReadRelFromJava rel = true →
      parseOp env penv fm (.read rel) st =
        (parseReadRealWithJavaIter env penv rel).map (fun p => (p, ⟨st.name_no, none⟩))) ∧
    (rel.has_local_files = true → isReadRelFromJava rel = false →
      parseOp env penv fm (.read rel) st =
        (parseReadRealWithLocalFile env rel).map (fun p => (p, ⟨st.name_no, none⟩))) ∧
    (∀ (k : Nat) (header : Block), k < 2147483648 → k < penv.input_iters.length →
      rel.read_type = .local_files ["iterator:" ++ toString k] →
      parseNameStruct env rel.get_base_schema = .ok header →
      parseOp env penv fm (.read rel) st =
        .ok (⟨[.ReadFromJavaIter "Read From Java Iter" k], header⟩, ⟨st.name_no, none⟩)) ∧
    (∀ p, parseReadRealWithJavaIter env penv rel = .ok p →
      ∃ (uri : String) (k : Nat), rel.local_files_items.get? 0 = some uri ∧
        stoi (substrAfter uri ':') = .ok (k : Int) ∧
        p.steps = [.ReadFromJavaIter "Read From Java Iter" k] ∧
        k < penv.input_iters.length) := by
  have hjava : isReadRelFromJava rel = true →
      parseOp env penv fm (.read rel) st =
        (parseReadRealWithJavaIter env penv rel).map (fun p => (p, ⟨st.name_no, none⟩)) := by
    intro h
    obtain ⟨uri, hr, _⟩ := (isReadRelFromJava_iff rel).1 h
    have hl : rel.has_local_files = true := by simp [ReadRel.has_local_files, hr]
    rw [parseOp]
    simp only [parseRead, hl, h, if_true, bind, Except.bind, pure, Except.pure]
    cases parseReadRealWithJavaIter env penv rel <;> rfl
  refine ⟨isReadRelFromJava_iff rel, hjava, ?_, ?_, ?_⟩
  · intro hl hj
    rw [parseOp]
    simp only [parseRead, hl, hj, if_true, Bool.false_eq_true, if_false, bind, Except.bind, pure,
      Except.pure]
    cases parseReadRealWithLocalFile env rel <;> rfl
  · intro k header hk hlen hr hheader
    have hj : isReadRelFromJava rel = true :=
      (isReadRelFromJava_iff rel).2 ⟨_, hr, starts_with_iterator _⟩
    rw [hjava hj]
    have hnot : ¬ (((k : Nat) : Int) < 0 ∨ penv.input_iters.length ≤ k) := by
      omega
    simp only [parseReadRealWithJavaIter, ReadRel.local_files_items, hr, List.get?_cons_zero,
      bind, Except.bind, substrAfter_iterator, stoi_toString k hk, hheader, hnot, if_false,
      pure, Except.pure, Except.map, Int.toNat_ofNat]
  · intro p hp
    unfold parseReadRealWithJavaIter at hp
    cases hu : rel.local_files_items.get? 0 with
    | none =>
      simp only [hu, bind, Except.bind] at hp
      cases hp
    | some uri =>
      cases hs : stoi (substrAfter uri ':') with
      | error e =>
        simp only [hu, hs, bind, Except.bind] at hp
        cases hp
      | ok iter_index =>
        simp only [hu, hs, bind, Except.bind, pure, Except.pure] at hp
        split at hp
        · cases hp
        · split at hp
          · cases hp
          · rename_i hcond
            cases hp
            refine ⟨uri, iter_index.toNat, rfl, ?_, rfl, by omega⟩
            rw [Int.toNat_of_nonneg (by omega)]
            exact hs

/-- Instance of C24: the URI `iterator:3` binds the iterator at index 3. -/
theorem parseOp_read_java_iterator_witness :
    parseOp sampleEnv samplePlanEnv [] (.read ⟨.local_files ["iterator:3"],
        some ⟨["a"], [.i64 .NULLABILITY_REQUIRED]⟩, none⟩) ⟨0, none⟩ =
      .ok (⟨[.ReadFromJavaIter "Read From Java Iter" 3], [("a", .Int64)]⟩, ⟨0, none⟩) :=
  (parseOp_read_java_iterator sampleEnv samplePlanEnv [] ⟨.local_files ["iterator:3"],
    some ⟨["a"], [.i64 .NULLABILITY_REQUIRED]⟩, none⟩ ⟨0, none⟩).2.2.2.1 3 [("a", .Int64)]
    (by decide) (by decide) rfl rfl

/-- C25, as stated, fails: the part with the blocks 0 to 10 intersects the
requested range 5 to 20, but it is not selected, and the translation of the
read over the store whose only part it is fails with the no-such-data-part
error. -/
theorem selectParts_requires_containment :
    selectParts 5 20 [⟨"all_0_10_1", 0, 10⟩] = [] ∧
    DataPart.intersects ⟨"all_0_10_1", 0, 10⟩ 5 20 = true ∧
    parseMergeTreeTable sampleEnv samplePlanEnv [] none
        ⟨.extension_table "t", some ⟨["a"], [.i64 .NULLABILITY_REQUIRED]⟩, none⟩ 0 =
      .error ⟨.NO_SUCH_DATA_PART, "part \x7b\x7d to \x7b\x7d not found."⟩ :=
  ⟨rfl, rfl, rfl⟩

/-- C25 (amended): for a table-backed read with requested block range
`[min_block, max_block)` whose header, store and pushdown predicate are
obtained, the selected parts are exactly the parts of the store with
`min_block <= part.min_block` and `part.max_block < max_block`, in the order
of the store; the translation fails with the no-such-data-part error when no
part is selected; otherwise it is the read over the selected parts (followed
by the removal of nullability for the not-null columns of a declared
filter), which without not-null columns is a plan of that single step. -/
theorem parseMergeTreeTable_selected_parts (env : Env) (penv : PlanEnv) (fm : StringMap)
    (last_project : Option (List Expression)) (rel : ReadRel) (name_no : Nat)
    (header : Block) (data_parts : List DataPart) (prewhere_info : Option PrewhereInfo)
    (not_null_columns : List String) (name_no1 : Nat)
    (hheader : mergeTreeHeader env penv rel
      (penv.parseMergeTreeTableString rel.extension_table_detail) = .ok header)
    (hparts : penv.getDataPartsVector
      (penv.parseMergeTreeTableString rel.extension_table_detail).database
      (penv.parseMergeTreeTableString rel.extension_table_detail).table
      (penv.parseMergeTreeTableString rel.extension_table_detail).relative_path header =
        .ok data_parts)
    (hpre : mergeTreePrewhere env penv fm last_project rel header name_no =
      .ok (prewhere_info, not_null_columns, name_no1)) :
    (∀ part, part ∈ selectParts
        (penv.parseMergeTreeTableString rel.extension_table_detail).min_block
        (penv.parseMergeTreeTableString rel.extension_table_detail).max_block data_parts ↔
      part ∈ data_parts ∧
        (penv.parseMergeTreeTableString rel.extension_table_detail).min_block ≤ part.min_block ∧
        part.max_block < (penv.parseMergeTreeTableString rel.extension_table_detail).max_block) ∧
    (selectParts (penv.parseMergeTreeTableString rel.extension_table_detail).min_block
        (penv.parseMergeTreeTableString rel.extension_table_detail).max_block
        data_parts).Sublist data_parts ∧
    (selectParts (penv.parseMergeTreeTableString rel.extension_table_detail).min_block
        (penv.parseMergeTreeTableString rel.extension_table_detail).max_block data_parts = [] →
      parseMergeTreeTable env penv fm last_project rel name_no =
        .error ⟨.NO_SUCH_DATA_PART, "part \x7b\x7d to \x7b\x7d not found."⟩) ∧
    (selectParts (penv.parseMergeTreeTableString rel.extension_table_detail).min_block
        (penv.parseMergeTreeTableString rel.extension_table_detail).max_block data_parts ≠ [] →
      parseMergeTreeTable env penv fm last_project rel name_no =
        (readSelectedParts env
          (selectParts (penv.parseMergeTreeTableString rel.extension_table_detail).min_block
            (penv.parseMergeTreeTableString rel.extension_table_detail).max_block data_parts)
          header prewhere_info not_null_columns).map (fun query => (query, name_no1)) ∧
      (not_null_columns = [] →
        parseMergeTreeTable env penv fm last_project rel name_no =
          .ok (⟨[.ReadFromParts
              (selectParts
                (penv.parseMergeTreeTableString rel.extension_table_detail).min_block
                (penv.parseMergeTreeTableString rel.extension_table_detail).max_block
                data_parts)
              header.getNames prewhere_info], header⟩, name_no1))) := by
  refine ⟨fun part => mem_selectParts _ _ _ part, List.filter_sublist _, ?_, ?_⟩
  · intro hsel
    simp only [parseMergeTreeTable, bind, Except.bind, hheader, hparts, hpre, hsel,
      List.isEmpty_nil, if_true]
  · intro hsel
    have hne : (selectParts (penv.parseMergeTreeTableString rel.extension_table_detail).min_block
        (penv.parseMergeTreeTableString rel.extension_table_detail).max_block
        data_parts).isEmpty = false := by
      cases hs : selectParts (penv.parseMergeTreeTableString rel.extension_table_detail).min_block
        (penv.parseMergeTreeTableString rel.extension_table_detail).max_block data_parts with
      | nil => exact absurd hs hsel
      | cons a as => rfl
    have e : parseMergeTreeTable env penv fm last_project rel name_no =
        (readSelectedParts env
          (selectParts (penv.parseMergeTreeTableString rel.extension_table_detail).min_block
            (penv.parseMergeTreeTableString rel.extension_table_detail).max_block data_parts)
          header prewhere_info not_null_columns).map (fun query => (query, name_no1)) := by
      simp only [parseMergeTreeTable, bind, Except.bind, hheader, hparts, hpre, hne,
        Bool.false_eq_true, if_false, pure, Except.pure]
      cases readSelectedParts env _ header prewhere_info not_null_columns <;> rfl
    refine ⟨e, ?_⟩
    intro hnn
    rw [e, hnn]
    rfl

/-- Instance of C25 (amended): of the parts 0-4, 5-9, 10-25 and 12-19 the
requested range 5 to 20 selects 5-9 and 12-19, in that order. -/
theorem parseMergeTreeTable_selected_parts_witness :
    parseMergeTreeTable sampleEnv
        { samplePlanEnv with
          getDataPartsVector := fun _ _ _ _ =>
            .ok [⟨"all_0_4_1", 0, 4⟩, ⟨"all_5_9_1", 5, 9⟩, ⟨"all_10_25_1", 10, 25⟩,
              ⟨"all_12_19_1", 12, 19⟩] }
        [] none ⟨.extension_table "t", some ⟨["a"], [.i64 .NULLABILITY_REQUIRED]⟩, none⟩ 0 =
      .ok (⟨[.ReadFromParts [⟨"all_5_9_1", 5, 9⟩, ⟨"all_12_19_1", 12, 19⟩] ["a"] none],
        [("a", .Int64)]⟩, 0) :=
  ((parseMergeTreeTable_selected_parts sampleEnv
      { samplePlanEnv with
        getDataPartsVector := fun _ _ _ _ =>
          .ok [⟨"all_0_4_1", 0, 4⟩, ⟨"all_5_9_1", 5, 9⟩, ⟨"all_10_25_1", 10, 25⟩,
            ⟨"all_12_19_1", 12, 19⟩] }
      [] none ⟨.extension_table "t", some ⟨["a"], [.i64 .NULLABILITY_REQUIRED]⟩, none⟩ 0
      [("a", .Int64)] _ none [] 0 rfl rfl rfl).2.2.2 (by decide)).2 rfl

/-- C26: `parse` accepts a plan only if it has exactly one top-level relation
and that relation is a root relation: for every plan whose number of
top-level relations is not 1 (zero included) it fails with the bad-arguments
error `too many relations found`, and for a single top-level relation that is
not a root it fails with the bad-arguments error `must have root rel!`, in
both cases whatever the environment and the state are, no relation being
translated. -/
theorem parse_single_root (env : Env) (penv : PlanEnv) (fm : StringMap) (st : ParserState)
    (plan : Plan) :
    (plan.relations.length ≠ 1 →
      parse env penv fm st plan = .error ⟨.BAD_ARGUMENTS, "too many relations found"⟩) ∧
    (∀ r, plan.relations = [r] → (∀ root, r ≠ .root root) →
      parse env penv fm st plan = .error ⟨.BAD_ARGUMENTS, "must have root rel!"⟩) ∧
    (∀ out, parse env penv fm st plan = .ok out → ∃ root, plan.relations = [.root root]) := by
  have h1 : plan.relations.length ≠ 1 →
      parse env penv fm st plan = .error ⟨.BAD_ARGUMENTS, "too many relations found"⟩ := by
    intro h
    have hb : (plan.relations.length == 1) = false := by simpa using h
    simp only [parse, hb, Bool.false_eq_true, if_false]
  have h2 : ∀ r, plan.relations = [r] → (∀ root, r ≠ .root root) →
      parse env penv fm st plan = .error ⟨.BAD_ARGUMENTS, "must have root rel!"⟩ := by
    intro r hr hroot
    cases r with
    | root root => exact absurd rfl (hroot root)
    | rel rel => simp [parse, hr]
    | not_set => simp [parse, hr]
  refine ⟨h1, h2, ?_⟩
  intro out hout
  by_cases hlen : plan.relations.length = 1
  · match hrel : plan.relations, hlen with
    | [r], _ =>
      cases r with
      | root root => exact ⟨root, rfl⟩
      | rel rel =>
        rw [h2 _ hrel (by intro root h; cases h)] at hout
        cases hout
      | not_set =>
        rw [h2 _ hrel (by intro root h; cases h)] at hout
        cases hout
  · rw [h1 hlen] at hout
    cases hout

/-- Instance of C26: the plan without relation and the plan whose single
relation is not a root are rejected. -/
theorem parse_single_root_witness :
    parse sampleEnv samplePlanEnv [] ⟨0, none⟩ ⟨[], []⟩ =
      .error ⟨.BAD_ARGUMENTS, "too many relations found"⟩ ∧
    parse sampleEnv samplePlanEnv [] ⟨0, none⟩ ⟨[], [.rel .not_set]⟩ =
      .error ⟨.BAD_ARGUMENTS, "must have root rel!"⟩ :=
  ⟨(parse_single_root sampleEnv samplePlanEnv [] ⟨0, none⟩ ⟨[], []⟩).1 (by decide),
    (parse_single_root sampleEnv samplePlanEnv [] ⟨0, none⟩ ⟨[], [.rel .not_set]⟩).2.1 _ rfl
      (by intro root h; cases h)⟩

/-- C27, as stated, fails: the translated schema of the sample plan is
`a : Int32, a : String`, and after the renaming to `x, y` the final schema is
`x : Int32, y : Int32`: the second column has the type of the first column
named `a`, not the type of the translated column at its position. -/
theorem parse_renames_by_name :
    (parseOp sampleEnv samplePlanEnv [] (.read ⟨.local_files ["file:///t.parquet"],
        some ⟨["a", "a"], [.i32 .NULLABILITY_REQUIRED, .string .NULLABILITY_REQUIRED]⟩, none⟩)
        ⟨0, none⟩).map (fun r => r.1.header) = .ok [("a", .Int32), ("a", .String)] ∧
    (parse sampleEnv samplePlanEnv [] ⟨0, none⟩ sampleRenamePlan).map
        (fun out => out.query_plan.header) = .ok [("x", .Int32), ("y", .Int32)] :=
  ⟨rfl, rfl⟩

/-- C27 (amended): for every plan with a single root relation whose input
translates to a plan with schema `H`: when the root declares no output names,
`parse` returns the translated plan unchanged; when it declares `k >= 1`
names, `k` being the number of columns of `H`, `parse` appends one step
`Rename Output`, after which position `i` bears the declared name `names(i)`
with the type of the first column of `H` that has the name of column `i`
(`blockToNameAndTypeList`); this is the type of column `i` itself when the
names of `H` are pairwise distinct. -/
theorem parse_rename_output (env : Env) (penv : PlanEnv) (fm : StringMap) (st : ParserState)
    (plan : Plan) (root : RelRoot) (query_plan : QueryPlan) (st1 : ParserState)
    (hrel : plan.relations = [.root root])
    (hop : parseOp env penv (parseExtensions fm plan.extensions) root.input st =
      .ok (query_plan, st1)) :
    (root.names = [] →
      parse env penv fm st plan =
        .ok ⟨query_plan, parseExtensions fm plan.extensions, st1⟩) ∧
    (root.names ≠ [] → root.names.length = query_plan.header.length →
      ∃ dag,
        parse env penv fm st plan =
          .ok ⟨⟨query_plan.steps ++ [.ExpressionStep "Rename Output" dag], dag.header⟩,
            parseExtensions fm plan.extensions, st1⟩ ∧
        dag.header = List.zipWith (fun name c => (name, c.2)) root.names
          (blockToNameAndTypeList query_plan.header) ∧
        (query_plan.header.getNames.Nodup →
          dag.header =
            List.zipWith (fun name c => (name, c.2)) root.names query_plan.header)) := by
  constructor
  · intro hn
    simp only [parse, hrel, List.length_singleton, beq_self_eq_true, if_true, List.get?_cons_zero,
      bind, Except.bind, hop, hn, List.length_nil, bne_self_eq_false, Bool.false_eq_true,
      if_false, pure, Except.pure]
  · intro hn hlen
    obtain ⟨dag, aliases, halias, hdag, hheader⟩ :=
      rename_output_dag query_plan.header root.names hlen
    have hne : (root.names.length != 0) = true := by
      cases hr : root.names with
      | nil => exact absurd hr hn
      | cons a as => rfl
    refine ⟨dag, ?_, hheader, ?_⟩
    · simp only [parse, hrel, List.length_singleton, beq_self_eq_true, if_true,
        List.get?_cons_zero, bind, Except.bind, hop, hne, halias, hdag, pure, Except.pure,
        QueryPlan.addExpressionStep]
    · intro hnodup
      rw [hheader, blockToNameAndTypeList_nodup _ hnodup]

/-- Instance of C27 (amended): a file read with the schema `a : i32, b :
string` under a root declaring `x, y` gets one renaming step and the final
schema `x : Int32, y : String`. -/
theorem parse_rename_output_witness :
    ∃ dag,
      parse sampleEnv samplePlanEnv [] ⟨0, none⟩
          ⟨[], [.root ⟨.read ⟨.local_files ["file:///t.parquet"],
            some ⟨["a", "b"], [.i32 .NULLABILITY_REQUIRED, .string .NULLABILITY_REQUIRED]⟩,
            none⟩, ["x", "y"]⟩]⟩ =
        .ok ⟨⟨[.ReadFromLocalFiles "read local files" ["file:///t.parquet"],
              .ExpressionStep "Rename Output" dag], dag.header⟩, [], ⟨0, none⟩⟩ ∧
      dag.header = [("x", .Int32), ("y", .String)] :=
  let ⟨dag, h1, _, h3⟩ := (parse_rename_output sampleEnv samplePlanEnv [] ⟨0, none⟩
    ⟨[], [.root ⟨.read ⟨.local_files ["file:///t.parquet"],
      some ⟨["a", "b"], [.i32 .NULLABILITY_REQUIRED, .string .NULLABILITY_REQUIRED]⟩,
      none⟩, ["x", "y"]⟩]⟩ _
    ⟨[.ReadFromLocalFiles "read local files" ["file:///t.parquet"]],
      [("a", .Int32), ("b", .String)]⟩ ⟨0, none⟩ rfl rfl).2 (by decide) rfl
  ⟨dag, h1, h3 (by decide)⟩

/-! ## Projections and filters -/

/-- C28, as stated, fails: with the name counter at 5, the projection of the
columns `a_5`, `a`, `a` of the header `a_5, a` emits the names `a_5`, `a`,
`a_5`: the suffixed name given to the second `a` is the name of a column
emitted before, so the emitted names are not pairwise distinct. -/
theorem expressionsToActionsDAG_emits_duplicate :
    (expressionsToActionsDAG sampleEnv sampleFunctionMapping [col 0, col 1, col 1]
        [("a_5", .Int64), ("a", .Int64)] [("a_5", .Int64), ("a", .Int64)] 5).map
      (fun r => (r.1.header.getNames, r.2)) = .ok (["a_5", "a", "a_5"], 6) ∧
    ¬ ["a_5", "a", "a_5"].Nodup :=
  ⟨rfl, by decide⟩

/-- C29, as stated, fails: compiling the filter predicate
`or(is_not_null(a), is_not_null(b))` records both `a` and `b` as not-null
columns, and the step after the filter makes both columns non-nullable,
although the predicate holds for a row in which `a` is null and `b` is not. -/
theorem parseFilter_strips_unproved_column :
    (parseFunction sampleNullableEnv sampleNullableMapping
        [("a", .Nullable .Int64), ("b", .Nullable .Int64)] sampleEitherNotNull [] none true 0).map
      (fun r => r.required_columns) = .ok ["a", "b"] ∧
    (parseFilter sampleNullableEnv sampleNullableMapping
        ⟨[.Source "t"], [("a", .Nullable .Int64), ("b", .Nullable .Int64)]⟩
        sampleEitherNotNull 0).map
      (fun r => r.1.header) = .ok [("a", .Int64), ("b", .Int64)] :=
  ⟨rfl, rfl⟩

/-! ## The type mappers and the conversion table -/

/-- C39: the name-based mapper and the structured mapper agree on eight of the
nine keywords: for `BooleanType`, `ByteType`, `ShortType`, `IntegerType`,
`LongType`, `FloatType`, `DoubleType` and `StringType` the type
`parseType(name)` returns is the one `parseType` returns for the descriptor
`bool`, `i8`, `i16`, `i32`, `i64`, `fp32`, `fp64`, `string` whose nullability
flag is not `NULLABLE`; for `DateType` they differ: the name-based mapper
gives `Date`, the structured mapper gives `Date32` for `date`, and the two
types are not equal. -/
theorem parseTypeByName_agrees_with_parseType (n : Type_Nullability)
    (hn : n ≠ .NULLABILITY_NULLABLE) :
    parseTypeByName "BooleanType" = parseType0 (.bool_ n) ∧
    parseTypeByName "ByteType" = parseType0 (.i8 n) ∧
    parseTypeByName "ShortType" = parseType0 (.i16 n) ∧
    parseTypeByName "IntegerType" = parseType0 (.i32 n) ∧
    parseTypeByName "LongType" = parseType0 (.i64 n) ∧
    parseTypeByName "FloatType" = parseType0 (.fp32 n) ∧
    parseTypeByName "DoubleType" = parseType0 (.fp64 n) ∧
    parseTypeByName "StringType" = parseType0 (.string n) ∧
    parseTypeByName "DateType" = .ok .Date ∧
    parseType0 (.date n) = .ok .Date32 ∧
    DataType.equals .Date .Date32 = false := by
  cases n
  · exact ⟨rfl, rfl, rfl, rfl, rfl, rfl, rfl, rfl, rfl, rfl, rfl⟩
  · exact absurd rfl hn
  · exact ⟨rfl, rfl, rfl, rfl, rfl, rfl, rfl, rfl, rfl, rfl, rfl⟩

/-- Instance of C39 at the flag `REQUIRED`: `IntegerType` and the required
`i32` both map to `Int32`, while `DateType` maps to `Date` and the required
`date` to `Date32`. -/
theorem parseTypeByName_agrees_with_parseType_witness :
    parseTypeByName "IntegerType" = parseType0 (.i32 .NULLABILITY_REQUIRED) ∧
    parseTypeByName "DateType" = .ok .Date ∧
    parseType0 (.date .NULLABILITY_REQUIRED) = .ok .Date32 :=
  let h := parseTypeByName_agrees_with_parseType .NULLABILITY_REQUIRED (by decide)
  ⟨h.2.2.2.1, h.2.2.2.2.2.2.2.2.1, h.2.2.2.2.2.2.2.2.2.1⟩

/-- C36: `getCastFunction` maps the destination `fp64` to `toFloat64`, `fp32`
to `toFloat32`, `string` and `binary` to `toString`, `i64` to `toInt64`, `i32`
to `toInt32`, `i16` to `toInt16`, `i8` to `toInt8`, `date` to `toDate32`,
`timestamp` to `toDateTime64`, `bool` to `toUInt8` and `decimal` to what
`getDecimalFunction` gives with the overflow flag false, which is one of
`toDecimal32`, `toDecimal64`, `toDecimal128` and never an `OrNull` name; for
a struct, a list, a map, an unsupported kind and an unset descriptor it fails
with the unsupported-type error, although `parseType` maps a list, a map and
a struct over types it maps. -/
theorem getCastFunction_table (n : Type_Nullability) :
    getCastFunction (.fp64 n) = .ok "toFloat64" ∧
    getCastFunction (.fp32 n) = .ok "toFloat32" ∧
    getCastFunction (.string n) = .ok "toString" ∧
    getCastFunction (.binary n) = .ok "toString" ∧
    getCastFunction (.i64 n) = .ok "toInt64" ∧
    getCastFunction (.i32 n) = .ok "toInt32" ∧
    getCastFunction (.i16 n) = .ok "toInt16" ∧
    getCastFunction (.i8 n) = .ok "toInt8" ∧
    getCastFunction (.date n) = .ok "toDate32" ∧
    getCastFunction (.timestamp n) = .ok "toDateTime64" ∧
    getCastFunction (.bool_ n) = .ok "toUInt8" ∧
    (∀ s p : Int, getCastFunction (.decimal s p n) = getDecimalFunction ⟨s, p, n⟩ false) ∧
    (∀ (s p : Int) (name : String), getCastFunction (.decimal s p n) = .ok name →
      name = "toDecimal32" ∨ name = "toDecimal64" ∨ name = "toDecimal128") ∧
    (∀ types : List SType, getCastFunction (.struct_ types n) =
      .error ⟨.UNKNOWN_TYPE, "doesn't support cast type \x7b\x7d"⟩) ∧
    (∀ T : SType, getCastFunction (.list T n) =
      .error ⟨.UNKNOWN_TYPE, "doesn't support cast type \x7b\x7d"⟩) ∧
    (∀ K V : SType, getCastFunction (.map K V n) =
      .error ⟨.UNKNOWN_TYPE, "doesn't support cast type \x7b\x7d"⟩) ∧
    getCastFunction .other = .error ⟨.UNKNOWN_TYPE, "doesn't support cast type \x7b\x7d"⟩ ∧
    getCastFunction .not_set = .error ⟨.UNKNOWN_TYPE, "doesn't support cast type \x7b\x7d"⟩ ∧
    (∀ (T : SType) (ty : DataType), parseType0 T = .ok ty →
      parseType0 (.list T n) = .ok (wrapNullableType n (.Array ty)) ∧
      parseType0 (.map T T n) = .ok (wrapNullableType n (.Map ty ty)) ∧
      parseType0 (.struct_ [T] n) = .ok (wrapNullableType n (.Tuple [ty] none))) := by
  refine ⟨rfl, rfl, rfl, rfl, rfl, rfl, rfl, rfl, rfl, rfl, rfl, fun _ _ => rfl, ?_,
    fun _ => rfl, fun _ => rfl, fun _ _ => rfl, rfl, rfl, ?_⟩
  · intro s p name h
    exact getCastFunction_decimal_name s p n name h
  · intro T ty h
    obtain ⟨rest, h1⟩ := parseType0_ok T ty h
    refine ⟨?_, ?_, ?_⟩
    · simp [parseType0, parseType, popName, h1, bind, Except.bind, pure, Except.pure, Except.map]
    · simp [parseType0, parseType, popName, h1, bind, Except.bind, pure, Except.pure, Except.map]
    · simp [parseType0, parseType, parseStructFields, popName, h1, bind, Except.bind, pure,
        Except.pure, Except.map]

/-- Instance of C36: a cast to decimal(10, 2) is named `toDecimal64`, and a
list of `i32`, which `parseType` maps to `Array(Int32)`, has no cast
function. -/
theorem getCastFunction_table_witness :
    getCastFunction (.decimal 2 10 .NULLABILITY_REQUIRED) = .ok "toDecimal64" ∧
    ("toDecimal64" = "toDecimal32" ∨ "toDecimal64" = "toDecimal64" ∨
      "toDecimal64" = "toDecimal128") ∧
    parseType0 (.list (.i32 .NULLABILITY_REQUIRED) .NULLABILITY_REQUIRED) =
      .ok (.Array .Int32) ∧
    getCastFunction (.list (.i32 .NULLABILITY_REQUIRED) .NULLABILITY_REQUIRED) =
      .error ⟨.UNKNOWN_TYPE, "doesn't support cast type \x7b\x7d"⟩ :=
  let h := getCastFunction_table .NULLABILITY_REQUIRED
  ⟨rfl, h.2.2.2.2.2.2.2.2.2.2.2.2.1 2 10 "toDecimal64" rfl,
    (h.2.2.2.2.2.2.2.2.2.2.2.2.2.2.2.2.2.2 (.i32 .NULLABILITY_REQUIRED) .Int32 rfl).1,
    h.2.2.2.2.2.2.2.2.2.2.2.2.2.2.1 (.i32 .NULLABILITY_REQUIRED)⟩

/-! ## Decimal literals -/

/-- C35: for every decimal literal, with `p` and `s` the `UInt32` precision and
scale `parseLiteral` reads and `b` the value bytes, the literal has the type
`Decimal32(p, s)` and the value of the first 4 bytes of `b` when `p <= 9` and
`b` holds at least 4 bytes, the type `Decimal64(p, s)` and the value of the
first 8 bytes when `9 < p <= 18` and `b` holds at least 8 bytes, the type
`Decimal128(p, s)` and the 128-bit value of `b` when `18 < p <= 38`, each
value with scale `s`, and fails with the unsupported-type error when
`p > 38`; whenever the value is read, the type of the literal is the type
`parseType` gives the decimal descriptor of that precision and scale that is
not nullable.  The value of the first 4 bytes `b0, b1, b2, b3` is the signed
32-bit integer of the little-endian number
`b0 + 256 * b1 + 65536 * b2 + 16777216 * b3` (that number when it is below
`2^31`, that number minus `2^32` otherwise), the value of the first 8 bytes
the signed 64-bit integer of the little-endian number of the eight bytes, each
byte taken as a `UInt8`; no later byte of `b` is read. -/
theorem parseLiteral_decimal (env : Env) (bytes : List Nat) (p s : Int) :
    (toUInt32 p ≤ 9 → 4 ≤ bytes.length →
      ∃ value, readIntLE (bytes.take 4) 4 = .ok value ∧
        -2147483648 ≤ value ∧ value ≤ 2147483647 ∧
        parseLiteral env (.decimal bytes p s) =
          .ok (.Decimal32 (toUInt32 p) (toUInt32 s), .Decimal value (toUInt32 s))) ∧
    (9 < toUInt32 p → toUInt32 p ≤ 18 → 8 ≤ bytes.length →
      ∃ value, readIntLE (bytes.take 8) 8 = .ok value ∧
        -9223372036854775808 ≤ value ∧ value ≤ 9223372036854775807 ∧
        parseLiteral env (.decimal bytes p s) =
          .ok (.Decimal64 (toUInt32 p) (toUInt32 s), .Decimal value (toUInt32 s))) ∧
    (18 < toUInt32 p → toUInt32 p ≤ 38 →
      parseLiteral env (.decimal bytes p s) =
        .ok (.Decimal128 (toUInt32 p) (toUInt32 s),
          .Decimal (env.getDecimal128FromBytes bytes) (toUInt32 s))) ∧
    (38 < toUInt32 p →
      parseLiteral env (.decimal bytes p s) =
        .error ⟨.UNKNOWN_TYPE, "Spark doesn't support decimal type with precision \x7b\x7d"⟩) ∧
    (8 ≤ bytes.length →
      (parseLiteral env (.decimal bytes p s)).map Prod.fst =
        parseType0 (.decimal s p .NULLABILITY_REQUIRED)) ∧
    (toUInt32 p ≤ 9 →
      ∀ (b0 b1 b2 b3 : Nat) (rest : List Nat), bytes = b0 :: b1 :: b2 :: b3 :: rest →
        ∃ u : Nat,
          u = b0 % 256 + 256 * (b1 % 256) + 65536 * (b2 % 256) + 16777216 * (b3 % 256) ∧
          parseLiteral env (.decimal bytes p s) =
            .ok (.Decimal32 (toUInt32 p) (toUInt32 s),
              .Decimal (if u < 2147483648 then (u : Int) else (u : Int) - 4294967296)
                (toUInt32 s))) ∧
    (9 < toUInt32 p → toUInt32 p ≤ 18 →
      ∀ (b0 b1 b2 b3 b4 b5 b6 b7 : Nat) (rest : List Nat),
        bytes = b0 :: b1 :: b2 :: b3 :: b4 :: b5 :: b6 :: b7 :: rest →
        ∃ u : Nat,
          u = b0 % 256 + 256 * (b1 % 256) + 65536 * (b2 % 256) + 16777216 * (b3 % 256) +
            4294967296 * (b4 % 256) + 1099511627776 * (b5 % 256) +
            281474976710656 * (b6 % 256) + 72057594037927936 * (b7 % 256) ∧
          parseLiteral env (.decimal bytes p s) =
            .ok (.Decimal64 (toUInt32 p) (toUInt32 s),
              .Decimal
                (if u < 9223372036854775808 then (u : Int)
                 else (u : Int) - 18446744073709551616)
                (toUInt32 s))) := by
  have e9 : DataTypeDecimal32.maxPrecision = 9 := rfl
  have e18 : DataTypeDecimal64.maxPrecision = 18 := rfl
  have e38 : DataTypeDecimal128.maxPrecision = 38 := rfl
  refine ⟨?_, ?_, ?_, ?_, ?_, ?_, ?_⟩
  · intro hp hb
    obtain ⟨value, hv, h1, h2⟩ := readIntLE_ok bytes 4 hb
    refine ⟨value, by rw [readIntLE_take bytes 4 hb]; exact hv, by omega, by omega, ?_⟩
    simp [parseLiteral, e9, hp, hv, bind, Except.bind, pure, Except.pure]
  · intro hp1 hp2 hb
    obtain ⟨value, hv, h1, h2⟩ := readIntLE_ok bytes 8 hb
    have h3 : ¬ toUInt32 p ≤ 9 := by omega
    refine ⟨value, by rw [readIntLE_take bytes 8 hb]; exact hv, by omega, by omega, ?_⟩
    simp [parseLiteral, e9, e18, hp2, h3, hv, bind, Except.bind, pure, Except.pure]
  · intro hp1 hp2
    have h3 : ¬ toUInt32 p ≤ 9 := by omega
    have h4 : ¬ toUInt32 p ≤ 18 := by omega
    simp [parseLiteral, e9, e18, e38, hp2, h3, h4]
  · intro hp
    have h3 : ¬ toUInt32 p ≤ 9 := by omega
    have h4 : ¬ toUInt32 p ≤ 18 := by omega
    have h5 : ¬ toUInt32 p ≤ 38 := by omega
    simp [parseLiteral, e9, e18, e38, h3, h4, h5]
  · intro hb
    obtain ⟨v4, hv4, _⟩ := readIntLE_ok bytes 4 (by omega)
    obtain ⟨v8, hv8, _⟩ := readIntLE_ok bytes 8 hb
    by_cases h1 : toUInt32 p ≤ 9
    · have h0 : ¬ 38 < toUInt32 p := by omega
      simp [parseLiteral, parseType0, parseType, popName, createDecimal, e9, e18, e38, h0, h1,
        hv4, wrapNullableType, wrapNullableTypeBool, bind, Except.bind, pure, Except.pure,
        Except.map]
    · by_cases h2 : toUInt32 p ≤ 18
      · have h0 : ¬ 38 < toUInt32 p := by omega
        simp [parseLiteral, parseType0, parseType, popName, createDecimal, e9, e18, e38, h0, h1,
          h2, hv8, wrapNullableType, wrapNullableTypeBool, bind, Except.bind, pure,
          Except.pure, Except.map]
      · by_cases h3 : toUInt32 p ≤ 38
        · have h0 : ¬ 38 < toUInt32 p := by omega
          simp [parseLiteral, parseType0, parseType, popName, createDecimal, e9, e18, e38, h0,
            h1, h2, h3, wrapNullableType, wrapNullableTypeBool, bind, Except.bind, pure,
            Except.pure, Except.map]
        · have h0 : 38 < toUInt32 p := by omega
          simp [parseLiteral, parseType0, parseType, popName, createDecimal, e9, e18, e38, h0,
            h1, h2, h3, bind, Except.bind, pure, Except.pure, Except.map, throw, throwThe,
            MonadExceptOf.throw]
  · intro hp b0 b1 b2 b3 rest hb
    subst hb
    refine ⟨_, rfl, ?_⟩
    have hparse : ∀ l, parseLiteral env (.decimal l p s) =
        (readIntLE l 4).bind (fun value =>
          .ok (.Decimal32 (toUInt32 p) (toUInt32 s), .Decimal value (toUInt32 s))) := by
      intro l
      simp only [parseLiteral, e9, hp, if_true, bind, pure, Except.pure]
    rw [hparse, readIntLE_four]
    rfl
  · intro hp1 hp2 b0 b1 b2 b3 b4 b5 b6 b7 rest hb
    subst hb
    have h3 : ¬ toUInt32 p ≤ 9 := by omega
    refine ⟨_, rfl, ?_⟩
    have hparse : ∀ l, parseLiteral env (.decimal l p s) =
        (readIntLE l 8).bind (fun value =>
          .ok (.Decimal64 (toUInt32 p) (toUInt32 s), .Decimal value (toUInt32 s))) := by
      intro l
      simp only [parseLiteral, e9, e18, hp2, h3, if_true, if_false, bind, pure, Except.pure]
    rw [hparse, readIntLE_eight]
    rfl

/-- Instance of C35: the literal of precision 10 and scale 2 over the bytes of
1234 is the `Decimal64(10, 2)` value 1234, the type `parseType` gives
decimal(10, 2); the literal of precision 5 over the bytes `254, 255, 255, 255`
followed by a fifth byte is the `Decimal32(5, 2)` value -2. -/
theorem parseLiteral_decimal_witness :
    (9 < toUInt32 10 ∧ toUInt32 10 ≤ 18 ∧ 8 ≤ [210, 4, 0, 0, 0, 0, 0, 0].length) ∧
    (∃ value, readIntLE ([210, 4, 0, 0, 0, 0, 0, 0].take 8) 8 = .ok value ∧
      -9223372036854775808 ≤ value ∧ value ≤ 9223372036854775807 ∧
      parseLiteral sampleEnv (.decimal [210, 4, 0, 0, 0, 0, 0, 0] 10 2) =
        .ok (.Decimal64 (toUInt32 10) (toUInt32 2), .Decimal value (toUInt32 2))) ∧
    parseLiteral sampleEnv (.decimal [210, 4, 0, 0, 0, 0, 0, 0] 10 2) =
      .ok (.Decimal64 10 2, .Decimal 1234 2) ∧
    (parseLiteral sampleEnv (.decimal [210, 4, 0, 0, 0, 0, 0, 0] 10 2)).map Prod.fst =
      parseType0 (.decimal 2 10 .NULLABILITY_REQUIRED) ∧
    (∃ u : Nat,
      u = 210 % 256 + 256 * (4 % 256) + 65536 * (0 % 256) + 16777216 * (0 % 256) +
        4294967296 * (0 % 256) + 1099511627776 * (0 % 256) +
        281474976710656 * (0 % 256) + 72057594037927936 * (0 % 256) ∧
      parseLiteral sampleEnv (.decimal [210, 4, 0, 0, 0, 0, 0, 0] 10 2) =
        .ok (.Decimal64 (toUInt32 10) (toUInt32 2),
          .Decimal
            (if u < 9223372036854775808 then (u : Int)
             else (u : Int) - 18446744073709551616)
            (toUInt32 2))) ∧
    (∃ u : Nat,
      u = 254 % 256 + 256 * (255 % 256) + 65536 * (255 % 256) + 16777216 * (255 % 256) ∧
      parseLiteral sampleEnv (.decimal [254, 255, 255, 255, 7] 5 2) =
        .ok (.Decimal32 (toUInt32 5) (toUInt32 2),
          .Decimal (if u < 2147483648 then (u : Int) else (u : Int) - 4294967296)
            (toUInt32 2))) ∧
    parseLiteral sampleEnv (.decimal [254, 255, 255, 255, 7] 5 2) =
      .ok (.Decimal32 5 2, .Decimal (-2) 2) :=
  ⟨by decide,
    (parseLiteral_decimal sampleEnv [210, 4, 0, 0, 0, 0, 0, 0] 10 2).2.1
      (by decide) (by decide) (by decide),
    rfl,
    (parseLiteral_decimal sampleEnv [210, 4, 0, 0, 0, 0, 0, 0] 10 2).2.2.2.2.1 (by decide),
    (parseLiteral_decimal sampleEnv [210, 4, 0, 0, 0, 0, 0, 0] 10 2).2.2.2.2.2.2
      (by decide) (by decide) 210 4 0 0 0 0 0 0 [] rfl,
    (parseLiteral_decimal sampleEnv [254, 255, 255, 255, 7] 5 2).2.2.2.2.2.1
      (by decide) 254 255 255 255 [7] rfl,
    rfl⟩

/-! ## The function `ascii` -/

/-- C40: for every string column whose rows each end in one terminator byte
(offsets increasing from 0, none beyond the buffer) and every result column
with a slot for each row, `AsciiImpl::vector` returns the result column whose
first slots hold, row by row, the code of the first byte of the row (a value
in 0..255, the byte itself) when the row is not empty and 0 when it is empty,
and whose other slots are unchanged; `vectorFixedToVector` with a row width
`n > 0` writes the byte `data[i * n]` to slot `i` for every
`i < data.size() / n` and leaves the other slots unchanged. -/
theorem AsciiImpl_writes_first_bytes (data offsets : List Nat) (res : List Int) (n : Nat)
    (hdata : data.length < 18446744073709551616) :
    (List.Chain (fun a b => a < b) 0 offsets → (∀ o ∈ offsets, o ≤ data.length) →
      offsets.length ≤ res.length →
      AsciiImpl.vector data offsets res =
        .ok ((ColumnString.rows data 0 offsets).map asciiOfString ++
          res.drop offsets.length) ∧
      (ColumnString.rows data 0 offsets).length = offsets.length ∧
      asciiOfString [] = 0 ∧
      ∀ (b : Nat) (rest : List Nat),
        0 ≤ asciiOfString (b :: rest) ∧ asciiOfString (b :: rest) ≤ 255 ∧
        (b < 256 → asciiOfString (b :: rest) = (b : Int))) ∧
    (0 < n → data.length / n ≤ res.length →
      AsciiImpl.vectorFixedToVector data n res =
        .ok (fixedFirstBytes data n ++ res.drop (data.length / n)) ∧
      (fixedFirstBytes data n).length = data.length / n ∧
      ∀ i, i < data.length / n →
        ∃ b, data.get? (i * n) = some b ∧
          (fixedFirstBytes data n).get? i = some ((b % 256 : Nat) : Int)) := by
  constructor
  · intro hc hend hlen
    refine ⟨?_, rows_length data offsets 0, rfl, ?_⟩
    · have h := vectorLoop_rows data hdata offsets 0 0 res hc hend (by omega)
      simpa [AsciiImpl.vector] using h
    · intro b rest
      simp only [asciiOfString]
      refine ⟨by omega, by omega, ?_⟩
      intro hb
      rw [Nat.mod_eq_of_lt hb]
  · intro hn hlen
    refine ⟨?_, by simp [fixedFirstBytes], ?_⟩
    · have h := fixedLoop_rows data n hn hdata (data.length / n) 0 res
        (by simpa using Nat.div_mul_le_self data.length n) (by omega)
      unfold AsciiImpl.vectorFixedToVector
      rw [if_neg (by omega), h]
      simp [fixedFirstBytes, List.range_eq_range']
    · intro i hi
      have hlt : i * n < data.length := by
        have h1 : (i + 1) * n ≤ (data.length / n) * n := Nat.mul_le_mul_right n hi
        have h2 := Nat.div_mul_le_self data.length n
        have e : (i + 1) * n = i * n + n := by ring
        omega
      refine ⟨data.get ⟨i * n, hlt⟩, List.get?_eq_get hlt, ?_⟩
      simp [fixedFirstBytes, hi, List.getD_eq_getElem?_getD, List.getElem?_eq_getElem hlt]

/-- Instance of C40: the column of the rows `AB`, the empty string and `c`
(bytes 65 66 0, 0, 99 0) gives 65, 0, 99 and leaves the fourth slot alone;
read as rows of width 2 the same buffer gives 65, 0, 99. -/
theorem AsciiImpl_writes_first_bytes_witness :
    AsciiImpl.vector [65, 66, 0, 0, 99, 0] [3, 4, 6] [7, 7, 7, 7] = .ok [65, 0, 99, 7] ∧
    AsciiImpl.vectorFixedToVector [65, 66, 0, 0, 99, 0] 2 [7, 7, 7, 7] = .ok [65, 0, 99, 7] :=
  ⟨((AsciiImpl_writes_first_bytes [65, 66, 0, 0, 99, 0] [3, 4, 6] [7, 7, 7, 7] 2
      (by decide)).1 (by simp) (by decide) (by decide)).1,
    ((AsciiImpl_writes_first_bytes [65, 66, 0, 0, 99, 0] [3, 4, 6] [7, 7, 7, 7] 2
      (by decide)).2 (by decide) (by decide)).1⟩

/-! ## Name streams -/

/-- C31: for every type descriptor `T` that `parseType` maps and every name
stream holding at least `c(T)` names, `parseType(T, names)` succeeds and
leaves the stream without its first `c(T)` names, where `c(T)` is 1 for a
descriptor that is not a struct (the element of a list and the key and value
of a map take no names) and 1 plus the sum of `c(F)` over the fields `F` for a
struct; the type of a descriptor that is not a struct is the one mapped
without names; the fields of a struct are named, in order, by the name at the
head of the stream when the field is entered.  `parseNameStruct` therefore
names the columns of a schema without structs `names(0)`, `names(1)`, ... in
order: whenever it returns, and it returns the columns so named with the
mapped types when every type is mapped, there is a name for every type and
no name used has four `#`-separated parts. -/
theorem parseType_consumes_names (env : Env) (T : SType) (names : List String)
    (ty0 : DataType) (hT : parseType0 T = .ok ty0) (hlen : T.nameCount ≤ names.length) :
    (∃ ty, parseType T (some names) = .ok (ty, some (names.drop T.nameCount))) ∧
    (T.has_struct = false →
      T.nameCount = 1 ∧ parseType T (some names) = .ok (ty0, some (names.drop 1))) ∧
    (∀ (types : List SType) (n : Type_Nullability), T = .struct_ types n →
      T.nameCount = 1 + (types.map SType.nameCount).sum ∧
      ∃ tys, tys.length = types.length ∧
        parseType T (some names) =
          .ok (wrapNullableType n
            (if types.length != 0 then
              DataType.Tuple tys (some (structFieldNames types (names.drop 1)))
             else DataType.Tuple tys none),
            some (names.drop T.nameCount))) ∧
    (∀ (types : List SType) (cols : List String) (block : Block),
      (∀ t ∈ types, t.has_struct = false) →
      parseNameStruct env ⟨cols, types⟩ = .ok block →
      block.getNames = cols.take types.length) ∧
    (∀ (types : List SType) (cols : List String) (tys : List DataType),
      (∀ t ∈ types, t.has_struct = false) →
      List.Forall₂ (fun t ty => parseType0 t = .ok ty) types tys →
      types.length ≤ cols.length →
      (∀ name ∈ cols.take types.length,
        (StringTokenizer '#' name.toList [] false).length ≠ 4) →
      parseNameStruct env ⟨cols, types⟩ = .ok ((cols.take types.length).zip tys)) := by
  obtain ⟨rest0, h0⟩ := parseType0_ok T ty0 hT
  refine ⟨parseType_names T none ty0 rest0 names h0 hlen, ?_, ?_, ?_, ?_⟩
  · intro hflat
    have hc : T.nameCount = 1 := by
      cases T <;> first | rfl | (simp [SType.has_struct] at hflat)
    refine ⟨hc, ?_⟩
    have := parseType_names_flat T hflat none ty0 rest0 names h0 hlen
    rw [hc] at this
    exact this
  · intro types n hs
    subst hs
    refine ⟨by simp [SType.nameCount, nameCountList_sum], ?_⟩
    exact parseType_struct_names types n none ty0 rest0 names h0 hlen
  · intro types cols block hflat h
    exact parseNameStructColumns_names env types cols block hflat h
  · intro types cols tys hflat hty hl htok
    exact parseNameStructColumns_ok env types cols tys hflat hty hl htok

/-- Instance of C31: the struct of an `i32`, a struct of a string and an `i64`,
and a list of `i32` takes six names from the stream `s, a, b, b1, b2, c, z`;
its fields are named `a`, `b`, `c` and the stream `z` is left; the schema of
an `i32` and a nullable string over the names `x, y, z` has the columns `x`
and `y`. -/
theorem parseType_consumes_names_witness :
    (SType.struct_ [.i32 .NULLABILITY_REQUIRED,
        .struct_ [.string .NULLABILITY_REQUIRED, .i64 .NULLABILITY_REQUIRED]
          .NULLABILITY_REQUIRED,
        .list (.i32 .NULLABILITY_REQUIRED) .NULLABILITY_REQUIRED]
        .NULLABILITY_REQUIRED).nameCount = 6 ∧
    (∃ tys, tys.length = 3 ∧
      parseType
        (.struct_ [.i32 .NULLABILITY_REQUIRED,
          .struct_ [.string .NULLABILITY_REQUIRED, .i64 .NULLABILITY_REQUIRED]
            .NULLABILITY_REQUIRED,
          .list (.i32 .NULLABILITY_REQUIRED) .NULLABILITY_REQUIRED]
          .NULLABILITY_REQUIRED)
        (some ["s", "a", "b", "b1", "b2", "c", "z"]) =
        .ok (.Tuple tys (some ["a", "b", "c"]), some ["z"])) ∧
    parseNameStruct sampleEnv
        ⟨["x", "y", "z"], [.i32 .NULLABILITY_REQUIRED, .string .NULLABILITY_NULLABLE]⟩ =
      .ok [("x", .Int32), ("y", .Nullable .String)] :=
  ⟨rfl,
    ((parseType_consumes_names sampleEnv
      (.struct_ [.i32 .NULLABILITY_REQUIRED,
        .struct_ [.string .NULLABILITY_REQUIRED, .i64 .NULLABILITY_REQUIRED]
          .NULLABILITY_REQUIRED,
        .list (.i32 .NULLABILITY_REQUIRED) .NULLABILITY_REQUIRED]
        .NULLABILITY_REQUIRED)
      ["s", "a", "b", "b1", "b2", "c", "z"]
      (.Tuple [.Int32, .Tuple [.String, .Int64] none, .Array .Int32] none) rfl
      (by decide)).2.2.1 _ _ rfl).2,
    (parseType_consumes_names sampleEnv (.i32 .NULLABILITY_REQUIRED) ["x"] .Int32 rfl
      (by decide)).2.2.2.2
      [.i32 .NULLABILITY_REQUIRED, .string .NULLABILITY_NULLABLE] ["x", "y", "z"]
      [.Int32, .Nullable .String] (by simp [SType.has_struct])
      (.cons rfl (.cons rfl .nil)) (by decide) (by decide)⟩

/-! ## The join planner: conversion steps -/

/-- C32: in every join `parseJoin` builds, with `right` the right plan after
its rename steps and `(left actions, right actions)` the pair
`createConvertingActions` returns for the left header and the header of
`right`: whenever the left actions are present, the right actions are present
too and the step appended to the left plan, which follows the steps of the
left input in the plan returned, is the conversion step built from the right
actions; and whenever the right actions are present, the step appended to the
right plan, the last one of the right side of the join step, is the
conversion step built from the right actions. -/
theorem parseJoin_left_conversion (env : Env) (fm : StringMap) (name_no : Nat)
    (join : JoinRel) (left right : QueryPlan) (out : JoinOutput)
    (h : parseJoin env fm name_no join left right = .ok out) :
    ∃ reg right_table_alias,
      registerRightColumns env (env.parseJoinOptimizationInfo join.optimization).1
        (env.parseJoinOptimizationInfo join.optimization).2 name_no left right = .ok reg ∧
      rightTableAlias reg.right.header reg.columns_from_joined_table.getNames
        reg.columns_from_joined_table.length 0 = .ok right_table_alias ∧
      (∀ l, (env.createConvertingActions left.header
          (rightTableRename reg.right right_table_alias).header).1 = some l →
        ∃ r rest, (env.createConvertingActions left.header
            (rightTableRename reg.right right_table_alias).header).2 = some r ∧
          out.plan.steps =
            left.steps ++ QueryPlanStep.ExpressionStep "Convert joined columns" r :: rest) ∧
      (∀ r, (env.createConvertingActions left.header
          (rightTableRename reg.right right_table_alias).header).2 = some r →
        (env.parseJoinOptimizationInfo join.optimization).1 = false →
        ∃ pre rest, out.plan.steps =
          pre ++ QueryPlanStep.JoinStep
            ((rightTableRename reg.right right_table_alias).steps ++
              [QueryPlanStep.ExpressionStep "Convert joined columns" r]) :: rest) := by
  unfold parseJoin at h
  simp only [bind, Except.bind] at h
  split at h
  · cases h
  · split at h
    · cases h
    · rename_i reg hreg
      split at h
      · cases h
      · rename_i alias_list halias
        split at h
        · cases h
        · split at h
          · cases h
          · refine ⟨reg, alias_list, hreg, halias, ?_⟩
            unfold rightTableRename
            generalize (if (!alias_list.isEmpty) = true then
              reg.right.addExpressionStep "Right Table Rename"
                ((ActionsDAG.ofInputs reg.right.header).addAliases alias_list)
              else reg.right) = right1 at h ⊢
            generalize env.createConvertingActions left.header right1.header = conv at h ⊢
            obtain ⟨c1, c2⟩ := conv
            split at h
            · cases h
            · rename_i left1 hleft1
              split at h
              · cases h
              · rename_i joined hjoined
                split at h
                · cases h
                · rename_i reordered hre
                  obtain ⟨r1, h1⟩ := reorderJoinOutput_steps _ _ _ hre
                  obtain ⟨r2, h2⟩ := postJoinFilter_steps _ _ _ _ _ _ h
                  have hsteps : ∃ js, joined.steps = left1.steps ++ [js] ∧
                      ((env.parseJoinOptimizationInfo join.optimization).1 = false →
                        js = QueryPlanStep.JoinStep
                          (match c2 with
                            | some right_convert_actions =>
                              right1.addExpressionStep "Convert joined columns"
                                right_convert_actions
                            | none => right1).steps) := by
                    split at hjoined
                    · rename_i hb
                      split at hjoined
                      · cases hjoined
                      · simp only [pure, Except.pure] at hjoined
                        cases hjoined
                        refine ⟨_, rfl, ?_⟩
                        intro hf
                        rw [hb] at hf
                        cases hf
                    · simp only [pure, Except.pure] at hjoined
                      cases hjoined
                      exact ⟨_, rfl, fun _ => rfl⟩
                  obtain ⟨js, hj1, hj2⟩ := hsteps
                  have hout : out.plan.steps = left1.steps ++ js :: (r1 ++ r2) := by
                    rw [h2, h1, hj1]
                    simp
                  cases c1 with
                  | none =>
                    refine ⟨fun l hl => by simp at hl, ?_⟩
                    intro r hr hb
                    simp only [] at hr
                    subst hr
                    exact ⟨left1.steps, r1 ++ r2, by
                      rw [hout, hj2 hb]
                      simp [QueryPlan.addExpressionStep]⟩
                  | some l0 =>
                    cases c2 with
                    | none =>
                      simp only [throw, throwThe, MonadExceptOf.throw] at hleft1
                      cases hleft1
                    | some r0 =>
                      simp only [pure, Except.pure] at hleft1
                      cases hleft1
                      refine ⟨?_, ?_⟩
                      · intro l _
                        refine ⟨r0, js :: (r1 ++ r2), rfl, ?_⟩
                        rw [hout]
                        simp [QueryPlan.addExpressionStep]
                      · intro r hr hb
                        simp only [Option.some.injEq] at hr
                        subst hr
                        exact ⟨left.steps ++
                          [QueryPlanStep.ExpressionStep "Convert joined columns" r0], r1 ++ r2, by
                          rw [hout, hj2 hb]
                          simp [QueryPlan.addExpressionStep]⟩

/-- Instance of C32: with a registry that asks for a conversion of both sides,
the left actions passing on the left columns `a, b` and the right actions the
right column `c`, the step appended to the left plan is the one over `c`, the
same as on the right side, and the joined schema is `c, c`. -/
theorem parseJoin_left_conversion_witness :
    ∃ out, parseJoin sampleConvertingEnv sampleFunctionMapping 0
        ⟨.JOIN_TYPE_INNER, sampleEquiCondition, none, ""⟩ sampleLeftPlan sampleRightPlan
        = .ok out ∧
      out.plan.steps =
        [.Source "left",
         .ExpressionStep "Convert joined columns" (ActionsDAG.ofInputs [("c", .Int64)]),
         .JoinStep [.Source "right",
           .ExpressionStep "Convert joined columns" (ActionsDAG.ofInputs [("c", .Int64)])],
         .ExpressionStep "Reorder Join Output"
           ⟨[⟨.INPUT, "c", .Int64, [], "", none⟩, ⟨.INPUT, "c", .Int64, [], "", none⟩],
            [0, 1], [0, 0]⟩] ∧
      out.plan.header.getNames = ["c", "c"] ∧
      ∃ reg right_table_alias,
        registerRightColumns sampleConvertingEnv false "broadcast_table" 0 sampleLeftPlan
          sampleRightPlan = .ok reg ∧
        ∀ l, (sampleConvertingEnv.createConvertingActions sampleLeftPlan.header
            (rightTableRename reg.right right_table_alias).header).1 = some l →
          ∃ r rest, (sampleConvertingEnv.createConvertingActions sampleLeftPlan.header
              (rightTableRename reg.right right_table_alias).header).2 = some r ∧
            out.plan.steps = sampleLeftPlan.steps ++
              QueryPlanStep.ExpressionStep "Convert joined columns" r :: rest :=
  ⟨_, rfl, rfl, rfl,
    let ⟨reg, right_table_alias, h1, _, h2, _⟩ :=
      parseJoin_left_conversion sampleConvertingEnv sampleFunctionMapping 0
        ⟨.JOIN_TYPE_INNER, sampleEquiCondition, none, ""⟩ sampleLeftPlan sampleRightPlan _ rfl
    ⟨reg, right_table_alias, h1, h2⟩⟩

/-! ## The output of a final aggregate -/

/-- C34: for every final aggregate relation `parseOp` translates, with `merged`
the plan after the merging step and a measure's position the field number of
its first argument: when every position is a column of the merged schema and
every declared output type is mapped, the conversion step `Convert Aggregate
Output` is appended iff the declared output type of at least one measure
differs from the type of the column at its position; the target schema has
the columns of the merged schema, each with its name, and equals the merged
schema at every position where no measure differs, while a position where a
measure differs takes the declared type of such a measure; the conversion is
the position-wise one from the whole merged schema to the target, and the
target is the schema after the step. -/
theorem parseOp_final_aggregate_conversion (env : Env) (penv : PlanEnv) (fm : StringMap)
    (input : Rel) (aggregate : AggregateRel) (st st0 : ParserState) (plan0 merged : QueryPlan)
    (out : AggregateOutput) (positions : List (Int × SType))
    (hinput : parseOp env penv fm input st = .ok (plan0, st0))
    (hagg : (parseAggregate env fm st0.name_no plan0 aggregate).result = .ok out)
    (hfinal : (parseAggregate env fm st0.name_no plan0 aggregate).is_final = some true)
    (hmerged : merged = out.plan.addAggregateStep out.step)
    (hpos : measurePositions aggregate.measures = .ok positions)
    (hvalid : ∀ p ∈ positions,
      0 ≤ p.1 ∧ p.1 < merged.header.length ∧ (parseType0 p.2).failed = false) :
    ∃ target dag,
      makeConvertingActions merged.header target = .ok dag ∧
      dag.header = target ∧
      target.length = merged.header.length ∧
      (∀ i, (∀ p ∈ positions, p.1.toNat = i → typeMismatch merged.header p = false) →
        target.get? i = merged.header.get? i) ∧
      (∀ i, (∃ p ∈ positions, p.1.toNat = i ∧ typeMismatch merged.header p = true) →
        ∃ p ∈ positions, p.1.toNat = i ∧ typeMismatch merged.header p = true ∧
          ∃ ty, parseType0 p.2 = .ok ty ∧
            target.get? i = (merged.header.get? i).map (fun c => (c.1, ty))) ∧
      (∀ p ∈ positions, ∃ c ty, merged.header.get? p.1.toNat = some c ∧
        parseType0 p.2 = .ok ty ∧ typeMismatch merged.header p = !ty.equals c.2) ∧
      parseOp env penv fm (.aggregate input aggregate) st =
        .ok (if positions.any (typeMismatch merged.header) then
            merged.addExpressionStep "Convert Aggregate Output" dag
          else merged, { st0 with name_no := out.name_no }) := by
  obtain ⟨target, ht, hlen, hsame, hdiff⟩ :=
    convertTargets_ok merged.header positions merged.header false hvalid
  obtain ⟨dag, hdag, hheader⟩ := makeConvertingActions_header merged.header target hlen.symm
  refine ⟨target, dag, hdag, hheader, hlen, hsame, hdiff, ?_, ?_⟩
  · intro p hp
    obtain ⟨h1, h2, h3⟩ := hvalid p hp
    obtain ⟨c, ty, a, _, b, _, d⟩ := typeMismatch_eval merged.header p h1 h2 h3
    exact ⟨c, ty, a, b, d⟩
  · rw [parseOp]
    simp only [hinput, bind, Except.bind, hagg, hfinal, beq_self_eq_true, if_true]
    rw [← hmerged]
    simp only [convertAggregateOutput, hpos, bind, Except.bind, ht, Bool.false_or]
    cases hany : positions.any (typeMismatch merged.header) with
    | false => simp [pure, Except.pure]
    | true => simp [hdag, pure, Except.pure, bind, Except.bind]


/-- Instance of C34: the sample final aggregate merges to the schema `k : Int64,
s : Int64`; the measure at position 1 is declared `fp64`, so the conversion
step is appended and the schema becomes `k : Int64, s : Float64`. -/
theorem parseOp_final_aggregate_conversion_witness :
    (parseOp sampleEnv samplePlanEnv sampleFunctionMapping sampleFinalAggregate
      ⟨0, none⟩).map (fun r => r.1.header) = .ok [("k", .Int64), ("s", .Float64)] ∧
    ∃ merged target dag,
      merged.header = [("k", .Int64), ("s", .Int64)] ∧
      makeConvertingActions merged.header target = .ok dag ∧
      dag.header = target ∧
      parseOp sampleEnv samplePlanEnv sampleFunctionMapping sampleFinalAggregate ⟨0, none⟩ =
        .ok (if [((1 : Int), SType.fp64 .NULLABILITY_REQUIRED)].any
              (typeMismatch merged.header) then
            merged.addExpressionStep "Convert Aggregate Output" dag
          else merged, ⟨0, none⟩) :=
  ⟨rfl,
    let ⟨target, dag, h1, h2, _, _, _, _, h3⟩ :=
      parseOp_final_aggregate_conversion sampleEnv samplePlanEnv sampleFunctionMapping
        (.read ⟨.local_files ["iterator:0"],
          some ⟨["k", "s"], [.i64 .NULLABILITY_REQUIRED, .i64 .NULLABILITY_REQUIRED]⟩, none⟩)
        ⟨[⟨[col 0]⟩],
          [⟨⟨4, [col 1], .AGGREGATION_PHASE_INTERMEDIATE_TO_RESULT,
            .fp64 .NULLABILITY_REQUIRED⟩⟩]⟩
        ⟨0, none⟩ ⟨0, none⟩
        ⟨[.ReadFromJavaIter "Read From Java Iter" 0], [("k", .Int64), ("s", .Int64)]⟩
        _ _ [(1, .fp64 .NULLABILITY_REQUIRED)] rfl rfl rfl rfl rfl
        (by
          intro p hp
          rw [List.mem_singleton] at hp
          subst hp
          exact ⟨by decide, by decide, rfl⟩)
    ⟨_, target, dag, rfl, h1, h2, h3⟩⟩

/-! ## The aggregation planner: the pre-projection -/

/-- C33, as stated, fails: over the header `a : Int64`, with the measures
`sum(col[0])` declared nullable and `count(col[0])` declared required, both in
the initial phase, the column `a` is wrapped because of the sum, and the
substitution `a -> toNullable(a)` is recorded by name; the aggregate step
then reads the wrapped column, at position 1, for the count as well, whose
declared output type is not nullable. -/
theorem addPreProjectStepIfNeeded_wraps_shared_column :
    (parseType0 (.i64 .NULLABILITY_REQUIRED)).map DataType.isNullable = .ok false ∧
    (addPreProjectStepIfNeeded sampleWrappingEnv sampleSumCountMapping
        ⟨[.Source "t"], [("a", .Int64)]⟩ 0 sampleSumCountRel).map
      (fun r => (r.measure_names, r.nullable_measure_names, r.plan.header)) =
      .ok (["a", "a"], [("a", "toNullable(a)")],
        [("a", .Int64), ("toNullable(a)", .Nullable .Int64)]) ∧
    (parseAggregate sampleWrappingEnv sampleSumCountMapping 0
        ⟨[.Source "t"], [("a", .Int64)]⟩ sampleSumCountRel).result.map
      (fun o => o.step.aggregates.map
        (fun (a : AggregateDescription) => (a.column_name, a.arguments))) =
      .ok [("sum(a)", [1]), ("count(a)", [1])] :=
  ⟨rfl, rfl, rfl⟩

/-- C33, amended: in `addPreProjectStepIfNeeded` the name of a measure's argument
column is put on the wrap list iff the measure's declared output type is
nullable, its phase is `INITIAL_TO_INTERMEDIATE` and the type of the index
column of that name is not nullable, and the measure asks for the
pre-projection iff its argument is a literal or its name was put on the list;
every name on the list is wrapped in `toNullable`, and the substitution
`name -> toNullable(name)` is recorded by name, for every measure whose
argument has that name; the `Before Aggregate` step is appended iff some
measure's argument is a literal or the wrap list is not empty; and a measure
with an argument count other than one, or with an argument that is neither a
column reference nor a literal, makes the translation fail. -/
theorem addPreProjectStepIfNeeded_wrapping (env : Env) (fm : StringMap) (plan : QueryPlan)
    (name_no : Nat) (rel : AggregateRel) :
    (∀ (s : PreProjectState) (m : Measure) (measure_type : DataType) (arg : Expression)
      (name : String) (expression : PState) (need : Bool) (found : Nat) (n : Node),
      parseType0 m.measure.output_type = .ok measure_type →
      m.measure.arguments = [arg] →
      measureArgument env fm plan.header s.expression s.need_pre_project arg =
        .ok (name, expression, need) →
      expression.dag.findInIndex name = .ok found →
      expression.dag.nodes.get? found = some n →
      need = (s.need_pre_project || m.hasLiteralArgument) ∧
      preProjectMeasure env fm plan.header s m =
        .ok ⟨expression, s.measure_names ++ [name],
          s.to_wrap_nullable ++
            (if (measure_type.isNullable &&
                m.measure.phase == .AGGREGATION_PHASE_INITIAL_TO_INTERMEDIATE &&
                !n.result_type.isNullable) = true then [name] else []),
          need || (measure_type.isNullable &&
            m.measure.phase == .AGGREGATION_PHASE_INITIAL_TO_INTERMEDIATE &&
            !n.result_type.isNullable)⟩) ∧
    (∀ pre : PreProjectResult,
      addPreProjectStepIfNeeded env fm plan name_no rel = .ok pre →
      ∃ s dag,
        preProjectMeasures env fm plan.header rel.measures
          ⟨{ dag := ActionsDAG.ofInputs (blockToNameAndTypeList plan.header),
             name_no := name_no }, [], [], false⟩ = .ok s ∧
        wrapNullable env s.to_wrap_nullable s.expression.dag [] =
          .ok (dag, pre.nullable_measure_names) ∧
        (∀ key, StringMap.find pre.nullable_measure_names key =
          if key ∈ s.to_wrap_nullable then some ("toNullable(" ++ key ++ ")") else none) ∧
        s.need_pre_project =
          (rel.measures.any Measure.hasLiteralArgument || !s.to_wrap_nullable.isEmpty) ∧
        pre.plan =
          (if s.need_pre_project then plan.addExpressionStep "Before Aggregate" dag
           else plan)) ∧
    ((∃ m ∈ rel.measures, m.measure.arguments.length ≠ 1) →
      (addPreProjectStepIfNeeded env fm plan name_no rel).failed = true) ∧
    ((∃ m ∈ rel.measures, ∃ arg, m.measure.arguments = [arg] ∧
        arg.has_selection = false ∧ arg.has_literal = false) →
      (addPreProjectStepIfNeeded env fm plan name_no rel).failed = true) := by
  have inv : ∀ pre : PreProjectResult,
      addPreProjectStepIfNeeded env fm plan name_no rel = .ok pre →
      ∃ s dag,
        preProjectMeasures env fm plan.header rel.measures
          ⟨{ dag := ActionsDAG.ofInputs (blockToNameAndTypeList plan.header),
             name_no := name_no }, [], [], false⟩ = .ok s ∧
        wrapNullable env s.to_wrap_nullable s.expression.dag [] =
          .ok (dag, pre.nullable_measure_names) ∧
        pre.plan =
          (if s.need_pre_project then plan.addExpressionStep "Before Aggregate" dag
           else plan) := by
    intro pre h
    unfold addPreProjectStepIfNeeded at h
    simp only [bind, Except.bind] at h
    split at h
    · cases h
    · rename_i s hs
      split at h
      · cases h
      · rename_i r hr
        obtain ⟨dag, names⟩ := r
        simp only [pure, Except.pure] at h
        cases h
        exact ⟨s, dag, hs, hr, rfl⟩
  refine ⟨?_, ?_, ?_, ?_⟩
  · intro s m measure_type arg name expression need found n hty harg hma hfound hn
    refine ⟨?_, preProjectMeasure_step env fm plan.header s m measure_type arg name expression
      need found n hty harg hma hfound hn⟩
    have := (measureArgument_need env fm plan.header s.expression s.need_pre_project arg name
      expression need hma).2
    rw [this]
    simp only [Measure.hasLiteralArgument, harg]
  · intro pre h
    obtain ⟨s, dag, hs, hw, hplan⟩ := inv pre h
    obtain ⟨extra, he, hneed, _⟩ := preProjectMeasures_shape env fm plan.header rel.measures _ s hs
    simp only [List.nil_append] at he
    refine ⟨s, dag, hs, hw, ?_, ?_, hplan⟩
    · intro key
      rw [wrapNullable_map env _ _ _ _ _ hw, find_recordWrapped]
      rfl
    · rw [hneed, he]
      rfl
  · intro hex
    obtain ⟨m, hm, hlen⟩ := hex
    cases h : addPreProjectStepIfNeeded env fm plan name_no rel with
    | error e => rfl
    | ok pre =>
      obtain ⟨s, dag, hs, _, _⟩ := inv pre h
      obtain ⟨_, _, _, hall⟩ := preProjectMeasures_shape env fm plan.header rel.measures _ s hs
      obtain ⟨arg, harg, _⟩ := hall m hm
      rw [harg] at hlen
      exact absurd rfl hlen
  · intro hex
    obtain ⟨m, hm, arg, harg, h1, h2⟩ := hex
    cases h : addPreProjectStepIfNeeded env fm plan name_no rel with
    | error e => rfl
    | ok pre =>
      obtain ⟨s, dag, hs, _, _⟩ := inv pre h
      obtain ⟨_, _, _, hall⟩ := preProjectMeasures_shape env fm plan.header rel.measures _ s hs
      obtain ⟨arg1, harg1, hkind⟩ := hall m hm
      rw [harg] at harg1
      cases harg1
      rw [h1, h2] at hkind
      cases hkind

/-- Instance of the amended C33: for the sample measures `sum(col[1])` and
`sum(1)`, declared required, nothing is put on the wrap list and no
substitution is recorded, and the `Before Aggregate` step is appended because
of the literal; the measure `sum(col[0])` declared nullable over the column
`a : Int64` puts `a` on the wrap list and asks for the pre-projection. -/
theorem addPreProjectStepIfNeeded_wrapping_witness :
    ∃ pre, addPreProjectStepIfNeeded sampleEnv sampleFunctionMapping
        ⟨[.Source "t"], [("k", .Int64), ("a", .Int64)]⟩ 0 sampleAggregateRel = .ok pre ∧
      pre.plan.steps.length = 2 ∧
      pre.nullable_measure_names = [] ∧
      ∃ (s : PreProjectState) (dag : ActionsDAG),
        (∀ key, StringMap.find pre.nullable_measure_names key =
          if key ∈ s.to_wrap_nullable then some ("toNullable(" ++ key ++ ")") else none) ∧
        s.need_pre_project =
          (sampleAggregateRel.measures.any Measure.hasLiteralArgument ||
            !s.to_wrap_nullable.isEmpty) ∧
        pre.plan =
          (if s.need_pre_project then
            QueryPlan.addExpressionStep ⟨[.Source "t"], [("k", .Int64), ("a", .Int64)]⟩
              "Before Aggregate" dag
           else ⟨[.Source "t"], [("k", .Int64), ("a", .Int64)]⟩) ∧
      preProjectMeasure sampleWrappingEnv sampleSumCountMapping [("a", .Int64)]
          ⟨{ dag := ActionsDAG.ofInputs [("a", .Int64)], name_no := 0 }, [], [], false⟩
          ⟨⟨4, [col 0], .AGGREGATION_PHASE_INITIAL_TO_INTERMEDIATE, .i64 .NULLABILITY_NULLABLE⟩⟩ =
        .ok ⟨{ dag := ActionsDAG.ofInputs [("a", .Int64)], name_no := 0 }, ["a"], ["a"], true⟩ :=
  ⟨_, rfl, rfl, rfl,
    let ⟨s, dag, _, _, h3, h4, h5⟩ :=
      (addPreProjectStepIfNeeded_wrapping sampleEnv sampleFunctionMapping
        ⟨[.Source "t"], [("k", .Int64), ("a", .Int64)]⟩ 0 sampleAggregateRel).2.1 _ rfl
    ⟨s, dag, h3, h4, h5,
      ((addPreProjectStepIfNeeded_wrapping sampleWrappingEnv sampleSumCountMapping
        ⟨[.Source "t"], [("a", .Int64)]⟩ 0 sampleSumCountRel).1
        ⟨{ dag := ActionsDAG.ofInputs [("a", .Int64)], name_no := 0 }, [], [], false⟩
        ⟨⟨4, [col 0], .AGGREGATION_PHASE_INITIAL_TO_INTERMEDIATE, .i64 .NULLABILITY_NULLABLE⟩⟩
        (.Nullable .Int64) (col 0) "a"
        { dag := ActionsDAG.ofInputs [("a", .Int64)], name_no := 0 } false 0
        ⟨.INPUT, "a", .Int64, [], "", none⟩ rfl rfl rfl rfl rfl).2⟩⟩

/-! ## The expression compiler: signature tests and implicit casts -/

/-- C37: `parseFunctionWithDAG` hands the registered signature to the part that
builds the call, which reads it through the two tests "contains `extract:`"
and "contains `check_overflow:`" only: two signatures that agree on both tests
build the same call.  For a resolved name other than `alias` and `arrayJoin`
(which build no call from the argument vector) and a signature without
`check_overflow:`, whenever the call is built it is the function over the
compiled arguments, the first two exchanged for `splitByRegexp`, without the
first one exactly when the signature contains `extract:`.  For a resolved name
that is also not `isNotNull` or `splitByRegexp`: when the signature contains `extract:` the
call is built as for a signature without it over the compiled arguments
without the first one (and fails on an empty argument list); when it contains
neither text the call is the function over all compiled arguments; when it
contains `check_overflow:` the rewrite applies, so a call without exactly two
arguments is rejected.  The bare name `extract` without a colon does not
contain `extract:`, while `regexp_extract:str_str`, whose bare name is
`regexp_extract`, does. -/
theorem parseFunctionWithDAG_signature_tests (env : Env) (fm : StringMap) (f : ScalarFunction)
    (sig fname : String) (rc : List String) (keep : Bool) (st : PState) :
    (∀ (r : Nat) (arguments : List Expression) (t : SType) (rc0 : List String) (st0 : PState)
      (args : List NodePtr),
      StringMap.at fm (toString r) = .ok sig →
      getFunctionName env.SCALAR_FUNCTIONS sig ⟨r, arguments, t⟩ = .ok fname →
      parseFunctionArguments env fm fname arguments rc0 st0 = .ok (args, rc, st) →
      parseFunctionWithDAG env fm (.scalar_function r arguments t) rc0 keep st0 =
        buildFunction env ⟨r, arguments, t⟩ sig fname args rc keep st) ∧
    (∀ (sig1 : String) (args : List NodePtr),
      containsSubstr sig "extract:" = containsSubstr sig1 "extract:" →
      containsSubstr sig "check_overflow:" = containsSubstr sig1 "check_overflow:" →
      buildFunction env f sig fname args rc keep st =
        buildFunction env f sig1 fname args rc keep st) ∧
    ((fname == "alias") = false → (fname == "arrayJoin") = false →
      containsSubstr sig "check_overflow:" = false →
      ∀ (args : List NodePtr) (res : FunctionResult),
        buildFunction env f sig fname args rc keep st = .ok res →
        ∃ node, res.state.dag.nodes.get? st.dag.nodes.length = some node ∧
          node.function_name = fname ∧
          node.children = (callArguments sig fname args).filterMap id) ∧
    (((fname == "alias") = false ∧ (fname == "arrayJoin") = false ∧
        (fname == "isNotNull") = false ∧ (fname == "splitByRegexp") = false) →
      (containsSubstr sig "extract:" = true →
        (∀ (sig1 : String) (a : NodePtr) (rest : List NodePtr),
          containsSubstr sig1 "extract:" = false →
          containsSubstr sig "check_overflow:" = containsSubstr sig1 "check_overflow:" →
          buildFunction env f sig fname (a :: rest) rc keep st =
            buildFunction env f sig1 fname rest rc keep st) ∧
        buildFunction env f sig fname [] rc keep st =
          .error ⟨.UNCHECKED_ACCESS, "erase(begin()) of an empty vector"⟩) ∧
      (containsSubstr sig "extract:" = false → containsSubstr sig "check_overflow:" = false →
        ∀ (args : List NodePtr) (nodes : List Node) (ty : DataType),
          args.mapM (fun p => st.dag.deref p) = .ok nodes →
          env.functionExists fname = true →
          env.functionReturnType fname (nodes.map (fun n => n.result_type)) = .ok ty →
          isTypeMatched f.output_type ty = .ok true →
          ∃ index1, buildFunction env f sig fname args rc keep st =
            .ok ⟨some st.dag.nodes.length,
              fname ++ "(" ++ ",".intercalate (nodes.map (fun n => n.result_name)) ++ ")", rc,
              { dag :=
                  { nodes := st.dag.nodes ++
                      [functionNode fname (nodes.map (fun n => n.result_name)) ty
                        (args.filterMap id)],
                    inputs := st.dag.inputs, index := index1 },
                name_no := st.name_no }⟩) ∧
      (containsSubstr sig "extract:" = false → containsSubstr sig "check_overflow:" = true →
        f.arguments.length ≠ 2 →
        ∀ args : List NodePtr, buildFunction env f sig fname args rc keep st =
          .error ⟨.BAD_ARGUMENTS, "check_overflow function requires two args."⟩)) ∧
    (substrBefore "extract" ':' = "extract" ∧ containsSubstr "extract" "extract:" = false) ∧
    (substrBefore "regexp_extract:str_str" ':' = "regexp_extract" ∧
      containsSubstr "regexp_extract:str_str" "extract:" = true) := by
  refine ⟨?_, ?_, ?_, ?_, ⟨by decide, by decide⟩, ⟨by decide, by decide⟩⟩
  · intro r arguments t rc0 st0 args hat hfn hargs
    rw [parseFunctionWithDAG]
    simp only [bind, Except.bind, hat, hfn, hargs]
  · intro sig1 args h1 h2
    exact buildFunction_signature env f sig sig1 fname args rc keep st h1 h2
  · intro h1 h2 hco args res h
    exact buildFunction_call_arguments env f sig fname args rc keep st res h1 h2 hco h
  · intro hplain
    refine ⟨?_, ?_, ?_⟩
    · intro hext
      refine ⟨?_, buildFunction_erases_nothing env f sig fname rc keep st hplain hext⟩
      intro sig1 a rest hext1 hco
      exact buildFunction_erases_first env f sig sig1 fname a rest rc keep st hplain hext hext1
        hco
    · intro hext hco args nodes ty hnodes hex hty hmatch
      exact buildFunction_plain env f sig fname args nodes ty rc keep st hplain hext hco hnodes
        hex hty hmatch
    · intro hext hco hlen args
      exact buildFunction_check_overflow_count env f sig fname args rc keep st hplain hext hco
        hlen

/-- Instance of C37: with a registry that supports `regexp_extract`, the call
`regexp_extract(col[0], col[1])` over the columns `a, b` is built without its
first argument: the node is `regexpExtract(b)` over the single child `b`. -/
theorem parseFunctionWithDAG_signature_tests_witness :
    ∃ index1, parseFunctionWithDAG sampleRegexpEnv [("7", "regexp_extract:str_str")]
        (.scalar_function 7 [col 0, col 1] (.i64 .NULLABILITY_REQUIRED)) [] false
        { dag := ActionsDAG.ofInputs [("a", .String), ("b", .String)], name_no := 0 } =
      .ok ⟨some 2, "regexpExtract(b)", [],
        { dag :=
            { nodes :=
                [⟨.INPUT, "a", .String, [], "", none⟩, ⟨.INPUT, "b", .String, [], "", none⟩,
                 ⟨.FUNCTION, "regexpExtract(b)", .Int64, [1], "regexpExtract", none⟩],
              inputs := [0, 1], index := index1 },
          name_no := 0 }⟩ :=
  let thm := parseFunctionWithDAG_signature_tests sampleRegexpEnv
    [("7", "regexp_extract:str_str")]
    ⟨7, [col 0, col 1], .i64 .NULLABILITY_REQUIRED⟩ "regexp_extract:str_str" "regexpExtract" []
    false { dag := ActionsDAG.ofInputs [("a", .String), ("b", .String)], name_no := 0 }
  let plain := parseFunctionWithDAG_signature_tests sampleRegexpEnv
    [("7", "regexp_extract:str_str")]
    ⟨7, [col 0, col 1], .i64 .NULLABILITY_REQUIRED⟩ "" "regexpExtract" []
    false { dag := ActionsDAG.ofInputs [("a", .String), ("b", .String)], name_no := 0 }
  let ⟨index1, h⟩ := (plain.2.2.2.1 (by decide)).2.1 (by decide) (by decide) [some 1]
    [⟨.INPUT, "b", .String, [], "", none⟩] .Int64 rfl rfl rfl rfl
  ⟨index1,
    ((thm.1 7 [col 0, col 1] (.i64 .NULLABILITY_REQUIRED) []
        { dag := ActionsDAG.ofInputs [("a", .String), ("b", .String)], name_no := 0 }
        [some 0, some 1] rfl rfl rfl).trans
      (((thm.2.2.2.1 (by decide)).1 (by decide)).1 "" (some 0) [some 1] (by decide)
        (by decide))).trans h⟩

end local_engine
